import Mathlib

/-!
# TTFParser: a shallow embedding of the sfnt table decoders

The C++ class `TTFParser::TTFParser` (files `TTFParser.hpp`, `TTFParser.cpp`) is embedded as
pure functions over an explicit parser state.

Conventions of the embedding:

* `fontData` is a list of bytes; `size_t` values are unbounded naturals.
* `uint16_t` / `uint32_t` values are naturals; every C++ expression of type `uint32_t` is
  reduced with `u32`, every one of type `uint16_t` with `u16`.
* `*(uintN_t*)&fontData[i]` is a host-order (little-endian) load of N/8 bytes starting at `i`;
  a load that is not entirely inside the buffer is undefined behaviour, `Outcome.fault`.
* A `bool` member function that mutates an object returns the pair of its result and the
  object as it is left by the call.
* Positions in statements are exact byte positions.  Where a statement needs the 32-bit
  offset arithmetic of the parser to agree with them, it says so by a hypothesis: the buffer is
  below `2 ^ 32` bytes, or the table ends below `2 ^ 32`.
-/

set_option linter.dupNamespace false

namespace TTFParser

/-! ## Outcomes -/

/-- Result of running a member function: it returned a value, it ran into undefined behaviour
(an access outside a buffer or a vector, or the end of a non-void function), or the iteration
budget given to the model was used up before it returned. -/
inductive Outcome (α : Type) where
  | ret : α → Outcome α
  | fault : Outcome α
  | timeout : Outcome α
deriving DecidableEq

namespace Outcome

/-- Sequencing: the first outcome that is not a return ends the run. -/
def bind {α β : Type} : Outcome α → (α → Outcome β) → Outcome β
  | ret a, f => f a
  | fault, _ => fault
  | timeout, _ => timeout

instance : Monad Outcome where
  pure := Outcome.ret
  bind := Outcome.bind

end Outcome

/-! ## Machine integers -/

abbrev Byte := Fin 256

/-- Conversion to `uint16_t`. -/
def u16 (x : Nat) : Nat := x % 65536

/-- Conversion to `uint32_t`. -/
def u32 (x : Nat) : Nat := x % 4294967296

/-- Conversion of an `int` to `uint32_t`. -/
def u32OfInt (x : Int) : Nat := (x % 4294967296).toNat

/-- Conversion of an `int` to `uint16_t`. -/
def u16OfInt (x : Int) : Nat := (x % 65536).toNat

/-- Reinterpretation of 8 bits as `int8_t`. -/
def toInt8 (x : Nat) : Int := if x % 256 < 128 then (x % 256 : Nat) else (x % 256 : Nat) - 256

/-- Reinterpretation of 16 bits as `int16_t`. -/
def toInt16 (x : Nat) : Int := if x % 65536 < 32768 then (x % 65536 : Nat) else (x % 65536 : Nat) - 65536

/-- Reinterpretation of 32 bits as `int32_t`. -/
def toInt32 (x : Nat) : Int :=
  if x % 4294967296 < 2147483648 then (x % 4294967296 : Nat) else (x % 4294967296 : Nat) - 4294967296

/-- Reinterpretation of 64 bits as `int64_t`. -/
def toInt64 (x : Nat) : Int :=
  if x % 18446744073709551616 < 9223372036854775808 then (x % 18446744073709551616 : Nat)
  else (x % 18446744073709551616 : Nat) - 18446744073709551616

/-- Embeds `swapEndian16`: `(value << 8) | (value >> 8)`, converted to the `uint16_t` result. -/
def swapEndian16 (value : Nat) : Nat := u16 ((value <<< 8) ||| (value >>> 8))

/-- Embeds `swapEndian32` on a `uint32_t`. -/
def swapEndian32 (value : Nat) : Nat :=
  u32 (u32 (value <<< 24) ||| u32 ((value &&& 0xFF00) <<< 8) ||| ((value &&& 0xFF0000) >>> 8) |||
    (value >>> 24))

/-- Embeds `swapEndian64` on the 64-bit pattern of its `int64_t` argument; every shifted term is
masked to one byte lane, so the arithmetic right shifts of the source agree with the logical
ones used here. -/
def swapEndian64 (value : Nat) : Nat :=
  ((value <<< 56) &&& 0xFF00000000000000) |||
  ((value <<< 40) &&& 0x00FF000000000000) |||
  ((value <<< 24) &&& 0x0000FF0000000000) |||
  ((value <<< 8) &&& 0x000000FF00000000) |||
  ((value >>> 8) &&& 0x00000000FF000000) |||
  ((value >>> 24) &&& 0x0000000000FF0000) |||
  ((value >>> 40) &&& 0x000000000000FF00) |||
  ((value >>> 56) &&& 0x00000000000000FF)

/-- Number of bits by which a magnitude exceeds the 24-bit significand of a `float`
(magnitudes below `2 ^ 33`). -/
def excessBits (a : Nat) : Nat := ((List.range 9).filter (fun e => 2 ^ (24 + e) ≤ a)).length

/-- The conversion `(float)value` of an `int32_t`, round-to-nearest-even; the result is an
integer-valued `float`, given by its value. -/
def int32ToFloat (value : Int) : Int :=
  let a := value.natAbs
  let e := excessBits a
  let q := a / 2 ^ e
  let r := a % 2 ^ e
  let q2 := if 2 * r > 2 ^ e ∨ (2 * r = 2 ^ e ∧ q % 2 = 1) then q + 1 else q
  if value < 0 then -((q2 * 2 ^ e : Nat) : Int) else ((q2 * 2 ^ e : Nat) : Int)

/-- Embeds `fixedToFloat`: `(float)value / (1 << 16)`.  The division by a power of two is exact, so
the `float` is represented by its numerator over `65536`; `1.0f` is `65536`. -/
def fixedToFloat (value : Int) : Int := int32ToFloat value

/-! ## Loads from the font buffer -/

/-- The byte `fontData[i]`. -/
def byteAt (fontData : List Byte) (i : Nat) : Outcome Nat :=
  match fontData[i]? with
  | some b => .ret b.val
  | none => .fault

/-- The byte at `i`, `0` outside the buffer. -/
def byteD (fontData : List Byte) (i : Nat) : Nat :=
  match fontData[i]? with
  | some b => b.val
  | none => 0

/-- Embeds `*(uint16_t*)&fontData[i]` on a little-endian host. -/
def load16 (fontData : List Byte) (i : Nat) : Outcome Nat :=
  if i + 2 ≤ fontData.length then .ret (byteD fontData i + 256 * byteD fontData (i + 1)) else .fault

/-- Embeds `*(uint32_t*)&fontData[i]` on a little-endian host. -/
def load32 (fontData : List Byte) (i : Nat) : Outcome Nat :=
  if i + 4 ≤ fontData.length then
    .ret (byteD fontData i + 256 * byteD fontData (i + 1) + 65536 * byteD fontData (i + 2)
      + 16777216 * byteD fontData (i + 3))
  else .fault

/-- Embeds `*(int64_t*)&fontData[i]` on a little-endian host, as a 64-bit pattern. -/
def load64 (fontData : List Byte) (i : Nat) : Outcome Nat :=
  if i + 8 ≤ fontData.length then
    .ret (byteD fontData i + 256 * byteD fontData (i + 1) + 65536 * byteD fontData (i + 2)
      + 16777216 * byteD fontData (i + 3) + 4294967296 * byteD fontData (i + 4)
      + 1099511627776 * byteD fontData (i + 5) + 281474976710656 * byteD fontData (i + 6)
      + 72057594037927936 * byteD fontData (i + 7))
  else .fault

/-- Embeds `swapEndian16(*(uint16_t*)&fontData[i])`. -/
def be16 (fontData : List Byte) (i : Nat) : Outcome Nat :=
  (load16 fontData i).bind fun v => .ret (swapEndian16 v)

/-- Embeds `swapEndian32(*(uint32_t*)&fontData[i])`. -/
def be32 (fontData : List Byte) (i : Nat) : Outcome Nat :=
  (load32 fontData i).bind fun v => .ret (swapEndian32 v)

/-- Embeds `swapEndian64(*(int64_t*)&fontData[i])`, as a 64-bit pattern. -/
def be64 (fontData : List Byte) (i : Nat) : Outcome Nat :=
  (load64 fontData i).bind fun v => .ret (swapEndian64 v)

/-- The big-endian 16-bit value of the two bytes at `i` (`0` for a byte outside the buffer). -/
def word16 (fontData : List Byte) (i : Nat) : Nat := 256 * byteD fontData i + byteD fontData (i + 1)

/-- The big-endian 32-bit value of the four bytes at `i` (`0` for a byte outside the buffer). -/
def word32 (fontData : List Byte) (i : Nat) : Nat :=
  16777216 * byteD fontData i + 65536 * byteD fontData (i + 1) + 256 * byteD fontData (i + 2)
    + byteD fontData (i + 3)

/-! ## Data model (`TTFParser.hpp`) -/

/-- Embeds `HeadTable`; the two `float` members hold the numerator over `65536` of their value. -/
structure HeadTable where
  version : Int
  fontRevision : Int
  checkSumAdjustment : Nat
  magicNumber : Nat
  flags : Nat
  unitsPerEm : Nat
  created : Int
  modified : Int
  xMin : Int
  yMin : Int
  xMax : Int
  yMax : Int
  macStyle : Nat
  lowestRecPPEM : Nat
  fontDirectionHint : Int
  indexToLocFormat : Int
  glyphDataFormat : Int
deriving DecidableEq

/-- The namespace-scope object `headTable` before any decode: static storage is
zero-initialised. -/
def HeadTable.zero : HeadTable :=
  { version := 0, fontRevision := 0, checkSumAdjustment := 0, magicNumber := 0, flags := 0,
    unitsPerEm := 0, created := 0, modified := 0, xMin := 0, yMin := 0, xMax := 0, yMax := 0,
    macStyle := 0, lowestRecPPEM := 0, fontDirectionHint := 0, indexToLocFormat := 0,
    glyphDataFormat := 0 }

structure GlyphMetrics where
  advanceWidth : Nat
  lsb : Int
deriving DecidableEq

structure LocaTable where
  offsets : List Nat
deriving DecidableEq

/-- Embeds `TableDirectoryEntry`; `tag` is the host-order load of the four tag bytes. -/
structure TableDirectoryEntry where
  tag : Nat
  checkSum : Nat
  offset : Nat
  length : Nat
deriving DecidableEq

structure OffsetTable where
  sfntVersion : Nat
  numTables : Nat
  searchRange : Nat
  entrySelector : Nat
  rangeShift : Nat
  tableDirectoryEntries : List TableDirectoryEntry
deriving DecidableEq

/-- The private data members of `class TTFParser`.  `tableData` is the `std::map` from tag
strings to table bytes, kept as an association list with one pair per key. -/
structure TTFParser where
  offsetTable : OffsetTable
  tableData : List (List Nat × List Byte)
  fontData : List Byte
  numGlyphs : Nat
deriving DecidableEq

/-- A default-constructed parser whose `fontData` has been filled by `loadFromFile`.  The scalar
members of `offsetTable`, indeterminate until `readOffsetTable` assigns them, are given as `0`. -/
def TTFParser.loaded (fontData : List Byte) : TTFParser :=
  { offsetTable := { sfntVersion := 0, numTables := 0, searchRange := 0, entrySelector := 0,
                     rangeShift := 0, tableDirectoryEntries := [] },
    tableData := [], fontData := fontData, numGlyphs := 0 }

/-! ## `head` -/

/-- Embeds `TTFParser::parseHeadTable`; `headTable` is the namespace-scope object the function
writes. -/
def parseHeadTable (fontData : List Byte) (headTable : HeadTable) (offset : Nat) :
    Outcome (Bool × HeadTable) :=
  if fontData.length < u32 (offset + 54) then .ret (false, headTable) else do
  let version ← be32 fontData offset
  let headTable := { headTable with version := fixedToFloat (toInt32 version) }
  if headTable.version ≠ 65536 then .ret (false, headTable) else do
  let fontRevision ← be32 fontData (u32 (offset + 4))
  let headTable := { headTable with fontRevision := fixedToFloat (toInt32 fontRevision) }
  let checkSumAdjustment ← be32 fontData (u32 (offset + 8))
  let headTable := { headTable with checkSumAdjustment := checkSumAdjustment }
  let magicNumber ← be32 fontData (u32 (offset + 12))
  let headTable := { headTable with magicNumber := magicNumber }
  if headTable.magicNumber ≠ 0x5F0F3CF5 then .ret (false, headTable) else do
  let flags ← be16 fontData (u32 (offset + 16))
  let unitsPerEm ← be16 fontData (u32 (offset + 18))
  let created ← be64 fontData (u32 (offset + 20))
  let modified ← be64 fontData (u32 (offset + 28))
  let xMin ← be16 fontData (u32 (offset + 36))
  let yMin ← be16 fontData (u32 (offset + 38))
  let xMax ← be16 fontData (u32 (offset + 40))
  let yMax ← be16 fontData (u32 (offset + 42))
  let macStyle ← be16 fontData (u32 (offset + 44))
  let lowestRecPPEM ← be16 fontData (u32 (offset + 46))
  let fontDirectionHint ← be16 fontData (u32 (offset + 48))
  let indexToLocFormat ← be16 fontData (u32 (offset + 50))
  let glyphDataFormat ← be16 fontData (u32 (offset + 52))
  .ret (true,
    { headTable with
      flags := flags, unitsPerEm := unitsPerEm, created := toInt64 created,
      modified := toInt64 modified, xMin := toInt16 xMin, yMin := toInt16 yMin,
      xMax := toInt16 xMax, yMax := toInt16 yMax, macStyle := macStyle,
      lowestRecPPEM := lowestRecPPEM, fontDirectionHint := toInt16 fontDirectionHint,
      indexToLocFormat := toInt16 indexToLocFormat, glyphDataFormat := toInt16 glyphDataFormat })

/-! ## Table directory -/

/-- The `std::string` built from `char tagStr[5]` after `memcpy(tagStr, &entry.tag, 4)`: the
four bytes of the tag in memory order, up to the first zero byte. -/
def tagString (tag : Nat) : List Nat :=
  [tag % 256, tag / 256 % 256, tag / 65536 % 256, tag / 16777216 % 256].takeWhile (fun c => c ≠ 0)

/-- Embeds `tableData[key] = table` on the association list. -/
def mapAssign (m : List (List Nat × List Byte)) (key : List Nat) (table : List Byte) :
    List (List Nat × List Byte) :=
  match m with
  | [] => [(key, table)]
  | (k, v) :: rest => if k = key then (k, table) :: rest else (k, v) :: mapAssign rest key table

/-- The loop of `readOffsetTable` over the directory entries, `n` iterations to go; `offset` is
the `size_t` cursor. -/
def readDirectoryEntries : Nat → Nat → TTFParser → Outcome (Bool × TTFParser)
  | 0, _, p => .ret (true, p)
  | n + 1, offset, p =>
    if p.fontData.length < offset + 16 then .ret (false, p) else do
    let tag ← load32 p.fontData offset
    let checkSum ← be32 p.fontData (offset + 4)
    let entryOffset ← be32 p.fontData (offset + 8)
    let entryLength ← be32 p.fontData (offset + 12)
    let entry : TableDirectoryEntry :=
      { tag := tag, checkSum := checkSum, offset := entryOffset, length := entryLength }
    let p := { p with offsetTable := { p.offsetTable with
      tableDirectoryEntries := p.offsetTable.tableDirectoryEntries ++ [entry] } }
    if p.fontData.length < u32 (entry.offset + entry.length) then .ret (false, p) else
    -- the iterator range `[begin() + offset, begin() + offset + length)` of the table copy
    if entry.offset + entry.length ≤ p.fontData.length then
      let table := (p.fontData.drop entry.offset).take entry.length
      readDirectoryEntries n (offset + 16)
        { p with tableData := mapAssign p.tableData (tagString entry.tag) table }
    else .fault

/-- Embeds `TTFParser::readOffsetTable`.  `sizeofOffsetTable` is the value of `sizeof(OffsetTable)`
on the target: 12 bytes of scalar members followed by a `std::vector` (40 with the usual
64-bit layouts); `sizeof(TableDirectoryEntry)` is 16. -/
def readOffsetTable (sizeofOffsetTable : Nat) (p : TTFParser) : Outcome (Bool × TTFParser) :=
  if p.fontData.length < sizeofOffsetTable then .ret (false, p) else do
  let sfntVersion ← be32 p.fontData 0
  let numTables ← be16 p.fontData 4
  let searchRange ← be16 p.fontData 6
  let entrySelector ← be16 p.fontData 8
  let rangeShift ← be16 p.fontData 10
  let p := { p with offsetTable := { p.offsetTable with
    sfntVersion := sfntVersion, numTables := numTables, searchRange := searchRange,
    entrySelector := entrySelector, rangeShift := rangeShift } }
  readDirectoryEntries p.offsetTable.numTables 12 p

/-- The loop of `getTableOffset`: offset of the first entry with the given tag, else `0`. -/
def findTableOffset (tagVal : Nat) : List TableDirectoryEntry → Nat
  | [] => 0
  | entry :: rest => if entry.tag = tagVal then entry.offset else findTableOffset tagVal rest

/-- The loop of `getTableLength`: length of the first entry with the given tag, else `0`. -/
def findTableLength (tagVal : Nat) : List TableDirectoryEntry → Nat
  | [] => 0
  | entry :: rest => if entry.tag = tagVal then entry.length else findTableLength tagVal rest

/-- Embeds `TTFParser::getTableOffset`; `tag` holds the characters of the `std::string`, whose buffer
ends with a terminating zero. -/
def getTableOffset (p : TTFParser) (tag : List Byte) : Outcome Nat := do
  let tagVal ← load32 (tag ++ [0]) 0
  .ret (findTableOffset tagVal p.offsetTable.tableDirectoryEntries)

/-- Embeds `TTFParser::getTableLength`. -/
def getTableLength (p : TTFParser) (tableName : List Byte) : Outcome Nat := do
  let tag ← load32 (tableName ++ [0]) 0
  .ret (findTableLength tag p.offsetTable.tableDirectoryEntries)

/-- Embeds `TTFParser::getTableData`: the mapped bytes, or the empty vector. -/
def getTableData (p : TTFParser) (tag : List Byte) : List Byte :=
  match p.tableData.find? (fun kv => kv.1 = tag.map (fun b => b.val)) with
  | some kv => kv.2
  | none => []

/-! ## `maxp`, `hmtx`, `loca` -/

/-- Embeds `TTFParser::parseMaxpTable`. -/
def parseMaxpTable (p : TTFParser) (offset : Nat) : Outcome (Bool × TTFParser) :=
  if p.fontData.length < u32 (offset + 6) then .ret (false, p) else do
  let _version ← be32 p.fontData offset
  let offset := u32 (offset + 4)
  let numGlyphs ← be16 p.fontData offset
  .ret (true, { p with numGlyphs := numGlyphs })

/-- Embeds `metrics.resize(n)`: keep the first `n` elements, pad with value-initialised ones. -/
def resizeMetrics (metrics : List GlyphMetrics) (n : Nat) : List GlyphMetrics :=
  metrics.take n ++ List.replicate (n - metrics.length) { advanceWidth := 0, lsb := 0 }

/-- First loop of `parseHmtxTable`: `count` long metrics still to read into `metrics[i]`. -/
def hmtxLongLoop (fontData : List Byte) :
    Nat → Nat → Nat → List GlyphMetrics → Outcome (Bool × Nat × List GlyphMetrics)
  | 0, _, offset, metrics => .ret (true, offset, metrics)
  | count + 1, i, offset, metrics =>
    if u32 (offset + 4) > fontData.length then .ret (false, offset, metrics) else do
    let advanceWidth ← be16 fontData offset
    let lsb ← be16 fontData (u32 (offset + 2))
    if i < metrics.length then
      hmtxLongLoop fontData count (i + 1) (u32 (offset + 4))
        (metrics.set i { advanceWidth := advanceWidth, lsb := toInt16 lsb })
    else .fault

/-- Second loop of `parseHmtxTable`: `count` glyphs that reuse `lastAdvanceWidth`. -/
def hmtxShortLoop (fontData : List Byte) (lastAdvanceWidth : Nat) :
    Nat → Nat → Nat → List GlyphMetrics → Outcome (List GlyphMetrics)
  | 0, _, _, metrics => .ret metrics
  | count + 1, i, offset, metrics => do
    let lsb ← be16 fontData offset
    if i < metrics.length then
      hmtxShortLoop fontData lastAdvanceWidth count (i + 1) (u32 (offset + 2))
        (metrics.set i { advanceWidth := lastAdvanceWidth, lsb := toInt16 lsb })
    else .fault

/-- Embeds `TTFParser::parseHmtxTable`. -/
def parseHmtxTable (p : TTFParser) (offset numOfLongHorMetrics : Nat)
    (metrics : List GlyphMetrics) : Outcome (Bool × List GlyphMetrics) :=
  if p.fontData.length < u32OfInt ((offset : Int) + (numOfLongHorMetrics : Int) * 4
      + ((p.numGlyphs : Int) - (numOfLongHorMetrics : Int)) * 2) then .ret (false, metrics) else do
  let metrics := resizeMetrics metrics p.numGlyphs
  let (ok, offset, metrics) ← hmtxLongLoop p.fontData numOfLongHorMetrics 0 offset metrics
  if !ok then .ret (false, metrics) else do
  let lastAdvanceWidth ←
    if numOfLongHorMetrics > 0 then
      match metrics[numOfLongHorMetrics - 1]? with
      | some m => Outcome.ret m.advanceWidth
      | none => Outcome.fault
    else Outcome.ret 0
  let metrics ← hmtxShortLoop p.fontData lastAdvanceWidth (p.numGlyphs - numOfLongHorMetrics)
    numOfLongHorMetrics offset metrics
  .ret (true, metrics)

/-- Short-format loop of `parseLocaTable`, `count` offsets to go. -/
def locaShortLoop (fontData : List Byte) :
    Nat → Nat → Nat → LocaTable → Outcome (Bool × LocaTable)
  | 0, _, _, loca => .ret (true, loca)
  | count + 1, offset, previousOffset, loca =>
    if u32 (offset + 2) > fontData.length then .ret (false, loca) else do
    let shortOffset ← be16 fontData offset
    let actualOffset := u32 (shortOffset * 2)
    if actualOffset < previousOffset then .ret (false, loca) else
    locaShortLoop fontData count (u32 (offset + 2)) actualOffset
      { loca with offsets := loca.offsets ++ [actualOffset] }

/-- Long-format loop of `parseLocaTable`, `count` offsets to go. -/
def locaLongLoop (fontData : List Byte) :
    Nat → Nat → Nat → LocaTable → Outcome (Bool × LocaTable)
  | 0, _, _, loca => .ret (true, loca)
  | count + 1, offset, previousOffset, loca =>
    if u32 (offset + 4) > fontData.length then .ret (false, loca) else do
    let longOffset ← be32 fontData offset
    if longOffset < previousOffset then .ret (false, loca) else
    locaLongLoop fontData count (u32 (offset + 4)) longOffset
      { loca with offsets := loca.offsets ++ [longOffset] }

/-- The tag string "glyf". -/
def glyfTag : List Byte := [0x67, 0x6C, 0x79, 0x66]

/-- The last part of `parseLocaTable`: the last offset is checked against the length of the
`glyf` table. -/
def locaGlyfCheck (p : TTFParser) (loca : LocaTable) : Outcome (Bool × LocaTable) := do
  let glyfOffset ← getTableOffset p glyfTag
  let glyfLength ← getTableLength p glyfTag
  if glyfOffset = 0 ∨ glyfLength = 0 then .ret (false, loca) else
  match loca.offsets.getLast? with
  | none => .fault
  | some last => if last > glyfLength then .ret (false, loca) else .ret (true, loca)

/-- The offset loop of `parseLocaTable` selected by `headTable.indexToLocFormat`. -/
def locaLoop (p : TTFParser) (headTable : HeadTable) (locaOffset : Nat) (loca : LocaTable) :
    Outcome (Bool × LocaTable) :=
  if headTable.indexToLocFormat = 0 then
    locaShortLoop p.fontData (p.numGlyphs + 1) locaOffset 0 loca
  else if headTable.indexToLocFormat = 1 then
    locaLongLoop p.fontData (p.numGlyphs + 1) locaOffset 0 loca
  else .ret (false, loca)

/-- Embeds `TTFParser::parseLocaTable`; `headTable` is the namespace-scope object read by the
function. -/
def parseLocaTable (p : TTFParser) (headTable : HeadTable) (locaOffset : Nat) (loca : LocaTable) :
    Outcome (Bool × LocaTable) :=
  if locaOffset = 0 then .ret (false, loca) else
  (locaLoop p headTable locaOffset loca).bind fun r =>
  if !r.1 then .ret (false, r.2) else locaGlyfCheck p r.2

/-! ## `cmap` data model

Scalar members of a default-initialised local object are indeterminate in C++ until they are
assigned; the fresh objects below give them the value `0`.  The structures derived from
`CmapSubtable` that declare a member `format` of their own hide the inherited one, which is
kept here as `baseFormat`. -/

structure CmapFormat0 where
  format : Nat
  glyphIdArray : List Nat
deriving DecidableEq

structure SubHeader where
  firstCode : Nat
  entryCount : Nat
  idDelta : Int
  idRangeOffset : Nat
deriving DecidableEq

structure UVSMapping where
  unicodeValue : Nat
  glyphID : Nat
deriving DecidableEq

structure UnicodeValueRange where
  startUnicodeValue : Nat
  additionalCount : Nat
deriving DecidableEq

structure VarSelectorRecord where
  varSelector : Nat
  defaultUVSOffset : Nat
  nonDefaultUVSOffset : Nat
  defaultUVSTable : List UnicodeValueRange
  nonDefaultUVSTable : List UVSMapping
deriving DecidableEq

structure CmapFormat2 where
  baseFormat : Nat
  format : Nat
  length : Nat
  language : Nat
  subHeaderKeys : List Nat
  subHeaders : List SubHeader
  glyphIndexArray : List Nat
deriving DecidableEq

structure CmapFormat4 where
  format : Nat
  segCountX2 : Nat
  searchRange : Nat
  entrySelector : Nat
  rangeShift : Nat
  endCount : List Nat
  reservedPad : Nat
  startCount : List Nat
  idDelta : List Nat
  idRangeOffset : List Nat
  glyphIndices : List Nat
deriving DecidableEq

structure CmapFormat6 where
  baseFormat : Nat
  format : Nat
  length : Nat
  language : Nat
  firstCode : Nat
  entryCount : Nat
  glyphIdArray : List Nat
deriving DecidableEq

structure CmapFormat8 where
  baseFormat : Nat
  format : Nat
  reserved : Nat
  length : Nat
  language : Nat
  is32 : List Nat
  numGroups : Nat
deriving DecidableEq

structure CmapFormat10 where
  baseFormat : Nat
  format : Nat
  reserved : Nat
  length : Nat
  language : Nat
  startCharCode : Nat
  numChars : Nat
  glyphs : List Nat
deriving DecidableEq

structure GroupFormat12 where
  startCharCode : Nat
  endCharCode : Nat
  startGlyphID : Nat
deriving DecidableEq

structure GroupFormat13 where
  startCharCode : Nat
  endCharCode : Nat
  glyphID : Nat
deriving DecidableEq

structure CmapFormat12 where
  baseFormat : Nat
  format : Nat
  reserved : Nat
  length : Nat
  language : Nat
  numGroups : Nat
  groups : List GroupFormat12
deriving DecidableEq

structure CmapFormat13 where
  baseFormat : Nat
  format : Nat
  reserved : Nat
  length : Nat
  language : Nat
  numGroups : Nat
  groups : List GroupFormat13
deriving DecidableEq

structure CmapFormat14 where
  baseFormat : Nat
  format : Nat
  length : Nat
  numVarSelectorRecords : Nat
  varSelectors : List VarSelectorRecord
deriving DecidableEq

/-- An element of `std::vector<std::unique_ptr<CmapSubtable>>`: the object owned by the
pointer, one alternative per derived structure. -/
inductive CmapSubtable where
  | format0 : CmapFormat0 → CmapSubtable
  | format2 : CmapFormat2 → CmapSubtable
  | format4 : CmapFormat4 → CmapSubtable
  | format6 : CmapFormat6 → CmapSubtable
  | format8 : CmapFormat8 → CmapSubtable
  | format10 : CmapFormat10 → CmapSubtable
  | format12 : CmapFormat12 → CmapSubtable
  | format13 : CmapFormat13 → CmapSubtable
  | format14 : CmapFormat14 → CmapSubtable
deriving DecidableEq

/-- The format id that `parseCmapTable` stored in the object (`subtable.format = format`). -/
def CmapSubtable.formatId : CmapSubtable → Nat
  | .format0 t => t.format
  | .format2 t => t.format
  | .format4 t => t.format
  | .format6 t => t.format
  | .format8 t => t.format
  | .format10 t => t.format
  | .format12 t => t.format
  | .format13 t => t.format
  | .format14 t => t.format

structure CmapTable where
  version : Nat
  numTables : Nat
  subtables : List CmapSubtable
deriving DecidableEq

def CmapFormat0.fresh : CmapFormat0 := { format := 0, glyphIdArray := List.replicate 256 0 }

def CmapFormat2.fresh : CmapFormat2 :=
  { baseFormat := 0, format := 0, length := 0, language := 0,
    subHeaderKeys := List.replicate 256 0, subHeaders := [], glyphIndexArray := [] }

def CmapFormat4.fresh : CmapFormat4 :=
  { format := 0, segCountX2 := 0, searchRange := 0, entrySelector := 0, rangeShift := 0,
    endCount := [], reservedPad := 0, startCount := [], idDelta := [], idRangeOffset := [],
    glyphIndices := [] }

def CmapFormat6.fresh : CmapFormat6 :=
  { baseFormat := 0, format := 0, length := 0, language := 0, firstCode := 0, entryCount := 0,
    glyphIdArray := [] }

def CmapFormat8.fresh : CmapFormat8 :=
  { baseFormat := 0, format := 0, reserved := 0, length := 0, language := 0,
    is32 := List.replicate 8192 0, numGroups := 0 }

def CmapFormat10.fresh : CmapFormat10 :=
  { baseFormat := 0, format := 0, reserved := 0, length := 0, language := 0, startCharCode := 0,
    numChars := 0, glyphs := [] }

def CmapFormat12.fresh : CmapFormat12 :=
  { baseFormat := 0, format := 0, reserved := 0, length := 0, language := 0, numGroups := 0,
    groups := [] }

def CmapFormat13.fresh : CmapFormat13 :=
  { baseFormat := 0, format := 0, reserved := 0, length := 0, language := 0, numGroups := 0,
    groups := [] }

def CmapFormat14.fresh : CmapFormat14 :=
  { baseFormat := 0, format := 0, length := 0, numVarSelectorRecords := 0, varSelectors := [] }

/-- A default-initialised `CmapTable`. -/
def CmapTable.fresh : CmapTable := { version := 0, numTables := 0, subtables := [] }

/-! ## `cmap` subtable decoders -/

/-- Reads `count` consecutive bytes `fontData[offset + i]`, `i` counting up from the given start. -/
def readBytes (fontData : List Byte) (offset : Nat) : Nat → Nat → Outcome (List Nat)
  | 0, _ => .ret []
  | count + 1, i => do
    let b ← byteAt fontData (u32 (offset + i))
    let rest ← readBytes fontData offset count (i + 1)
    .ret (b :: rest)

/-- A loop `table.push_back(swapEndian16(...fontData[offset])); offset += 2;` run `count`
times; returns the cursor and the vector. -/
def readU16Array (fontData : List Byte) : Nat → Nat → List Nat → Outcome (Nat × List Nat)
  | 0, offset, acc => .ret (offset, acc)
  | count + 1, offset, acc => do
    let v ← be16 fontData offset
    readU16Array fontData count (u32 (offset + 2)) (acc ++ [v])

/-- The loop of `parseCmapFormat0` over the 256 entries. -/
def cmapFormat0Loop (fontData : List Byte) (numGlyphs offset : Nat) :
    Nat → Nat → CmapFormat0 → Outcome (Bool × CmapFormat0)
  | 0, _, table => .ret (true, table)
  | count + 1, i, table => do
    let b ← byteAt fontData (u32 (offset + i))
    let table := { table with glyphIdArray := table.glyphIdArray.set i b }
    if b ≥ numGlyphs then .ret (false, table) else
    cmapFormat0Loop fontData numGlyphs offset count (i + 1) table

/-- Embeds `TTFParser::parseCmapFormat0`. -/
def parseCmapFormat0 (p : TTFParser) (offset : Nat) (table : CmapFormat0) :
    Outcome (Bool × CmapFormat0) :=
  if u32 (offset + 256) > p.fontData.length then .ret (false, table) else
  cmapFormat0Loop p.fontData p.numGlyphs offset 256 0 table

/-- The sub-header loop of `parseCmapFormat2`, `count` sub-headers to go. -/
def cmapFormat2Loop (fontData : List Byte) :
    Nat → Nat → CmapFormat2 → Outcome (Bool × CmapFormat2)
  | 0, _, table => .ret (true, table)
  | count + 1, offset, table =>
    if u32 (offset + 8) > fontData.length then .ret (false, table) else do
    let firstCode ← be16 fontData offset
    let entryCount ← be16 fontData (u32 (offset + 2))
    let idDelta ← be16 fontData (u32 (offset + 4))
    let idRangeOffset ← be16 fontData (u32 (offset + 6))
    let sh : SubHeader := { firstCode := firstCode, entryCount := entryCount,
                            idDelta := toInt16 idDelta, idRangeOffset := idRangeOffset }
    cmapFormat2Loop fontData count (u32 (offset + 8))
      { table with subHeaders := table.subHeaders ++ [sh] }

/-- The largest `key / 8` over the selector bytes. -/
def maxSubHeaderIndex (keys : List Nat) : Nat :=
  keys.foldl (fun m key => if key / 8 > m then key / 8 else m) 0

/-- Embeds `TTFParser::parseCmapFormat2`. -/
def parseCmapFormat2 (p : TTFParser) (offset : Nat) (table : CmapFormat2) :
    Outcome (Bool × CmapFormat2) :=
  if u32 (offset + 512) > p.fontData.length then .ret (false, table) else do
  let length ← be16 p.fontData (u32 (offset + 2))
  let language ← be16 p.fontData (u32 (offset + 4))
  let table := { table with length := length, language := language }
  let offset := u32 (offset + 6)
  let keys ← readBytes p.fontData offset 256 0
  let table := { table with subHeaderKeys := keys }
  let offset := u32 (offset + 256)
  cmapFormat2Loop p.fontData (maxSubHeaderIndex table.subHeaderKeys + 1) offset table

/-- The glyph index that `parseCmapFormat4` computes for `charCode` in segment `i`; `none`
stands for the `return false` taken when the calculated position is outside the buffer. -/
def cmapFormat4Glyph (fontData : List Byte) (i segCount : Nat)
    (startCount idDelta idRangeOffset charCode : Nat) : Outcome (Option Nat) :=
  if idRangeOffset = 0 then
    .ret (some ((charCode + idDelta) % 65536))
  else
    let offset := u16OfInt (((charCode : Int) - (startCount : Int)) * 2 + (idRangeOffset : Int))
    let indexPosition := u32 (offset + 2 * i + 14 + 6 * segCount)
    if indexPosition ≥ fontData.length then .ret none
    else (be16 fontData offset).bind fun v => .ret (some v)

/-- The inner loop of `parseCmapFormat4` for segment `i`, from `charCode` on, with at most
`fuel` passes through the body.  Returns `false` for the `return false` exits. -/
def cmapFormat4CharLoop (fontData : List Byte) (numGlyphs i segCount : Nat)
    (startCount endCount idDelta idRangeOffset : Nat) :
    Nat → Nat → List Nat → Outcome (Bool × List Nat)
  | fuel, charCode, glyphIndices =>
    if charCode ≤ endCount then
      match fuel with
      | 0 => .timeout
      | fuel + 1 =>
        match cmapFormat4Glyph fontData i segCount startCount idDelta idRangeOffset charCode with
        | .fault => .fault
        | .timeout => .timeout
        | .ret none => .ret (false, glyphIndices)
        | .ret (some glyphIndex) =>
          if glyphIndex ≥ numGlyphs then .ret (false, glyphIndices) else
          cmapFormat4CharLoop fontData numGlyphs i segCount startCount endCount idDelta
            idRangeOffset fuel (u16 (charCode + 1)) (glyphIndices ++ [glyphIndex])
    else .ret (true, glyphIndices)

/-- The outer glyph loop of `parseCmapFormat4`, `count` segments to go from segment `i`. -/
def cmapFormat4SegLoop (fontData : List Byte) (numGlyphs segCount fuel : Nat) :
    Nat → Nat → CmapFormat4 → Outcome (Bool × CmapFormat4)
  | 0, _, table => .ret (true, table)
  | count + 1, i, table =>
    match table.startCount[i]?, table.endCount[i]?, table.idDelta[i]?, table.idRangeOffset[i]? with
    | some startCount, some endCount, some idDelta, some idRangeOffset => do
      let (ok, glyphIndices) ← cmapFormat4CharLoop fontData numGlyphs i segCount startCount
        endCount idDelta idRangeOffset fuel startCount table.glyphIndices
      let table := { table with glyphIndices := glyphIndices }
      if !ok then .ret (false, table) else
      cmapFormat4SegLoop fontData numGlyphs segCount fuel count (i + 1) table
    | _, _, _, _ => .fault

/-- The final loop of `parseCmapFormat4`: `true` when no segment has
`startCount[i] > endCount[i]`. -/
def cmapFormat4CheckLoop (table : CmapFormat4) : Nat → Nat → Outcome Bool
  | 0, _ => .ret true
  | count + 1, i =>
    match table.startCount[i]?, table.endCount[i]? with
    | some startCount, some endCount =>
      if startCount > endCount then .ret false else cmapFormat4CheckLoop table count (i + 1)
    | _, _ => .fault

/-- Embeds `TTFParser::parseCmapFormat4`; `fuel` bounds the passes through the body of each
character-code loop. -/
def parseCmapFormat4 (p : TTFParser) (fuel : Nat) (offset : Nat) (table : CmapFormat4) :
    Outcome (Bool × CmapFormat4) := do
  let segCountX2 ← be16 p.fontData (u32 (offset + 2))
  let table := { table with segCountX2 := segCountX2 }
  if table.segCountX2 % 2 ≠ 0 then .ret (false, table) else
  let segCount := table.segCountX2 / 2
  if p.fontData.length < u32 (offset + 14 + 8 * segCount) then .ret (false, table) else do
  let offset := u32 (offset + 14)
  let (offset, endCount) ← readU16Array p.fontData segCount offset table.endCount
  let table := { table with endCount := endCount }
  let offset := u32 (offset + 2)
  let (offset, startCount) ← readU16Array p.fontData segCount offset table.startCount
  let table := { table with startCount := startCount }
  let (offset, idDelta) ← readU16Array p.fontData segCount offset table.idDelta
  let table := { table with idDelta := idDelta }
  let (_, idRangeOffset) ← readU16Array p.fontData segCount offset table.idRangeOffset
  let table := { table with idRangeOffset := idRangeOffset }
  let (ok, table) ← cmapFormat4SegLoop p.fontData p.numGlyphs segCount fuel segCount 0 table
  if !ok then .ret (false, table) else do
  let ok ← cmapFormat4CheckLoop table segCount 0
  .ret (ok, table)

/-- Embeds `TTFParser::parseCmapFormat6`. -/
def parseCmapFormat6 (p : TTFParser) (offset : Nat) (table : CmapFormat6) :
    Outcome (Bool × CmapFormat6) := do
  let firstCode ← be16 p.fontData offset
  let entryCount ← be16 p.fontData (u32 (offset + 2))
  let table := { table with firstCode := firstCode, entryCount := entryCount }
  if p.fontData.length < u32 (offset + 4 + 2 * table.entryCount) then .ret (false, table) else do
  let offset := u32 (offset + 4)
  let (_, glyphIdArray) ← readU16Array p.fontData table.entryCount offset table.glyphIdArray
  .ret (true, { table with glyphIdArray := glyphIdArray })

/-- Embeds `TTFParser::parseCmapFormat8`: nothing is read. -/
def parseCmapFormat8 (_p : TTFParser) (_offset : Nat) (table : CmapFormat8) :
    Outcome (Bool × CmapFormat8) :=
  .ret (true, table)

/-- Embeds `TTFParser::parseCmapFormat10`. -/
def parseCmapFormat10 (p : TTFParser) (offset : Nat) (table : CmapFormat10) :
    Outcome (Bool × CmapFormat10) := do
  let startCharCode ← be32 p.fontData offset
  let numChars ← be32 p.fontData (u32 (offset + 4))
  let table := { table with startCharCode := startCharCode, numChars := numChars }
  if p.fontData.length < u32 (offset + 8 + 2 * table.numChars) then .ret (false, table) else do
  let offset := u32 (offset + 8)
  let (_, glyphs) ← readU16Array p.fontData table.numChars offset table.glyphs
  .ret (true, { table with glyphs := glyphs })

/-- The group loop of `parseCmapFormat12`. -/
def cmapFormat12Loop (fontData : List Byte) :
    Nat → Nat → List GroupFormat12 → Outcome (List GroupFormat12)
  | 0, _, groups => .ret groups
  | count + 1, offset, groups => do
    let startCharCode ← be32 fontData offset
    let endCharCode ← be32 fontData (u32 (offset + 4))
    let startGlyphID ← be32 fontData (u32 (offset + 8))
    cmapFormat12Loop fontData count (u32 (offset + 12))
      (groups ++ [{ startCharCode := startCharCode, endCharCode := endCharCode,
                    startGlyphID := startGlyphID }])

/-- Embeds `TTFParser::parseCmapFormat12`. -/
def parseCmapFormat12 (p : TTFParser) (offset : Nat) (table : CmapFormat12) :
    Outcome (Bool × CmapFormat12) := do
  let numGroups ← be32 p.fontData offset
  let table := { table with numGroups := numGroups }
  if p.fontData.length < u32 (offset + 4 + 12 * table.numGroups) then .ret (false, table) else do
  let offset := u32 (offset + 4)
  let groups ← cmapFormat12Loop p.fontData table.numGroups offset table.groups
  .ret (true, { table with groups := groups })

/-- The group loop of `parseCmapFormat13`. -/
def cmapFormat13Loop (fontData : List Byte) :
    Nat → Nat → List GroupFormat13 → Outcome (List GroupFormat13)
  | 0, _, groups => .ret groups
  | count + 1, offset, groups => do
    let startCharCode ← be32 fontData offset
    let endCharCode ← be32 fontData (u32 (offset + 4))
    let glyphID ← be32 fontData (u32 (offset + 8))
    cmapFormat13Loop fontData count (u32 (offset + 12))
      (groups ++ [{ startCharCode := startCharCode, endCharCode := endCharCode,
                    glyphID := glyphID }])

/-- Embeds `TTFParser::parseCmapFormat13`. -/
def parseCmapFormat13 (p : TTFParser) (offset : Nat) (table : CmapFormat13) :
    Outcome (Bool × CmapFormat13) := do
  let numGroups ← be32 p.fontData offset
  let table := { table with numGroups := numGroups }
  if p.fontData.length < u32 (offset + 4 + 12 * table.numGroups) then .ret (false, table) else do
  let offset := u32 (offset + 4)
  let groups ← cmapFormat13Loop p.fontData table.numGroups offset table.groups
  .ret (true, { table with groups := groups })

/-- The 24-bit value `(fontData[i] << 16) | (fontData[i + 1] << 8) | fontData[i + 2]`. -/
def load24 (fontData : List Byte) (i : Nat) : Outcome Nat := do
  let b0 ← byteAt fontData i
  let b1 ← byteAt fontData (u32 (i + 1))
  let b2 ← byteAt fontData (u32 (i + 2))
  .ret ((b0 <<< 16) ||| (b1 <<< 8) ||| b2)

/-- First loop of `parseCmapFormat14`: the variation-selector records. -/
def cmapFormat14RecordLoop (fontData : List Byte) :
    Nat → Nat → List VarSelectorRecord → Outcome (List VarSelectorRecord)
  | 0, _, records => .ret records
  | count + 1, currentOffset, records => do
    let varSelector ← load24 fontData currentOffset
    let defaultUVSOffset ← be32 fontData (u32 (currentOffset + 3))
    let nonDefaultUVSOffset ← be32 fontData (u32 (currentOffset + 7))
    cmapFormat14RecordLoop fontData count (u32 (currentOffset + 11))
      (records ++ [{ varSelector := varSelector, defaultUVSOffset := defaultUVSOffset,
                     nonDefaultUVSOffset := nonDefaultUVSOffset, defaultUVSTable := [],
                     nonDefaultUVSTable := [] }])

/-- The range loop of a default UVS table. -/
def defaultUVSLoop (fontData : List Byte) :
    Nat → Nat → List UnicodeValueRange → Outcome (Bool × List UnicodeValueRange)
  | 0, _, ranges => .ret (true, ranges)
  | count + 1, uvsOffset, ranges =>
    if u32 (uvsOffset + 4) > fontData.length then .ret (false, ranges) else do
    let startUnicodeValue ← load24 fontData uvsOffset
    let additionalCount ← byteAt fontData (u32 (uvsOffset + 3))
    defaultUVSLoop fontData count (u32 (uvsOffset + 4))
      (ranges ++ [{ startUnicodeValue := startUnicodeValue, additionalCount := additionalCount }])

/-- The mapping loop of a non-default UVS table. -/
def nonDefaultUVSLoop (fontData : List Byte) :
    Nat → Nat → List UVSMapping → Outcome (Bool × List UVSMapping)
  | 0, _, mappings => .ret (true, mappings)
  | count + 1, uvsOffset, mappings =>
    if u32 (uvsOffset + 5) > fontData.length then .ret (false, mappings) else do
    let unicodeValue ← load24 fontData uvsOffset
    let glyphID ← be16 fontData (u32 (uvsOffset + 3))
    nonDefaultUVSLoop fontData count (u32 (uvsOffset + 5))
      (mappings ++ [{ unicodeValue := unicodeValue, glyphID := glyphID }])

/-- The body of the second loop of `parseCmapFormat14` for one record. -/
def cmapFormat14Selector (fontData : List Byte) (offset : Nat) (record : VarSelectorRecord) :
    Outcome (Bool × VarSelectorRecord) := do
  let (ok, record) ←
    if record.defaultUVSOffset ≠ 0 then
      let uvsOffset := u32 (offset + record.defaultUVSOffset)
      if u32 (uvsOffset + 4) > fontData.length then Outcome.ret (false, record) else do
      let numUnicodeValueRanges ← be32 fontData uvsOffset
      let uvsOffset := u32 (uvsOffset + 4)
      let (ok, ranges) ← defaultUVSLoop fontData numUnicodeValueRanges uvsOffset
        record.defaultUVSTable
      Outcome.ret (ok, { record with defaultUVSTable := ranges })
    else Outcome.ret (true, record)
  if !ok then .ret (false, record) else
  if record.nonDefaultUVSOffset ≠ 0 then
    let uvsOffset := u32 (offset + record.nonDefaultUVSOffset)
    if u32 (uvsOffset + 4) > fontData.length then .ret (false, record) else do
    let numUVSMappings ← be32 fontData uvsOffset
    let uvsOffset := u32 (uvsOffset + 4)
    let (ok, mappings) ← nonDefaultUVSLoop fontData numUVSMappings uvsOffset
      record.nonDefaultUVSTable
    .ret (ok, { record with nonDefaultUVSTable := mappings })
  else .ret (true, record)

/-- Second loop of `parseCmapFormat14`: every record of `table.varSelectors` in turn; `done`
holds the records already processed. -/
def cmapFormat14SelectorLoop (fontData : List Byte) (offset : Nat) :
    List VarSelectorRecord → List VarSelectorRecord → Outcome (Bool × List VarSelectorRecord)
  | [], done => .ret (true, done)
  | record :: rest, done => do
    let (ok, record) ← cmapFormat14Selector fontData offset record
    if !ok then .ret (false, done ++ record :: rest) else
    cmapFormat14SelectorLoop fontData offset rest (done ++ [record])

/-- Embeds `TTFParser::parseCmapFormat14`. -/
def parseCmapFormat14 (p : TTFParser) (offset : Nat) (table : CmapFormat14) :
    Outcome (Bool × CmapFormat14) := do
  let format ← be16 p.fontData offset
  let length ← be32 p.fontData (u32 (offset + 2))
  let numVarSelectorRecords ← be32 p.fontData (u32 (offset + 6))
  let table := { table with format := format, length := length,
                            numVarSelectorRecords := numVarSelectorRecords }
  let currentOffset := u32 (offset + 10)
  let records ← cmapFormat14RecordLoop p.fontData table.numVarSelectorRecords currentOffset
    table.varSelectors
  let table := { table with varSelectors := records }
  let (ok, records) ← cmapFormat14SelectorLoop p.fontData offset table.varSelectors []
  .ret (ok, { table with varSelectors := records })

/-! ## `cmap` -/

/-- The `switch (format)` of `parseCmapTable`: `none` for a `return false`, otherwise the
vector of subtables after the `break`. -/
def cmapDispatch (p : TTFParser) (fuel : Nat) (subtableOffset format : Nat)
    (subtables : List CmapSubtable) : Outcome (Option (List CmapSubtable)) :=
  match format with
  | 0 => do
    let (ok, subtable) ← parseCmapFormat0 p (u32 (subtableOffset + 2))
      { CmapFormat0.fresh with format := format }
    if !ok then .ret none else .ret (some (subtables ++ [.format0 subtable]))
  | 2 => do
    let (ok, subtable) ← parseCmapFormat2 p (u32 (subtableOffset + 2))
      { CmapFormat2.fresh with format := format }
    if !ok then .ret none else .ret (some (subtables ++ [.format2 subtable]))
  | 4 => do
    let (ok, subtable) ← parseCmapFormat4 p fuel (u32 (subtableOffset + 2))
      { CmapFormat4.fresh with format := format }
    if !ok then .ret none else .ret (some (subtables ++ [.format4 subtable]))
  | 6 => do
    let (ok, subtable) ← parseCmapFormat6 p (u32 (subtableOffset + 2))
      { CmapFormat6.fresh with format := format }
    if !ok then .ret none else .ret (some (subtables ++ [.format6 subtable]))
  | 8 => do
    let (ok, subtable) ← parseCmapFormat8 p (u32 (subtableOffset + 2))
      { CmapFormat8.fresh with format := format }
    if !ok then .ret none else .ret (some (subtables ++ [.format8 subtable]))
  | 10 => do
    let (ok, subtable) ← parseCmapFormat10 p (u32 (subtableOffset + 2))
      { CmapFormat10.fresh with format := format }
    if !ok then .ret none else .ret (some (subtables ++ [.format10 subtable]))
  | 12 => do
    let (ok, subtable) ← parseCmapFormat12 p (u32 (subtableOffset + 2))
      { CmapFormat12.fresh with format := format }
    if !ok then .ret none else .ret (some (subtables ++ [.format12 subtable]))
  | 14 => do
    let (ok, subtable) ← parseCmapFormat14 p (u32 (subtableOffset + 2))
      { CmapFormat14.fresh with format := format }
    if !ok then .ret none else .ret (some (subtables ++ [.format14 subtable]))
  | _ => .ret (some subtables)

/-- Embeds `TTFParser::parseCmapTable`.  The body of the `for` loop over the encoding records ends
in `return true`, so the body runs for the first record only; with `numTables == 0` control
reaches the end of the function without a `return`. -/
def parseCmapTable (p : TTFParser) (fuel : Nat) (offset : Nat) (cmap : CmapTable) :
    Outcome (Bool × CmapTable) := do
  let version ← be16 p.fontData offset
  let numTables ← be16 p.fontData (u32 (offset + 2))
  let cmap := { cmap with version := version, numTables := numTables }
  let currentOffset := u32 (offset + 4)
  if 0 < cmap.numTables then do
    let _platformID ← be16 p.fontData currentOffset
    let _encodingID ← be16 p.fontData (u32 (currentOffset + 2))
    let relative ← be32 p.fontData (u32 (currentOffset + 4))
    let subtableOffset := u32 (offset + relative)
    let format ← be16 p.fontData subtableOffset
    -- the four raw bytes printed for diagnosis
    let _raw ← readBytes p.fontData subtableOffset 4 0
    let r ← cmapDispatch p fuel subtableOffset format cmap.subtables
    match r with
    | none => .ret (false, cmap)
    | some subtables => .ret (true, { cmap with subtables := subtables })
  else .fault

/-! ## `glyf` data model -/

structure Point where
  x : Int
  y : Int
  onCurve : Bool
deriving DecidableEq

structure SimpleGlyph where
  numberOfContours : Int
  endPointOfContours : List Nat
  instructionLength : Nat
  instructions : List Nat
  points : List Point
deriving DecidableEq

structure CompoundComponent where
  glyphIndex : Nat
  arg1 : Int
  arg2 : Int
deriving DecidableEq

/-- The constructor `CompoundComponent(uint16_t idx)`: both arguments start as `0`. -/
def CompoundComponent.ofIndex (idx : Nat) : CompoundComponent :=
  { glyphIndex := idx, arg1 := 0, arg2 := 0 }

structure CompoundGlyph where
  components : List CompoundComponent
deriving DecidableEq

/-- A default-initialised `SimpleGlyph`; its indeterminate scalars are given as `0`. -/
def SimpleGlyph.fresh : SimpleGlyph :=
  { numberOfContours := 0, endPointOfContours := [], instructionLength := 0, instructions := [],
    points := [] }

/-- A default-initialised `CompoundGlyph`. -/
def CompoundGlyph.fresh : CompoundGlyph := { components := [] }

def ARG_1_AND_2_ARE_WORDS : Nat := 0x0001
def MORE_COMPONENTS : Nat := 0x0020
def WE_HAVE_A_SCALE : Nat := 0x0008
def WE_HAVE_AN_X_AND_Y_SCALE : Nat := 0x0040
def WE_HAVE_A_TWO_BY_TWO : Nat := 0x0080
def WE_HAVE_INSTRUCTIONS : Nat := 0x0100

/-! ## `glyf` -/

/-- Embeds `std::memcpy(dst, &fontData[offset], count)`: the `count` bytes from `offset` on. -/
def copyBytes (fontData : List Byte) (offset count : Nat) : Outcome (List Nat) :=
  if offset + count ≤ fontData.length then
    .ret (((fontData.drop offset).take count).map fun b => b.val)
  else .fault

/-- The two placement arguments of a component of `parseCompoundGlyph`, read into the locals
`arg1` and `arg2`, and the cursor after them.  Neither form is preceded by a size test. -/
def compoundArgs (fontData : List Byte) (flags offset : Nat) : Outcome (Int × Int × Nat) :=
  if flags &&& ARG_1_AND_2_ARE_WORDS ≠ 0 then do
    let arg1 ← be16 fontData offset
    let offset := u32 (offset + 2)
    let arg2 ← be16 fontData offset
    let offset := u32 (offset + 2)
    .ret ((arg1 : Int), (arg2 : Int), offset)
  else do
    let arg1 ← byteAt fontData offset
    let offset := u32 (offset + 1)
    let arg2 ← byteAt fontData offset
    let offset := u32 (offset + 1)
    .ret (toInt8 arg1, toInt8 arg2, offset)

/-- The transform part of a component of `parseCompoundGlyph`: `false` for a `return false`,
with the cursor as it stands. -/
def compoundTransform (fontData : List Byte) (flags offset : Nat) : Outcome (Bool × Nat) :=
  if flags &&& WE_HAVE_A_SCALE ≠ 0 then
    if u32 (offset + 2) > fontData.length then .ret (false, offset) else do
    let _scale ← be16 fontData offset
    .ret (true, u32 (offset + 2))
  else if flags &&& WE_HAVE_AN_X_AND_Y_SCALE ≠ 0 then
    if u32 (offset + 4) > fontData.length then .ret (false, offset) else do
    let _scaleX ← be16 fontData offset
    let offset := u32 (offset + 2)
    let _scaleY ← be16 fontData offset
    .ret (true, u32 (offset + 2))
  else if flags &&& WE_HAVE_A_TWO_BY_TWO ≠ 0 then
    if u32 (offset + 8) > fontData.length then .ret (false, offset) else do
    let _scaleX ← be16 fontData offset
    let offset := u32 (offset + 2)
    let _skew0 ← be16 fontData offset
    let offset := u32 (offset + 2)
    let _skew1 ← be16 fontData offset
    let offset := u32 (offset + 2)
    let _scaleY ← be16 fontData offset
    .ret (true, u32 (offset + 2))
  else .ret (true, offset)

/-- One pass through the body of the `while` loop of `parseCompoundGlyph`: the flags of the
component read (`none` for a `return false`), the cursor and the glyph. -/
def compoundComponent (fontData : List Byte) (offset : Nat) (glyph : CompoundGlyph) :
    Outcome (Option Nat × Nat × CompoundGlyph) :=
  if u32 (offset + 4) > fontData.length then .ret (none, offset, glyph) else do
  let flags ← be16 fontData offset
  let offset := u32 (offset + 2)
  let glyphIndex ← be16 fontData offset
  let offset := u32 (offset + 2)
  let glyph := { glyph with components := glyph.components ++ [CompoundComponent.ofIndex glyphIndex] }
  let (_arg1, _arg2, offset) ← compoundArgs fontData flags offset
  let (ok, offset) ← compoundTransform fontData flags offset
  if !ok then .ret (none, offset, glyph) else .ret (some flags, offset, glyph)

/-- The `while (continueParsing)` loop of `parseCompoundGlyph` with at most `fuel` passes
through its body; returns the flags of the last component (`none` for a `return false`). -/
def compoundLoop (fontData : List Byte) :
    Nat → Nat → CompoundGlyph → Outcome (Option Nat × Nat × CompoundGlyph)
  | 0, _, _ => .timeout
  | fuel + 1, offset, glyph =>
    match compoundComponent fontData offset glyph with
    | .fault => .fault
    | .timeout => .timeout
    | .ret (none, offset, glyph) => .ret (none, offset, glyph)
    | .ret (some flags, offset, glyph) =>
      if flags &&& MORE_COMPONENTS ≠ 0 then compoundLoop fontData fuel offset glyph
      else .ret (some flags, offset, glyph)

/-- The part of `parseCompoundGlyph` after the loop: the instructions are skipped. -/
def compoundInstructions (fontData : List Byte) (flags offset : Nat) : Outcome (Bool × Nat) :=
  if flags &&& WE_HAVE_INSTRUCTIONS ≠ 0 then
    if u32 (offset + 2) > fontData.length then .ret (false, offset) else do
    let instructionLength ← be16 fontData offset
    let offset := u32 (offset + 2)
    if u32 (offset + instructionLength) > fontData.length then .ret (false, offset) else
    .ret (true, u32 (offset + instructionLength))
  else .ret (true, offset)

/-- Embeds `TTFParser::parseCompoundGlyph`; the reference parameter `offset` is returned next
to the result. -/
def parseCompoundGlyph (p : TTFParser) (fuel : Nat) (offset : Nat) (glyph : CompoundGlyph) :
    Outcome (Bool × Nat × CompoundGlyph) :=
  match compoundLoop p.fontData fuel offset glyph with
  | .fault => .fault
  | .timeout => .timeout
  | .ret (none, offset, glyph) => .ret (false, offset, glyph)
  | .ret (some flags, offset, glyph) =>
    match compoundInstructions p.fontData flags offset with
    | .fault => .fault
    | .timeout => .timeout
    | .ret (ok, offset) => .ret (ok, offset, glyph)

/-- The branch `numberOfContours > 0` of `parseGlyph`, entered with the cursor after the
bounding box. -/
def simpleGlyphBody (fontData : List Byte) (offset : Nat) (numberOfContours : Int)
    (glyph : SimpleGlyph) : Outcome (Bool × SimpleGlyph) :=
  let glyph := { glyph with numberOfContours := numberOfContours }
  if u32OfInt ((offset : Int) + 2 * numberOfContours) > fontData.length then .ret (false, glyph)
  else do
  let (offset, endPoints) ← readU16Array fontData numberOfContours.toNat offset
    glyph.endPointOfContours
  let glyph := { glyph with endPointOfContours := endPoints }
  if u32 (offset + 2) > fontData.length then .ret (false, glyph) else do
  let instructionLength ← be16 fontData offset
  let glyph := { glyph with instructionLength := instructionLength }
  let offset := u32 (offset + 2)
  if u32 (offset + glyph.instructionLength) > fontData.length then .ret (false, glyph) else do
  let instructions ← copyBytes fontData offset glyph.instructionLength
  .ret (true, { glyph with instructions := instructions })

/-- Embeds `TTFParser::parseGlyph`; `fuel` bounds the component loop of a compound glyph.  The
compound glyph is decoded into a local object, so `glyph` is returned as it came.  The
function-local counter `compoundGlyphCount` feeds the printed messages only and is left
out. -/
def parseGlyph (p : TTFParser) (fuel : Nat) (glyphOffset : Nat) (glyph : SimpleGlyph) :
    Outcome (Bool × SimpleGlyph) :=
  if glyphOffset ≥ p.fontData.length then .ret (false, glyph) else
  let offset := glyphOffset
  if u32 (offset + 10) > p.fontData.length then .ret (false, glyph) else
  (be16 p.fontData offset).bind fun raw =>
  let numberOfContours := toInt16 raw
  let offset := u32 (offset + 2)
  let offset := u32 (offset + 8)
  if numberOfContours > 0 then simpleGlyphBody p.fontData offset numberOfContours glyph
  else if numberOfContours = -1 then
    (parseCompoundGlyph p fuel offset CompoundGlyph.fresh).bind fun r =>
    if !r.1 then .ret (false, glyph) else .ret (true, glyph)
  else .ret (true, glyph)

/-! ## Positions and values used in the statements -/

/-- The directory entry stored at byte `pos` of the file. -/
def entryAt (fontData : List Byte) (pos : Nat) : TableDirectoryEntry :=
  { tag := byteD fontData pos + 256 * byteD fontData (pos + 1) + 65536 * byteD fontData (pos + 2)
      + 16777216 * byteD fontData (pos + 3),
    checkSum := word32 fontData (pos + 4),
    offset := word32 fontData (pos + 8),
    length := word32 fontData (pos + 12) }

/-- The four bytes stored at `pos`, in file order. -/
def bytesAt (fontData : List Byte) (pos : Nat) : List Nat :=
  [byteD fontData pos, byteD fontData (pos + 1), byteD fontData (pos + 2), byteD fontData (pos + 3)]

/-- Offset number `j` of the `loca` array at `locaOffset`, as decoded for the given
`indexToLocFormat`: twice the 16-bit word for format 0, the 32-bit word otherwise. -/
def locaEntry (fontData : List Byte) (format : Int) (locaOffset j : Nat) : Nat :=
  if format = 0 then 2 * word16 fontData (locaOffset + 2 * j)
  else word32 fontData (locaOffset + 4 * j)

/-- Size in bytes of one entry of the `loca` array. -/
def locaEntrySize (format : Int) : Nat := if format = 0 then 2 else 4

/-! ## Concrete inputs -/

/-- A 154-byte buffer, zero except for the magic number `0x5F0F3CF5` at bytes 112..115. -/
def headBufferMagicOnly : List Byte :=
  List.replicate 112 0 ++ [0x5F, 0x0F, 0x3C, 0xF5] ++ List.replicate 38 0

/-- A 154-byte buffer with version `0x00010000` at bytes 100..103 and the magic number at
bytes 112..115. -/
def headBufferValid : List Byte :=
  List.replicate 100 0 ++ [0x00, 0x01, 0x00, 0x00] ++ List.replicate 8 0
    ++ [0x5F, 0x0F, 0x3C, 0xF5] ++ List.replicate 38 0

/-- A 154-byte buffer with version `0x00010000` at bytes 100..103 and `0x5F0F3CF4` where the
magic number belongs. -/
def headBufferBadMagic : List Byte :=
  List.replicate 100 0 ++ [0x00, 0x01, 0x00, 0x00] ++ List.replicate 8 0
    ++ [0x5F, 0x0F, 0x3C, 0xF4] ++ List.replicate 38 0

/-- A 64-byte font: sfnt header with `numTables = 1`, one directory entry with tag `glyf`,
`offset = 0xFFFFFFFF` and `length = 1`, and 36 zero bytes. -/
def wrapFont : List Byte :=
  [0x00, 0x01, 0x00, 0x00, 0x00, 0x01, 0x00, 0x00, 0x00, 0x00, 0x00, 0x00,
   0x67, 0x6C, 0x79, 0x66, 0x00, 0x00, 0x00, 0x00, 0xFF, 0xFF, 0xFF, 0xFF, 0x00, 0x00, 0x00, 0x01]
  ++ List.replicate 36 0

/-- An 80-byte font with two directory entries: `glyf` at offset 44 with length 20 and `loca`
at offset 64 with length 16; the `loca` bytes are the four long offsets given. -/
def locaFont (o0 o1 o2 o3 : Byte) : List Byte :=
  [0x00, 0x01, 0x00, 0x00, 0x00, 0x02, 0x00, 0x00, 0x00, 0x00, 0x00, 0x00,
   0x67, 0x6C, 0x79, 0x66, 0x00, 0x00, 0x00, 0x00, 0x00, 0x00, 0x00, 0x2C, 0x00, 0x00, 0x00, 0x14,
   0x6C, 0x6F, 0x63, 0x61, 0x00, 0x00, 0x00, 0x00, 0x00, 0x00, 0x00, 0x40, 0x00, 0x00, 0x00, 0x10]
  ++ List.replicate 20 0 ++
  [0x00, 0x00, 0x00, o0, 0x00, 0x00, 0x00, o1, 0x00, 0x00, 0x00, o2, 0x00, 0x00, 0x00, o3]

/-- The font with `loca` offsets `[0, 10, 15, 20]`. -/
def demoFont : List Byte := locaFont 0 10 15 20

/-- The parser state after `loadFromFile` on `demoFont`. -/
def demoLoaded : TTFParser :=
  { offsetTable :=
      { sfntVersion := 65536, numTables := 2, searchRange := 0, entrySelector := 0,
        rangeShift := 0,
        tableDirectoryEntries :=
          [{ tag := 1719233639, checkSum := 0, offset := 44, length := 20 },
           { tag := 1633906540, checkSum := 0, offset := 64, length := 16 }] },
    tableData :=
      [([0x67, 0x6C, 0x79, 0x66], List.replicate 20 0),
       ([0x6C, 0x6F, 0x63, 0x61],
        [0x00, 0x00, 0x00, 0x00, 0x00, 0x00, 0x00, 0x0A, 0x00, 0x00, 0x00, 0x0F,
         0x00, 0x00, 0x00, 0x14])],
    fontData := demoFont,
    numGlyphs := 0 }

/-- A parser over the given font with `numGlyphs = 3` and the directory of `demoLoaded`. -/
def locaParser (fontData : List Byte) : TTFParser :=
  { demoLoaded with fontData := fontData, numGlyphs := 3 }

/-- A parser over `demoFont` with `numGlyphs = 3` and an empty directory. -/
def noGlyfParser : TTFParser := { TTFParser.loaded demoFont with numGlyphs := 3 }

/-- A `headTable` object with `indexToLocFormat = 1`. -/
def headLong : HeadTable := { HeadTable.zero with indexToLocFormat := 1 }

/-- The tag string "loca". -/
def locaTag : List Byte := [0x6C, 0x6F, 0x63, 0x61]

/-- A 10-byte `hmtx` table for three glyphs with two long metrics: `(10, 1)`, `(20, 2)` and
the bearing `3`. -/
def hmtxParser : TTFParser :=
  { TTFParser.loaded [0x00, 0x0A, 0x00, 0x01, 0x00, 0x14, 0x00, 0x02, 0x00, 0x03] with
    numGlyphs := 3 }

/-- A font buffer holding, at offset 8, a `cmap` table with two encoding records that point
at two format 6 subtables (at 28 and 38), each with one glyph index. -/
def twoSubtableFont : List Byte :=
  [0, 0, 0, 0, 0, 0, 0, 0,
   0x00, 0x00, 0x00, 0x02,
   0x00, 0x00, 0x00, 0x03, 0x00, 0x00, 0x00, 0x14,
   0x00, 0x03, 0x00, 0x01, 0x00, 0x00, 0x00, 0x1E,
   0x00, 0x06, 0x00, 0x41, 0x00, 0x01, 0x00, 0x05, 0x00, 0x00,
   0x00, 0x06, 0x00, 0x61, 0x00, 0x01, 0x00, 0x07, 0x00, 0x00]

def twoSubtableParser : TTFParser := { TTFParser.loaded twoSubtableFont with numGlyphs := 10 }

/-- A font buffer holding, at offset 8, a `cmap` table with one encoding record that points
at a format 13 subtable (at 20) with one group. -/
def format13Font : List Byte :=
  [0, 0, 0, 0, 0, 0, 0, 0,
   0x00, 0x00, 0x00, 0x01,
   0x00, 0x03, 0x00, 0x0A, 0x00, 0x00, 0x00, 0x0C,
   0x00, 0x0D, 0x00, 0x00, 0x00, 0x01,
   0x00, 0x00, 0x00, 0x20, 0x00, 0x00, 0x00, 0x7E, 0x00, 0x00, 0x00, 0x01]

def format13Parser : TTFParser := { TTFParser.loaded format13Font with numGlyphs := 10 }

/-! ## Further inputs, positions and values used in the statements -/

/-- A parser over a 256-byte format 0 glyph array that maps every code to glyph 3, with
`numGlyphs = 10`. -/
def format0Parser : TTFParser := { TTFParser.loaded (List.replicate 256 3) with numGlyphs := 10 }

/-- The largest value of `byte div 8` over the 256 selector bytes of a format 2 table decoded
at `offset`; the selector array starts at `offset + 6`. -/
def maxSelectorIndex (fontData : List Byte) (offset : Nat) : Nat :=
  ((List.range 256).map fun k => byteD fontData (offset + 6 + k) / 8).foldl max 0

/-- The sub-header stored in the eight bytes at `pos`. -/
def subHeaderAt (fontData : List Byte) (pos : Nat) : SubHeader :=
  { firstCode := word16 fontData pos, entryCount := word16 fontData (pos + 2),
    idDelta := toInt16 (word16 fontData (pos + 4)), idRangeOffset := word16 fontData (pos + 6) }

/-- A 518-byte format 2 table at offset 0: the first selector byte is 8, the others are 0, and
two sub-headers follow the selector array. -/
def format2Parser : TTFParser :=
  TTFParser.loaded (List.replicate 6 0 ++ [8] ++ List.replicate 255 0 ++
    [0, 1, 0, 2, 0, 3, 0, 4, 0, 5, 0, 6, 0, 7, 0, 8] ++ List.replicate 240 0)

/-- The glyph indices of a segment without indirection: `(c + idDelta) mod 65536` for
`c = startCount, ..., endCount` in ascending order. -/
def segmentGlyphs (startCount endCount idDelta : Nat) : List Nat :=
  (List.range' startCount (endCount + 1 - startCount)).map fun c => (c + idDelta) % 65536

/-- The concatenation of `segmentGlyphs` over the segments of a decoded table, in array
order. -/
def directGlyphs (table : CmapFormat4) : List Nat :=
  ((List.range (table.segCountX2 / 2)).map fun i =>
    segmentGlyphs (table.startCount.getD i 0) (table.endCount.getD i 0)
      (table.idDelta.getD i 0)).flatten

/-- A 24-byte format 4 table at offset 0 with one segment without indirection: the codes
`0x41..0x42` with `idDelta = -64`. -/
def directFont : List Byte :=
  [0, 0, 0x00, 0x02, 0, 0, 0, 0, 0, 0, 0, 0, 0, 0,
   0x00, 0x42,
   0x00, 0x00,
   0x00, 0x41,
   0xFF, 0xC0,
   0x00, 0x00]

def directParser : TTFParser := { TTFParser.loaded directFont with numGlyphs := 10 }

/-- The table that `parseCmapFormat4` decodes from `directFont`. -/
def directTable : CmapFormat4 :=
  { CmapFormat4.fresh with
    segCountX2 := 2, endCount := [0x42], startCount := [0x41],
    idDelta := [0xFFC0], idRangeOffset := [0], glyphIndices := [1, 2] }

/-- A 46-byte buffer with a format 4 table at offset 20: one segment for the code `0x41`
with `idRangeOffset = 2`, read from position 42.  The word after that field, at position 44,
is 7; the word at position 2 of the buffer is 3. -/
def shadowFont : List Byte :=
  [0, 0, 0x00, 0x03] ++ List.replicate 16 0 ++
  [0, 0, 0x00, 0x02, 0, 0, 0, 0, 0, 0, 0, 0, 0, 0,
   0x00, 0x41,
   0x00, 0x00,
   0x00, 0x41,
   0x00, 0x00,
   0x00, 0x02,
   0x00, 0x07]

def shadowParser : TTFParser := { TTFParser.loaded shadowFont with numGlyphs := 10 }

/-- The number of segments of the format 4 table that `parseCmapFormat4` decodes at
`offset`: half the word at `offset + 2`. -/
def format4SegCount (fontData : List Byte) (offset : Nat) : Nat :=
  word16 fontData (offset + 2) / 2

/-- The word that `parseCmapFormat4` reads as `endCount[i]`. -/
def format4EndCount (fontData : List Byte) (offset i : Nat) : Nat :=
  word16 fontData (offset + 14 + 2 * i)

/-- The word that `parseCmapFormat4` reads as `startCount[i]`. -/
def format4StartCount (fontData : List Byte) (offset i : Nat) : Nat :=
  word16 fontData (offset + 16 + 2 * format4SegCount fontData offset + 2 * i)

/-- The word that `parseCmapFormat4` reads as `idDelta[i]`. -/
def format4IdDelta (fontData : List Byte) (offset i : Nat) : Nat :=
  word16 fontData (offset + 16 + 4 * format4SegCount fontData offset + 2 * i)

/-- The word that `parseCmapFormat4` reads as `idRangeOffset[i]`. -/
def format4IdRangeOffset (fontData : List Byte) (offset i : Nat) : Nat :=
  word16 fontData (offset + 16 + 6 * format4SegCount fontData offset + 2 * i)

/-- A 24-byte format 4 table at offset 0 with one segment whose `startCount`, `0x42`, is
above its `endCount`, `0x41`. -/
def reversedFont : List Byte :=
  [0, 0, 0x00, 0x02, 0, 0, 0, 0, 0, 0, 0, 0, 0, 0,
   0x00, 0x41,
   0x00, 0x00,
   0x00, 0x42,
   0x00, 0x00,
   0x00, 0x00]

def reversedParser : TTFParser := { TTFParser.loaded reversedFont with numGlyphs := 10 }

/-- A font buffer holding, at offset 8, a `cmap` table with one encoding record that points
at a format 14 subtable at `S = 20`, laid out the way `parseCmapTable` reads it: the record
count at `S + 8`, one variation-selector record at `S + 12` with `defaultUVSOffset = 23` and
`nonDefaultUVSOffset = 31`, a range count 1 at `S + 2 + 23 = 45` and a mapping count 1 at
`S + 2 + 31 = 53`.  The words at `S + 23 = 43` and `S + 31 = 51` are `0` and `0x00020000`. -/
def format14Font : List Byte :=
  [0, 0, 0, 0, 0, 0, 0, 0,
   0x00, 0x00, 0x00, 0x01,
   0x00, 0x00, 0x00, 0x05, 0x00, 0x00, 0x00, 0x0C,
   0x00, 0x0E,
   0x00, 0x00, 0x00, 0x00, 0x00, 0x00,
   0x00, 0x00, 0x00, 0x01,
   0x0E, 0x01, 0x00, 0x00, 0x00, 0x00, 0x17, 0x00, 0x00, 0x00, 0x1F,
   0x00, 0x00,
   0x00, 0x00, 0x00, 0x01,
   0x00, 0x4E, 0x00, 0x02,
   0x00, 0x00, 0x00, 0x01,
   0x00, 0x4E, 0x01, 0x00, 0x05]

def format14Parser : TTFParser := { TTFParser.loaded format14Font with numGlyphs := 10 }

/-- A font buffer holding, at offset 8, a `cmap` table with one encoding record that points
at a format 14 subtable at `S = 20` in the layout of the format: length at `S + 2`, record
count 1 at `S + 6`, one variation-selector record at `S + 10` with `defaultUVSOffset = 21`,
and the default UVS table (one range) at `S + 21 = 41`. -/
def format14LayoutFont : List Byte :=
  [0, 0, 0, 0, 0, 0, 0, 0,
   0x00, 0x00, 0x00, 0x01,
   0x00, 0x00, 0x00, 0x05, 0x00, 0x00, 0x00, 0x0C,
   0x00, 0x0E,
   0x00, 0x00, 0x00, 0x1D,
   0x00, 0x00, 0x00, 0x01,
   0x0E, 0x01, 0x00, 0x00, 0x00, 0x00, 0x15, 0x00, 0x00, 0x00, 0x00,
   0x00, 0x00, 0x00, 0x01,
   0x00, 0x4E, 0x00, 0x02]

def format14LayoutParser : TTFParser :=
  { TTFParser.loaded format14LayoutFont with numGlyphs := 10 }

/-- A parser over a 10-byte glyph header whose contour count is 0. -/
def emptyGlyphParser : TTFParser := TTFParser.loaded (List.replicate 10 0)

/-- A parser over a 10-byte glyph header whose contour count is `0xFFFE`, that is -2. -/
def negativeGlyphParser : TTFParser := TTFParser.loaded ([0xFF, 0xFE] ++ List.replicate 8 0)

/-- The number of bytes of one component record with the given flags: four for the flags and
the glyph index, the two arguments as words or as bytes, and the transform selected by the
first of the three scale flags that is set. -/
def componentBytes (flags : Nat) : Nat :=
  4 + (if flags &&& ARG_1_AND_2_ARE_WORDS ≠ 0 then 4 else 2)
    + (if flags &&& WE_HAVE_A_SCALE ≠ 0 then 2
       else if flags &&& WE_HAVE_AN_X_AND_Y_SCALE ≠ 0 then 4
       else if flags &&& WE_HAVE_A_TWO_BY_TWO ≠ 0 then 8
       else 0)

/-- The flags words of the component records of the composite description at `pos`, at most
`count` of them: each record starts where the one before it ends, and the record without
`MORE_COMPONENTS` is the last. -/
def componentFlags (fontData : List Byte) : Nat → Nat → List Nat
  | 0, _ => []
  | count + 1, pos =>
    let flags := word16 fontData pos
    flags :: (if flags &&& MORE_COMPONENTS ≠ 0 then
      componentFlags fontData count (pos + componentBytes flags) else [])

/-- The number of bytes of the composite description at `pos`: its component records,
followed by a length word and that many instruction bytes when the flags of the last record
carry `WE_HAVE_INSTRUCTIONS`. -/
def compositeBytes (fontData : List Byte) (count pos : Nat) : Nat :=
  let records := ((componentFlags fontData count pos).map componentBytes).sum
  records + (match (componentFlags fontData count pos).getLast? with
    | some flags =>
      if flags &&& WE_HAVE_INSTRUCTIONS ≠ 0 then 2 + word16 fontData (pos + records) else 0
    | none => 0)

/-- A parser over a 29-byte buffer with a composite description at offset 10: one component
with flags `WE_HAVE_A_TWO_BY_TWO | WE_HAVE_INSTRUCTIONS`, byte arguments, a 2x2 transform and
three instruction bytes. -/
def compoundParser : TTFParser :=
  TTFParser.loaded ([0xFF, 0xFF] ++ List.replicate 8 0 ++
    [0x01, 0x80, 0, 5, 1, 2, 0, 1, 0, 2, 0, 3, 0, 4, 0, 3, 9, 9, 9])

/-! ## `OS/2` and `post` -/

/-- Embeds `OS2Table`; `panose` and `achVendID` hold the bytes copied by `std::memcpy`. -/
structure OS2Table where
  version : Nat
  xAvgCharWidth : Int
  usWeightClass : Nat
  usWidthClass : Nat
  fsType : Nat
  ySubscriptXSize : Int
  ySubscriptYSize : Int
  ySubscriptXOffset : Int
  ySubscriptYOffset : Int
  ySuperscriptXSize : Int
  ySuperscriptYSize : Int
  ySuperscriptXOffset : Int
  ySuperscriptYOffset : Int
  yStrikeoutSize : Int
  yStrikeoutPosition : Int
  sFamilyClass : Int
  panose : List Nat
  ulUnicodeRange1 : Nat
  ulUnicodeRange2 : Nat
  ulUnicodeRange3 : Nat
  ulUnicodeRange4 : Nat
  achVendID : List Nat
  fsSelection : Nat
  usFirstCharIndex : Nat
  usLastCharIndex : Nat
  sTypoAscender : Int
  sTypoDescender : Int
  sTypoLineGap : Int
  usWinAscent : Nat
  usWinDescent : Nat
  usBreakChar : Nat
  usDefaultChar : Nat
  sCapHeight : Int
  usMaxContext : Nat
  ulCodePageRange1 : Nat
  ulCodePageRange2 : Nat
  sxHeight : Nat
  usLowerOpticalPointSize : Nat
  usUpperOpticalPointSize : Nat

/-- A default-initialised `OS2Table`; its indeterminate members are given as `0`. -/
def OS2Table.fresh : OS2Table :=
  { version := 0, xAvgCharWidth := 0, usWeightClass := 0, usWidthClass := 0, fsType := 0,
    ySubscriptXSize := 0, ySubscriptYSize := 0, ySubscriptXOffset := 0, ySubscriptYOffset := 0,
    ySuperscriptXSize := 0, ySuperscriptYSize := 0, ySuperscriptXOffset := 0,
    ySuperscriptYOffset := 0, yStrikeoutSize := 0, yStrikeoutPosition := 0, sFamilyClass := 0,
    panose := List.replicate 10 0, ulUnicodeRange1 := 0, ulUnicodeRange2 := 0,
    ulUnicodeRange3 := 0, ulUnicodeRange4 := 0, achVendID := List.replicate 4 0,
    fsSelection := 0, usFirstCharIndex := 0, usLastCharIndex := 0, sTypoAscender := 0,
    sTypoDescender := 0, sTypoLineGap := 0, usWinAscent := 0, usWinDescent := 0,
    usBreakChar := 0, usDefaultChar := 0, sCapHeight := 0, usMaxContext := 0,
    ulCodePageRange1 := 0, ulCodePageRange2 := 0, sxHeight := 0, usLowerOpticalPointSize := 0,
    usUpperOpticalPointSize := 0 }

/-- The assignments of `parseOS2Table` under "Fields common for all versions". -/
def os2CommonFields (fontData : List Byte) (offset : Nat) (os2 : OS2Table) : Outcome OS2Table := do
  let xAvgCharWidth ← be16 fontData (u32 (offset + 2))
  let usWeightClass ← be16 fontData (u32 (offset + 4))
  let usWidthClass ← be16 fontData (u32 (offset + 6))
  let fsType ← be16 fontData (u32 (offset + 8))
  let ySubscriptXSize ← be16 fontData (u32 (offset + 10))
  let ySubscriptYSize ← be16 fontData (u32 (offset + 12))
  let ySubscriptXOffset ← be16 fontData (u32 (offset + 14))
  let ySubscriptYOffset ← be16 fontData (u32 (offset + 16))
  let ySuperscriptXSize ← be16 fontData (u32 (offset + 18))
  let ySuperscriptYSize ← be16 fontData (u32 (offset + 20))
  let ySuperscriptXOffset ← be16 fontData (u32 (offset + 22))
  let ySuperscriptYOffset ← be16 fontData (u32 (offset + 24))
  let yStrikeoutSize ← be16 fontData (u32 (offset + 26))
  let yStrikeoutPosition ← be16 fontData (u32 (offset + 28))
  let sFamilyClass ← be16 fontData (u32 (offset + 30))
  let panose ← copyBytes fontData (u32 (offset + 32)) 10
  let ulUnicodeRange1 ← be32 fontData (u32 (offset + 42))
  let ulUnicodeRange2 ← be32 fontData (u32 (offset + 46))
  let ulUnicodeRange3 ← be32 fontData (u32 (offset + 50))
  let ulUnicodeRange4 ← be32 fontData (u32 (offset + 54))
  let achVendID ← copyBytes fontData (u32 (offset + 58)) 4
  let fsSelection ← be16 fontData (u32 (offset + 62))
  let usFirstCharIndex ← be16 fontData (u32 (offset + 64))
  let usLastCharIndex ← be16 fontData (u32 (offset + 66))
  let sTypoAscender ← be16 fontData (u32 (offset + 68))
  let sTypoDescender ← be16 fontData (u32 (offset + 70))
  let sTypoLineGap ← be16 fontData (u32 (offset + 72))
  let usWinAscent ← be16 fontData (u32 (offset + 74))
  let usWinDescent ← be16 fontData (u32 (offset + 76))
  .ret { os2 with
    xAvgCharWidth := toInt16 xAvgCharWidth, usWeightClass := usWeightClass,
    usWidthClass := usWidthClass, fsType := fsType,
    ySubscriptXSize := toInt16 ySubscriptXSize, ySubscriptYSize := toInt16 ySubscriptYSize,
    ySubscriptXOffset := toInt16 ySubscriptXOffset,
    ySubscriptYOffset := toInt16 ySubscriptYOffset,
    ySuperscriptXSize := toInt16 ySuperscriptXSize,
    ySuperscriptYSize := toInt16 ySuperscriptYSize,
    ySuperscriptXOffset := toInt16 ySuperscriptXOffset,
    ySuperscriptYOffset := toInt16 ySuperscriptYOffset,
    yStrikeoutSize := toInt16 yStrikeoutSize, yStrikeoutPosition := toInt16 yStrikeoutPosition,
    sFamilyClass := toInt16 sFamilyClass, panose := panose,
    ulUnicodeRange1 := ulUnicodeRange1, ulUnicodeRange2 := ulUnicodeRange2,
    ulUnicodeRange3 := ulUnicodeRange3, ulUnicodeRange4 := ulUnicodeRange4,
    achVendID := achVendID, fsSelection := fsSelection, usFirstCharIndex := usFirstCharIndex,
    usLastCharIndex := usLastCharIndex, sTypoAscender := toInt16 sTypoAscender,
    sTypoDescender := toInt16 sTypoDescender, sTypoLineGap := toInt16 sTypoLineGap,
    usWinAscent := usWinAscent, usWinDescent := usWinDescent }

/-- The block `if (os2.version >= 1)` of `parseOS2Table`. -/
def os2Version1 (fontData : List Byte) (offset : Nat) (os2 : OS2Table) :
    Outcome (Bool × OS2Table) :=
  if os2.version ≥ 1 then
    if fontData.length < u32 (offset + 80) then .ret (false, os2) else do
    let usBreakChar ← be16 fontData (u32 (offset + 78))
    let usDefaultChar ← be16 fontData (u32 (offset + 80))
    .ret (true, { os2 with usBreakChar := usBreakChar, usDefaultChar := usDefaultChar })
  else .ret (true, os2)

/-- The block `if (os2.version >= 2)` of `parseOS2Table`. -/
def os2Version2 (fontData : List Byte) (offset : Nat) (os2 : OS2Table) :
    Outcome (Bool × OS2Table) :=
  if os2.version ≥ 2 then
    if fontData.length < u32 (offset + 102) then .ret (false, os2) else do
    let sCapHeight ← be16 fontData (u32 (offset + 88))
    let usMaxContext ← be16 fontData (u32 (offset + 90))
    let ulCodePageRange1 ← be32 fontData (u32 (offset + 94))
    let sxHeight ← be16 fontData (u32 (offset + 96))
    let ulCodePageRange2 ← be32 fontData (u32 (offset + 98))
    .ret (true, { os2 with sCapHeight := toInt16 sCapHeight, usMaxContext := usMaxContext,
                           ulCodePageRange1 := ulCodePageRange1, sxHeight := sxHeight,
                           ulCodePageRange2 := ulCodePageRange2 })
  else .ret (true, os2)

/-- The block `if (os2.version >= 3)` of `parseOS2Table`. -/
def os2Version3 (fontData : List Byte) (offset : Nat) (os2 : OS2Table) :
    Outcome (Bool × OS2Table) :=
  if os2.version ≥ 3 then
    if fontData.length < u32 (offset + 104) then .ret (false, os2) else do
    let usLowerOpticalPointSize ← be16 fontData (u32 (offset + 100))
    let usUpperOpticalPointSize ← be16 fontData (u32 (offset + 102))
    .ret (true, { os2 with usLowerOpticalPointSize := usLowerOpticalPointSize,
                           usUpperOpticalPointSize := usUpperOpticalPointSize })
  else .ret (true, os2)

/-- Embeds `TTFParser::parseOS2Table`; the fields are written into `os2` as they are read. -/
def parseOS2Table (p : TTFParser) (offset : Nat) (os2 : OS2Table) : Outcome (Bool × OS2Table) :=
  if p.fontData.length < u32 (offset + 78) then .ret (false, os2) else
  (be16 p.fontData offset).bind fun version =>
  let os2 := { os2 with version := version }
  if os2.version > 4 then .ret (false, os2) else
  (os2CommonFields p.fontData offset os2).bind fun os2 =>
  (os2Version1 p.fontData offset os2).bind fun r1 =>
  if !r1.1 then .ret r1 else
  (os2Version2 p.fontData offset r1.2).bind fun r2 =>
  if !r2.1 then .ret r2 else
  os2Version3 p.fontData offset r2.2

/-- Embeds `PostTable`; the two `float` members hold the numerator over `65536` of their
value, and a `std::string` is the list of its bytes. -/
structure PostTable where
  format : Int
  italicAngle : Int
  underlinePosition : Int
  underlineThickness : Int
  isFixedPitch : Nat
  minMemType42 : Nat
  maxMemType42 : Nat
  minMemType1 : Nat
  maxMemType1 : Nat
  numberOfGlyphs : Nat
  glyphNameIndex : List Nat
  names : List (List Nat)
  offset : List Int
deriving DecidableEq

/-- A default-initialised `PostTable`; its indeterminate scalars are given as `0`. -/
def PostTable.fresh : PostTable :=
  { format := 0, italicAngle := 0, underlinePosition := 0, underlineThickness := 0,
    isFixedPitch := 0, minMemType42 := 0, maxMemType42 := 0, minMemType1 := 0, maxMemType1 := 0,
    numberOfGlyphs := 0, glyphNameIndex := [], names := [], offset := [] }

/-- Embeds `readFixed`: `intPart + (fracPart / 65536.0f)`.  The quotient is exact and the
`float` sum is the exact sum `(65536 * intPart + fracPart) / 65536` rounded to nearest even,
which is the rounding of its numerator; the result is that numerator over `65536`. -/
def readFixed (fontData : List Byte) (offset : Nat) : Outcome Int := do
  let intPart ← be16 fontData offset
  let fracPart ← be16 fontData (u32 (offset + 2))
  .ret (int32ToFloat (toInt16 intPart * 65536 + (fracPart : Int)))

/-- The loop of `parsePostTable` that fills `glyphNameIndex`. -/
def postGlyphNameIndexLoop (fontData : List Byte) (offset : Nat) :
    Nat → Nat → List Nat → Outcome (List Nat)
  | 0, _, acc => .ret acc
  | count + 1, i, acc => do
    let v ← be16 fontData (u32 (offset + 34 + i * 2))
    postGlyphNameIndexLoop fontData offset count (i + 1) (acc ++ [v])

/-- The `while (nameOffset < fontData.size())` loop of `parsePostTable`, with at most `fuel`
passes through its body. -/
def postNamesLoop (fontData : List Byte) : Nat → Nat → List (List Nat) → Outcome (List (List Nat))
  | fuel, nameOffset, names =>
    if nameOffset < fontData.length then
      match fuel with
      | 0 => .timeout
      | fuel + 1 =>
        match byteAt fontData nameOffset with
        | .fault => .fault
        | .timeout => .timeout
        | .ret nameLength =>
          match copyBytes fontData (u32 (nameOffset + 1)) nameLength with
          | .fault => .fault
          | .timeout => .timeout
          | .ret name =>
            postNamesLoop fontData fuel (u32 (nameOffset + nameLength + 1)) (names ++ [name])
    else .ret names

/-- The loop of `parsePostTable` that fills `offset` for format 2.5. -/
def postOffsetLoop (fontData : List Byte) (offset : Nat) :
    Nat → Nat → List Int → Outcome (List Int)
  | 0, _, acc => .ret acc
  | count + 1, i, acc => do
    let b ← byteAt fontData (u32 (offset + 34 + i))
    postOffsetLoop fontData offset count (i + 1) (acc ++ [toInt8 b])

/-- The branch `post.format == 2.0` of `parsePostTable`. -/
def postFormat2 (fontData : List Byte) (fuel offset : Nat) (post : PostTable) :
    Outcome (Bool × PostTable) := do
  let numberOfGlyphs ← be16 fontData (u32 (offset + 32))
  let post := { post with numberOfGlyphs := numberOfGlyphs }
  if fontData.length < u32 (offset + 34 + 2 * post.numberOfGlyphs) then .ret (false, post) else do
  let glyphNameIndex ← postGlyphNameIndexLoop fontData offset post.numberOfGlyphs 0
    post.glyphNameIndex
  let post := { post with glyphNameIndex := glyphNameIndex }
  let nameOffset := u32 (offset + 34 + 2 * post.numberOfGlyphs)
  let names ← postNamesLoop fontData fuel nameOffset post.names
  .ret (true, { post with names := names })

/-- The branch `post.format == 2.5` of `parsePostTable`. -/
def postFormat25 (fontData : List Byte) (offset : Nat) (post : PostTable) :
    Outcome (Bool × PostTable) := do
  let numberOfGlyphs ← be16 fontData (u32 (offset + 32))
  let post := { post with numberOfGlyphs := numberOfGlyphs }
  if fontData.length < u32 (offset + 34 + post.numberOfGlyphs) then .ret (false, post) else do
  let offsets ← postOffsetLoop fontData offset post.numberOfGlyphs 0 post.offset
  .ret (true, { post with offset := offsets })

/-- The assignments of `parsePostTable` before the format is looked at. -/
def postCommonFields (fontData : List Byte) (offset : Nat) (post : PostTable) :
    Outcome PostTable := do
  let format ← readFixed fontData offset
  let italicAngle ← readFixed fontData (u32 (offset + 4))
  let underlinePosition ← be16 fontData (u32 (offset + 8))
  let underlineThickness ← be16 fontData (u32 (offset + 10))
  let isFixedPitch ← be32 fontData (u32 (offset + 12))
  let minMemType42 ← be32 fontData (u32 (offset + 16))
  let maxMemType42 ← be32 fontData (u32 (offset + 20))
  let minMemType1 ← be32 fontData (u32 (offset + 24))
  let maxMemType1 ← be32 fontData (u32 (offset + 28))
  .ret { post with
    format := format, italicAngle := italicAngle,
    underlinePosition := toInt16 underlinePosition,
    underlineThickness := toInt16 underlineThickness, isFixedPitch := isFixedPitch,
    minMemType42 := minMemType42, maxMemType42 := maxMemType42, minMemType1 := minMemType1,
    maxMemType1 := maxMemType1 }

/-- Embeds `TTFParser::parsePostTable`; `fuel` bounds the loop over the names of format 2.0.
The comparisons `post.format == 2.0`, `== 2.5` and `== 3.0` are comparisons of the numerator
with `131072`, `163840` and `196608`. -/
def parsePostTable (p : TTFParser) (fuel offset : Nat) (post : PostTable) :
    Outcome (Bool × PostTable) :=
  if p.fontData.length < u32 (offset + 32) then .ret (false, post) else
  (postCommonFields p.fontData offset post).bind fun post =>
  if post.format = 131072 then postFormat2 p.fontData fuel offset post
  else if post.format = 163840 then postFormat25 p.fontData offset post
  else if post.format = 196608 then .ret (true, post)
  else .ret (false, post)

/-! ## `GPOS` -/

structure ValueRecord where
  xPlacement : Int
  yPlacement : Int
  xAdvance : Int
  yAdvance : Int
deriving DecidableEq

/-- A default-initialised `ValueRecord`; its indeterminate members are given as `0`. -/
def ValueRecord.fresh : ValueRecord :=
  { xPlacement := 0, yPlacement := 0, xAdvance := 0, yAdvance := 0 }

structure SingleAdjustmentSubtable where
  format : Nat
  coverageOffset : Nat
  valueFormat : Nat
  value : ValueRecord
  values : List ValueRecord
deriving DecidableEq

/-- A default-initialised `SingleAdjustmentSubtable`. -/
def SingleAdjustmentSubtable.fresh : SingleAdjustmentSubtable :=
  { format := 0, coverageOffset := 0, valueFormat := 0, value := ValueRecord.fresh, values := [] }

structure LookupTable where
  lookupType : Nat
  lookupFlag : Nat
  subTableCount : Nat
  subTableOffsets : List Nat
deriving DecidableEq

structure ScriptRecord where
  scriptTag : Nat
  scriptOffset : Nat
deriving DecidableEq

structure FeatureRecord where
  featureTag : Nat
  featureOffset : Nat
deriving DecidableEq

/-- The loop of `parseLookupList` over the subtable offsets of one lookup: `false` for a
`return false`, with the cursor and the offsets read so far. -/
def lookupSubTableLoop (fontData : List Byte) :
    Nat → Nat → List Nat → Outcome (Bool × Nat × List Nat)
  | 0, offset, acc => .ret (true, offset, acc)
  | count + 1, offset, acc =>
    if u32 (offset + 2) > fontData.length then .ret (false, offset, acc) else
    (be16 fontData offset).bind fun subTableOffset =>
    lookupSubTableLoop fontData count (u32 (offset + 2)) (acc ++ [subTableOffset])

/-- The outer loop of `parseLookupList`, `count` lookups to go. -/
def lookupLoop (fontData : List Byte) :
    Nat → Nat → List LookupTable → Outcome (Bool × List LookupTable)
  | 0, _, lookups => .ret (true, lookups)
  | count + 1, offset, lookups =>
    if u32 (offset + 6) > fontData.length then .ret (false, lookups) else
    (be16 fontData offset).bind fun lookupType =>
    let offset := u32 (offset + 2)
    (be16 fontData offset).bind fun lookupFlag =>
    let offset := u32 (offset + 2)
    (be16 fontData offset).bind fun subTableCount =>
    let offset := u32 (offset + 2)
    (lookupSubTableLoop fontData subTableCount offset []).bind fun r =>
    if !r.1 then .ret (false, lookups) else
    lookupLoop fontData count r.2.1
      (lookups ++ [{ lookupType := lookupType, lookupFlag := lookupFlag,
                     subTableCount := subTableCount, subTableOffsets := r.2.2 }])

/-- Embeds `TTFParser::parseLookupList`. -/
def parseLookupList (p : TTFParser) (offset : Nat) (lookups : List LookupTable) :
    Outcome (Bool × List LookupTable) :=
  if u32 (offset + 2) > p.fontData.length then .ret (false, lookups) else
  (be16 p.fontData offset).bind fun lookupCount =>
  lookupLoop p.fontData lookupCount (u32 (offset + 2)) lookups

/-- The loop of `parseScriptList`, `count` records to go. -/
def scriptRecordLoop (fontData : List Byte) :
    Nat → Nat → List ScriptRecord → Outcome (Bool × List ScriptRecord)
  | 0, _, scripts => .ret (true, scripts)
  | count + 1, offset, scripts =>
    if u32 (offset + 6) > fontData.length then .ret (false, scripts) else
    (be32 fontData offset).bind fun scriptTag =>
    let offset := u32 (offset + 4)
    (be16 fontData offset).bind fun scriptOffset =>
    let offset := u32 (offset + 2)
    scriptRecordLoop fontData count offset
      (scripts ++ [{ scriptTag := scriptTag, scriptOffset := scriptOffset }])

/-- Embeds `TTFParser::parseScriptList`. -/
def parseScriptList (p : TTFParser) (offset : Nat) (scripts : List ScriptRecord) :
    Outcome (Bool × List ScriptRecord) :=
  if u32 (offset + 2) > p.fontData.length then .ret (false, scripts) else
  (be16 p.fontData offset).bind fun scriptCount =>
  scriptRecordLoop p.fontData scriptCount (u32 (offset + 2)) scripts

/-- The loop of `parseFeatureList`, `count` records to go. -/
def featureRecordLoop (fontData : List Byte) :
    Nat → Nat → List FeatureRecord → Outcome (Bool × List FeatureRecord)
  | 0, _, features => .ret (true, features)
  | count + 1, offset, features =>
    if u32 (offset + 6) > fontData.length then .ret (false, features) else
    (be32 fontData offset).bind fun featureTag =>
    let offset := u32 (offset + 4)
    (be16 fontData offset).bind fun featureOffset =>
    let offset := u32 (offset + 2)
    featureRecordLoop fontData count offset
      (features ++ [{ featureTag := featureTag, featureOffset := featureOffset }])

/-- Embeds `TTFParser::parseFeatureList`. -/
def parseFeatureList (p : TTFParser) (offset : Nat) (features : List FeatureRecord) :
    Outcome (Bool × List FeatureRecord) :=
  if u32 (offset + 2) > p.fontData.length then .ret (false, features) else
  (be16 p.fontData offset).bind fun featureCount =>
  featureRecordLoop p.fontData featureCount (u32 (offset + 2)) features

/-- One block of `parseValueRecord`:
`if (valueFormat & bit) { if (offset + 2 > size) return false; field = ...; offset += 2; }`,
with `set` the assignment to the field.  Returns `false` for the `return false`. -/
def valueRecordBlock (fontData : List Byte) (valueFormat bit : Nat)
    (set : ValueRecord → Int → ValueRecord) (offset : Nat) (value : ValueRecord) :
    Outcome (Bool × Nat × ValueRecord) :=
  if valueFormat &&& bit ≠ 0 then
    if u32 (offset + 2) > fontData.length then .ret (false, offset, value) else
    (be16 fontData offset).bind fun v => .ret (true, u32 (offset + 2), set value (toInt16 v))
  else .ret (true, offset, value)

/-- Embeds `TTFParser::parseValueRecord`; the reference parameter `offset` is returned next
to the result. -/
def parseValueRecord (p : TTFParser) (offset valueFormat : Nat) (value : ValueRecord) :
    Outcome (Bool × Nat × ValueRecord) :=
  (valueRecordBlock p.fontData valueFormat 0x0001 (fun v x => { v with xPlacement := x })
    offset value).bind fun r =>
  if !r.1 then .ret r else
  (valueRecordBlock p.fontData valueFormat 0x0002 (fun v x => { v with yPlacement := x })
    r.2.1 r.2.2).bind fun r =>
  if !r.1 then .ret r else
  (valueRecordBlock p.fontData valueFormat 0x0004 (fun v x => { v with xAdvance := x })
    r.2.1 r.2.2).bind fun r =>
  if !r.1 then .ret r else
  valueRecordBlock p.fontData valueFormat 0x0008 (fun v x => { v with yAdvance := x })
    r.2.1 r.2.2

/-- Embeds `TTFParser::getValueRecordSize`. -/
def getValueRecordSize (valueFormat : Nat) : Nat :=
  let size := 0
  let size := if valueFormat &&& 0x0001 ≠ 0 then u16 (size + 2) else size
  let size := if valueFormat &&& 0x0002 ≠ 0 then u16 (size + 2) else size
  let size := if valueFormat &&& 0x0004 ≠ 0 then u16 (size + 2) else size
  let size := if valueFormat &&& 0x0008 ≠ 0 then u16 (size + 2) else size
  size

/-- The diagnostic loop of `getCoverageGlyphCount` for an unknown format: the bytes
`fontData[offset + i]` for `i = -10, ..., 10` are read and printed. -/
def coverageDump (fontData : List Byte) (offset : Nat) : List Int → Outcome Unit
  | [] => .ret ()
  | i :: rest =>
    (byteAt fontData (u32OfInt ((offset : Int) + i))).bind fun _ => coverageDump fontData offset rest

/-- Embeds `TTFParser::getCoverageGlyphCount`. -/
def getCoverageGlyphCount (p : TTFParser) (offset : Nat) : Outcome Nat :=
  if u32 (offset + 2) > p.fontData.length then .ret 0 else
  (be16 p.fontData offset).bind fun format =>
  let offset := u32 (offset + 2)
  if format = 1 then
    if u32 (offset + 2) > p.fontData.length then .ret 0 else
    be16 p.fontData offset
  else if format = 2 then
    if u32 (offset + 2) > p.fontData.length then .ret 0 else
    be16 p.fontData offset
  else
    (coverageDump p.fontData offset
      [-10, -9, -8, -7, -6, -5, -4, -3, -2, -1, 0, 1, 2, 3, 4, 5, 6, 7, 8, 9, 10]).bind fun _ =>
    .ret 0

/-- The loop of format 2 of `parseSingleAdjustmentSubtable`, `count` passes to go from pass
`i`.  Each pass decodes into the local `ValueRecord value;`, which the source does not
initialise: `uninitialised i` stands for the contents the local happens to have when pass
`i` begins, so a member whose bit is clear in `valueFormat` keeps whatever that is.  The
pass appends the record and then adds `getValueRecordSize` to the cursor that
`parseValueRecord` has already moved. -/
def singleAdjustmentLoop (p : TTFParser) (valueFormat : Nat) (uninitialised : Nat → ValueRecord) :
    Nat → Nat → Nat → List ValueRecord → Outcome (Bool × List ValueRecord)
  | 0, _, _, values => .ret (true, values)
  | count + 1, i, offset, values =>
    (parseValueRecord p offset valueFormat (uninitialised i)).bind fun r =>
    if !r.1 then .ret (false, values) else
    singleAdjustmentLoop p valueFormat uninitialised count (i + 1)
      (u32 (r.2.1 + getValueRecordSize valueFormat)) (values ++ [r.2.2])

/-- Embeds `TTFParser::parseSingleAdjustmentSubtable`; `uninitialised i` is the indeterminate
content of the local record of pass `i` of the format 2 loop. -/
def parseSingleAdjustmentSubtable (p : TTFParser) (uninitialised : Nat → ValueRecord)
    (offset : Nat) (subtable : SingleAdjustmentSubtable) :
    Outcome (Bool × SingleAdjustmentSubtable) :=
  if u32 (offset + 6) > p.fontData.length then .ret (false, subtable) else
  (be16 p.fontData offset).bind fun format =>
  let offset := u32 (offset + 2)
  (be16 p.fontData offset).bind fun coverageOffset =>
  let offset := u32 (offset + 2)
  (be16 p.fontData offset).bind fun valueFormat =>
  let offset := u32 (offset + 2)
  let subtable := { subtable with format := format, coverageOffset := coverageOffset,
                                  valueFormat := valueFormat }
  if subtable.format = 1 then
    (parseValueRecord p offset subtable.valueFormat subtable.value).bind fun r =>
    let subtable := { subtable with value := r.2.2 }
    if !r.1 then .ret (false, subtable) else .ret (true, subtable)
  else if subtable.format = 2 then
    (getCoverageGlyphCount p
      (u32OfInt ((u32 (offset + subtable.coverageOffset) : Int) - 4))).bind fun glyphCount =>
    (singleAdjustmentLoop p subtable.valueFormat uninitialised glyphCount 0 offset
      subtable.values).bind fun r =>
    .ret (r.1, { subtable with values := r.2 })
  else .ret (false, subtable)

/-! ## Inputs, positions and values for `glyf`, `OS/2`, `post` and `GPOS` -/

/-- A parser over a 4-byte buffer: the flags `0` and the glyph index 5 of a component whose
two byte arguments would be the bytes 4 and 5. -/
def truncatedCompoundParser : TTFParser := TTFParser.loaded [0x00, 0x00, 0x00, 0x05]

/-- A parser over a 6-byte buffer: the flags `ARG_1_AND_2_ARE_WORDS`, the glyph index 5 and
the first of the two word arguments; the second would be the bytes 6 and 7. -/
def truncatedWordsParser : TTFParser := TTFParser.loaded [0x00, 0x01, 0x00, 0x05, 0x00, 0x07]

/-- A parser over an 80-byte `OS/2` table at offset 0 whose version is 1. -/
def os2Version1Parser : TTFParser := TTFParser.loaded ([0x00, 0x01] ++ List.replicate 78 0)

/-- The number of bits set among the 16 low bits of a mask. -/
def popcount16 (mask : Nat) : Nat := ((List.range 16).filter fun i => mask.testBit i).length

/-- An 18-byte format 2 Single-Adjustment subtable at `P = 0`: `coverageOffset = 12`,
`valueFormat = 0x0001` (records of 2 bytes), the words 10, 20, 30 at positions 6, 8, 10, and
the bytes `00 01 00 02 00 02` from position 12 on, which give the count 2 both as a coverage
table of format 1 at `P + 12` and as one of format 2 at `P + 14`. -/
def singleAdjustmentFont : List Byte :=
  [0x00, 0x02, 0x00, 0x0C, 0x00, 0x01,
   0x00, 0x0A, 0x00, 0x14, 0x00, 0x1E,
   0x00, 0x01, 0x00, 0x02, 0x00, 0x02]

def singleAdjustmentParser : TTFParser := TTFParser.loaded singleAdjustmentFont

/-- The ordered list of rules of a Value Record: the bit of the mask and the field it
selects, in the order `xPlacement`, `yPlacement`, `xAdvance`, `yAdvance`. -/
def valueRecordRules : List (Nat × (ValueRecord → Int → ValueRecord)) :=
  [(0x0001, fun v x => { v with xPlacement := x }),
   (0x0002, fun v x => { v with yPlacement := x }),
   (0x0004, fun v x => { v with xAdvance := x }),
   (0x0008, fun v x => { v with yAdvance := x })]

/-- Reading by the rules: every rule whose bit is set takes the signed big-endian word at the
cursor into its field and moves the cursor by 2; a rule whose bit is clear changes
nothing. -/
def valueRecordRead (fontData : List Byte) (valueFormat : Nat) (start : Nat × ValueRecord) :
    Nat × ValueRecord :=
  valueRecordRules.foldl (fun s rule =>
    if valueFormat &&& rule.1 ≠ 0 then (s.1 + 2, rule.2 s.2 (toInt16 (word16 fontData s.1)))
    else s) start

/-- Sizing by the rules: two bytes for every rule whose bit is set. -/
def valueRecordBytes (valueFormat : Nat) : Nat :=
  (valueRecordRules.map fun rule => if valueFormat &&& rule.1 ≠ 0 then 2 else 0).sum

/-- A parser over three words: -2, 1 and 2. -/
def valueRecordParser : TTFParser := TTFParser.loaded [0xFF, 0xFE, 0x00, 0x01, 0x00, 0x02]

/-- The script record stored in the six bytes at `pos`: a 4-byte tag and a 2-byte offset. -/
def scriptRecordAt (fontData : List Byte) (pos : Nat) : ScriptRecord :=
  { scriptTag := word32 fontData pos, scriptOffset := word16 fontData (pos + 4) }

/-- The feature record stored in the six bytes at `pos`: a 4-byte tag and a 2-byte offset. -/
def featureRecordAt (fontData : List Byte) (pos : Nat) : FeatureRecord :=
  { featureTag := word32 fontData pos, featureOffset := word16 fontData (pos + 4) }

/-- A parser over an 8-byte list: the count 1 and one record, the tag `latn` with offset 8
when read as a script or feature record, the lookup type 0x6C61, flag 0x746E and subtable
count 8 when read as a lookup. -/
def recordListParser : TTFParser :=
  TTFParser.loaded [0x00, 0x01, 0x6C, 0x61, 0x74, 0x6E, 0x00, 0x08]

/-- A parser over an 8-byte lookup list: the count 1 and a lookup with type 1, flag 0 and
subtable count 1, whose subtable offset would be the bytes 8 and 9. -/
def lookupShortParser : TTFParser :=
  TTFParser.loaded [0x00, 0x01, 0x00, 0x01, 0x00, 0x00, 0x00, 0x01]

/-- The lookup list of `lookupShortParser` followed by the subtable offset 9. -/
def lookupParser : TTFParser :=
  TTFParser.loaded [0x00, 0x01, 0x00, 0x01, 0x00, 0x00, 0x00, 0x01, 0x00, 0x09]

/-- A parser over a 90-byte buffer: a 78-byte `OS/2` table of version 0 at offset 0 whose
weight class is 400, followed by twelve bytes `0xFF`. -/
def os2Version0Parser : TTFParser :=
  TTFParser.loaded ([0x00, 0x00, 0x00, 0x00, 0x01, 0x90] ++ List.replicate 72 0
    ++ List.replicate 12 0xFF)

/-- A parser over the first 78 bytes of the buffer of `os2Version0Parser`. -/
def os2Version0CutParser : TTFParser :=
  TTFParser.loaded ([0x00, 0x00, 0x00, 0x00, 0x01, 0x90] ++ List.replicate 72 0)

/-- A parser over a 32-byte `post` table at offset 0 whose version is `0x00030000`. -/
def postVersion3Parser : TTFParser :=
  TTFParser.loaded ([0x00, 0x03, 0x00, 0x00] ++ List.replicate 28 1)

/-- A parser over a 32-byte `post` table at offset 0 whose version is `0x00010000`. -/
def postVersion1Parser : TTFParser :=
  TTFParser.loaded ([0x00, 0x01, 0x00, 0x00] ++ List.replicate 28 1)

/-- The positions of the component records of the composite description at `pos`, at most
`count` of them: each record starts where the one before it ends, and the record without
`MORE_COMPONENTS` is the last. -/
def componentPositions (fontData : List Byte) : Nat → Nat → List Nat
  | 0, _ => []
  | count + 1, pos =>
    pos :: (if word16 fontData pos &&& MORE_COMPONENTS ≠ 0 then
      componentPositions fontData count (pos + componentBytes (word16 fontData pos)) else [])

/-! ## `name` -/

/-- Embeds `NameRecord`; `nameString` holds the characters of the `std::string` as byte
values. -/
structure NameRecord where
  platformID : Nat
  encodingID : Nat
  languageID : Nat
  nameID : Nat
  length : Nat
  offset : Nat
  nameString : List Nat
deriving DecidableEq

structure NameTable where
  format : Nat
  count : Nat
  stringOffset : Nat
  nameRecords : List NameRecord
deriving DecidableEq

/-- A default-initialised `NameTable`; its indeterminate scalars are given as `0`. -/
def NameTable.fresh : NameTable := { format := 0, count := 0, stringOffset := 0, nameRecords := [] }

/-- The loop `record.nameString += fontData[stringStart + j]` of `parseNameTable`, `count`
characters to go from `j` on. -/
def nameBytesLoop (fontData : List Byte) (stringStart : Nat) :
    Nat → Nat → List Nat → Outcome (List Nat)
  | 0, _, nameString => .ret nameString
  | count + 1, j, nameString =>
    match byteAt fontData (u32 (stringStart + j)) with
    | .fault => .fault
    | .timeout => .timeout
    | .ret b => nameBytesLoop fontData stringStart count (j + 1) (nameString ++ [b])

/-- The loop of `parseNameTable` for `encodingID == 2`, with at most `fuel` passes through its
body: the 16-bit counter `j` advances by two, and each pass appends the two bytes of the
swapped code unit `ch` in memory order (low byte first). -/
def nameUtf16Loop (fontData : List Byte) (stringStart length : Nat) :
    Nat → Nat → List Nat → Outcome (List Nat)
  | fuel, j, nameString =>
    if j < length then
      match fuel with
      | 0 => .timeout
      | fuel + 1 =>
        match be16 fontData (u32 (stringStart + j)) with
        | .fault => .fault
        | .timeout => .timeout
        | .ret ch =>
          nameUtf16Loop fontData stringStart length fuel (u16 (j + 2))
            (nameString ++ [ch % 256, ch / 256])
    else .ret nameString

/-- The string of one name record, by `encodingID`. -/
def nameStringOf (fontData : List Byte) (fuel encodingID stringStart length : Nat) :
    Outcome (List Nat) :=
  if encodingID = 0 ∨ encodingID = 1 then nameBytesLoop fontData stringStart length 0 []
  else if encodingID = 2 then nameUtf16Loop fontData stringStart length fuel 0 []
  else .ret []

/-- The record loop of `parseNameTable`, `count` records to go; `offset` is the parameter of
the function, which the loop advances from record to record. -/
def nameRecordLoop (fontData : List Byte) (fuel : Nat) :
    Nat → Nat → NameTable → Outcome (Bool × NameTable)
  | 0, _, table => .ret (true, table)
  | count + 1, offset, table =>
    if fontData.length < u32 (offset + 12) then .ret (false, table) else do
    let platformID ← be16 fontData offset
    let encodingID ← be16 fontData (u32 (offset + 2))
    let languageID ← be16 fontData (u32 (offset + 4))
    let nameID ← be16 fontData (u32 (offset + 6))
    let length ← be16 fontData (u32 (offset + 8))
    let recordOffset ← be16 fontData (u32 (offset + 10))
    let stringStart := u32 (offset + table.stringOffset + recordOffset)
    if fontData.length < u32 (stringStart + length) then .ret (false, table) else do
    let nameString ← nameStringOf fontData fuel encodingID stringStart length
    let record : NameRecord :=
      { platformID := platformID, encodingID := encodingID, languageID := languageID,
        nameID := nameID, length := length, offset := recordOffset, nameString := nameString }
    nameRecordLoop fontData fuel count (u32 (offset + 12))
      { table with nameRecords := table.nameRecords ++ [record] }

/-- Embeds `TTFParser::parseNameTable`; `fuel` bounds the passes of each `encodingID == 2`
loop. -/
def parseNameTable (p : TTFParser) (fuel offset : Nat) (table : NameTable) :
    Outcome (Bool × NameTable) :=
  if p.fontData.length < u32 (offset + 6) then .ret (false, table) else do
  let format ← be16 p.fontData offset
  let count ← be16 p.fontData (u32 (offset + 2))
  let stringOffset ← be16 p.fontData (u32 (offset + 4))
  let table := { table with format := format, count := count, stringOffset := stringOffset }
  let offset := u32 (offset + 6)
  nameRecordLoop p.fontData fuel table.count offset table

/-! ## `kern` -/

structure KerningPair where
  left : Nat
  right : Nat
  value : Int
deriving DecidableEq

structure KernSubtable where
  version : Nat
  length : Nat
  coverage : Nat
  kerningPairs : List KerningPair
deriving DecidableEq

structure KernTable where
  version : Nat
  subtables : List KernSubtable
deriving DecidableEq

/-- A default-initialised `KernTable`; its indeterminate `version` is given as `0`. -/
def KernTable.fresh : KernTable := { version := 0, subtables := [] }

/-- The pair loop of a format 0 subtable of `parseKernTable`, `count` pairs to go; `false`
stands for the `return false` of the loop. -/
def kernPairLoop (fontData : List Byte) :
    Nat → Nat → List KerningPair → Outcome (Bool × Nat × List KerningPair)
  | 0, offset, pairs => .ret (true, offset, pairs)
  | count + 1, offset, pairs =>
    if u32 (offset + 6) > fontData.length then .ret (false, offset, pairs) else do
    let left ← be16 fontData offset
    let offset := u32 (offset + 2)
    let right ← be16 fontData offset
    let offset := u32 (offset + 2)
    let value ← be16 fontData offset
    let offset := u32 (offset + 2)
    kernPairLoop fontData count offset
      (pairs ++ [{ left := left, right := right, value := toInt16 value }])

/-- The format 0 branch of `parseKernTable`, entered with the cursor after `coverage`. -/
def kernFormat0 (fontData : List Byte) (offset : Nat) (subtable : KernSubtable) :
    Outcome (Option KernSubtable × Nat) :=
  if u32 (offset + 8) > fontData.length then .ret (none, offset) else do
  let nPairs ← be16 fontData offset
  let offset := u32 (offset + 2)
  let offset := u32 (offset + 6)
  let r ← kernPairLoop fontData nPairs offset subtable.kerningPairs
  if !r.1 then .ret (none, r.2.1) else .ret (some { subtable with kerningPairs := r.2.2 }, r.2.1)

/-- One pass through the body of the subtable loop of `parseKernTable`: the subtable that is
pushed (`none` for a `return false`) and the cursor. -/
def kernSubtable (fontData : List Byte) (offset : Nat) : Outcome (Option KernSubtable × Nat) :=
  if u32 (offset + 6) > fontData.length then .ret (none, offset) else do
  let version ← be16 fontData offset
  let offset := u32 (offset + 2)
  let length ← be16 fontData offset
  let offset := u32 (offset + 2)
  let coverage ← be16 fontData offset
  let offset := u32 (offset + 2)
  let subtable : KernSubtable :=
    { version := version, length := length, coverage := coverage, kerningPairs := [] }
  if subtable.coverage &&& 0xFF = 0 then kernFormat0 fontData offset subtable
  else .ret (some subtable, u32OfInt ((offset : Int) + ((subtable.length : Int) - 6)))

/-- The subtable loop of `parseKernTable`, `count` subtables to go. -/
def kernSubtableLoop (fontData : List Byte) :
    Nat → Nat → KernTable → Outcome (Bool × KernTable)
  | 0, _, table => .ret (true, table)
  | count + 1, offset, table =>
    match kernSubtable fontData offset with
    | .fault => .fault
    | .timeout => .timeout
    | .ret (none, _) => .ret (false, table)
    | .ret (some subtable, offset) =>
      kernSubtableLoop fontData count offset
        { table with subtables := table.subtables ++ [subtable] }

/-- Embeds `TTFParser::parseKernTable`. -/
def parseKernTable (p : TTFParser) (offset : Nat) (table : KernTable) :
    Outcome (Bool × KernTable) :=
  if u32 (offset + 4) > p.fontData.length then .ret (false, table) else do
  let version ← be16 p.fontData offset
  let table := { table with version := version }
  let offset := u32 (offset + 2)
  let nTables ← be16 p.fontData offset
  let offset := u32 (offset + 2)
  kernSubtableLoop p.fontData nTables offset table

/-! ## Inputs, positions and values for the directory, `hmtx`, `cmap` format 12, `name` and `kern` -/

/-- A 12-byte buffer holding a format 12 group header at offset 0: `numGroups = 0x15555556`
followed by 8 zero bytes. -/
def wrappedGroupsParser : TTFParser :=
  TTFParser.loaded ([0x15, 0x55, 0x55, 0x56] ++ List.replicate 8 0)

/-- A 2-byte buffer: too short to hold the `numGroups` field at offset 0. -/
def shortGroupsParser : TTFParser := TTFParser.loaded [0x00, 0x01]

/-- A 12-byte file: the sfnt header alone, with `numTables = 0`. -/
def headerOnlyFont : List Byte :=
  [0x00, 0x01, 0x00, 0x00, 0x00, 0x00, 0x00, 0x00, 0x00, 0x00, 0x00, 0x00]

/-- A 48-byte font whose directory has two entries with the tag `glyf`: the first at offset
44 with length 2 (bytes `01 02`), the second at offset 46 with length 2 (bytes `03 04`). -/
def duplicateTagFont : List Byte :=
  [0x00, 0x01, 0x00, 0x00, 0x00, 0x02, 0x00, 0x00, 0x00, 0x00, 0x00, 0x00,
   0x67, 0x6C, 0x79, 0x66, 0x00, 0x00, 0x00, 0x00, 0x00, 0x00, 0x00, 0x2C, 0x00, 0x00, 0x00, 0x02,
   0x67, 0x6C, 0x79, 0x66, 0x00, 0x00, 0x00, 0x00, 0x00, 0x00, 0x00, 0x2E, 0x00, 0x00, 0x00, 0x02,
   0x01, 0x02, 0x03, 0x04]

/-- The parser state after `readOffsetTable` on `duplicateTagFont`. -/
def duplicateTagLoaded : TTFParser :=
  { offsetTable :=
      { sfntVersion := 65536, numTables := 2, searchRange := 0, entrySelector := 0,
        rangeShift := 0,
        tableDirectoryEntries :=
          [{ tag := 1719233639, checkSum := 0, offset := 44, length := 2 },
           { tag := 1719233639, checkSum := 0, offset := 46, length := 2 }] },
    tableData := [([0x67, 0x6C, 0x79, 0x66], [0x03, 0x04])],
    fontData := duplicateTagFont,
    numGlyphs := 0 }

/-- An 8-byte buffer of zeros in a parser with `numGlyphs = 1`. -/
def longMetricsParser : TTFParser := { TTFParser.loaded (List.replicate 8 0) with numGlyphs := 1 }

/-- A 52-byte `name` table at offset 0: `count = 2`, `stringOffset = 30`; record 0 (bytes
6..17) has `encodingID = 0`, `length = 2`, `offset = 0`; record 1 (bytes 18..29) has
`encodingID = 0`, `length = 2`, `offset = 2`; the byte at position `30 + k` is `65 + k`. -/
def nameFont : List Byte :=
  [0x00, 0x00, 0x00, 0x02, 0x00, 0x1E,
   0x00, 0x00, 0x00, 0x00, 0x00, 0x00, 0x00, 0x01, 0x00, 0x02, 0x00, 0x00,
   0x00, 0x00, 0x00, 0x00, 0x00, 0x00, 0x00, 0x02, 0x00, 0x02, 0x00, 0x02,
   65, 66, 67, 68, 69, 70, 71, 72, 73, 74, 75, 76, 77, 78, 79, 80, 81, 82, 83, 84, 85, 86]

def nameParser : TTFParser := TTFParser.loaded nameFont

/-- A 24-byte format 4 table at offset 0 with the one segment `0xFFFF..0xFFFF`, `idDelta = 1`
and no indirection. -/
def maxSegmentFont : List Byte :=
  [0, 0, 0x00, 0x02, 0, 0, 0, 0, 0, 0, 0, 0, 0, 0,
   0xFF, 0xFF,
   0x00, 0x00,
   0xFF, 0xFF,
   0x00, 0x01,
   0x00, 0x00]

def maxSegmentParser : TTFParser := { TTFParser.loaded maxSegmentFont with numGlyphs := 10 }

/-- The 24 bytes of a format 4 table with one segment: `endCount = 0xFFFF`, `startCount = 0`,
`idDelta = 0`, `idRangeOffset = 2`. -/
def loopTable : List Byte :=
  [0, 0, 0x00, 0x02, 0, 0, 0, 0, 0, 0, 0, 0, 0, 0,
   0xFF, 0xFF,
   0x00, 0x00,
   0x00, 0x00,
   0x00, 0x00,
   0x00, 0x02]

/-- A 65561-byte buffer: 65537 zero bytes followed by `loopTable` at offset 65537. -/
def loopFont : List Byte := List.replicate 65537 0 ++ loopTable

def loopParser : TTFParser := { TTFParser.loaded loopFont with numGlyphs := 1 }

/-- The table that a second `parseCmapFormat4` on `directFont` leaves when it is given
`directTable`: every vector holds its entries twice. -/
def directTableTwice : CmapFormat4 :=
  { CmapFormat4.fresh with
    segCountX2 := 2, endCount := [0x42, 0x42], startCount := [0x41, 0x41],
    idDelta := [0xFFC0, 0xFFC0], idRangeOffset := [0, 0], glyphIndices := [1, 2, 1, 2] }

/-- The kerning pair stored in the six bytes at `pos`. -/
def kernPairAt (fontData : List Byte) (pos : Nat) : KerningPair :=
  { left := word16 fontData pos, right := word16 fontData (pos + 2),
    value := toInt16 (word16 fontData (pos + 4)) }

/-- The subtable that starts at byte `pos`: its three header words, and, when the low byte of
`coverage` is 0, the `nPairs` pairs (`nPairs` is the word at `pos + 6`) stored in consecutive
six-byte records from `pos + 14` on; no pairs otherwise. -/
def kernSubtableAt (fontData : List Byte) (pos : Nat) : KernSubtable :=
  { version := word16 fontData pos, length := word16 fontData (pos + 2),
    coverage := word16 fontData (pos + 4),
    kerningPairs :=
      if word16 fontData (pos + 4) % 256 = 0 then
        (List.range (word16 fontData (pos + 6))).map fun j => kernPairAt fontData (pos + 14 + 6 * j)
      else [] }

/-- Where the subtable after the one at `pos` starts: after the last pair when the low byte of
`coverage` is 0, `length` bytes after `pos` otherwise. -/
def kernSubtableEnd (fontData : List Byte) (pos : Nat) : Nat :=
  if word16 fontData (pos + 4) % 256 = 0 then pos + 14 + 6 * word16 fontData (pos + 6)
  else pos + word16 fontData (pos + 2)

/-- The start positions of `count` consecutive subtables, the first one at `pos`. -/
def kernSubtablePositions (fontData : List Byte) : Nat → Nat → List Nat
  | 0, _ => []
  | count + 1, pos => pos :: kernSubtablePositions fontData count (kernSubtableEnd fontData pos)

/-- A 32-byte `kern` table at offset 0 with two subtables: at 4 one with `coverage = 0x0100`
and the single pair `(3, 4, -2)`, at 24 one with `coverage = 0x0001` and `length = 8`. -/
def kernFont : List Byte :=
  [0x00, 0x00, 0x00, 0x02,
   0x00, 0x00, 0x00, 0x14, 0x01, 0x00, 0x00, 0x01, 0, 0, 0, 0, 0, 0,
   0x00, 0x03, 0x00, 0x04, 0xFF, 0xFE,
   0x00, 0x00, 0x00, 0x08, 0x00, 0x01, 0xAA, 0xBB]

def kernParser : TTFParser := TTFParser.loaded kernFont

/-- The table that `parseKernTable` decodes from `kernFont`. -/
def kernDecoded : KernTable :=
  { version := 0,
    subtables :=
      [{ version := 0, length := 20, coverage := 0x0100,
         kerningPairs := [{ left := 3, right := 4, value := -2 }] },
       { version := 0, length := 8, coverage := 0x0001, kerningPairs := [] }] }

/-- The format 12 group stored in the twelve bytes at `pos`. -/
def groupFormat12At (fontData : List Byte) (pos : Nat) : GroupFormat12 :=
  { startCharCode := word32 fontData pos, endCharCode := word32 fontData (pos + 4),
    startGlyphID := word32 fontData (pos + 8) }

/-- A 40-byte file: the sfnt header with `numTables = 0` followed by 28 zero bytes. -/
def paddedHeaderFont : List Byte :=
  [0x00, 0x01, 0x00, 0x00, 0x00, 0x00, 0x00, 0x00, 0x00, 0x00, 0x00, 0x00]
    ++ List.replicate 28 0

/-- The lookup stored at `pos`: the three 16-bit fields `lookupType`, `lookupFlag` and
`subTableCount`, followed by `subTableCount` 16-bit subtable offsets. -/
def lookupTableAt (fontData : List Byte) (pos : Nat) : LookupTable :=
  { lookupType := word16 fontData pos, lookupFlag := word16 fontData (pos + 2),
    subTableCount := word16 fontData (pos + 4),
    subTableOffsets := (List.range (word16 fontData (pos + 4))).map fun j =>
      word16 fontData (pos + 6 + 2 * j) }

/-- The position after the lookup stored at `pos`. -/
def lookupTableEnd (fontData : List Byte) (pos : Nat) : Nat :=
  pos + 6 + 2 * word16 fontData (pos + 4)

/-- The positions of `count` lookups stored one after the other from `pos`. -/
def lookupPositions (fontData : List Byte) : Nat → Nat → List Nat
  | 0, _ => []
  | count + 1, pos => pos :: lookupPositions fontData count (lookupTableEnd fontData pos)

/-- The position after `count` lookups stored one after the other from `pos`. -/
def lookupListEnd (fontData : List Byte) : Nat → Nat → Nat
  | 0, pos => pos
  | count + 1, pos => lookupListEnd fontData count (lookupTableEnd fontData pos)

/-- The parser of `shadowFont` with `numGlyphs = 5`: the word 7 stored at position 44 is
not the index of a glyph, the word 3 stored at position 2 is. -/
def shadowParserFive : TTFParser := { TTFParser.loaded shadowFont with numGlyphs := 5 }

/-- The 32 bytes of a format 4 table with two segments: `endCount = [0xFFFF, 65]`,
`startCount = [0, 66]`, `idDelta = [0, 0]`, `idRangeOffset = [2, 0]`. -/
def loopReversedTable : List Byte :=
  [0, 0, 0x00, 0x04, 0, 0, 0, 0, 0, 0, 0, 0, 0, 0,
   0xFF, 0xFF, 0x00, 0x41,
   0x00, 0x00,
   0x00, 0x00, 0x00, 0x42,
   0x00, 0x00, 0x00, 0x00,
   0x00, 0x02, 0x00, 0x00]

/-- A 65569-byte buffer: 65537 zero bytes followed by `loopReversedTable` at offset 65537. -/
def loopReversedFont : List Byte := List.replicate 65537 0 ++ loopReversedTable

def loopReversedParser : TTFParser :=
  { TTFParser.loaded loopReversedFont with numGlyphs := 1 }

/-! ## Basic facts -/

set_option maxRecDepth 100000

namespace Outcome

@[simp] theorem ret_bind {α β : Type} (a : α) (f : α → Outcome β) : (ret a >>= f) = f a := rfl

@[simp] theorem fault_bind {α β : Type} (f : α → Outcome β) : (fault >>= f) = fault := rfl

@[simp] theorem timeout_bind {α β : Type} (f : α → Outcome β) : (timeout >>= f) = timeout := rfl

@[simp] theorem bind_ret {α β : Type} (a : α) (f : α → Outcome β) : (ret a).bind f = f a := rfl

@[simp] theorem bind_fault {α β : Type} (f : α → Outcome β) : (fault : Outcome α).bind f = fault :=
  rfl

@[simp] theorem bind_timeout {α β : Type} (f : α → Outcome β) :
    (timeout : Outcome α).bind f = timeout := rfl

@[simp] theorem pure_eq {α : Type} (a : α) : (pure a : Outcome α) = ret a := rfl

end Outcome

theorem and_shifted_mask (v k n : Nat) :
    v &&& ((2 ^ n - 1) <<< k) = ((v >>> k) % 2 ^ n) <<< k := by
  apply Nat.eq_of_testBit_eq
  intro i
  simp only [Nat.testBit_and, Nat.testBit_shiftLeft, Nat.testBit_shiftRight,
    Nat.testBit_mod_two_pow, Nat.testBit_two_pow_sub_one]
  by_cases h : k ≤ i
  · have hk : k + (i - k) = i := by omega
    simp [h, hk, Bool.and_comm]
  · simp [h]

theorem or_eq_add_aligned (a b i : Nat) (h : b < 2 ^ i) : (2 ^ i * a) ||| b = 2 ^ i * a + b :=
  (Nat.mul_add_lt_is_or h a).symm

theorem swapEndian16_bytes (a b : Nat) (ha : a < 256) (hb : b < 256) :
    swapEndian16 (a + 256 * b) = 256 * a + b := by
  unfold swapEndian16 u16
  have h1 : (a + 256 * b) <<< 8 = 2 ^ 8 * (a + 256 * b) := by
    rw [Nat.shiftLeft_eq]; ring
  have h2 : (a + 256 * b) >>> 8 = b := by
    rw [Nat.shiftRight_eq_div_pow]; omega
  rw [h1, h2, or_eq_add_aligned _ _ _ (by omega)]
  omega

theorem swapEndian32_bytes (a b c d : Nat) (ha : a < 256) (hb : b < 256) (hc : c < 256)
    (hd : d < 256) :
    swapEndian32 (a + 256 * b + 65536 * c + 16777216 * d)
      = 16777216 * a + 65536 * b + 256 * c + d := by
  unfold swapEndian32 u32
  generalize hv : a + 256 * b + 65536 * c + 16777216 * d = v
  have m1 : v &&& 0xFF00 = ((v >>> 8) % 2 ^ 8) <<< 8 := and_shifted_mask v 8 8
  have m2 : v &&& 0xFF0000 = ((v >>> 16) % 2 ^ 8) <<< 16 := and_shifted_mask v 16 8
  rw [m1, m2]
  simp only [Nat.shiftLeft_eq, Nat.shiftRight_eq_div_pow]
  have e1 : v * 2 ^ 24 % 4294967296 = 2 ^ 24 * a := by omega
  have e2 : v / 2 ^ 8 % 2 ^ 8 * 2 ^ 8 * 2 ^ 8 % 4294967296 = 2 ^ 16 * b := by omega
  have e3 : v / 2 ^ 16 % 2 ^ 8 * 2 ^ 16 / 2 ^ 8 = 2 ^ 8 * c := by omega
  have e4 : v / 2 ^ 24 = d := by omega
  rw [e1, e2, e3, e4]
  have o1 : 2 ^ 24 * a ||| 2 ^ 16 * b = 2 ^ 16 * (256 * a + b) := by
    rw [or_eq_add_aligned a (2 ^ 16 * b) 24 (by omega)]; omega
  rw [o1]
  have o2 : 2 ^ 16 * (256 * a + b) ||| 2 ^ 8 * c = 2 ^ 8 * (65536 * a + 256 * b + c) := by
    rw [or_eq_add_aligned _ (2 ^ 8 * c) 16 (by omega)]; omega
  rw [o2, or_eq_add_aligned _ d 8 (by omega)]
  omega

theorem byteD_lt (fontData : List Byte) (i : Nat) : byteD fontData i < 256 := by
  unfold byteD
  cases fontData[i]? with
  | none => simp
  | some b => exact b.isLt

theorem word16_lt (fontData : List Byte) (i : Nat) : word16 fontData i < 65536 := by
  have h0 := byteD_lt fontData i
  have h1 := byteD_lt fontData (i + 1)
  unfold word16
  omega

theorem word32_lt (fontData : List Byte) (i : Nat) : word32 fontData i < 4294967296 := by
  have h0 := byteD_lt fontData i
  have h1 := byteD_lt fontData (i + 1)
  have h2 := byteD_lt fontData (i + 2)
  have h3 := byteD_lt fontData (i + 3)
  unfold word32
  omega

/-- A checked big-endian 16-bit read is the word at that position, or undefined. -/
theorem be16_eq (fontData : List Byte) (i : Nat) :
    be16 fontData i = if i + 2 ≤ fontData.length then .ret (word16 fontData i) else .fault := by
  unfold be16 load16
  split
  · simp [swapEndian16_bytes _ _ (byteD_lt fontData i) (byteD_lt fontData (i + 1)), word16]
  · rfl

/-- A checked big-endian 32-bit read is the word at that position, or undefined. -/
theorem be32_eq (fontData : List Byte) (i : Nat) :
    be32 fontData i = if i + 4 ≤ fontData.length then .ret (word32 fontData i) else .fault := by
  unfold be32 load32
  split
  · simp [swapEndian32_bytes _ _ _ _ (byteD_lt fontData i) (byteD_lt fontData (i + 1))
      (byteD_lt fontData (i + 2)) (byteD_lt fontData (i + 3)), word32]
  · rfl

theorem be16_of_le {fontData : List Byte} {i : Nat} (h : i + 2 ≤ fontData.length) :
    be16 fontData i = .ret (word16 fontData i) := by
  rw [be16_eq, if_pos h]

theorem be32_of_le {fontData : List Byte} {i : Nat} (h : i + 4 ≤ fontData.length) :
    be32 fontData i = .ret (word32 fontData i) := by
  rw [be32_eq, if_pos h]

theorem be64_of_le {fontData : List Byte} {i : Nat} (h : i + 8 ≤ fontData.length) :
    ∃ v, be64 fontData i = .ret v := by
  unfold be64 load64
  rw [if_pos h]
  exact ⟨_, rfl⟩

theorem be16_ret {fontData : List Byte} {i v : Nat} (h : be16 fontData i = .ret v) :
    i + 2 ≤ fontData.length ∧ v = word16 fontData i := by
  rw [be16_eq] at h
  split at h
  · injection h with h; exact ⟨by assumption, h.symm⟩
  · cases h

theorem be32_ret {fontData : List Byte} {i v : Nat} (h : be32 fontData i = .ret v) :
    i + 4 ≤ fontData.length ∧ v = word32 fontData i := by
  rw [be32_eq] at h
  split at h
  · injection h with h; exact ⟨by assumption, h.symm⟩
  · cases h

theorem u32_of_lt {x : Nat} (h : x < 4294967296) : u32 x = x := Nat.mod_eq_of_lt h

theorem u32_le (x : Nat) : u32 x ≤ x := Nat.mod_le _ _


/-! ## Reads of the `head` table -/

theorem be64_eq (fontData : List Byte) (i : Nat) :
    be64 fontData i = if i + 8 ≤ fontData.length then
      .ret (swapEndian64 (byteD fontData i + 256 * byteD fontData (i + 1)
        + 65536 * byteD fontData (i + 2) + 16777216 * byteD fontData (i + 3)
        + 4294967296 * byteD fontData (i + 4) + 1099511627776 * byteD fontData (i + 5)
        + 281474976710656 * byteD fontData (i + 6)
        + 72057594037927936 * byteD fontData (i + 7))) else .fault := by
  unfold be64 load64
  split <;> rfl

theorem fixedToFloat_one : fixedToFloat (toInt32 65536) = 65536 := by decide


/-! ## Table directory: the entry loop and the lookups -/

theorem readDirectoryEntries_ret (n : Nat) : ∀ (offset : Nat) (p q : TTFParser),
    readDirectoryEntries n offset p = .ret (true, q) →
    q.fontData = p.fontData ∧ (n ≠ 0 → offset + 16 * n ≤ p.fontData.length) ∧
    q.offsetTable.tableDirectoryEntries = p.offsetTable.tableDirectoryEntries ++
      (List.range n).map (fun k => entryAt p.fontData (offset + 16 * k)) := by
  induction n with
  | zero =>
    intro offset p q h
    simp [readDirectoryEntries] at h
    subst h
    simp
  | succ n ih =>
    intro offset p q h
    unfold readDirectoryEntries at h
    split at h
    · simp at h
    · rename_i hlen
      have hlen2 : offset + 16 ≤ p.fontData.length := by omega
      unfold load32 at h
      rw [if_pos (by omega), be32_of_le (by omega), be32_of_le (by omega), be32_of_le (by omega)] at h
      simp only [Outcome.ret_bind] at h
      split at h
      · simp at h
      · split at h
        · have := ih _ _ _ h
          obtain ⟨h1, h2, h3⟩ := this
          simp only at h1 h2 h3
          refine ⟨h1, ?_, ?_⟩
          · intro _
            by_cases hn : n = 0
            · subst hn; omega
            · have := h2 hn; omega
          · rw [h3, List.range_succ_eq_map, List.map_cons, List.map_map]
            simp [entryAt]
            intro a _
            have : offset + 16 + 16 * a = offset + 16 * (a + 1) := by ring
            rw [this]
            exact ⟨rfl, rfl, rfl, rfl⟩
        · simp at h


theorem findTableOffset_map (tagVal : Nat) (f : Nat → TableDirectoryEntry) (l : List Nat) :
    findTableOffset tagVal (l.map f) =
      match l.find? (fun k => decide ((f k).tag = tagVal)) with
      | some k => (f k).offset
      | none => 0 := by
  induction l with
  | nil => rfl
  | cons a l ih =>
    simp only [List.map_cons, findTableOffset, List.find?_cons]
    by_cases h : (f a).tag = tagVal
    · simp [h]
    · simp [h, ih]

theorem findTableLength_map (tagVal : Nat) (f : Nat → TableDirectoryEntry) (l : List Nat) :
    findTableLength tagVal (l.map f) =
      match l.find? (fun k => decide ((f k).tag = tagVal)) with
      | some k => (f k).length
      | none => 0 := by
  induction l with
  | nil => rfl
  | cons a l ih =>
    simp only [List.map_cons, findTableLength, List.find?_cons]
    by_cases h : (f a).tag = tagVal
    · simp [h]
    · simp [h, ih]

theorem tag_eq_iff (fontData : List Byte) (pos : Nat) (b0 b1 b2 b3 : Byte) :
    (entryAt fontData pos).tag = b0.val + 256 * b1.val + 65536 * b2.val + 16777216 * b3.val ↔
      bytesAt fontData pos = [b0.val, b1.val, b2.val, b3.val] := by
  have h0 := byteD_lt fontData pos
  have h1 := byteD_lt fontData (pos + 1)
  have h2 := byteD_lt fontData (pos + 2)
  have h3 := byteD_lt fontData (pos + 3)
  have g0 := b0.isLt
  have g1 := b1.isLt
  have g2 := b2.isLt
  have g3 := b3.isLt
  simp only [entryAt, bytesAt, List.cons.injEq, and_true]
  constructor
  · intro h; omega
  · intro h; omega

theorem load32_tag (b0 b1 b2 b3 : Byte) :
    load32 ([b0, b1, b2, b3] ++ [0]) 0 =
      .ret (b0.val + 256 * b1.val + 65536 * b2.val + 16777216 * b3.val) := by
  simp [load32, byteD]


/-! ## `hmtx`: the two loops -/

theorem resizeMetrics_length (m : List GlyphMetrics) (n : Nat) : (resizeMetrics m n).length = n := by
  unfold resizeMetrics
  simp [List.length_take]
  omega

theorem hmtxLongLoop_ret (fontData : List Byte) (hsize : fontData.length < 2 ^ 32) (count : Nat) :
    ∀ (i offset : Nat) (metrics : List GlyphMetrics) (off2 : Nat) (m2 : List GlyphMetrics),
    hmtxLongLoop fontData count i offset metrics = .ret (true, off2, m2) →
    m2.length = metrics.length ∧ off2 = offset + 4 * count ∧
    (count ≠ 0 → i + count ≤ metrics.length ∧ offset + 4 * count ≤ fontData.length) ∧
    (∀ j, j < i → m2[j]? = metrics[j]?) ∧
    (∀ j, i + count ≤ j → m2[j]? = metrics[j]?) ∧
    (∀ j, j < count → m2[i + j]?.map (fun m => m.advanceWidth) = some (word16 fontData (offset + 4 * j))) := by
  induction count with
  | zero =>
    intro i offset metrics off2 m2 h
    simp [hmtxLongLoop] at h
    obtain ⟨h1, h2⟩ := h
    subst h1 h2
    simp
  | succ n ih =>
    intro i offset metrics off2 m2 h
    unfold hmtxLongLoop at h
    split at h
    · simp at h
    · rw [be16_eq] at h
      split at h
      · rename_i hr1
        simp only [Outcome.ret_bind] at h
        rw [u32_of_lt (show offset + 2 < 4294967296 by omega), be16_eq] at h
        split at h
        · rename_i hr2
          simp only [Outcome.ret_bind] at h
          split at h
          · rename_i hi
            rw [u32_of_lt (show offset + 4 < 4294967296 by omega)] at h
            obtain ⟨a1, a2, a3, a4, a5, a6⟩ := ih _ _ _ _ _ h
            simp only [List.length_set] at a1 a3
            refine ⟨a1, by omega, ?_, ?_, ?_, ?_⟩
            · intro _
              by_cases hn : n = 0
              · subst hn; omega
              · have := a3 hn; omega
            · intro j hj
              rw [a4 j (by omega), List.getElem?_set_ne (by omega)]
            · intro j hj
              rw [a5 j (by omega), List.getElem?_set_ne (by omega)]
            · intro j hj
              cases j with
              | zero =>
                simp only [Nat.add_zero, Nat.mul_zero]
                rw [a4 i (by omega)]
                simp [List.getElem?_set, hi]
              | succ j =>
                have := a6 j (by omega)
                have e1 : i + (j + 1) = i + 1 + j := by omega
                have e2 : offset + 4 * (j + 1) = offset + 4 + 4 * j := by omega
                rw [e1, e2]
                exact this
          · simp at h
        · simp at h
      · simp at h

theorem hmtxShortLoop_ret (fontData : List Byte) (last : Nat) (count : Nat) :
    ∀ (i offset : Nat) (metrics m2 : List GlyphMetrics),
    hmtxShortLoop fontData last count i offset metrics = .ret m2 →
    m2.length = metrics.length ∧
    (∀ j, j < i → m2[j]? = metrics[j]?) ∧
    (∀ j, j < count → m2[i + j]?.map (fun m => m.advanceWidth) = some last) := by
  induction count with
  | zero =>
    intro i offset metrics m2 h
    simp [hmtxShortLoop] at h
    subst h
    simp
  | succ n ih =>
    intro i offset metrics m2 h
    unfold hmtxShortLoop at h
    rw [be16_eq] at h
    split at h
    · simp only [Outcome.ret_bind] at h
      split at h
      · rename_i hi
        obtain ⟨a1, a2, a3⟩ := ih _ _ _ _ h
        simp only [List.length_set] at a1
        refine ⟨a1, ?_, ?_⟩
        · intro j hj
          rw [a2 j (by omega), List.getElem?_set_ne (by omega)]
        · intro j hj
          cases j with
          | zero =>
            simp only [Nat.add_zero]
            rw [a2 i (by omega)]
            simp [List.getElem?_set, hi]
          | succ j =>
            have := a3 j (by omega)
            have e1 : i + (j + 1) = i + 1 + j := by omega
            rw [e1]
            exact this
      · simp at h
    · simp at h


/-! ## `loca`: the offset loops and the `glyf` check -/

theorem locaLongLoop_true (fontData : List Byte) (count : Nat) :
    ∀ (offset prev : Nat) (loca l2 : LocaTable),
    locaLongLoop fontData count offset prev loca = .ret (true, l2) →
    ∃ new, l2.offsets = loca.offsets ++ new ∧ new.length = count ∧ List.Chain (· ≤ ·) prev new := by
  induction count with
  | zero =>
    intro offset prev loca l2 h
    simp [locaLongLoop] at h
    subst h
    exact ⟨[], by simp⟩
  | succ n ih =>
    intro offset prev loca l2 h
    unfold locaLongLoop at h
    split at h
    · simp at h
    · cases hb : be32 fontData offset with
      | fault => simp [hb] at h
      | timeout => simp [hb] at h
      | ret v =>
        simp only [hb, Outcome.ret_bind] at h
        split at h
        · simp at h
        · rename_i hge
          obtain ⟨new, h1, h2, h3⟩ := ih _ _ _ _ h
          refine ⟨v :: new, ?_, by simp [h2], ?_⟩
          · rw [h1]; simp
          · exact List.Chain.cons (by omega) h3

theorem locaLongLoop_total (fontData : List Byte) (count : Nat) :
    ∀ (offset prev : Nat) (loca : LocaTable), offset + 4 * count < 2 ^ 32 →
    ∃ b l2, locaLongLoop fontData count offset prev loca = .ret (b, l2) ∧
      (b = true → offset + 4 * count ≤ fontData.length ∨ count = 0) ∧
      (b = true → l2.offsets = loca.offsets ++
        (List.range count).map (fun j => word32 fontData (offset + 4 * j))) ∧
      (b = true → ∀ j, j + 1 < count →
        word32 fontData (offset + 4 * j) ≤ word32 fontData (offset + 4 * (j + 1))) ∧
      (b = true → count ≠ 0 → prev ≤ word32 fontData offset) := by
  induction count with
  | zero =>
    intro offset prev loca _
    exact ⟨true, loca, by simp [locaLongLoop]⟩
  | succ n ih =>
    intro offset prev loca hnw
    unfold locaLongLoop
    rw [u32_of_lt (show offset + 4 < 4294967296 by omega)]
    split
    · exact ⟨false, loca, rfl, by simp, by simp, by simp, by simp⟩
    · rw [be32_of_le (by omega)]
      simp only [Outcome.ret_bind]
      split
      · exact ⟨false, loca, rfl, by simp, by simp, by simp, by simp⟩
      · obtain ⟨b, l2, h1, h2, h3, h4, h5⟩ := ih (offset + 4) (word32 fontData offset)
          { loca with offsets := loca.offsets ++ [word32 fontData offset] } (by omega)
        refine ⟨b, l2, h1, ?_, ?_, ?_, fun _ _ => by omega⟩
        rotate_left 2
        · intro hb j hj
          cases j with
          | zero =>
            have := h5 hb (by omega)
            simpa using this
          | succ j =>
            have := h4 hb j (by omega)
            rw [show offset + 4 * (j + 1) = offset + 4 + 4 * j by omega,
              show offset + 4 * (j + 1 + 1) = offset + 4 + 4 * (j + 1) by omega]
            exact this
        · intro hb
          left
          rcases h2 hb with h | h
          · omega
          · subst h; omega
        · intro hb
          rw [h3 hb, List.range_succ_eq_map, List.map_cons, List.map_map]
          simp only [List.append_assoc, List.singleton_append, Nat.mul_zero, Nat.add_zero]
          congr 2
          apply List.map_congr_left
          intro a _
          simp only [Function.comp]
          congr 1
          omega

theorem locaShortLoop_true (fontData : List Byte) (count : Nat) :
    ∀ (offset prev : Nat) (loca l2 : LocaTable),
    locaShortLoop fontData count offset prev loca = .ret (true, l2) →
    ∃ new, l2.offsets = loca.offsets ++ new ∧ new.length = count ∧ List.Chain (· ≤ ·) prev new := by
  induction count with
  | zero =>
    intro offset prev loca l2 h
    simp [locaShortLoop] at h
    subst h
    exact ⟨[], by simp⟩
  | succ n ih =>
    intro offset prev loca l2 h
    unfold locaShortLoop at h
    split at h
    · simp at h
    · cases hb : be16 fontData offset with
      | fault => simp [hb] at h
      | timeout => simp [hb] at h
      | ret v =>
        simp only [hb, Outcome.ret_bind] at h
        split at h
        · simp at h
        · rename_i hge
          obtain ⟨new, h1, h2, h3⟩ := ih _ _ _ _ h
          refine ⟨u32 (v * 2) :: new, ?_, by simp [h2], ?_⟩
          · rw [h1]; simp
          · exact List.Chain.cons (by omega) h3

theorem locaShortLoop_total (fontData : List Byte) (count : Nat) :
    ∀ (offset prev : Nat) (loca : LocaTable), offset + 2 * count < 2 ^ 32 →
    ∃ b l2, locaShortLoop fontData count offset prev loca = .ret (b, l2) ∧
      (b = true → offset + 2 * count ≤ fontData.length ∨ count = 0) ∧
      (b = true → l2.offsets = loca.offsets ++
        (List.range count).map (fun j => 2 * word16 fontData (offset + 2 * j))) ∧
      (b = true → ∀ j, j + 1 < count →
        2 * word16 fontData (offset + 2 * j) ≤ 2 * word16 fontData (offset + 2 * (j + 1))) ∧
      (b = true → count ≠ 0 → prev ≤ 2 * word16 fontData offset) := by
  induction count with
  | zero =>
    intro offset prev loca _
    exact ⟨true, loca, by simp [locaShortLoop]⟩
  | succ n ih =>
    intro offset prev loca hnw
    unfold locaShortLoop
    rw [u32_of_lt (show offset + 2 < 4294967296 by omega)]
    split
    · exact ⟨false, loca, rfl, by simp, by simp, by simp, by simp⟩
    · rw [be16_of_le (by omega)]
      simp only [Outcome.ret_bind]
      have hw := word16_lt fontData offset
      rw [u32_of_lt (show word16 fontData offset * 2 < 4294967296 by omega)]
      split
      · exact ⟨false, loca, rfl, by simp, by simp, by simp, by simp⟩
      · obtain ⟨b, l2, h1, h2, h3, h4, h5⟩ := ih (offset + 2) (word16 fontData offset * 2)
          { loca with offsets := loca.offsets ++ [word16 fontData offset * 2] } (by omega)
        refine ⟨b, l2, h1, ?_, ?_, ?_, fun _ _ => by omega⟩
        rotate_left 2
        · intro hb j hj
          cases j with
          | zero =>
            have := h5 hb (by omega)
            simp only [Nat.mul_zero, Nat.add_zero, Nat.zero_add, Nat.mul_one]
            omega
          | succ j =>
            have := h4 hb j (by omega)
            rw [show offset + 2 * (j + 1) = offset + 2 + 2 * j by omega,
              show offset + 2 * (j + 1 + 1) = offset + 2 + 2 * (j + 1) by omega]
            exact this
        · intro hb
          left
          rcases h2 hb with h | h
          · omega
          · subst h; omega
        · intro hb
          rw [h3 hb, List.range_succ_eq_map, List.map_cons, List.map_map]
          simp only [List.append_assoc, List.singleton_append, Nat.mul_zero, Nat.add_zero]
          congr 2
          · omega
          · apply List.map_congr_left
            intro a _
            simp only [Function.comp]
            congr 2
            omega

theorem locaLoop_true (p : TTFParser) (headTable : HeadTable) (locaOffset : Nat)
    (loca l2 : LocaTable) (h : locaLoop p headTable locaOffset loca = .ret (true, l2)) :
    (headTable.indexToLocFormat = 0 ∨ headTable.indexToLocFormat = 1) ∧
    ∃ new, l2.offsets = loca.offsets ++ new ∧ new.length = p.numGlyphs + 1 ∧
      List.Chain (· ≤ ·) 0 new := by
  unfold locaLoop at h
  split at h
  · exact ⟨Or.inl (by assumption), locaShortLoop_true _ _ _ _ _ _ h⟩
  · split at h
    · exact ⟨Or.inr (by assumption), locaLongLoop_true _ _ _ _ _ _ h⟩
    · simp at h

theorem locaLoop_total (p : TTFParser) (headTable : HeadTable) (locaOffset : Nat)
    (loca : LocaTable)
    (hnw : locaOffset + locaEntrySize headTable.indexToLocFormat * (p.numGlyphs + 1) < 2 ^ 32) :
    ∃ b l2, locaLoop p headTable locaOffset loca = .ret (b, l2) ∧
      (b = true →
        locaOffset + locaEntrySize headTable.indexToLocFormat * (p.numGlyphs + 1)
          ≤ p.fontData.length ∧
        l2.offsets = loca.offsets ++ (List.range (p.numGlyphs + 1)).map
          (fun j => locaEntry p.fontData headTable.indexToLocFormat locaOffset j) ∧
        (∀ j, j < p.numGlyphs →
          locaEntry p.fontData headTable.indexToLocFormat locaOffset j ≤
            locaEntry p.fontData headTable.indexToLocFormat locaOffset (j + 1))) := by
  unfold locaLoop
  by_cases hf0 : headTable.indexToLocFormat = 0
  · obtain ⟨b, l2, h1, h2, h3, h4, _⟩ := locaShortLoop_total p.fontData (p.numGlyphs + 1)
      locaOffset 0 loca (by simpa [locaEntrySize, hf0] using hnw)
    refine ⟨b, l2, by rw [if_pos hf0, h1], fun hb => ⟨?_, ?_, ?_⟩⟩
    · have := h2 hb
      simp only [locaEntrySize, hf0, ↓reduceIte]
      omega
    · simp only [locaEntry, hf0, ↓reduceIte]
      exact h3 hb
    · intro j hj
      simp only [locaEntry, hf0, ↓reduceIte]
      exact h4 hb j (by omega)
  · by_cases hf1 : headTable.indexToLocFormat = 1
    · obtain ⟨b, l2, h1, h2, h3, h4, _⟩ := locaLongLoop_total p.fontData (p.numGlyphs + 1)
        locaOffset 0 loca (by simpa [locaEntrySize, hf0] using hnw)
      refine ⟨b, l2, by rw [if_neg hf0, if_pos hf1, h1], fun hb => ⟨?_, ?_, ?_⟩⟩
      · have := h2 hb
        simp only [locaEntrySize, hf0, ↓reduceIte]
        omega
      · simp only [locaEntry, hf0, ↓reduceIte]
        exact h3 hb
      · intro j hj
        simp only [locaEntry, hf0, ↓reduceIte]
        exact h4 hb j (by omega)
    · exact ⟨false, loca, by rw [if_neg hf0, if_neg hf1], by simp⟩

theorem getTableOffset_glyf (p : TTFParser) :
    getTableOffset p glyfTag = .ret (findTableOffset 1719233639 p.offsetTable.tableDirectoryEntries) := by
  simp [getTableOffset, glyfTag, load32, byteD]
  rfl

theorem getTableLength_glyf (p : TTFParser) :
    getTableLength p glyfTag = .ret (findTableLength 1719233639 p.offsetTable.tableDirectoryEntries) := by
  simp [getTableLength, glyfTag, load32, byteD]
  rfl

theorem getLast?_append_map_range (l : List Nat) (f : Nat → Nat) (n : Nat) :
    (l ++ (List.range (n + 1)).map f).getLast? = some (f n) := by
  rw [List.range_succ, List.map_append, ← List.append_assoc]
  simp

theorem locaGlyfCheck_true (p : TTFParser) (loca result : LocaTable)
    (h : locaGlyfCheck p loca = .ret (true, result)) :
    result = loca ∧ findTableOffset 1719233639 p.offsetTable.tableDirectoryEntries ≠ 0 ∧
    ∃ last, loca.offsets.getLast? = some last ∧
      last ≤ findTableLength 1719233639 p.offsetTable.tableDirectoryEntries := by
  unfold locaGlyfCheck at h
  simp only [getTableOffset_glyf, getTableLength_glyf, Outcome.ret_bind] at h
  split at h
  · simp at h
  · split at h
    · simp at h
    · rename_i last hlast
      split at h
      · simp at h
      · simp only [Outcome.ret.injEq, Prod.mk.injEq, true_and] at h
        exact ⟨h.symm, by omega, last, hlast, by omega⟩

theorem locaGlyfCheck_total (p : TTFParser) (loca : LocaTable) (last : Nat)
    (hlast : loca.offsets.getLast? = some last) :
    ∃ b, locaGlyfCheck p loca = .ret (b, loca) := by
  unfold locaGlyfCheck
  simp only [getTableOffset_glyf, getTableLength_glyf, Outcome.ret_bind, hlast]
  split
  · exact ⟨false, rfl⟩
  · split
    · exact ⟨false, rfl⟩
    · exact ⟨true, rfl⟩

/-- Summary of a run of `parseLocaTable` whose offset array does not wrap. -/
theorem parseLocaTable_total (p : TTFParser) (headTable : HeadTable) (locaOffset : Nat)
    (loca : LocaTable)
    (hnw : locaOffset + locaEntrySize headTable.indexToLocFormat * (p.numGlyphs + 1) < 2 ^ 32) :
    ∃ b l2, parseLocaTable p headTable locaOffset loca = .ret (b, l2) ∧
      (b = true →
        locaOffset + locaEntrySize headTable.indexToLocFormat * (p.numGlyphs + 1)
          ≤ p.fontData.length ∧
        (∀ j, j < p.numGlyphs →
          locaEntry p.fontData headTable.indexToLocFormat locaOffset j ≤
            locaEntry p.fontData headTable.indexToLocFormat locaOffset (j + 1)) ∧
        findTableOffset 1719233639 p.offsetTable.tableDirectoryEntries ≠ 0 ∧
        locaEntry p.fontData headTable.indexToLocFormat locaOffset p.numGlyphs ≤
          findTableLength 1719233639 p.offsetTable.tableDirectoryEntries) := by
  unfold parseLocaTable
  split
  · exact ⟨false, loca, rfl, by simp⟩
  · obtain ⟨b, l2, h1, h2⟩ := locaLoop_total p headTable locaOffset loca hnw
    rw [h1, Outcome.bind_ret]
    cases b with
    | false => exact ⟨false, l2, by simp, by simp⟩
    | true =>
      obtain ⟨g1, g2, g3⟩ := h2 rfl
      have hlast : l2.offsets.getLast? = some
          (locaEntry p.fontData headTable.indexToLocFormat locaOffset p.numGlyphs) := by
        rw [g2, getLast?_append_map_range]
      obtain ⟨b2, hb2⟩ := locaGlyfCheck_total p l2 _ hlast
      refine ⟨b2, l2, by simpa using hb2, ?_⟩
      intro hb
      subst hb
      obtain ⟨_, k1, last, k2, k3⟩ := locaGlyfCheck_true p l2 _ hb2
      rw [hlast] at k2
      injection k2 with k2
      subst k2
      exact ⟨g1, g3, k1, k3⟩

/-- What a run of `parseLocaTable` that returns `true` has established. -/
theorem parseLocaTable_true (p : TTFParser) (headTable : HeadTable) (locaOffset : Nat)
    (loca result : LocaTable)
    (h : parseLocaTable p headTable locaOffset loca = .ret (true, result)) :
    (headTable.indexToLocFormat = 0 ∨ headTable.indexToLocFormat = 1) ∧
    (∃ new, result.offsets = loca.offsets ++ new ∧ new.length = p.numGlyphs + 1 ∧
      List.Chain (· ≤ ·) 0 new) ∧
    findTableOffset 1719233639 p.offsetTable.tableDirectoryEntries ≠ 0 ∧
    ∃ last, result.offsets.getLast? = some last ∧
      last ≤ findTableLength 1719233639 p.offsetTable.tableDirectoryEntries := by
  unfold parseLocaTable at h
  split at h
  · simp at h
  · cases hl : locaLoop p headTable locaOffset loca with
    | fault => simp [hl] at h
    | timeout => simp [hl] at h
    | ret x =>
      obtain ⟨b, l2⟩ := x
      rw [hl, Outcome.bind_ret] at h
      cases b with
      | false => simp at h
      | true =>
        simp only [Bool.not_true, Bool.false_eq_true, ↓reduceIte] at h
        obtain ⟨k0, k1, k2⟩ := locaGlyfCheck_true p l2 _ h
        subst k0
        obtain ⟨f1, f2⟩ := locaLoop_true p headTable locaOffset loca _ hl
        exact ⟨f1, f2, k1, k2⟩
theorem findTableOffset_ne_zero (tagVal : Nat) (l : List TableDirectoryEntry)
    (h : findTableOffset tagVal l ≠ 0) : ∃ e ∈ l, e.tag = tagVal := by
  induction l with
  | nil => simp [findTableOffset] at h
  | cons e l ih =>
    unfold findTableOffset at h
    split at h
    · exact ⟨e, by simp, by assumption⟩
    · obtain ⟨e2, h1, h2⟩ := ih h
      exact ⟨e2, by simp [h1], h2⟩


/-! ## Table directory: facts about `readOffsetTable` -/

/-- What a successful `readOffsetTable` on a freshly loaded parser has established: the
directory lies in the buffer and the stored entries are the file's entries, in file order. -/
theorem readOffsetTable_true (sizeofOffsetTable : Nat) (fontData : List Byte) (p : TTFParser)
    (hload : readOffsetTable sizeofOffsetTable (TTFParser.loaded fontData) = .ret (true, p)) :
    12 + 16 * word16 fontData 4 ≤ fontData.length ∧
    p.fontData = fontData ∧
    p.offsetTable.tableDirectoryEntries =
      (List.range (word16 fontData 4)).map (fun k => entryAt fontData (12 + 16 * k)) := by
  unfold readOffsetTable at hload
  split at hload
  · simp at hload
  · simp only [TTFParser.loaded, be32_eq, be16_eq] at hload
    split at hload
    · simp only [Outcome.ret_bind] at hload
      split at hload
      · simp only [Outcome.ret_bind] at hload
        split at hload
        · simp only [Outcome.ret_bind] at hload
          split at hload
          · simp only [Outcome.ret_bind] at hload
            split at hload
            · rename_i h12
              simp only [Outcome.ret_bind] at hload
              obtain ⟨h1, h2, h3⟩ := readDirectoryEntries_ret _ _ _ _ hload
              simp only [List.nil_append] at h3
              refine ⟨?_, h1, h3⟩
              by_cases hn : word16 fontData 4 = 0
              · rw [hn]; omega
              · exact h2 hn
            · simp at hload
          · simp at hload
        · simp at hload
      · simp at hload
    · simp at hload

/-! ## Claims -/

/-- Supporting fact for C1: in a run of `readOffsetTable` that returns `true`, every stored entry
satisfies `offset + length ≤ fontData.size()` with the exact sum.  (An entry that passes the
wrapped test but violates the exact bound does not lead to `return false`, see C1.) -/
theorem readOffsetTable_true_entries_in_range (sizeofOffsetTable : Nat) (fontData : List Byte)
    (p : TTFParser)
    (hload : readOffsetTable sizeofOffsetTable (TTFParser.loaded fontData) = .ret (true, p)) :
    ∀ entry ∈ p.offsetTable.tableDirectoryEntries,
      entry.offset + entry.length ≤ fontData.length := by
  have key : ∀ (n offset : Nat) (q r : TTFParser),
      readDirectoryEntries n offset q = .ret (true, r) →
      (∀ e ∈ q.offsetTable.tableDirectoryEntries, e.offset + e.length ≤ q.fontData.length) →
      r.fontData = q.fontData ∧
      ∀ e ∈ r.offsetTable.tableDirectoryEntries, e.offset + e.length ≤ q.fontData.length := by
    intro n
    induction n with
    | zero =>
      intro offset q r h hq
      simp [readDirectoryEntries] at h
      subst h
      exact ⟨rfl, hq⟩
    | succ n ih =>
      intro offset q r h hq
      unfold readDirectoryEntries at h
      split at h
      · simp at h
      · unfold load32 at h
        rw [if_pos (by omega), be32_of_le (by omega), be32_of_le (by omega),
          be32_of_le (by omega)] at h
        simp only [Outcome.ret_bind] at h
        split at h
        · simp at h
        · split at h
          · rename_i hex
            obtain ⟨h1, h2⟩ := ih _ _ _ h (by
              intro e he
              simp only [List.mem_append, List.mem_singleton] at he
              rcases he with he | he
              · exact hq e he
              · subst he; exact hex)
            exact ⟨h1, h2⟩
          · simp at h
  unfold readOffsetTable at hload
  split at hload
  · simp at hload
  · cases h1 : be32 (TTFParser.loaded fontData).fontData 0 with
    | fault => simp [h1] at hload
    | timeout => simp [h1] at hload
    | ret v1 =>
      cases h2 : be16 (TTFParser.loaded fontData).fontData 4 with
      | fault => simp [h1, h2] at hload
      | timeout => simp [h1, h2] at hload
      | ret v2 =>
        cases h3 : be16 (TTFParser.loaded fontData).fontData 6 with
        | fault => simp [h1, h2, h3] at hload
        | timeout => simp [h1, h2, h3] at hload
        | ret v3 =>
          cases h4 : be16 (TTFParser.loaded fontData).fontData 8 with
          | fault => simp [h1, h2, h3, h4] at hload
          | timeout => simp [h1, h2, h3, h4] at hload
          | ret v4 =>
            cases h5 : be16 (TTFParser.loaded fontData).fontData 10 with
            | fault => simp [h1, h2, h3, h4, h5] at hload
            | timeout => simp [h1, h2, h3, h4, h5] at hload
            | ret v5 =>
              simp only [h1, h2, h3, h4, h5, Outcome.ret_bind] at hload
              exact (key _ _ _ _ hload (by simp [TTFParser.loaded])).2

/-- C1 (the code departs from the claim).  On `wrapFont`, whose only directory entry has
`offset = 0xFFFFFFFF` and `length = 1`, the exact sum `offset + length` is `2 ^ 32`, far beyond
the 64 bytes of the buffer, but the 32-bit sum computed by `readOffsetTable` is `0`: the range
test passes, the entry stays in the directory and the table copy reads outside the buffer.
The load does not return `false`, whichever of the usual values `sizeof(OffsetTable)` has. -/
theorem readOffsetTable_wrapped_sum_not_rejected :
    wrapFont.length = 64 ∧
    be32 wrapFont 20 = .ret 4294967295 ∧ be32 wrapFont 24 = .ret 1 ∧
    ¬ (wrapFont.length < u32 (4294967295 + 1)) ∧
    readOffsetTable 24 (TTFParser.loaded wrapFont) = .fault ∧
    readOffsetTable 28 (TTFParser.loaded wrapFont) = .fault ∧
    readOffsetTable 40 (TTFParser.loaded wrapFont) = .fault ∧
    readOffsetTable 48 (TTFParser.loaded wrapFont) = .fault := by
  refine ⟨by decide, by decide, by decide, by decide, by decide, by decide, by decide,
    by decide⟩

/-- C2.  After a successful load, `getTableOffset` and `getTableLength` of a 4-byte tag return
the offset and length fields (bytes 8..11 and 12..15 of the 16-byte record) of the first
directory record, in file order, whose four tag bytes as stored in the file equal the bytes of
the tag, and `0` when there is none.  The `numTables` records start at byte 12 and lie in the
buffer. -/
theorem getTableOffset_getTableLength_first_match (sizeofOffsetTable : Nat)
    (fontData : List Byte) (p : TTFParser)
    (hload : readOffsetTable sizeofOffsetTable (TTFParser.loaded fontData) = .ret (true, p))
    (b0 b1 b2 b3 : Byte) :
    12 + 16 * word16 fontData 4 ≤ fontData.length ∧
    getTableOffset p [b0, b1, b2, b3] = .ret
      (match (List.range (word16 fontData 4)).find?
          (fun k => decide (bytesAt fontData (12 + 16 * k) = [b0.val, b1.val, b2.val, b3.val])) with
        | some k => word32 fontData (12 + 16 * k + 8)
        | none => 0) ∧
    getTableLength p [b0, b1, b2, b3] = .ret
      (match (List.range (word16 fontData 4)).find?
          (fun k => decide (bytesAt fontData (12 + 16 * k) = [b0.val, b1.val, b2.val, b3.val])) with
        | some k => word32 fontData (12 + 16 * k + 12)
        | none => 0) := by
  obtain ⟨hin, _, h3⟩ := readOffsetTable_true sizeofOffsetTable fontData p hload
  have hp : ∀ k, decide ((entryAt fontData (12 + 16 * k)).tag =
      b0.val + 256 * b1.val + 65536 * b2.val + 16777216 * b3.val) =
      decide (bytesAt fontData (12 + 16 * k) = [b0.val, b1.val, b2.val, b3.val]) := by
    intro k
    simp only [tag_eq_iff]
  refine ⟨hin, ?_, ?_⟩
  · unfold getTableOffset
    rw [load32_tag, Outcome.ret_bind, h3, findTableOffset_map]
    simp only [hp]
    rfl
  · unfold getTableLength
    rw [load32_tag, Outcome.ret_bind, h3, findTableLength_map]
    simp only [hp]
    rfl

/-- Witness for C2: `demoFont` loads, and the tag "loca" resolves to the second record. -/
theorem getTableOffset_getTableLength_first_match_witness :
    readOffsetTable 40 (TTFParser.loaded demoFont) = .ret (true, demoLoaded) ∧
    getTableOffset demoLoaded locaTag = .ret 64 ∧
    getTableLength demoLoaded locaTag = .ret 16 :=
  ⟨by decide,
   (getTableOffset_getTableLength_first_match 40 demoFont demoLoaded (by decide)
      0x6C 0x6F 0x63 0x61).2.1.trans (by decide),
   (getTableOffset_getTableLength_first_match 40 demoFont demoLoaded (by decide)
      0x6C 0x6F 0x63 0x61).2.2.trans (by decide)⟩

/-- C3.  In a buffer below 4 GiB, when the big-endian 32-bit value at bytes
`offset + 12 .. offset + 15` is not `0x5F0F3CF5`, `parseHeadTable` returns `false`, whatever
the other bytes (the version field included) and whatever `headTable` held before. -/
theorem parseHeadTable_bad_magic_false (fontData : List Byte) (headTable : HeadTable)
    (offset m : Nat) (hsize : fontData.length < 2 ^ 32)
    (hm : be32 fontData (offset + 12) = .ret m) (hne : m ≠ 0x5F0F3CF5) :
    ∃ h, parseHeadTable fontData headTable offset = .ret (false, h) := by
  obtain ⟨hin, hmv⟩ := be32_ret hm
  unfold parseHeadTable
  split
  · exact ⟨_, rfl⟩
  · rw [be32_of_le (show offset + 4 ≤ fontData.length by omega)]
    simp only [Outcome.ret_bind]
    split
    · exact ⟨_, rfl⟩
    · rw [u32_of_lt (show offset + 4 < 4294967296 by omega),
        u32_of_lt (show offset + 8 < 4294967296 by omega),
        u32_of_lt (show offset + 12 < 4294967296 by omega),
        be32_of_le (show offset + 4 + 4 ≤ fontData.length by omega),
        be32_of_le (show offset + 8 + 4 ≤ fontData.length by omega),
        be32_of_le (show offset + 12 + 4 ≤ fontData.length by omega)]
      simp only [Outcome.ret_bind]
      rw [if_pos (by rw [← hmv]; exact hne)]
      exact ⟨_, rfl⟩

/-- Witness for C3: a 154-byte buffer with a valid version and `0x5F0F3CF4` at byte 112. -/
theorem parseHeadTable_bad_magic_false_witness :
    headBufferBadMagic.length < 2 ^ 32 ∧
    be32 headBufferBadMagic (100 + 12) = .ret 0x5F0F3CF4 ∧
    ∃ h, parseHeadTable headBufferBadMagic HeadTable.zero 100 = .ret (false, h) :=
  ⟨by decide, by decide,
   parseHeadTable_bad_magic_false headBufferBadMagic HeadTable.zero 100 0x5F0F3CF4
     (by decide) (by decide) (by decide)⟩

/-- C4, counterexample.  A buffer of exactly 154 bytes with the magic number at bytes
112..115 on which `parseHeadTable(100)` returns `false`: its version field is not
`0x00010000`. -/
theorem parseHeadTable_magic_alone_rejected :
    headBufferMagicOnly.length = 154 ∧
    be32 headBufferMagicOnly 112 = .ret 0x5F0F3CF5 ∧
    parseHeadTable headBufferMagicOnly HeadTable.zero 100 = .ret (false, HeadTable.zero) := by
  refine ⟨by decide, by decide, by decide⟩

/-- C4, amended.  For every buffer of exactly 154 bytes whose bytes 100..103 hold the version
`0x00010000` and whose bytes 112..115 hold the magic number `0x5F0F3CF5`,
`parseHeadTable(100)` returns `true`. -/
theorem parseHeadTable_version_and_magic_true (fontData : List Byte) (headTable : HeadTable)
    (hlen : fontData.length = 154)
    (hv : be32 fontData 100 = .ret 0x00010000)
    (hm : be32 fontData 112 = .ret 0x5F0F3CF5) :
    ∃ h, parseHeadTable fontData headTable 100 = .ret (true, h) := by
  have h100 := (be32_ret hv).2
  have h112 := (be32_ret hm).2
  unfold parseHeadTable
  simp [be16_eq, be32_eq, be64_eq, hlen, u32, ← h100, ← h112, fixedToFloat_one]

/-- Witness for the amended C4. -/
theorem parseHeadTable_version_and_magic_true_witness :
    headBufferValid.length = 154 ∧
    ∃ h, parseHeadTable headBufferValid HeadTable.zero 100 = .ret (true, h) :=
  ⟨by decide,
   parseHeadTable_version_and_magic_true headBufferValid HeadTable.zero
     (by decide) (by decide) (by decide)⟩

/-- Supporting fact for C5: when `offset + 54` does not wrap, a buffer shorter than
`offset + 54` makes `parseHeadTable` return `false` with `headTable` untouched (in particular
a 153-byte buffer with `offset = 100`). -/
theorem parseHeadTable_short_buffer (fontData : List Byte) (headTable : HeadTable)
    (offset : Nat) (hnw : offset + 54 < 2 ^ 32) (hshort : fontData.length < offset + 54) :
    parseHeadTable fontData headTable offset = .ret (false, headTable) := by
  unfold parseHeadTable
  rw [u32_of_lt (by omega), if_pos hshort]

/-- C5 (the code departs from the claim).  With `offset = 0xFFFFFFCA` the exact value of
`offset + 54` is `2 ^ 32`, so a 60-byte buffer is shorter than `offset + 54`; the 32-bit sum
computed by `parseHeadTable` is `0`, the size test passes and the version field is read
outside the buffer.  The call does not return `false`. -/
theorem parseHeadTable_wrapped_size_test :
    (List.replicate 60 (0 : Byte)).length < 4294967242 + 54 ∧
    u32 (4294967242 + 54) = 0 ∧
    parseHeadTable (List.replicate 60 0) HeadTable.zero 4294967242 = .fault := by
  refine ⟨by decide, by decide, by decide⟩

/-- C6.  In a buffer below 4 GiB, with `numGlyphs = N` and `numOfLongHorMetrics ≤ N`, a call
of `parseHmtxTable` that returns `true` leaves exactly `N` metrics; for `i` below
`numOfLongHorMetrics` the advance width of entry `i` is the big-endian 16-bit word at
`offset + 4 * i`; every later entry below `N` has the advance width of entry
`numOfLongHorMetrics - 1`, and `0` when `numOfLongHorMetrics = 0`. -/
theorem parseHmtxTable_advance_widths (p : TTFParser) (offset numOfLongHorMetrics : Nat)
    (metrics result : List GlyphMetrics)
    (hsize : p.fontData.length < 2 ^ 32)
    (hk : numOfLongHorMetrics ≤ p.numGlyphs)
    (h : parseHmtxTable p offset numOfLongHorMetrics metrics = .ret (true, result)) :
    result.length = p.numGlyphs ∧
    (∀ i, i < numOfLongHorMetrics →
      offset + 4 * i + 2 ≤ p.fontData.length ∧
      result[i]?.map (fun m => m.advanceWidth) = some (word16 p.fontData (offset + 4 * i))) ∧
    (∀ i, numOfLongHorMetrics ≤ i → i < p.numGlyphs →
      result[i]?.map (fun m => m.advanceWidth) =
        if numOfLongHorMetrics = 0 then some 0
        else result[numOfLongHorMetrics - 1]?.map (fun m => m.advanceWidth)) := by
  unfold parseHmtxTable at h
  split at h
  · simp at h
  · cases hl : hmtxLongLoop p.fontData numOfLongHorMetrics 0 offset (resizeMetrics metrics p.numGlyphs) with
    | fault => simp [hl] at h
    | timeout => simp [hl] at h
    | ret r =>
      obtain ⟨ok, off2, m1⟩ := r
      simp only [hl, Outcome.ret_bind] at h
      cases ok with
      | false => simp at h
      | true =>
        simp only [Bool.not_true, Bool.false_eq_true, ↓reduceIte] at h
        obtain ⟨a1, a2, a3, a4, a5, a6⟩ := hmtxLongLoop_ret p.fontData hsize _ _ _ _ _ _ hl
        rw [resizeMetrics_length] at a1 a3
        simp only [Nat.zero_add] at a3 a5 a6
        by_cases hk0 : numOfLongHorMetrics > 0
        · rw [if_pos hk0] at h
          have hlt : numOfLongHorMetrics - 1 < m1.length := by omega
          obtain ⟨m, hm⟩ : ∃ m, m1[numOfLongHorMetrics - 1]? = some m :=
            ⟨_, List.getElem?_eq_getElem hlt⟩
          simp only [hm] at h
          cases hs : hmtxShortLoop p.fontData m.advanceWidth (p.numGlyphs - numOfLongHorMetrics)
              numOfLongHorMetrics off2 m1 with
          | fault => simp [hs] at h
          | timeout => simp [hs] at h
          | ret m2 =>
            simp only [hs, Outcome.ret_bind, Outcome.ret.injEq, Prod.mk.injEq, true_and] at h
            subst h
            obtain ⟨b1, b2, b3⟩ := hmtxShortLoop_ret _ _ _ _ _ _ _ hs
            have a3b := a3 (by omega)
            refine ⟨by omega, ?_, ?_⟩
            · intro i hi
              refine ⟨by omega, ?_⟩
              rw [b2 i hi]
              exact a6 i hi
            · intro i hi1 hi2
              rw [if_neg (by omega), b2 (numOfLongHorMetrics - 1) (by omega), hm]
              have := b3 (i - numOfLongHorMetrics) (by omega)
              rw [show numOfLongHorMetrics + (i - numOfLongHorMetrics) = i by omega] at this
              rw [this]
              rfl
        · rw [if_neg hk0] at h
          have hz : numOfLongHorMetrics = 0 := by omega
          cases hs : hmtxShortLoop p.fontData 0 (p.numGlyphs - numOfLongHorMetrics)
              numOfLongHorMetrics off2 m1 with
          | fault => simp [hs] at h
          | timeout => simp [hs] at h
          | ret m2 =>
            simp only [hs, Outcome.ret_bind, Outcome.ret.injEq, Prod.mk.injEq, true_and] at h
            subst h
            obtain ⟨b1, b2, b3⟩ := hmtxShortLoop_ret _ _ _ _ _ _ _ hs
            refine ⟨by omega, ?_, ?_⟩
            · intro i hi
              omega
            · intro i hi1 hi2
              have := b3 i (by omega)
              rw [hz, Nat.zero_add] at this
              rw [this, if_pos hz]

/-- Witness for C6: three glyphs, two long metrics; the third glyph reuses the width `20`. -/
theorem parseHmtxTable_advance_widths_witness :
    parseHmtxTable hmtxParser 0 2 [] = .ret (true,
      [{ advanceWidth := 10, lsb := 1 }, { advanceWidth := 20, lsb := 2 },
       { advanceWidth := 20, lsb := 3 }]) ∧
    ([{ advanceWidth := 10, lsb := 1 }, { advanceWidth := 20, lsb := 2 },
       { advanceWidth := 20, lsb := 3 }] : List GlyphMetrics).length = hmtxParser.numGlyphs :=
  ⟨by decide,
   (parseHmtxTable_advance_widths hmtxParser 0 2 [] _ (by decide) (by decide) (by decide)).1⟩

/-- C7.  First part: for either index format, a call of `parseLocaTable` on an empty
`LocaTable` that returns `true` leaves exactly `numGlyphs + 1` offsets, in non-decreasing
order (and the format is 0 or 1).  Second part: when the offset array ends below `2 ^ 32` (as it
does when it lies in a buffer below 4 GiB) and one of the first `numGlyphs + 1` decoded
offsets is smaller than its predecessor, `parseLocaTable` returns `false`. -/
theorem parseLocaTable_non_decreasing (p : TTFParser) (headTable : HeadTable)
    (locaOffset : Nat) :
    (∀ result, parseLocaTable p headTable locaOffset { offsets := [] } = .ret (true, result) →
      (headTable.indexToLocFormat = 0 ∨ headTable.indexToLocFormat = 1) ∧
      result.offsets.length = p.numGlyphs + 1 ∧
      List.Pairwise (· ≤ ·) result.offsets) ∧
    (∀ loca j,
      locaOffset + locaEntrySize headTable.indexToLocFormat * (p.numGlyphs + 1) < 2 ^ 32 →
      j < p.numGlyphs →
      locaEntry p.fontData headTable.indexToLocFormat locaOffset (j + 1) <
        locaEntry p.fontData headTable.indexToLocFormat locaOffset j →
      ∃ l2, parseLocaTable p headTable locaOffset loca = .ret (false, l2)) := by
  constructor
  · intro result h
    obtain ⟨hf, ⟨new, h1, h2, h3⟩, _, _⟩ := parseLocaTable_true p headTable locaOffset _ _ h
    simp only [List.nil_append] at h1
    rw [h1]
    refine ⟨hf, h2, ?_⟩
    have := (List.chain_iff_pairwise.mp h3)
    exact (List.pairwise_cons.mp this).2
  · intro loca j hnw hj hdesc
    obtain ⟨b, l2, h1, h2⟩ := parseLocaTable_total p headTable locaOffset loca hnw
    cases b with
    | false => exact ⟨l2, h1⟩
    | true =>
      obtain ⟨_, hs, _, _⟩ := h2 rfl
      have := hs j hj
      omega

/-- Witness for C7: the long offsets `[0, 10, 15, 20]` are accepted, `[0, 10, 5, 20]` are
rejected. -/
theorem parseLocaTable_non_decreasing_witness :
    (parseLocaTable (locaParser demoFont) headLong 64 { offsets := [] }
        = .ret (true, { offsets := [0, 10, 15, 20] }) ∧
      ([0, 10, 15, 20] : List Nat).length = (locaParser demoFont).numGlyphs + 1 ∧
      List.Pairwise (· ≤ ·) [0, 10, 15, 20]) ∧
    (locaEntry (locaFont 0 10 5 20) 1 64 2 = 5 ∧ locaEntry (locaFont 0 10 5 20) 1 64 1 = 10 ∧
      ∃ l2, parseLocaTable (locaParser (locaFont 0 10 5 20)) headLong 64 { offsets := [] }
        = .ret (false, l2)) :=
  ⟨⟨by decide,
    ((parseLocaTable_non_decreasing (locaParser demoFont) headLong 64).1
      { offsets := [0, 10, 15, 20] } (by decide)).2⟩,
   by decide, by decide,
   (parseLocaTable_non_decreasing (locaParser (locaFont 0 10 5 20)) headLong 64).2
     { offsets := [] } 1 (by decide) (by decide) (by decide)⟩

/-- C8.  First part: when `parseLocaTable` returns `true`, the directory has an entry with the
tag `glyf` and the last offset of the result is at most the length that `getTableLength`
reports for that tag.  Second part, for an offset array that ends below `2 ^ 32` (as it does
when it lies in a buffer below 4 GiB): the call returns `false` when the last decoded offset
exceeds that length, and when the directory has no entry with the tag `glyf`. -/
theorem parseLocaTable_last_offset_within_glyf (p : TTFParser) (headTable : HeadTable)
    (locaOffset : Nat) (loca : LocaTable) :
    (∀ result, parseLocaTable p headTable locaOffset loca = .ret (true, result) →
      ∃ glyfLength last, getTableLength p glyfTag = .ret glyfLength ∧
        result.offsets.getLast? = some last ∧ last ≤ glyfLength ∧
        ∃ entry ∈ p.offsetTable.tableDirectoryEntries, entry.tag = 1719233639) ∧
    (locaOffset + locaEntrySize headTable.indexToLocFormat * (p.numGlyphs + 1) < 2 ^ 32 →
      (∀ glyfLength, getTableLength p glyfTag = .ret glyfLength →
        locaEntry p.fontData headTable.indexToLocFormat locaOffset p.numGlyphs > glyfLength →
        ∃ l2, parseLocaTable p headTable locaOffset loca = .ret (false, l2)) ∧
      ((∀ entry ∈ p.offsetTable.tableDirectoryEntries, entry.tag ≠ 1719233639) →
        ∃ l2, parseLocaTable p headTable locaOffset loca = .ret (false, l2))) := by
  constructor
  · intro result h
    obtain ⟨_, _, hg, last, hl1, hl2⟩ := parseLocaTable_true p headTable locaOffset _ _ h
    exact ⟨_, last, getTableLength_glyf p, hl1, hl2, findTableOffset_ne_zero _ _ hg⟩
  · intro hnw
    obtain ⟨b, l2, h1, h2⟩ := parseLocaTable_total p headTable locaOffset loca hnw
    constructor
    · intro glyfLength hgl hgt
      cases b with
      | false => exact ⟨l2, h1⟩
      | true =>
        obtain ⟨_, _, _, hle⟩ := h2 rfl
        rw [getTableLength_glyf] at hgl
        injection hgl with hgl
        omega
    · intro hno
      cases b with
      | false => exact ⟨l2, h1⟩
      | true =>
        obtain ⟨_, _, hg, _⟩ := h2 rfl
        obtain ⟨e, he1, he2⟩ := findTableOffset_ne_zero _ _ hg
        exact absurd he2 (hno e he1)

/-- Witness for C8: with a `glyf` table of 20 bytes the offsets `[0, 10, 15, 20]` are
accepted, `[0, 10, 15, 21]` are rejected, and so is any array when the directory is empty. -/
theorem parseLocaTable_last_offset_within_glyf_witness :
    (parseLocaTable (locaParser demoFont) headLong 64 { offsets := [] }
        = .ret (true, { offsets := [0, 10, 15, 20] }) ∧
      ∃ glyfLength last, getTableLength (locaParser demoFont) glyfTag = .ret glyfLength ∧
        ([0, 10, 15, 20] : List Nat).getLast? = some last ∧ last ≤ glyfLength ∧
        ∃ entry ∈ (locaParser demoFont).offsetTable.tableDirectoryEntries,
          entry.tag = 1719233639) ∧
    (getTableLength (locaParser (locaFont 0 10 15 21)) glyfTag = .ret 20 ∧
      ∃ l2, parseLocaTable (locaParser (locaFont 0 10 15 21)) headLong 64 { offsets := [] }
        = .ret (false, l2)) ∧
    (∃ l2, parseLocaTable noGlyfParser headLong 64 { offsets := [] } = .ret (false, l2)) :=
  ⟨⟨by decide,
    (parseLocaTable_last_offset_within_glyf (locaParser demoFont) headLong 64
      { offsets := [] }).1 { offsets := [0, 10, 15, 20] } (by decide)⟩,
   ⟨by decide,
    ((parseLocaTable_last_offset_within_glyf (locaParser (locaFont 0 10 15 21)) headLong 64
      { offsets := [] }).2 (by decide)).1 20 (by decide) (by decide)⟩,
   ((parseLocaTable_last_offset_within_glyf noGlyfParser headLong 64
      { offsets := [] }).2 (by decide)).2 (by decide)⟩

/-- The `switch` of `parseCmapTable` appends at most one subtable, and never a
`CmapFormat13`. -/
theorem cmapDispatch_some (p : TTFParser) (fuel subtableOffset format : Nat)
    (subtables l : List CmapSubtable)
    (h : cmapDispatch p fuel subtableOffset format subtables = .ret (some l)) :
    l = subtables ∨ ∃ x, l = subtables ++ [x] ∧ ∀ t, x ≠ .format13 t := by
  unfold cmapDispatch at h
  split at h
  · cases hr : parseCmapFormat0 p (u32 (subtableOffset + 2))
      { CmapFormat0.fresh with format := 0 } with
    | fault => simp [hr] at h
    | timeout => simp [hr] at h
    | ret r =>
      obtain ⟨ok, t⟩ := r
      cases ok <;> simp [hr] at h
      exact Or.inr ⟨_, h.symm, by simp⟩
  · cases hr : parseCmapFormat2 p (u32 (subtableOffset + 2))
      { CmapFormat2.fresh with format := 2 } with
    | fault => simp [hr] at h
    | timeout => simp [hr] at h
    | ret r =>
      obtain ⟨ok, t⟩ := r
      cases ok <;> simp [hr] at h
      exact Or.inr ⟨_, h.symm, by simp⟩
  · cases hr : parseCmapFormat4 p fuel (u32 (subtableOffset + 2))
      { CmapFormat4.fresh with format := 4 } with
    | fault => simp [hr] at h
    | timeout => simp [hr] at h
    | ret r =>
      obtain ⟨ok, t⟩ := r
      cases ok <;> simp [hr] at h
      exact Or.inr ⟨_, h.symm, by simp⟩
  · cases hr : parseCmapFormat6 p (u32 (subtableOffset + 2))
      { CmapFormat6.fresh with format := 6 } with
    | fault => simp [hr] at h
    | timeout => simp [hr] at h
    | ret r =>
      obtain ⟨ok, t⟩ := r
      cases ok <;> simp [hr] at h
      exact Or.inr ⟨_, h.symm, by simp⟩
  · cases hr : parseCmapFormat8 p (u32 (subtableOffset + 2))
      { CmapFormat8.fresh with format := 8 } with
    | fault => simp [hr] at h
    | timeout => simp [hr] at h
    | ret r =>
      obtain ⟨ok, t⟩ := r
      cases ok <;> simp [hr] at h
      exact Or.inr ⟨_, h.symm, by simp⟩
  · cases hr : parseCmapFormat10 p (u32 (subtableOffset + 2))
      { CmapFormat10.fresh with format := 10 } with
    | fault => simp [hr] at h
    | timeout => simp [hr] at h
    | ret r =>
      obtain ⟨ok, t⟩ := r
      cases ok <;> simp [hr] at h
      exact Or.inr ⟨_, h.symm, by simp⟩
  · cases hr : parseCmapFormat12 p (u32 (subtableOffset + 2))
      { CmapFormat12.fresh with format := 12 } with
    | fault => simp [hr] at h
    | timeout => simp [hr] at h
    | ret r =>
      obtain ⟨ok, t⟩ := r
      cases ok <;> simp [hr] at h
      exact Or.inr ⟨_, h.symm, by simp⟩
  · cases hr : parseCmapFormat14 p (u32 (subtableOffset + 2))
      { CmapFormat14.fresh with format := 14 } with
    | fault => simp [hr] at h
    | timeout => simp [hr] at h
    | ret r =>
      obtain ⟨ok, t⟩ := r
      cases ok <;> simp [hr] at h
      exact Or.inr ⟨_, h.symm, by simp⟩
  · simp at h
    exact Or.inl h.symm

/-- Supporting fact for C9 and C10: whatever `numTables` says, a call of `parseCmapTable` that
returns `true` has appended at most one subtable, and never a `CmapFormat13`. -/
theorem parseCmapTable_appends_at_most_one (p : TTFParser) (fuel offset : Nat)
    (cmap result : CmapTable)
    (h : parseCmapTable p fuel offset cmap = .ret (true, result)) :
    result.subtables = cmap.subtables ∨
      ∃ x, result.subtables = cmap.subtables ++ [x] ∧ ∀ t, x ≠ .format13 t := by
  unfold parseCmapTable at h
  cases h1 : be16 p.fontData offset with
  | fault => simp [h1] at h
  | timeout => simp [h1] at h
  | ret v1 =>
  cases h2 : be16 p.fontData (u32 (offset + 2)) with
  | fault => simp [h1, h2] at h
  | timeout => simp [h1, h2] at h
  | ret v2 =>
  simp only [h1, h2, Outcome.ret_bind] at h
  split at h
  · cases h3 : be16 p.fontData (u32 (offset + 4)) with
    | fault => simp [h3] at h
    | timeout => simp [h3] at h
    | ret v3 =>
    cases h4 : be16 p.fontData (u32 (u32 (offset + 4) + 2)) with
    | fault => simp [h3, h4] at h
    | timeout => simp [h3, h4] at h
    | ret v4 =>
    cases h5 : be32 p.fontData (u32 (u32 (offset + 4) + 4)) with
    | fault => simp [h3, h4, h5] at h
    | timeout => simp [h3, h4, h5] at h
    | ret v5 =>
    cases h6 : be16 p.fontData (u32 (offset + v5)) with
    | fault => simp [h3, h4, h5, h6] at h
    | timeout => simp [h3, h4, h5, h6] at h
    | ret v6 =>
    cases h7 : readBytes p.fontData (u32 (offset + v5)) 4 0 with
    | fault => simp [h3, h4, h5, h6, h7] at h
    | timeout => simp [h3, h4, h5, h6, h7] at h
    | ret v7 =>
    cases h8 : cmapDispatch p fuel (u32 (offset + v5)) v6 cmap.subtables with
    | fault => simp [h3, h4, h5, h6, h7, h8] at h
    | timeout => simp [h3, h4, h5, h6, h7, h8] at h
    | ret r =>
      simp only [h3, h4, h5, h6, h7, h8, Outcome.ret_bind] at h
      cases r with
      | none => simp at h
      | some l =>
        simp only [Outcome.ret.injEq, Prod.mk.injEq, true_and] at h
        subst h
        exact cmapDispatch_some p fuel _ _ _ _ h8
  · simp at h

/-- C9 (the code departs from the claim).  The `cmap` table of `twoSubtableFont` declares two
encoding records; both point at format 6 subtables that `parseCmapFormat6` accepts.
`parseCmapTable` returns `true` with one subtable in `cmap.subtables`: the loop body ends in
`return true`, so the second record is never read. -/
theorem parseCmapTable_first_record_alone (fuel : Nat) :
    be16 twoSubtableFont 10 = .ret 2 ∧
    be32 twoSubtableFont 16 = .ret 20 ∧ be16 twoSubtableFont 28 = .ret 6 ∧
    be32 twoSubtableFont 24 = .ret 30 ∧ be16 twoSubtableFont 38 = .ret 6 ∧
    (∃ t, parseCmapFormat6 twoSubtableParser 30 CmapFormat6.fresh = .ret (true, t)) ∧
    (∃ t, parseCmapFormat6 twoSubtableParser 40 CmapFormat6.fresh = .ret (true, t)) ∧
    ∃ cmap, parseCmapTable twoSubtableParser fuel 8 CmapTable.fresh = .ret (true, cmap) ∧
      cmap.numTables = 2 ∧ cmap.subtables.length = 1 := by
  refine ⟨by decide, by decide, by decide, by decide, by decide, ⟨_, rfl⟩, ⟨_, rfl⟩,
    _, rfl, rfl, rfl⟩

/-- C10 (the code departs from the claim).  The only encoding record of `format13Font` points
at a subtable whose format field is 13 and which `parseCmapFormat13` accepts, decoding one
group.  `parseCmapTable` has no case for 13: it returns `true` and appends nothing. -/
theorem parseCmapTable_format13_not_decoded (fuel : Nat) :
    be16 format13Font 20 = .ret 13 ∧
    (∃ t, parseCmapFormat13 format13Parser 22 { CmapFormat13.fresh with format := 13 }
      = .ret (true, t) ∧ t.groups.length = 1) ∧
    ∃ cmap, parseCmapTable format13Parser fuel 8 CmapTable.fresh = .ret (true, cmap) ∧
      cmap.subtables = [] := by
  refine ⟨by decide, ⟨_, rfl, rfl⟩, _, rfl, rfl⟩

/-! ## `cmap`: formats outside the `switch` -/

theorem byteAt_of_lt {fontData : List Byte} {i : Nat} (h : i < fontData.length) :
    byteAt fontData i = .ret (byteD fontData i) := by
  unfold byteAt byteD
  rw [List.getElem?_eq_getElem h]

theorem byteAt_ret {fontData : List Byte} {i v : Nat} (h : byteAt fontData i = .ret v) :
    i < fontData.length ∧ v = byteD fontData i := by
  unfold byteAt at h
  unfold byteD
  cases hg : fontData[i]? with
  | none => simp [hg] at h
  | some b =>
    simp only [hg, Outcome.ret.injEq] at h
    exact ⟨(List.getElem?_eq_some_iff.mp hg).1, h.symm⟩

/-- A run of the format 0 loop that returns `true` has read every index inside the buffer. -/
theorem cmapFormat0Loop_true_in_range (fontData : List Byte) (numGlyphs offset : Nat)
    (hsize : fontData.length < 4294967296) : ∀ (count i : Nat) (table result : CmapFormat0),
    offset + i < 4294967296 →
    cmapFormat0Loop fontData numGlyphs offset count i table = .ret (true, result) →
    count = 0 ∨ offset + i + count ≤ fontData.length := by
  intro count
  induction count with
  | zero => intro i table result _ _; exact Or.inl rfl
  | succ n ih =>
    intro i table result hi h
    right
    unfold cmapFormat0Loop at h
    rw [u32_of_lt hi] at h
    cases hb : byteAt fontData (offset + i) with
    | fault => simp [hb] at h
    | timeout => simp [hb] at h
    | ret b =>
      have hlt := (byteAt_ret hb).1
      simp only [hb, Outcome.ret_bind] at h
      split at h
      · simp at h
      · rcases ih (i + 1) _ result (by omega) h with h0 | h1
        · omega
        · omega

/-- The format 0 loop over indices inside the buffer: it returns, with `true` exactly when
every byte is below `numGlyphs`, and then the entries visited hold the bytes read. -/
theorem cmapFormat0Loop_total (fontData : List Byte) (numGlyphs offset : Nat)
    (hsize : fontData.length < 4294967296) : ∀ (count i : Nat) (table : CmapFormat0),
    offset + i + count ≤ fontData.length →
    ∃ b result, cmapFormat0Loop fontData numGlyphs offset count i table = .ret (b, result) ∧
      (b = true ↔ ∀ k, k < count → byteD fontData (offset + i + k) < numGlyphs) ∧
      (b = true →
        (∀ j, j < i → result.glyphIdArray[j]? = table.glyphIdArray[j]?) ∧
        (∀ j, i ≤ j → j < i + count → j < table.glyphIdArray.length →
          result.glyphIdArray[j]? = some (byteD fontData (offset + j)))) := by
  intro count
  induction count with
  | zero =>
    intro i table _
    refine ⟨true, table, rfl, by simp, fun _ => ⟨fun _ _ => rfl, fun j h1 h2 => by omega⟩⟩
  | succ n ih =>
    intro i table h
    unfold cmapFormat0Loop
    rw [u32_of_lt (by omega), byteAt_of_lt (by omega)]
    simp only [Outcome.ret_bind]
    by_cases hg : byteD fontData (offset + i) ≥ numGlyphs
    · rw [if_pos hg]
      refine ⟨false, _, rfl, ?_, by simp⟩
      simp only [Bool.false_eq_true, false_iff, not_forall]
      exact ⟨0, by omega, by simpa using hg⟩
    · rw [if_neg hg]
      obtain ⟨b, result, hr, hiff, harr⟩ := ih (i + 1)
        { table with glyphIdArray := table.glyphIdArray.set i (byteD fontData (offset + i)) }
        (by omega)
      refine ⟨b, result, hr, ?_, ?_⟩
      · rw [hiff]
        constructor
        · intro hk k hlt
          rcases Nat.eq_zero_or_pos k with h0 | hpos
          · subst h0; simpa using hg
          · have := hk (k - 1) (by omega)
            have e : offset + (i + 1) + (k - 1) = offset + i + k := by omega
            rwa [e] at this
        · intro hk k hlt
          have := hk (k + 1) (by omega)
          have e : offset + i + (k + 1) = offset + (i + 1) + k := by omega
          rwa [e] at this
      · intro hb
        obtain ⟨hlow, hhigh⟩ := harr hb
        constructor
        · intro j hj
          rw [hlow j (by omega)]
          simp only [List.getElem?_set]
          rw [if_neg (by omega)]
        · intro j h1 h2 h3
          rcases Nat.eq_or_lt_of_le h1 with heq | hlt
          · subst heq
            rw [hlow i (by omega)]
            simp only [List.getElem?_set]
            simp [h3]
          · exact hhigh j (by omega) (by omega) (by simpa using h3)

/-- C16.  For a buffer shorter than `2 ^ 32`, a 32-bit `offset` and the 256-entry array of a
`CmapFormat0`: `parseCmapFormat0` returns `true` exactly when the buffer holds
`offset + 256` bytes and each of the 256 bytes from `offset` on is below `numGlyphs`; on
success entry `i` of `glyphIdArray` is the byte at `offset + i`; and when `offset + 256`
fits 32 bits, every other input makes it return `false`. -/
theorem parseCmapFormat0_true_iff (p : TTFParser) (offset : Nat) (table : CmapFormat0)
    (hsize : p.fontData.length < 4294967296) (hoff : offset < 4294967296)
    (harr : table.glyphIdArray.length = 256) :
    ((∃ result, parseCmapFormat0 p offset table = .ret (true, result)) ↔
      (offset + 256 ≤ p.fontData.length ∧
        ∀ i, i < 256 → byteD p.fontData (offset + i) < p.numGlyphs)) ∧
    (∀ result, parseCmapFormat0 p offset table = .ret (true, result) →
      ∀ i, i < 256 → result.glyphIdArray[i]? = some (byteD p.fontData (offset + i))) ∧
    (offset + 256 < 4294967296 →
      ¬ (offset + 256 ≤ p.fontData.length ∧
        ∀ i, i < 256 → byteD p.fontData (offset + i) < p.numGlyphs) →
      ∃ result, parseCmapFormat0 p offset table = .ret (false, result)) := by
  have key : ∀ result, parseCmapFormat0 p offset table = .ret (true, result) →
      offset + 256 ≤ p.fontData.length ∧
      cmapFormat0Loop p.fontData p.numGlyphs offset 256 0 table = .ret (true, result) := by
    intro result h
    unfold parseCmapFormat0 at h
    split at h
    · simp at h
    · rcases cmapFormat0Loop_true_in_range p.fontData p.numGlyphs offset hsize 256 0 table result
        (by omega) h with h0 | h1
      · omega
      · exact ⟨by omega, h⟩
  have tot : offset + 256 ≤ p.fontData.length →
      ∃ b result, parseCmapFormat0 p offset table = .ret (b, result) ∧
      (b = true ↔ ∀ k, k < 256 → byteD p.fontData (offset + k) < p.numGlyphs) ∧
      (b = true → ∀ j, j < 256 →
          result.glyphIdArray[j]? = some (byteD p.fontData (offset + j))) := by
    intro hle
    obtain ⟨b, result, hr, hiff, harr2⟩ :=
      cmapFormat0Loop_total p.fontData p.numGlyphs offset hsize 256 0 table (by omega)
    refine ⟨b, result, ?_, ?_, ?_⟩
    · unfold parseCmapFormat0
      rw [u32_of_lt (by omega), if_neg (by omega)]
      exact hr
    · simpa using hiff
    · intro hb j hj
      exact (harr2 hb).2 j (by omega) (by omega) (by omega)
  refine ⟨⟨?_, ?_⟩, ?_, ?_⟩
  · rintro ⟨result, h⟩
    obtain ⟨hle, _⟩ := key result h
    obtain ⟨b, r2, hr, hiff, _⟩ := tot hle
    rw [h] at hr
    simp only [Outcome.ret.injEq, Prod.mk.injEq] at hr
    exact ⟨hle, hiff.mp hr.1.symm⟩
  · rintro ⟨hle, hall⟩
    obtain ⟨b, r2, hr, hiff, _⟩ := tot hle
    have hb : b = true := hiff.mpr hall
    subst hb
    exact ⟨r2, hr⟩
  · intro result h i hi
    obtain ⟨hle, _⟩ := key result h
    obtain ⟨b, r2, hr, _, harr2⟩ := tot hle
    rw [h] at hr
    simp only [Outcome.ret.injEq, Prod.mk.injEq] at hr
    obtain ⟨hb, hres⟩ := hr
    subst hres
    exact harr2 hb.symm i hi
  · intro hnw hnot
    by_cases hle : offset + 256 ≤ p.fontData.length
    · obtain ⟨b, r2, hr, hiff, _⟩ := tot hle
      cases b with
      | false => exact ⟨r2, hr⟩
      | true => exact absurd ⟨hle, hiff.mp rfl⟩ hnot
    · refine ⟨table, ?_⟩
      unfold parseCmapFormat0
      rw [u32_of_lt hnw, if_pos (by omega)]

theorem parseCmapFormat0_true_iff_witness :
    (format0Parser.fontData.length < 4294967296 ∧ (0 : Nat) < 4294967296 ∧
      CmapFormat0.fresh.glyphIdArray.length = 256) ∧
    (∃ result, parseCmapFormat0 format0Parser 0 CmapFormat0.fresh = .ret (true, result)) ∧
    ∀ result, parseCmapFormat0 format0Parser 0 CmapFormat0.fresh = .ret (true, result) →
      ∀ i, i < 256 → result.glyphIdArray[i]? = some (byteD format0Parser.fontData (0 + i)) :=
  ⟨⟨by decide, by decide, by decide⟩, ⟨_, rfl⟩,
    (parseCmapFormat0_true_iff format0Parser 0 CmapFormat0.fresh (by decide) (by decide)
      (by decide)).2.1⟩

/-! ## `cmap` format 2 -/

/-- Reads at indices that are inside the buffer and fit 32 bits return the bytes stored
there. -/
theorem readBytes_in_range (fontData : List Byte) (offset : Nat) : ∀ (count i : Nat),
    offset + i + count ≤ fontData.length → offset + i + count ≤ 4294967296 →
    readBytes fontData offset count i
      = .ret ((List.range count).map fun k => byteD fontData (offset + i + k)) := by
  intro count
  induction count with
  | zero => intro i _ _; rfl
  | succ n ih =>
    intro i h h2
    unfold readBytes
    have h1 : u32 (offset + i) = offset + i := u32_of_lt (by omega)
    rw [h1, byteAt_of_lt (by omega)]
    simp only [Outcome.ret_bind]
    rw [ih (i + 1) (by omega) (by omega)]
    simp only [Outcome.ret_bind, List.range_succ_eq_map, List.map_cons, List.map_map]
    congr 1
    congr 1
    apply List.map_congr_left
    intro k _
    simp only [Function.comp]
    congr 1
    omega

theorem foldl_subHeaderIndex_eq_max (keys : List Nat) : ∀ acc : Nat,
    keys.foldl (fun m key => if key / 8 > m then key / 8 else m) acc
      = (keys.map fun key => key / 8).foldl max acc := by
  induction keys with
  | nil => intro acc; rfl
  | cons k ks ih =>
    intro acc
    simp only [List.foldl_cons, List.map_cons]
    rw [ih]
    congr 1
    rw [Nat.max_def]
    by_cases h : k / 8 > acc
    · rw [if_pos h, if_pos (by omega)]
    · rw [if_neg h]
      by_cases h2 : acc ≤ k / 8
      · rw [if_pos h2]; omega
      · rw [if_neg h2]

theorem foldl_max_le (l : List Nat) (bound : Nat) : ∀ acc : Nat,
    acc ≤ bound → (∀ x ∈ l, x ≤ bound) → l.foldl max acc ≤ bound := by
  induction l with
  | nil => intro acc h _; exact h
  | cons k ks ih =>
    intro acc h hall
    simp only [List.foldl_cons]
    apply ih
    · exact Nat.max_le.mpr ⟨h, hall k (List.mem_cons_self _ _)⟩
    · intro x hx
      exact hall x (List.mem_cons_of_mem _ hx)

theorem maxSelectorIndex_le (fontData : List Byte) (offset : Nat) :
    maxSelectorIndex fontData offset ≤ 31 := by
  unfold maxSelectorIndex
  apply foldl_max_le _ _ _ (by omega)
  intro x hx
  simp only [List.mem_map, List.mem_range] at hx
  obtain ⟨k, _, rfl⟩ := hx
  have := byteD_lt fontData (offset + 6 + k)
  omega

/-- The sub-header loop of format 2 from a cursor whose run stays below `2 ^ 32`: it returns,
with `true` exactly when all sub-headers are inside the buffer, and then it has appended the
sub-headers stored at the cursor, eight bytes apart. -/
theorem cmapFormat2Loop_total (fontData : List Byte) : ∀ (count offset : Nat)
    (table : CmapFormat2), offset + 8 * count < 4294967296 →
    ∃ b result, cmapFormat2Loop fontData count offset table = .ret (b, result) ∧
      (b = true ↔ (count = 0 ∨ offset + 8 * count ≤ fontData.length)) ∧
      result.subHeaderKeys = table.subHeaderKeys ∧
      (b = true → result.subHeaders = table.subHeaders ++
        (List.range count).map fun j => subHeaderAt fontData (offset + 8 * j)) := by
  intro count
  induction count with
  | zero =>
    intro offset table _
    exact ⟨true, table, rfl, by simp, rfl, by simp⟩
  | succ n ih =>
    intro offset table hnw
    unfold cmapFormat2Loop
    rw [u32_of_lt (by omega)]
    by_cases hle : offset + 8 > fontData.length
    · rw [if_pos hle]
      refine ⟨false, table, rfl, ?_, rfl, by simp⟩
      simp only [Bool.false_eq_true, false_iff]
      omega
    · rw [if_neg hle, u32_of_lt (by omega), u32_of_lt (by omega), u32_of_lt (by omega),
        be16_of_le (by omega), be16_of_le (by omega), be16_of_le (by omega),
        be16_of_le (by omega)]
      simp only [Outcome.ret_bind]
      obtain ⟨b, result, hr, hiff, hkeys, hsub⟩ := ih (offset + 8)
        { table with subHeaders := table.subHeaders ++
            [{ firstCode := word16 fontData offset, entryCount := word16 fontData (offset + 2),
               idDelta := toInt16 (word16 fontData (offset + 4)),
               idRangeOffset := word16 fontData (offset + 6) }] } (by omega)
      refine ⟨b, result, hr, ?_, hkeys, ?_⟩
      · rw [hiff]
        constructor
        · rintro (h0 | h1)
          · right; omega
          · right; omega
        · rintro (h0 | h1)
          · omega
          · right; omega
      · intro hb
        rw [hsub hb]
        simp only [List.append_assoc, List.singleton_append, List.range_succ_eq_map,
          List.map_cons, List.map_map]
        congr 2
        apply List.map_congr_left
        intro k _
        simp only [Function.comp, subHeaderAt]
        have e : offset + 8 + 8 * k = offset + 8 * (k + 1) := by omega
        rw [e]

/-- The decode of format 2 at an offset whose largest table ends below `2 ^ 32`. -/
theorem parseCmapFormat2_total (p : TTFParser) (offset : Nat) (table : CmapFormat2)
    (hnw : offset + 518 < 4294967296) :
    ∃ b result, parseCmapFormat2 p offset table = .ret (b, result) ∧
      (b = true ↔ (offset + 512 ≤ p.fontData.length ∧
        offset + 262 + 8 * (maxSelectorIndex p.fontData offset + 1) ≤ p.fontData.length)) ∧
      (b = true →
        result.subHeaderKeys = (List.range 256).map (fun k => byteD p.fontData (offset + 6 + k)) ∧
        result.subHeaders = table.subHeaders ++
          (List.range (maxSelectorIndex p.fontData offset + 1)).map fun j =>
            subHeaderAt p.fontData (offset + 262 + 8 * j)) := by
  have hm := maxSelectorIndex_le p.fontData offset
  unfold parseCmapFormat2
  rw [u32_of_lt (by omega)]
  by_cases hle : offset + 512 > p.fontData.length
  · rw [if_pos hle]
    refine ⟨false, table, rfl, ?_, by simp⟩
    simp only [Bool.false_eq_true, false_iff]
    omega
  · rw [if_neg hle, u32_of_lt (by omega), u32_of_lt (by omega), u32_of_lt (by omega),
      be16_of_le (by omega), be16_of_le (by omega)]
    simp only [Outcome.ret_bind]
    rw [readBytes_in_range _ _ _ _ (by omega) (by omega)]
    simp only [Outcome.ret_bind]
    have hmax : maxSubHeaderIndex
        ((List.range 256).map fun k => byteD p.fontData (offset + 6 + 0 + k))
        = maxSelectorIndex p.fontData offset := by
      unfold maxSubHeaderIndex maxSelectorIndex
      rw [foldl_subHeaderIndex_eq_max, List.map_map]
      rfl
    rw [hmax, u32_of_lt (by omega)]
    obtain ⟨b, result, hr, hiff, hkeys, hsub⟩ := cmapFormat2Loop_total p.fontData
      (maxSelectorIndex p.fontData offset + 1) (offset + 6 + 256)
      { table with length := word16 p.fontData (offset + 2),
                   language := word16 p.fontData (offset + 4),
                   subHeaderKeys := (List.range 256).map fun k =>
                     byteD p.fontData (offset + 6 + 0 + k) } (by omega)
    refine ⟨b, result, hr, ?_, ?_⟩
    · rw [hiff]
      constructor
      · rintro (h0 | h1)
        · omega
        · exact ⟨by omega, by omega⟩
      · rintro ⟨_, h1⟩
        right; omega
    · intro hb
      refine ⟨by rw [hkeys], ?_⟩
      rw [hsub hb]

/-- C17.  For a format 2 table decoded at an `offset` with `offset + 518 < 2 ^ 32` into a
`CmapFormat2` without sub-headers, with `m` the largest `byte div 8` over the 256 selector
bytes at `offset + 6`: when `parseCmapFormat2` returns `true`, `subHeaders` has `m + 1`
entries and entry `j` is decoded from the eight bytes at `offset + 262 + 8 * j`, the first
position after the selector array; and when the `8 * (m + 1)` bytes after the selector array
are not all inside the buffer, it returns `false`. -/
theorem parseCmapFormat2_subHeaders (p : TTFParser) (offset : Nat) (table : CmapFormat2)
    (hnw : offset + 518 < 4294967296) (hempty : table.subHeaders = []) :
    (∀ result, parseCmapFormat2 p offset table = .ret (true, result) →
      result.subHeaders.length = maxSelectorIndex p.fontData offset + 1 ∧
      (∀ j, j < maxSelectorIndex p.fontData offset + 1 →
        result.subHeaders[j]? = some (subHeaderAt p.fontData (offset + 262 + 8 * j))) ∧
      offset + 262 + 8 * (maxSelectorIndex p.fontData offset + 1) ≤ p.fontData.length) ∧
    (p.fontData.length < offset + 262 + 8 * (maxSelectorIndex p.fontData offset + 1) →
      ∃ result, parseCmapFormat2 p offset table = .ret (false, result)) := by
  obtain ⟨b, r, hr, hiff, hres⟩ := parseCmapFormat2_total p offset table hnw
  constructor
  · intro result h
    rw [h] at hr
    simp only [Outcome.ret.injEq, Prod.mk.injEq] at hr
    obtain ⟨hb, hres2⟩ := hr
    subst hres2
    obtain ⟨_, hsub⟩ := hres hb.symm
    rw [hempty, List.nil_append] at hsub
    refine ⟨by rw [hsub]; simp, ?_, (hiff.mp hb.symm).2⟩
    intro j hj
    rw [hsub]
    simp [hj]
  · intro hshort
    cases b with
    | false => exact ⟨r, hr⟩
    | true =>
      have := (hiff.mp rfl).2
      omega

theorem parseCmapFormat2_subHeaders_witness :
    ((0 : Nat) + 518 < 4294967296 ∧ CmapFormat2.fresh.subHeaders = []) ∧
    maxSelectorIndex format2Parser.fontData 0 = 1 ∧
    (∃ result, parseCmapFormat2 format2Parser 0 CmapFormat2.fresh = .ret (true, result)) ∧
    ∀ result, parseCmapFormat2 format2Parser 0 CmapFormat2.fresh = .ret (true, result) →
      result.subHeaders.length = maxSelectorIndex format2Parser.fontData 0 + 1 ∧
      (∀ j, j < maxSelectorIndex format2Parser.fontData 0 + 1 →
        result.subHeaders[j]? = some (subHeaderAt format2Parser.fontData (0 + 262 + 8 * j))) ∧
      0 + 262 + 8 * (maxSelectorIndex format2Parser.fontData 0 + 1)
        ≤ format2Parser.fontData.length :=
  ⟨⟨by decide, rfl⟩, by decide, ⟨_, rfl⟩,
    (parseCmapFormat2_subHeaders format2Parser 0 CmapFormat2.fresh (by decide) rfl).1⟩

/-! ## `cmap` format 4 -/

theorem readU16Array_ret (fontData : List Byte) : ∀ (count offset : Nat) (acc : List Nat)
    (o : Nat) (l : List Nat), readU16Array fontData count offset acc = .ret (o, l) →
    ∃ new, l = acc ++ new ∧ new.length = count ∧ ∀ x ∈ new, x < 65536 := by
  intro count
  induction count with
  | zero =>
    intro offset acc o l h
    unfold readU16Array at h
    simp only [Outcome.ret.injEq, Prod.mk.injEq] at h
    exact ⟨[], by simp [h.2], rfl, by simp⟩
  | succ n ih =>
    intro offset acc o l h
    unfold readU16Array at h
    cases hv : be16 fontData offset with
    | fault => simp [hv] at h
    | timeout => simp [hv] at h
    | ret v =>
      simp only [hv, Outcome.ret_bind] at h
      obtain ⟨new, hl, hlen, hlt⟩ := ih _ _ _ _ h
      refine ⟨v :: new, by simp [hl], by simp [hlen], ?_⟩
      intro x hx
      rcases List.mem_cons.mp hx with rfl | hx
      · rw [(be16_ret hv).2]; exact word16_lt _ _
      · exact hlt x hx

theorem readU16Array_in_range (fontData : List Byte) : ∀ (count offset : Nat) (acc : List Nat),
    offset + 2 * count ≤ fontData.length → offset + 2 * count < 4294967296 →
    readU16Array fontData count offset acc
      = .ret (offset + 2 * count,
          acc ++ (List.range count).map fun j => word16 fontData (offset + 2 * j)) := by
  intro count
  induction count with
  | zero => intro offset acc _ _; simp [readU16Array]
  | succ n ih =>
    intro offset acc h1 h2
    unfold readU16Array
    rw [be16_of_le (by omega), u32_of_lt (by omega)]
    simp only [Outcome.ret_bind]
    rw [ih (offset + 2) _ (by omega) (by omega)]
    simp only [List.append_assoc, List.singleton_append, List.range_succ_eq_map,
      List.map_cons, List.map_map, Outcome.ret.injEq, Prod.mk.injEq]
    refine ⟨by omega, ?_⟩
    congr 2
    apply List.map_congr_left
    intro k _
    simp only [Function.comp]
    congr 1
    omega

theorem cmapFormat4Glyph_zero (fontData : List Byte) (i segCount startCount idDelta c : Nat) :
    cmapFormat4Glyph fontData i segCount startCount idDelta 0 c
      = .ret (some ((c + idDelta) % 65536)) := by
  unfold cmapFormat4Glyph
  rw [if_pos rfl]

/-- The glyph lookup of format 4 never runs into undefined behaviour: a position that passes
the test lies at least 14 bytes before the position tested. -/
theorem cmapFormat4Glyph_ret (fontData : List Byte) (i segCount startCount idDelta
    idRangeOffset c : Nat) (hi : i < 65536) (hs : segCount < 65536) :
    ∃ r, cmapFormat4Glyph fontData i segCount startCount idDelta idRangeOffset c = .ret r := by
  unfold cmapFormat4Glyph
  by_cases h0 : idRangeOffset = 0
  · rw [if_pos h0]; exact ⟨_, rfl⟩
  · rw [if_neg h0]
    simp only
    have hlt : u16OfInt (((c : Int) - (startCount : Int)) * 2 + (idRangeOffset : Int)) < 65536 := by
      unfold u16OfInt
      omega
    rw [u32_of_lt (by omega)]
    split
    · exact ⟨_, rfl⟩
    · rw [be16_of_le (by omega)]
      exact ⟨_, rfl⟩

/-- A segment that ends at `0xFFFF` or above never lets its loop end with `true`: the 16-bit
counter cannot pass `endCount`. -/
theorem cmapFormat4CharLoop_never_true (fontData : List Byte) (numGlyphs i segCount startCount
    endCount idDelta idRangeOffset : Nat) (he : 65535 ≤ endCount) :
    ∀ (fuel c : Nat) (g g' : List Nat), c < 65536 →
    cmapFormat4CharLoop fontData numGlyphs i segCount startCount endCount idDelta idRangeOffset
      fuel c g ≠ .ret (true, g') := by
  intro fuel
  induction fuel with
  | zero =>
    intro c g g' hc h
    unfold cmapFormat4CharLoop at h
    rw [if_pos (by omega)] at h
    cases h
  | succ n ih =>
    intro c g g' hc h
    unfold cmapFormat4CharLoop at h
    rw [if_pos (by omega)] at h
    simp only at h
    split at h
    · cases h
    · cases h
    · simp at h
    · split at h
      · simp at h
      · exact ih (u16 (c + 1)) _ g' (by unfold u16; omega) h

/-- A run of the character loop that returns `true` appended glyph indices below
`numGlyphs`. -/
theorem cmapFormat4CharLoop_true_append (fontData : List Byte) (numGlyphs i segCount startCount
    endCount idDelta idRangeOffset : Nat) :
    ∀ (fuel c : Nat) (g g' : List Nat),
    cmapFormat4CharLoop fontData numGlyphs i segCount startCount endCount idDelta idRangeOffset
      fuel c g = .ret (true, g') →
    ∃ new, g' = g ++ new ∧ ∀ x ∈ new, x < numGlyphs := by
  intro fuel
  induction fuel with
  | zero =>
    intro c g g' h
    unfold cmapFormat4CharLoop at h
    split at h
    · cases h
    · simp only [Outcome.ret.injEq, Prod.mk.injEq, true_and] at h
      exact ⟨[], by simp [h], by simp⟩
  | succ n ih =>
    intro c g g' h
    unfold cmapFormat4CharLoop at h
    split at h
    · simp only at h
      split at h
      · cases h
      · cases h
      · simp at h
      · rename_i v hv
        split at h
        · simp at h
        · rename_i hlt
          obtain ⟨new, hnew, hlt2⟩ := ih _ _ g' h
          refine ⟨v :: new, by simp [hnew], ?_⟩
          intro x hx
          rcases List.mem_cons.mp hx with rfl | hx
          · omega
          · exact hlt2 x hx
    · simp only [Outcome.ret.injEq, Prod.mk.injEq, true_and] at h
      exact ⟨[], by simp [h], by simp⟩

/-- A run of the character loop that returns `true` found, for every code from the start to
`endCount`, a glyph index below `numGlyphs`. -/
theorem cmapFormat4CharLoop_true_all (fontData : List Byte) (numGlyphs i segCount startCount
    endCount idDelta idRangeOffset : Nat) :
    ∀ (fuel c : Nat) (g g' : List Nat), c < 65536 →
    cmapFormat4CharLoop fontData numGlyphs i segCount startCount endCount idDelta idRangeOffset
      fuel c g = .ret (true, g') →
    ∀ x, c ≤ x → x ≤ endCount → ∃ v, cmapFormat4Glyph fontData i segCount startCount idDelta
      idRangeOffset x = .ret (some v) ∧ v < numGlyphs := by
  intro fuel
  induction fuel with
  | zero =>
    intro c g g' hc h
    unfold cmapFormat4CharLoop at h
    split at h
    · cases h
    · intro x h1 h2; omega
  | succ n ih =>
    intro c g g' hc h
    have h0 := h
    unfold cmapFormat4CharLoop at h
    split at h
    · rename_i hle
      simp only at h
      split at h
      · cases h
      · cases h
      · simp at h
      · rename_i v hv
        split at h
        · simp at h
        · rename_i hlt
          have hc' : c < 65535 := by
            by_contra hcon
            exact cmapFormat4CharLoop_never_true fontData numGlyphs i segCount startCount
              endCount idDelta idRangeOffset (by omega) (n + 1) c g g' hc h0
          have e : u16 (c + 1) = c + 1 := by unfold u16; omega
          rw [e] at h
          have hall := ih (c + 1) _ g' (by omega) h
          intro x h1 h2
          rcases Nat.eq_or_lt_of_le h1 with heq | hgt
          · subst heq; exact ⟨v, hv, by omega⟩
          · exact hall x (by omega) h2
    · intro x h1 h2; omega

/-- Without indirection, a run of the character loop that returns `true` appended
`(c + idDelta) mod 65536` for every code from the start to `endCount`. -/
theorem cmapFormat4CharLoop_zero_true (fontData : List Byte) (numGlyphs i segCount startCount
    endCount idDelta : Nat) :
    ∀ (fuel c : Nat) (g g' : List Nat), c < 65536 →
    cmapFormat4CharLoop fontData numGlyphs i segCount startCount endCount idDelta 0
      fuel c g = .ret (true, g') →
    g' = g ++ segmentGlyphs c endCount idDelta := by
  intro fuel
  induction fuel with
  | zero =>
    intro c g g' hc h
    unfold cmapFormat4CharLoop at h
    split at h
    · cases h
    · rename_i hgt
      simp only [Outcome.ret.injEq, Prod.mk.injEq, true_and] at h
      have e : endCount + 1 - c = 0 := by omega
      simp [segmentGlyphs, e, h]
  | succ n ih =>
    intro c g g' hc h
    have h0 := h
    unfold cmapFormat4CharLoop at h
    split at h
    · rename_i hle
      rw [cmapFormat4Glyph_zero] at h
      simp only at h
      split at h
      · simp at h
      · have hc' : c < 65535 := by
          by_contra hcon
          exact cmapFormat4CharLoop_never_true fontData numGlyphs i segCount startCount
            endCount idDelta 0 (by omega) (n + 1) c g g' hc h0
        have e : u16 (c + 1) = c + 1 := by unfold u16; omega
        rw [e] at h
        rw [ih (c + 1) _ g' (by omega) h]
        have e2 : endCount + 1 - c = (endCount + 1 - (c + 1)) + 1 := by omega
        unfold segmentGlyphs
        rw [e2, List.range'_succ]
        simp
    · rename_i hgt
      simp only [Outcome.ret.injEq, Prod.mk.injEq, true_and] at h
      have e : endCount + 1 - c = 0 := by omega
      simp [segmentGlyphs, e, h]

/-- A segment that ends below `0xFFFF` is walked in at most `endCount + 1 - c` passes. -/
theorem cmapFormat4CharLoop_total_below (fontData : List Byte) (numGlyphs i segCount startCount
    endCount idDelta idRangeOffset : Nat) (he : endCount < 65535)
    (hG : ∀ x, ∃ r, cmapFormat4Glyph fontData i segCount startCount idDelta idRangeOffset x
      = .ret r) :
    ∀ (n fuel c : Nat) (g : List Nat), endCount + 1 - c ≤ n → n ≤ fuel →
    ∃ b g', cmapFormat4CharLoop fontData numGlyphs i segCount startCount endCount idDelta
      idRangeOffset fuel c g = .ret (b, g') := by
  intro n
  induction n with
  | zero =>
    intro fuel c g h1 _
    unfold cmapFormat4CharLoop
    rw [if_neg (by omega)]
    exact ⟨_, _, rfl⟩
  | succ n ih =>
    intro fuel c g h1 h2
    by_cases hle : c ≤ endCount
    · obtain ⟨f, rfl⟩ : ∃ f, fuel = f + 1 := ⟨fuel - 1, by omega⟩
      unfold cmapFormat4CharLoop
      rw [if_pos hle]
      obtain ⟨r, hr⟩ := hG c
      simp only [hr]
      cases r with
      | none => exact ⟨_, _, rfl⟩
      | some v =>
        simp only
        by_cases hv : v ≥ numGlyphs
        · rw [if_pos hv]; exact ⟨_, _, rfl⟩
        · rw [if_neg hv]
          have e : u16 (c + 1) = c + 1 := by unfold u16; omega
          rw [e]
          exact ih f (c + 1) _ (by omega) (by omega)
    · unfold cmapFormat4CharLoop
      rw [if_neg hle]
      exact ⟨_, _, rfl⟩

/-- A segment without indirection that ends at `0xFFFF` makes the character loop return
`false` within 65536 passes: the counter wraps, and the glyph index `0xFFFF`, which no
16-bit `numGlyphs` admits, comes up. -/
theorem cmapFormat4CharLoop_max_false (fontData : List Byte) (numGlyphs i segCount startCount
    endCount idDelta : Nat) (he : 65535 ≤ endCount) (hn : numGlyphs ≤ 65535) :
    ∀ (d fuel c : Nat) (g : List Nat), c < 65536 → 65535 - (c + idDelta) % 65536 ≤ d →
    d < fuel →
    ∃ g', cmapFormat4CharLoop fontData numGlyphs i segCount startCount endCount idDelta 0
      fuel c g = .ret (false, g') := by
  intro d
  induction d with
  | zero =>
    intro fuel c g hc h1 h2
    obtain ⟨f, rfl⟩ : ∃ f, fuel = f + 1 := ⟨fuel - 1, by omega⟩
    unfold cmapFormat4CharLoop
    rw [if_pos (by omega), cmapFormat4Glyph_zero]
    simp only
    rw [if_pos (by omega)]
    exact ⟨_, rfl⟩
  | succ n ih =>
    intro fuel c g hc h1 h2
    obtain ⟨f, rfl⟩ : ∃ f, fuel = f + 1 := ⟨fuel - 1, by omega⟩
    unfold cmapFormat4CharLoop
    rw [if_pos (by omega), cmapFormat4Glyph_zero]
    simp only
    by_cases hv : (c + idDelta) % 65536 ≥ numGlyphs
    · rw [if_pos hv]; exact ⟨_, rfl⟩
    · rw [if_neg hv]
      exact ih f (u16 (c + 1)) _ (by unfold u16; omega) (by unfold u16; omega) (by omega)

/-- The character loop returns when the segment ends below `0xFFFF` or has no indirection,
given 65536 passes. -/
theorem cmapFormat4CharLoop_total (fontData : List Byte) (numGlyphs i segCount startCount
    endCount idDelta idRangeOffset : Nat) (hi : i < 65536) (hs : segCount < 65536)
    (hn : numGlyphs ≤ 65535) (hterm : endCount < 65535 ∨ idRangeOffset = 0)
    (fuel c : Nat) (g : List Nat) (hc : c < 65536) (hfuel : 65536 ≤ fuel) :
    ∃ b g', cmapFormat4CharLoop fontData numGlyphs i segCount startCount endCount idDelta
      idRangeOffset fuel c g = .ret (b, g') := by
  by_cases he : endCount < 65535
  · exact cmapFormat4CharLoop_total_below fontData numGlyphs i segCount startCount endCount
      idDelta idRangeOffset he
      (fun x => cmapFormat4Glyph_ret fontData i segCount startCount idDelta idRangeOffset x hi hs)
      65536 fuel c g (by omega) hfuel
  · have h0 : idRangeOffset = 0 := by
      rcases hterm with h | h
      · omega
      · exact h
    subst h0
    obtain ⟨g', hg⟩ := cmapFormat4CharLoop_max_false fontData numGlyphs i segCount startCount
      endCount idDelta (by omega) hn 65535 fuel c g hc (by omega) (by omega)
    exact ⟨false, g', hg⟩

theorem cmapFormat4SegLoop_some (fontData : List Byte) (numGlyphs segCount fuel count i : Nat)
    (t : CmapFormat4) (r : Bool × CmapFormat4)
    (h : cmapFormat4SegLoop fontData numGlyphs segCount fuel (count + 1) i t = .ret r) :
    ∃ s e d o, t.startCount[i]? = some s ∧ t.endCount[i]? = some e ∧ t.idDelta[i]? = some d ∧
      t.idRangeOffset[i]? = some o := by
  unfold cmapFormat4SegLoop at h
  split at h
  · rename_i s e d o hs he hd ho
    exact ⟨s, e, d, o, hs, he, hd, ho⟩
  · cases h

theorem cmapFormat4SegLoop_succ (fontData : List Byte) (numGlyphs segCount fuel count i : Nat)
    (t : CmapFormat4) (s e d o : Nat) (hs : t.startCount[i]? = some s)
    (he : t.endCount[i]? = some e) (hd : t.idDelta[i]? = some d)
    (ho : t.idRangeOffset[i]? = some o) :
    cmapFormat4SegLoop fontData numGlyphs segCount fuel (count + 1) i t =
      match cmapFormat4CharLoop fontData numGlyphs i segCount s e d o fuel s t.glyphIndices with
      | .ret (true, g) =>
        cmapFormat4SegLoop fontData numGlyphs segCount fuel count (i + 1)
          { t with glyphIndices := g }
      | .ret (false, g) => .ret (false, { t with glyphIndices := g })
      | .fault => .fault
      | .timeout => .timeout := by
  rw [cmapFormat4SegLoop]
  simp only [hs, he, hd, ho]
  cases cmapFormat4CharLoop fontData numGlyphs i segCount s e d o fuel s t.glyphIndices with
  | fault => rfl
  | timeout => rfl
  | ret x =>
    obtain ⟨ok, g⟩ := x
    cases ok <;> rfl

/-- The segment loop changes `glyphIndices` only. -/
theorem cmapFormat4SegLoop_frame (fontData : List Byte) (numGlyphs segCount fuel : Nat) :
    ∀ (count i : Nat) (t : CmapFormat4) (b : Bool) (t' : CmapFormat4),
    cmapFormat4SegLoop fontData numGlyphs segCount fuel count i t = .ret (b, t') →
    t'.segCountX2 = t.segCountX2 ∧ t'.endCount = t.endCount ∧ t'.startCount = t.startCount ∧
      t'.idDelta = t.idDelta ∧ t'.idRangeOffset = t.idRangeOffset := by
  intro count
  induction count with
  | zero =>
    intro i t b t' h
    unfold cmapFormat4SegLoop at h
    simp only [Outcome.ret.injEq, Prod.mk.injEq] at h
    obtain ⟨_, rfl⟩ := h
    exact ⟨rfl, rfl, rfl, rfl, rfl⟩
  | succ n ih =>
    intro i t b t' h
    obtain ⟨s, e, d, o, hs, he, hd, ho⟩ := cmapFormat4SegLoop_some _ _ _ _ _ _ _ _ h
    rw [cmapFormat4SegLoop_succ _ _ _ _ _ _ _ s e d o hs he hd ho] at h
    split at h
    · have hfr := ih _ _ _ _ h
      exact hfr
    · simp only [Outcome.ret.injEq, Prod.mk.injEq] at h
      obtain ⟨_, rfl⟩ := h
      exact ⟨rfl, rfl, rfl, rfl, rfl⟩
    · cases h
    · cases h

/-- A run of the segment loop that returns `true` appended glyph indices below
`numGlyphs`. -/
theorem cmapFormat4SegLoop_true_append (fontData : List Byte) (numGlyphs segCount fuel : Nat) :
    ∀ (count i : Nat) (t t' : CmapFormat4),
    cmapFormat4SegLoop fontData numGlyphs segCount fuel count i t = .ret (true, t') →
    ∃ new, t'.glyphIndices = t.glyphIndices ++ new ∧ ∀ x ∈ new, x < numGlyphs := by
  intro count
  induction count with
  | zero =>
    intro i t t' h
    unfold cmapFormat4SegLoop at h
    simp only [Outcome.ret.injEq, Prod.mk.injEq, true_and] at h
    subst h
    exact ⟨[], by simp, by simp⟩
  | succ n ih =>
    intro i t t' h
    obtain ⟨s, e, d, o, hs, he, hd, ho⟩ := cmapFormat4SegLoop_some _ _ _ _ _ _ _ _ h
    rw [cmapFormat4SegLoop_succ _ _ _ _ _ _ _ s e d o hs he hd ho] at h
    split at h
    · rename_i g hcl
      obtain ⟨new1, h1, hlt1⟩ := cmapFormat4CharLoop_true_append _ _ _ _ _ _ _ _ _ _ _ _ hcl
      obtain ⟨new2, h2, hlt2⟩ := ih _ _ _ h
      refine ⟨new1 ++ new2, ?_, ?_⟩
      · rw [h2]; simp only [h1, List.append_assoc]
      · intro x hx
        rcases List.mem_append.mp hx with hx | hx
        · exact hlt1 x hx
        · exact hlt2 x hx
    · simp at h
    · cases h
    · cases h

/-- A run of the segment loop that returns `true` found a glyph index below `numGlyphs` for
every code of every segment visited. -/
theorem cmapFormat4SegLoop_true_all (fontData : List Byte) (numGlyphs segCount fuel : Nat) :
    ∀ (count i : Nat) (t t' : CmapFormat4), (∀ x ∈ t.startCount, x < 65536) →
    cmapFormat4SegLoop fontData numGlyphs segCount fuel count i t = .ret (true, t') →
    ∀ j, i ≤ j → j < i + count → ∃ s e d o, t.startCount[j]? = some s ∧
      t.endCount[j]? = some e ∧ t.idDelta[j]? = some d ∧ t.idRangeOffset[j]? = some o ∧
      ∀ x, s ≤ x → x ≤ e →
        ∃ v, cmapFormat4Glyph fontData j segCount s d o x = .ret (some v) ∧ v < numGlyphs := by
  intro count
  induction count with
  | zero => intro i t t' _ _ j h1 h2; omega
  | succ n ih =>
    intro i t t' hlt h j h1 h2
    obtain ⟨s, e, d, o, hs, he, hd, ho⟩ := cmapFormat4SegLoop_some _ _ _ _ _ _ _ _ h
    rw [cmapFormat4SegLoop_succ _ _ _ _ _ _ _ s e d o hs he hd ho] at h
    split at h
    · rename_i g hcl
      rcases Nat.eq_or_lt_of_le h1 with heq | hgt
      · subst heq
        have hs65 : s < 65536 := hlt s (List.getElem?_mem hs)
        exact ⟨s, e, d, o, hs, he, hd, ho,
          cmapFormat4CharLoop_true_all _ _ _ _ _ _ _ _ _ _ _ _ hs65 hcl⟩
      · exact ih (i + 1) { t with glyphIndices := g } t' hlt h j (by omega) (by omega)
    · simp at h
    · cases h
    · cases h

/-- Without indirection, a run of the segment loop that returns `true` appended the glyph
indices `(c + idDelta) mod 65536` of the segments visited, in order. -/
theorem cmapFormat4SegLoop_zero_true (fontData : List Byte) (numGlyphs segCount fuel : Nat) :
    ∀ (count i : Nat) (t t' : CmapFormat4), (∀ x ∈ t.startCount, x < 65536) →
    (∀ x ∈ t.idRangeOffset, x = 0) →
    cmapFormat4SegLoop fontData numGlyphs segCount fuel count i t = .ret (true, t') →
    t'.glyphIndices = t.glyphIndices ++
      ((List.range' i count).map fun j =>
        segmentGlyphs (t.startCount.getD j 0) (t.endCount.getD j 0) (t.idDelta.getD j 0)).flatten := by
  intro count
  induction count with
  | zero =>
    intro i t t' _ _ h
    unfold cmapFormat4SegLoop at h
    simp only [Outcome.ret.injEq, Prod.mk.injEq, true_and] at h
    subst h
    simp
  | succ n ih =>
    intro i t t' hlt hz h
    obtain ⟨s, e, d, o, hs, he, hd, ho⟩ := cmapFormat4SegLoop_some _ _ _ _ _ _ _ _ h
    rw [cmapFormat4SegLoop_succ _ _ _ _ _ _ _ s e d o hs he hd ho] at h
    have ho0 : o = 0 := hz o (List.getElem?_mem ho)
    subst ho0
    split at h
    · rename_i g hcl
      have hs65 : s < 65536 := hlt s (List.getElem?_mem hs)
      have hg := cmapFormat4CharLoop_zero_true _ _ _ _ _ _ _ _ _ _ _ hs65 hcl
      rw [ih (i + 1) { t with glyphIndices := g } t' hlt hz h]
      simp only [hg, List.range'_succ, List.map_cons, List.flatten_cons, List.append_assoc]
      simp [List.getD_eq_getElem?_getD, hs, he, hd]
    · simp at h
    · cases h
    · cases h

/-- The segment loop returns when every segment visited ends below `0xFFFF` or has no
indirection, given 65536 passes for each character loop. -/
theorem cmapFormat4SegLoop_total (fontData : List Byte) (numGlyphs segCount fuel : Nat)
    (hs : segCount < 65536) (hn : numGlyphs ≤ 65535) (hfuel : 65536 ≤ fuel) :
    ∀ (count i : Nat) (t : CmapFormat4), i + count ≤ 65536 →
    (∀ j, i ≤ j → j < i + count → ∃ s e d o, t.startCount[j]? = some s ∧
      t.endCount[j]? = some e ∧ t.idDelta[j]? = some d ∧ t.idRangeOffset[j]? = some o ∧
      s < 65536 ∧ (e < 65535 ∨ o = 0)) →
    ∃ b t', cmapFormat4SegLoop fontData numGlyphs segCount fuel count i t = .ret (b, t') := by
  intro count
  induction count with
  | zero => intro i t _ _; exact ⟨true, t, rfl⟩
  | succ n ih =>
    intro i t hi hall
    obtain ⟨s, e, d, o, hs1, he, hd, ho, hs65, hterm⟩ := hall i (by omega) (by omega)
    rw [cmapFormat4SegLoop_succ _ _ _ _ _ _ _ s e d o hs1 he hd ho]
    obtain ⟨b, g', hcl⟩ := cmapFormat4CharLoop_total fontData numGlyphs i segCount s e d o
      (by omega) hs hn hterm fuel s t.glyphIndices hs65 hfuel
    rw [hcl]
    cases b with
    | false => exact ⟨_, _, rfl⟩
    | true =>
      simp only
      exact ih (i + 1) { t with glyphIndices := g' } (by omega)
        (fun j h1 h2 => hall j (by omega) (by omega))

theorem cmapFormat4CheckLoop_true (t : CmapFormat4) : ∀ (count i : Nat),
    cmapFormat4CheckLoop t count i = .ret true →
    ∀ j, i ≤ j → j < i + count → ∃ s e, t.startCount[j]? = some s ∧ t.endCount[j]? = some e ∧
      s ≤ e := by
  intro count
  induction count with
  | zero => intro i _ j h1 h2; omega
  | succ n ih =>
    intro i h j h1 h2
    unfold cmapFormat4CheckLoop at h
    split at h
    · rename_i s e hs he
      split at h
      · simp at h
      · rcases Nat.eq_or_lt_of_le h1 with heq | hgt
        · subst heq; exact ⟨s, e, hs, he, by omega⟩
        · exact ih (i + 1) h j (by omega) (by omega)
    · cases h

theorem cmapFormat4CheckLoop_total (t : CmapFormat4) : ∀ (count i : Nat),
    i + count ≤ t.startCount.length → i + count ≤ t.endCount.length →
    ∃ b, cmapFormat4CheckLoop t count i = .ret b := by
  intro count
  induction count with
  | zero => intro i _ _; exact ⟨true, rfl⟩
  | succ n ih =>
    intro i h1 h2
    unfold cmapFormat4CheckLoop
    rw [List.getElem?_eq_getElem (by omega : i < t.startCount.length),
      List.getElem?_eq_getElem (by omega : i < t.endCount.length)]
    simp only
    split
    · exact ⟨false, rfl⟩
    · exact ih (i + 1) (by omega) (by omega)

/-- What a call of `parseCmapFormat4` that returns `true` has gone through. -/
theorem parseCmapFormat4_true_inv (p : TTFParser) (fuel offset : Nat)
    (table result : CmapFormat4)
    (h : parseCmapFormat4 p fuel offset table = .ret (true, result)) :
    ∃ segX2 o1 endCount o2 startCount o3 idDelta o4 idRangeOffset,
      be16 p.fontData (u32 (offset + 2)) = .ret segX2 ∧ segX2 % 2 = 0 ∧
      ¬ p.fontData.length < u32 (offset + 14 + 8 * (segX2 / 2)) ∧
      readU16Array p.fontData (segX2 / 2) (u32 (offset + 14)) table.endCount
        = .ret (o1, endCount) ∧
      readU16Array p.fontData (segX2 / 2) (u32 (o1 + 2)) table.startCount
        = .ret (o2, startCount) ∧
      readU16Array p.fontData (segX2 / 2) o2 table.idDelta = .ret (o3, idDelta) ∧
      readU16Array p.fontData (segX2 / 2) o3 table.idRangeOffset = .ret (o4, idRangeOffset) ∧
      cmapFormat4SegLoop p.fontData p.numGlyphs (segX2 / 2) fuel (segX2 / 2) 0
        { table with segCountX2 := segX2, endCount := endCount, startCount := startCount,
                     idDelta := idDelta, idRangeOffset := idRangeOffset } = .ret (true, result) ∧
      cmapFormat4CheckLoop result (segX2 / 2) 0 = .ret true := by
  unfold parseCmapFormat4 at h
  cases h0 : be16 p.fontData (u32 (offset + 2)) with
  | fault => simp [h0] at h
  | timeout => simp [h0] at h
  | ret segX2 =>
  simp only [h0, Outcome.ret_bind] at h
  split at h
  · simp at h
  · rename_i heven
    split at h
    · simp at h
    · rename_i hlen
      cases h1 : readU16Array p.fontData (segX2 / 2) (u32 (offset + 14)) table.endCount with
      | fault => simp [h1] at h
      | timeout => simp [h1] at h
      | ret r1 =>
      obtain ⟨o1, endCount⟩ := r1
      simp only [h1, Outcome.ret_bind] at h
      cases h2 : readU16Array p.fontData (segX2 / 2) (u32 (o1 + 2)) table.startCount with
      | fault => simp [h2] at h
      | timeout => simp [h2] at h
      | ret r2 =>
      obtain ⟨o2, startCount⟩ := r2
      simp only [h2, Outcome.ret_bind] at h
      cases h3 : readU16Array p.fontData (segX2 / 2) o2 table.idDelta with
      | fault => simp [h3] at h
      | timeout => simp [h3] at h
      | ret r3 =>
      obtain ⟨o3, idDelta⟩ := r3
      simp only [h3, Outcome.ret_bind] at h
      cases h4 : readU16Array p.fontData (segX2 / 2) o3 table.idRangeOffset with
      | fault => simp [h4] at h
      | timeout => simp [h4] at h
      | ret r4 =>
      obtain ⟨o4, idRangeOffset⟩ := r4
      simp only [h4, Outcome.ret_bind] at h
      cases h5 : cmapFormat4SegLoop p.fontData p.numGlyphs (segX2 / 2) fuel (segX2 / 2) 0
        { table with segCountX2 := segX2, endCount := endCount, startCount := startCount,
                     idDelta := idDelta, idRangeOffset := idRangeOffset } with
      | fault => simp [h5] at h
      | timeout => simp [h5] at h
      | ret r5 =>
      obtain ⟨ok, t'⟩ := r5
      simp only [h5, Outcome.ret_bind] at h
      cases ok with
      | false => simp at h
      | true =>
        simp only [Bool.not_true, Bool.false_eq_true, if_false] at h
        cases h6 : cmapFormat4CheckLoop t' (segX2 / 2) 0 with
        | fault => simp [h6] at h
        | timeout => simp [h6] at h
        | ret b =>
          simp only [h6, Outcome.ret_bind, Outcome.ret.injEq, Prod.mk.injEq] at h
          obtain ⟨hb, ht⟩ := h
          subst hb ht
          exact ⟨segX2, o1, endCount, o2, startCount, o3, idDelta, o4, idRangeOffset, rfl,
            by omega, hlen, h1, h2, h3, h4, h5, h6⟩

/-- C12.  When `parseCmapFormat4`, started on a table whose vectors are empty, returns `true`
and every `idRangeOffset[i]` of the decoded table is 0, `glyphIndices` is the concatenation,
over the segments in array order, of `(c + idDelta[i]) mod 65536` for
`c = startCount[i], ..., endCount[i]` ascending. -/
theorem parseCmapFormat4_direct_glyphs (p : TTFParser) (fuel offset : Nat)
    (table result : CmapFormat4)
    (hempty : table.endCount = [] ∧ table.startCount = [] ∧ table.idDelta = [] ∧
      table.idRangeOffset = [] ∧ table.glyphIndices = [])
    (h : parseCmapFormat4 p fuel offset table = .ret (true, result))
    (hzero : ∀ x ∈ result.idRangeOffset, x = 0) :
    result.glyphIndices = directGlyphs result := by
  obtain ⟨he, hs, hd, ho, hg⟩ := hempty
  obtain ⟨segX2, o1, endCount, o2, startCount, o3, idDelta, o4, idRangeOffset, h0, heven, hlen,
    h1, h2, h3, h4, h5, h6⟩ := parseCmapFormat4_true_inv p fuel offset table result h
  obtain ⟨f1, f2, f3, f4, f5⟩ := cmapFormat4SegLoop_frame _ _ _ _ _ _ _ _ _ h5
  obtain ⟨new, hnew, _, hlt⟩ := readU16Array_ret _ _ _ _ _ _ h2
  rw [hs, List.nil_append] at hnew
  have hz := cmapFormat4SegLoop_zero_true _ _ _ _ _ _ _ _
    (by intro x hx; exact hlt x (by simpa [hnew] using hx))
    (by intro x hx; exact hzero x (by rw [f5]; exact hx)) h5
  rw [hz]
  unfold directGlyphs
  simp only [hg, List.nil_append, f1, f2, f3, f4, List.range_eq_range']

theorem parseCmapFormat4_direct_glyphs_witness :
    parseCmapFormat4 directParser 10 0 CmapFormat4.fresh = .ret (true, directTable) ∧
    (∀ x ∈ directTable.idRangeOffset, x = 0) ∧
    directTable.glyphIndices = [1, 2] ∧
    directTable.glyphIndices = directGlyphs directTable := by
  have h : parseCmapFormat4 directParser 10 0 CmapFormat4.fresh = .ret (true, directTable) := by
    rfl
  have hzero : ∀ x ∈ directTable.idRangeOffset, x = 0 := by decide
  exact ⟨h, hzero, rfl,
    parseCmapFormat4_direct_glyphs directParser 10 0 CmapFormat4.fresh directTable
      ⟨rfl, rfl, rfl, rfl, rfl⟩ h hzero⟩

/-- C13 (the code departs from the claim).  `shadowFont` holds a format 4 table at offset 20
with one segment for the code `0x41`; its `idRangeOffset`, read from position 42, is 2, so
the claimed position of the glyph index is `42 + 2 + 2 * 0 = 44`, where the word 7 is
stored.  `parseCmapFormat4` returns `true` with the glyph index 3: it reads at the absolute
buffer position `(c - startCount) * 2 + idRangeOffset = 2`, the value of the 16-bit local
`offset` that hides the parameter, and the position it tests against the buffer size is
`2 + 2 * 0 + 14 + 6 * 1 = 22`, neither the position read nor the claimed one. -/
theorem parseCmapFormat4_reads_at_shadowed_offset :
    be16 shadowFont (20 + 2) = .ret 2 ∧
    be16 shadowFont (20 + 14) = .ret 0x41 ∧ be16 shadowFont (20 + 18) = .ret 0x41 ∧
    be16 shadowFont 42 = .ret 2 ∧
    be16 shadowFont (42 + 2 + 2 * (0x41 - 0x41)) = .ret 7 ∧
    be16 shadowFont 2 = .ret 3 ∧
    cmapFormat4Glyph shadowFont 0 1 0x41 0 2 0x41 = .ret (some 3) ∧
    ∃ result, parseCmapFormat4 shadowParser 10 20 CmapFormat4.fresh = .ret (true, result) ∧
      result.startCount = [0x41] ∧ result.endCount = [0x41] ∧ result.idRangeOffset = [2] ∧
      result.glyphIndices = [3] := by
  refine ⟨by decide, by decide, by decide, by decide, by decide, by decide, by decide,
    _, rfl, rfl, rfl, rfl, rfl⟩

/-- The part of `parseCmapFormat4` after the four arrays have been read, for a table whose
arrays hold `segCount` 16-bit entries and in which every segment ending at `0xFFFF` has no
indirection. -/
theorem parseCmapFormat4_tail (fontData : List Byte) (numGlyphs segCount fuel : Nat)
    (t0 : CmapFormat4) (E S D O : Nat → Nat) (hsc : segCount < 32768) (hn : numGlyphs ≤ 65535)
    (hfuel : 65536 ≤ fuel)
    (hE : ∀ j, j < segCount → t0.endCount[j]? = some (E j))
    (hS : ∀ j, j < segCount → t0.startCount[j]? = some (S j))
    (hD : ∀ j, j < segCount → t0.idDelta[j]? = some (D j))
    (hO : ∀ j, j < segCount → t0.idRangeOffset[j]? = some (O j))
    (hS65 : ∀ x ∈ t0.startCount, x < 65536)
    (hterm : ∀ j, j < segCount → E j < 65535 ∨ O j = 0) :
    ∃ b result,
      ((cmapFormat4SegLoop fontData numGlyphs segCount fuel segCount 0 t0).bind fun r =>
        if (!r.1) = true then Outcome.ret (false, r.2) else
        (cmapFormat4CheckLoop r.2 segCount 0).bind fun ok => Outcome.ret (ok, r.2))
        = .ret (b, result) ∧
      (b = true →
        (∀ i, i < segCount → S i ≤ E i) ∧
        (∀ i c, i < segCount → S i ≤ c → c ≤ E i →
          ∃ v, cmapFormat4Glyph fontData i segCount (S i) (D i) (O i) c = .ret (some v) ∧
            v < numGlyphs)) := by
  obtain ⟨b1, t1, hseg⟩ := cmapFormat4SegLoop_total fontData numGlyphs segCount fuel
    (by omega) hn hfuel segCount 0 t0 (by omega) (by
      intro j _ hj
      have hj' : j < segCount := by omega
      refine ⟨S j, E j, D j, O j, hS j hj', hE j hj', hD j hj', hO j hj', ?_, hterm j hj'⟩
      exact hS65 _ (List.getElem?_mem (hS j hj')))
  rw [hseg]
  simp only [Outcome.bind_ret]
  cases b1 with
  | false => exact ⟨false, t1, by simp, by simp⟩
  | true =>
    obtain ⟨f1, f2, f3, f4, f5⟩ := cmapFormat4SegLoop_frame _ _ _ _ _ _ _ _ _ hseg
    have lenS : 0 + segCount ≤ t1.startCount.length := by
      rcases Nat.eq_zero_or_pos segCount with h0 | hpos
      · omega
      · have := (List.getElem?_eq_some_iff.mp (hS (segCount - 1) (by omega))).1
        rw [f3]; omega
    have lenE : 0 + segCount ≤ t1.endCount.length := by
      rcases Nat.eq_zero_or_pos segCount with h0 | hpos
      · omega
      · have := (List.getElem?_eq_some_iff.mp (hE (segCount - 1) (by omega))).1
        rw [f2]; omega
    obtain ⟨b2, hc⟩ := cmapFormat4CheckLoop_total t1 segCount 0 lenS lenE
    rw [hc]
    refine ⟨b2, t1, by simp, ?_⟩
    intro hb
    subst hb
    constructor
    · intro i hi
      obtain ⟨s, e, hs', he', hle⟩ := cmapFormat4CheckLoop_true t1 _ _ hc i (by omega) (by omega)
      rw [f3, hS i hi] at hs'
      rw [f2, hE i hi] at he'
      simp only [Option.some.injEq] at hs' he'
      omega
    · intro i c hi h1 h2
      obtain ⟨s, e, d, o, hs', he', hd', ho', hall⟩ :=
        cmapFormat4SegLoop_true_all _ _ _ _ _ _ _ _ hS65 hseg i (by omega) (by omega)
      rw [hS i hi] at hs'
      rw [hE i hi] at he'
      rw [hD i hi] at hd'
      rw [hO i hi] at ho'
      simp only [Option.some.injEq] at hs' he' hd' ho'
      subst hs' he' hd' ho'
      exact hall c h1 h2

/-- The decode of a format 4 table that lies inside a buffer shorter than `2 ^ 32` and in
which every segment ending at `0xFFFF` has no indirection: the call returns, and when it
returns `true` every segment has `startCount ≤ endCount` and every code of every segment
resolved to a glyph index below `numGlyphs`. -/
theorem parseCmapFormat4_total (p : TTFParser) (fuel offset : Nat) (table : CmapFormat4)
    (hempty : table.endCount = [] ∧ table.startCount = [] ∧ table.idDelta = [] ∧
      table.idRangeOffset = [])
    (hsize : p.fontData.length < 4294967296)
    (hin : offset + 16 + 8 * format4SegCount p.fontData offset ≤ p.fontData.length)
    (hn : p.numGlyphs ≤ 65535) (hfuel : 65536 ≤ fuel)
    (hterm : ∀ i, i < format4SegCount p.fontData offset →
      format4EndCount p.fontData offset i = 65535 →
      format4IdRangeOffset p.fontData offset i = 0) :
    ∃ b result, parseCmapFormat4 p fuel offset table = .ret (b, result) ∧
      (b = true →
        (∀ i, i < format4SegCount p.fontData offset →
          format4StartCount p.fontData offset i ≤ format4EndCount p.fontData offset i) ∧
        (∀ i c, i < format4SegCount p.fontData offset →
          format4StartCount p.fontData offset i ≤ c → c ≤ format4EndCount p.fontData offset i →
          ∃ v, cmapFormat4Glyph p.fontData i (format4SegCount p.fontData offset)
              (format4StartCount p.fontData offset i) (format4IdDelta p.fontData offset i)
              (format4IdRangeOffset p.fontData offset i) c = .ret (some v) ∧
            v < p.numGlyphs)) := by
  obtain ⟨hE, hS, hD, hO⟩ := hempty
  have hsc : format4SegCount p.fontData offset < 32768 := by
    have := word16_lt p.fontData (offset + 2)
    unfold format4SegCount
    omega
  unfold format4SegCount at hin
  unfold parseCmapFormat4
  have e2 : u32 (offset + 2) = offset + 2 := u32_of_lt (by omega)
  have r0 : be16 p.fontData (offset + 2) = .ret (word16 p.fontData (offset + 2)) :=
    be16_of_le (by omega)
  simp only [e2, r0, Outcome.ret_bind]
  by_cases hodd : word16 p.fontData (offset + 2) % 2 ≠ 0
  · rw [if_pos hodd]
    exact ⟨false, _, rfl, by simp⟩
  · rw [if_neg hodd]
    have e14 : u32 (offset + 14 + 8 * (word16 p.fontData (offset + 2) / 2))
        = offset + 14 + 8 * (word16 p.fontData (offset + 2) / 2) := u32_of_lt (by omega)
    rw [e14, if_neg (by omega)]
    have e14b : u32 (offset + 14) = offset + 14 := u32_of_lt (by omega)
    have r1 := readU16Array_in_range p.fontData (word16 p.fontData (offset + 2) / 2)
      (offset + 14) table.endCount (by omega) (by omega)
    have e16 : u32 (offset + 14 + 2 * (word16 p.fontData (offset + 2) / 2) + 2)
        = offset + 14 + 2 * (word16 p.fontData (offset + 2) / 2) + 2 := u32_of_lt (by omega)
    have r2 := readU16Array_in_range p.fontData (word16 p.fontData (offset + 2) / 2)
      (offset + 14 + 2 * (word16 p.fontData (offset + 2) / 2) + 2) table.startCount
      (by omega) (by omega)
    have r3 := readU16Array_in_range p.fontData (word16 p.fontData (offset + 2) / 2)
      (offset + 14 + 2 * (word16 p.fontData (offset + 2) / 2) + 2
        + 2 * (word16 p.fontData (offset + 2) / 2)) table.idDelta (by omega) (by omega)
    have r4 := readU16Array_in_range p.fontData (word16 p.fontData (offset + 2) / 2)
      (offset + 14 + 2 * (word16 p.fontData (offset + 2) / 2) + 2
        + 2 * (word16 p.fontData (offset + 2) / 2) + 2 * (word16 p.fontData (offset + 2) / 2))
      table.idRangeOffset (by omega) (by omega)
    rw [hE, List.nil_append] at r1
    rw [hS, List.nil_append] at r2
    rw [hD, List.nil_append] at r3
    rw [hO, List.nil_append] at r4
    simp only [hE, hS, hD, hO, e14b, r1, e16, r2, r3, r4, Outcome.ret_bind]
    -- the arrays just read, by index
    have aE : ∀ j, j < format4SegCount p.fontData offset →
        ((List.range (word16 p.fontData (offset + 2) / 2)).map fun j =>
          word16 p.fontData (offset + 14 + 2 * j))[j]?
          = some (format4EndCount p.fontData offset j) := by
      intro j hj
      unfold format4SegCount at hj
      simp [List.getElem?_map, List.getElem?_range, hj, format4EndCount]
    have aS : ∀ j, j < format4SegCount p.fontData offset →
        ((List.range (word16 p.fontData (offset + 2) / 2)).map fun j =>
          word16 p.fontData (offset + 14 + 2 * (word16 p.fontData (offset + 2) / 2) + 2
            + 2 * j))[j]?
          = some (format4StartCount p.fontData offset j) := by
      intro j hj
      unfold format4SegCount at hj
      simp only [List.getElem?_map, List.getElem?_range hj, Option.map_some',
        format4StartCount, format4SegCount]
      congr 2
      omega
    have aD : ∀ j, j < format4SegCount p.fontData offset →
        ((List.range (word16 p.fontData (offset + 2) / 2)).map fun j =>
          word16 p.fontData (offset + 14 + 2 * (word16 p.fontData (offset + 2) / 2) + 2
            + 2 * (word16 p.fontData (offset + 2) / 2) + 2 * j))[j]?
          = some (format4IdDelta p.fontData offset j) := by
      intro j hj
      unfold format4SegCount at hj
      simp only [List.getElem?_map, List.getElem?_range hj, Option.map_some',
        format4IdDelta, format4SegCount]
      congr 2
      omega
    have aO : ∀ j, j < format4SegCount p.fontData offset →
        ((List.range (word16 p.fontData (offset + 2) / 2)).map fun j =>
          word16 p.fontData (offset + 14 + 2 * (word16 p.fontData (offset + 2) / 2) + 2
            + 2 * (word16 p.fontData (offset + 2) / 2)
            + 2 * (word16 p.fontData (offset + 2) / 2) + 2 * j))[j]?
          = some (format4IdRangeOffset p.fontData offset j) := by
      intro j hj
      unfold format4SegCount at hj
      simp only [List.getElem?_map, List.getElem?_range hj, Option.map_some',
        format4IdRangeOffset, format4SegCount]
      congr 2
      omega
    have hS65 : ∀ x ∈ ((List.range (word16 p.fontData (offset + 2) / 2)).map fun j =>
          word16 p.fontData (offset + 14 + 2 * (word16 p.fontData (offset + 2) / 2) + 2
            + 2 * j)), x < 65536 := by
      intro x hx
      simp only [List.mem_map] at hx
      obtain ⟨j, _, rfl⟩ := hx
      exact word16_lt _ _
    exact parseCmapFormat4_tail p.fontData p.numGlyphs (word16 p.fontData (offset + 2) / 2) fuel
      _ (format4EndCount p.fontData offset) (format4StartCount p.fontData offset)
      (format4IdDelta p.fontData offset) (format4IdRangeOffset p.fontData offset)
      hsc hn hfuel aE aS aD aO hS65 (by
        intro j hj
        have hlt : format4EndCount p.fontData offset j < 65536 := word16_lt _ _
        by_cases h5 : format4EndCount p.fontData offset j = 65535
        · exact Or.inr (hterm j hj h5)
        · left; omega)

/-- Supporting fact for C14: the part of the claim that the code keeps.  Whenever
`parseCmapFormat4` returns `true`, every glyph index it appended to `glyphIndices` is below
`numGlyphs` and `startCount[i] ≤ endCount[i]` holds for every segment.  And for a table
decoded from empty vectors that lies inside a buffer shorter than `2 ^ 32`, in which every
segment ending at `0xFFFF` has no indirection (so that the decode returns, within 65536
passes of each character loop): a segment with `startCount[i] > endCount[i]`, or a code for
which the lookup of the code itself, `cmapFormat4Glyph`, yields `numGlyphs` or more, makes it
return `false`. -/
theorem parseCmapFormat4_validates (p : TTFParser) (fuel offset : Nat) (table : CmapFormat4) :
    (∀ result, parseCmapFormat4 p fuel offset table = .ret (true, result) →
      (∃ new, result.glyphIndices = table.glyphIndices ++ new ∧ ∀ g ∈ new, g < p.numGlyphs) ∧
      ∀ i, i < result.segCountX2 / 2 →
        ∃ s e, result.startCount[i]? = some s ∧ result.endCount[i]? = some e ∧ s ≤ e) ∧
    ((table.endCount = [] ∧ table.startCount = [] ∧ table.idDelta = [] ∧
        table.idRangeOffset = []) →
      p.fontData.length < 4294967296 →
      offset + 16 + 8 * format4SegCount p.fontData offset ≤ p.fontData.length →
      p.numGlyphs ≤ 65535 → 65536 ≤ fuel →
      (∀ i, i < format4SegCount p.fontData offset →
        format4EndCount p.fontData offset i = 65535 →
        format4IdRangeOffset p.fontData offset i = 0) →
      ((∃ i, i < format4SegCount p.fontData offset ∧
          format4StartCount p.fontData offset i > format4EndCount p.fontData offset i) ∨
        (∃ i c v, i < format4SegCount p.fontData offset ∧
          format4StartCount p.fontData offset i ≤ c ∧ c ≤ format4EndCount p.fontData offset i ∧
          cmapFormat4Glyph p.fontData i (format4SegCount p.fontData offset)
            (format4StartCount p.fontData offset i) (format4IdDelta p.fontData offset i)
            (format4IdRangeOffset p.fontData offset i) c = .ret (some v) ∧
          v ≥ p.numGlyphs)) →
      ∃ result, parseCmapFormat4 p fuel offset table = .ret (false, result)) := by
  constructor
  · intro result h
    obtain ⟨segX2, o1, endCount, o2, startCount, o3, idDelta, o4, idRangeOffset, h0, heven,
      hlen, h1, h2, h3, h4, h5, h6⟩ := parseCmapFormat4_true_inv p fuel offset table result h
    obtain ⟨f1, _, _, _, _⟩ := cmapFormat4SegLoop_frame _ _ _ _ _ _ _ _ _ h5
    have happ := cmapFormat4SegLoop_true_append _ _ _ _ _ _ _ _ h5
    refine ⟨happ, ?_⟩
    intro i hi
    rw [f1] at hi
    exact cmapFormat4CheckLoop_true result _ _ h6 i (by omega) (by simpa using hi)
  · intro hempty hsize hin hn hfuel hterm hbad
    obtain ⟨b, result, hr, hgood⟩ :=
      parseCmapFormat4_total p fuel offset table hempty hsize hin hn hfuel hterm
    cases b with
    | false => exact ⟨result, hr⟩
    | true =>
      exfalso
      obtain ⟨hle, hall⟩ := hgood rfl
      rcases hbad with ⟨i, hi, hgt⟩ | ⟨i, c, v, hi, h1, h2, hv, hge⟩
      · have := hle i hi
        omega
      · obtain ⟨v', hv', hlt⟩ := hall i c hi h1 h2
        rw [hv] at hv'
        simp only [Outcome.ret.injEq, Option.some.injEq] at hv'
        omega

theorem parseCmapFormat4_validates_witness :
    ((∃ new, directTable.glyphIndices = CmapFormat4.fresh.glyphIndices ++ new ∧
        ∀ g ∈ new, g < directParser.numGlyphs) ∧
      ∀ i, i < directTable.segCountX2 / 2 →
        ∃ s e, directTable.startCount[i]? = some s ∧ directTable.endCount[i]? = some e ∧
          s ≤ e) ∧
    format4StartCount reversedFont 0 0 > format4EndCount reversedFont 0 0 ∧
    ∃ result, parseCmapFormat4 reversedParser 65536 0 CmapFormat4.fresh
      = .ret (false, result) := by
  have h : parseCmapFormat4 directParser 10 0 CmapFormat4.fresh = .ret (true, directTable) := by
    rfl
  exact ⟨(parseCmapFormat4_validates directParser 10 0 CmapFormat4.fresh).1 directTable h,
    by decide,
    (parseCmapFormat4_validates reversedParser 65536 0 CmapFormat4.fresh).2
      ⟨rfl, rfl, rfl, rfl⟩ (by decide) (by decide) (by decide) (by decide) (by decide)
      (Or.inl ⟨0, by decide, by decide⟩)⟩

theorem cmapFormat4CheckLoop_scalars (t : CmapFormat4) (f sr es rs rp : Nat) :
    ∀ (count i : Nat),
    cmapFormat4CheckLoop { t with format := f, searchRange := sr, entrySelector := es,
                                  rangeShift := rs, reservedPad := rp } count i
      = cmapFormat4CheckLoop t count i := by
  intro count
  induction count with
  | zero => intro i; rfl
  | succ n ih =>
    intro i
    unfold cmapFormat4CheckLoop
    simp only [ih]

/-- The segment loop neither reads nor writes the scalar members other than `segCountX2`. -/
theorem cmapFormat4SegLoop_scalars (fontData : List Byte) (numGlyphs segCount fuel : Nat)
    (f sr es rs rp : Nat) : ∀ (count i : Nat) (t : CmapFormat4),
    cmapFormat4SegLoop fontData numGlyphs segCount fuel count i
        { t with format := f, searchRange := sr, entrySelector := es, rangeShift := rs,
                 reservedPad := rp }
      = (cmapFormat4SegLoop fontData numGlyphs segCount fuel count i t).bind fun r =>
          .ret (r.1, { r.2 with format := f, searchRange := sr, entrySelector := es,
                                rangeShift := rs, reservedPad := rp }) := by
  intro count
  induction count with
  | zero => intro i t; rfl
  | succ n ih =>
    intro i t
    unfold cmapFormat4SegLoop
    simp only
    split
    · rename_i s e d o hs he hd ho
      cases cmapFormat4CharLoop fontData numGlyphs i segCount s e d o fuel s t.glyphIndices with
      | fault => rfl
      | timeout => rfl
      | ret x =>
        obtain ⟨ok, g⟩ := x
        cases ok with
        | false => rfl
        | true =>
          simp only [Outcome.ret_bind, Bool.not_true, Bool.false_eq_true, if_false]
          exact ih (i + 1) { t with glyphIndices := g }
    · rfl

/-- The decode of format 4 neither reads the scalar members of the object it is given nor
writes one other than `segCountX2`. -/
theorem parseCmapFormat4_scalars (p : TTFParser) (fuel offset : Nat) (t : CmapFormat4)
    (f x2 sr es rs rp : Nat) :
    parseCmapFormat4 p fuel offset
        { t with format := f, segCountX2 := x2, searchRange := sr, entrySelector := es,
                 rangeShift := rs, reservedPad := rp }
      = (parseCmapFormat4 p fuel offset t).bind fun r =>
          .ret (r.1, { r.2 with format := f, searchRange := sr, entrySelector := es,
                                rangeShift := rs, reservedPad := rp }) := by
  unfold parseCmapFormat4
  cases be16 p.fontData (u32 (offset + 2)) with
  | fault => rfl
  | timeout => rfl
  | ret segX2 =>
  simp only [Outcome.ret_bind]
  split
  · rfl
  · split
    · rfl
    · cases readU16Array p.fontData (segX2 / 2) (u32 (offset + 14)) t.endCount with
      | fault => rfl
      | timeout => rfl
      | ret r1 =>
      obtain ⟨o1, endCount⟩ := r1
      simp only [Outcome.ret_bind]
      cases readU16Array p.fontData (segX2 / 2) (u32 (o1 + 2)) t.startCount with
      | fault => rfl
      | timeout => rfl
      | ret r2 =>
      obtain ⟨o2, startCount⟩ := r2
      simp only [Outcome.ret_bind]
      cases readU16Array p.fontData (segX2 / 2) o2 t.idDelta with
      | fault => rfl
      | timeout => rfl
      | ret r3 =>
      obtain ⟨o3, idDelta⟩ := r3
      simp only [Outcome.ret_bind]
      cases readU16Array p.fontData (segX2 / 2) o3 t.idRangeOffset with
      | fault => rfl
      | timeout => rfl
      | ret r4 =>
      obtain ⟨o4, idRangeOffset⟩ := r4
      simp only [Outcome.ret_bind]
      have hseg := cmapFormat4SegLoop_scalars p.fontData p.numGlyphs (segX2 / 2) fuel f sr es rs
        rp (segX2 / 2) 0
        { t with segCountX2 := segX2, endCount := endCount, startCount := startCount,
                 idDelta := idDelta, idRangeOffset := idRangeOffset }
      simp only at hseg
      rw [hseg]
      cases cmapFormat4SegLoop p.fontData p.numGlyphs (segX2 / 2) fuel (segX2 / 2) 0
        { t with segCountX2 := segX2, endCount := endCount, startCount := startCount,
                 idDelta := idDelta, idRangeOffset := idRangeOffset } with
      | fault => rfl
      | timeout => rfl
      | ret r5 =>
      obtain ⟨ok, t'⟩ := r5
      cases ok with
      | false => rfl
      | true =>
        simp only [Outcome.bind_ret, Outcome.ret_bind, Bool.not_true, Bool.false_eq_true,
          if_false]
        have hc := cmapFormat4CheckLoop_scalars t' f sr es rs rp (segX2 / 2) 0
        simp only at hc
        rw [hc]
        cases cmapFormat4CheckLoop t' (segX2 / 2) 0 with
        | fault => rfl
        | timeout => rfl
        | ret b => rfl

/-- C15.  Two decodes of the same buffer at the same offset with the same `numGlyphs` (and
the same budget), each into a `CmapFormat4` whose vectors are empty and whose scalar members
hold whatever they hold: when the first returns, the second returns the same boolean and
equal `segCountX2`, `endCount`, `startCount`, `idDelta`, `idRangeOffset` and `glyphIndices`;
and when the first does not return, neither does the second. -/
theorem parseCmapFormat4_deterministic (p : TTFParser) (fuel offset : Nat)
    (t1 t2 : CmapFormat4)
    (h1 : t1.endCount = [] ∧ t1.startCount = [] ∧ t1.idDelta = [] ∧ t1.idRangeOffset = [] ∧
      t1.glyphIndices = [])
    (h2 : t2.endCount = [] ∧ t2.startCount = [] ∧ t2.idDelta = [] ∧ t2.idRangeOffset = [] ∧
      t2.glyphIndices = []) :
    (∀ b r1, parseCmapFormat4 p fuel offset t1 = .ret (b, r1) →
      ∃ r2, parseCmapFormat4 p fuel offset t2 = .ret (b, r2) ∧
        r2.segCountX2 = r1.segCountX2 ∧ r2.endCount = r1.endCount ∧
        r2.startCount = r1.startCount ∧ r2.idDelta = r1.idDelta ∧
        r2.idRangeOffset = r1.idRangeOffset ∧ r2.glyphIndices = r1.glyphIndices) ∧
    (parseCmapFormat4 p fuel offset t1 = .fault → parseCmapFormat4 p fuel offset t2 = .fault) ∧
    (parseCmapFormat4 p fuel offset t1 = .timeout →
      parseCmapFormat4 p fuel offset t2 = .timeout) := by
  have e : t2 = { t1 with format := t2.format, segCountX2 := t2.segCountX2,
                          searchRange := t2.searchRange, entrySelector := t2.entrySelector,
                          rangeShift := t2.rangeShift, reservedPad := t2.reservedPad } := by
    obtain ⟨a1, a2, a3, a4, a5⟩ := h1
    obtain ⟨b1, b2, b3, b4, b5⟩ := h2
    cases t1
    cases t2
    simp only at a1 a2 a3 a4 a5 b1 b2 b3 b4 b5
    subst a1 a2 a3 a4 a5 b1 b2 b3 b4 b5
    rfl
  have key := parseCmapFormat4_scalars p fuel offset t1 t2.format t2.segCountX2 t2.searchRange
    t2.entrySelector t2.rangeShift t2.reservedPad
  rw [← e] at key
  rw [key]
  refine ⟨?_, ?_, ?_⟩
  · intro b r1 h
    rw [h]
    exact ⟨_, rfl, rfl, rfl, rfl, rfl, rfl, rfl⟩
  · intro h
    rw [h]
    rfl
  · intro h
    rw [h]
    rfl

theorem parseCmapFormat4_deterministic_witness :
    ∃ r2, parseCmapFormat4 directParser 10 0 { CmapFormat4.fresh with format := 4, searchRange := 7 }
        = .ret (true, r2) ∧
      r2.segCountX2 = directTable.segCountX2 ∧ r2.endCount = directTable.endCount ∧
      r2.startCount = directTable.startCount ∧ r2.idDelta = directTable.idDelta ∧
      r2.idRangeOffset = directTable.idRangeOffset ∧
      r2.glyphIndices = directTable.glyphIndices := by
  have h : parseCmapFormat4 directParser 10 0 CmapFormat4.fresh = .ret (true, directTable) := by
    rfl
  exact (parseCmapFormat4_deterministic directParser 10 0 CmapFormat4.fresh
    { CmapFormat4.fresh with format := 4, searchRange := 7 } ⟨rfl, rfl, rfl, rfl, rfl⟩
    ⟨rfl, rfl, rfl, rfl, rfl⟩).1 true directTable h

/-! ## `cmap` format 14 -/

/-- C18 (the code departs from the claim).  The format field of the format 14 subtable of
`format14Font` sits at `S = 20`.  `parseCmapTable` hands `S + 2` to `parseCmapFormat14`,
which measures every offset from the position it is given: the record with
`defaultUVSOffset = 23` and `nonDefaultUVSOffset = 31` gets its default UVS table from
`S + 2 + 23 = 45` (one range) and its non-default UVS table from `S + 2 + 31 = 53` (one
mapping), not from `S + 23 = 43` (where the count is 0) and `S + 31 = 51`.  On
`format14LayoutFont`, whose subtable follows the layout of the format with offsets measured
from `S`, the same shift makes the call read the record count `0x00010E01` at `S + 8` and
run off the end of the buffer. -/
theorem parseCmapTable_format14_offsets_from_second_byte (fuel : Nat) :
    be16 format14Font 20 = .ret 14 ∧
    be32 format14Font (20 + 23) = .ret 0 ∧ be32 format14Font (20 + 2 + 23) = .ret 1 ∧
    be32 format14Font (20 + 31) = .ret 0x00020000 ∧ be32 format14Font (20 + 2 + 31) = .ret 1 ∧
    (∃ cmap t, parseCmapTable format14Parser fuel 8 CmapTable.fresh = .ret (true, cmap) ∧
      cmap.subtables = [.format14 t] ∧
      t.varSelectors = [{ varSelector := 0x0E0100, defaultUVSOffset := 23,
                          nonDefaultUVSOffset := 31,
                          defaultUVSTable := [{ startUnicodeValue := 0x4E00,
                                                additionalCount := 2 }],
                          nonDefaultUVSTable := [{ unicodeValue := 0x4E01, glyphID := 5 }] }]) ∧
    be16 format14LayoutFont 20 = .ret 14 ∧ be32 format14LayoutFont (20 + 6) = .ret 1 ∧
    be32 format14LayoutFont (20 + 2 + 6) = .ret 0x00010E01 ∧
    parseCmapTable format14LayoutParser fuel 8 CmapTable.fresh = .fault := by
  refine ⟨by decide, by decide, by decide, by decide, by decide, ⟨_, _, rfl, rfl, rfl⟩,
    by decide, by decide, by decide, rfl⟩

/-! ## `glyf` -/

/-- C19 (the code departs from the claim).  The buffer of `emptyGlyphParser` holds the ten
bytes of a glyph header whose contour count is 0, that of `negativeGlyphParser` one whose
contour count is -2.  `parseGlyph` returns `true` on both: every count that is neither
positive nor -1 takes the branch that reports an empty glyph. -/
theorem parseGlyph_other_contour_counts_accepted :
    toInt16 (word16 emptyGlyphParser.fontData 0) = 0 ∧
    parseGlyph emptyGlyphParser 1 0 SimpleGlyph.fresh = .ret (true, SimpleGlyph.fresh) ∧
    toInt16 (word16 negativeGlyphParser.fontData 0) = -2 ∧
    parseGlyph negativeGlyphParser 1 0 SimpleGlyph.fresh = .ret (true, SimpleGlyph.fresh) := by
  refine ⟨by decide, rfl, by decide, rfl⟩

/-- C19, as the code has it.  For a buffer holding at least `glyphOffset + 10` bytes whose
signed big-endian contour count at `glyphOffset` is 0 or is negative and different from -1,
`parseGlyph` returns `true` and leaves `glyph` as it was. -/
theorem parseGlyph_other_contour_counts_true (p : TTFParser) (fuel glyphOffset : Nat)
    (glyph : SimpleGlyph)
    (hlen : glyphOffset + 10 ≤ p.fontData.length)
    (hcount : toInt16 (word16 p.fontData glyphOffset) = 0 ∨
      (toInt16 (word16 p.fontData glyphOffset) < 0 ∧
        toInt16 (word16 p.fontData glyphOffset) ≠ -1)) :
    parseGlyph p fuel glyphOffset glyph = .ret (true, glyph) := by
  unfold parseGlyph
  have hle := u32_le (glyphOffset + 10)
  rw [if_neg (by omega)]
  simp only
  rw [if_neg (by omega), be16_of_le (by omega)]
  simp only [Outcome.bind_ret]
  rw [if_neg (by omega), if_neg (by omega)]

theorem parseGlyph_other_contour_counts_true_witness :
    (0 + 10 ≤ negativeGlyphParser.fontData.length ∧
      toInt16 (word16 negativeGlyphParser.fontData 0) < 0 ∧
      toInt16 (word16 negativeGlyphParser.fontData 0) ≠ -1) ∧
    parseGlyph negativeGlyphParser 1 0 SimpleGlyph.fresh = .ret (true, SimpleGlyph.fresh) :=
  ⟨⟨by decide, by decide, by decide⟩,
    parseGlyph_other_contour_counts_true negativeGlyphParser 1 0 SimpleGlyph.fresh
      (by decide) (Or.inr ⟨by decide, by decide⟩)⟩

theorem compoundArgs_ret (fontData : List Byte) (flags offset : Nat) (r : Int × Int × Nat)
    (hsize : fontData.length < 4294967296)
    (h : compoundArgs fontData flags offset = .ret r) :
    r.2.2 = offset + (if flags &&& ARG_1_AND_2_ARE_WORDS ≠ 0 then 4 else 2) ∧
      r.2.2 ≤ fontData.length := by
  unfold compoundArgs at h
  split at h
  · rename_i hw
    rw [if_pos hw]
    cases h1 : be16 fontData offset with
    | fault => simp [h1] at h
    | timeout => simp [h1] at h
    | ret v1 =>
      have b1 := (be16_ret h1).1
      simp only [h1, Outcome.ret_bind] at h
      rw [u32_of_lt (by omega)] at h
      cases h2 : be16 fontData (offset + 2) with
      | fault => simp [h2] at h
      | timeout => simp [h2] at h
      | ret v2 =>
        have b2 := (be16_ret h2).1
        simp only [h2, Outcome.ret_bind] at h
        rw [u32_of_lt (by omega)] at h
        simp only [Outcome.ret.injEq] at h
        subst h
        refine ⟨?_, ?_⟩ <;> first | rfl | omega | (simp only; omega)
  · rename_i hw
    rw [if_neg hw]
    cases h1 : byteAt fontData offset with
    | fault => simp [h1] at h
    | timeout => simp [h1] at h
    | ret v1 =>
      have b1 := (byteAt_ret h1).1
      simp only [h1, Outcome.ret_bind] at h
      rw [u32_of_lt (by omega)] at h
      cases h2 : byteAt fontData (offset + 1) with
      | fault => simp [h2] at h
      | timeout => simp [h2] at h
      | ret v2 =>
        have b2 := (byteAt_ret h2).1
        simp only [h2, Outcome.ret_bind] at h
        rw [u32_of_lt (by omega)] at h
        simp only [Outcome.ret.injEq] at h
        subst h
        refine ⟨?_, ?_⟩ <;> first | rfl | omega | (simp only; omega)

theorem compoundTransform_true (fontData : List Byte) (flags offset offset' : Nat)
    (hsize : fontData.length < 4294967296) (hoff : offset ≤ fontData.length)
    (h : compoundTransform fontData flags offset = .ret (true, offset')) :
    offset' = offset + (if flags &&& WE_HAVE_A_SCALE ≠ 0 then 2
       else if flags &&& WE_HAVE_AN_X_AND_Y_SCALE ≠ 0 then 4
       else if flags &&& WE_HAVE_A_TWO_BY_TWO ≠ 0 then 8
       else 0) ∧ offset' ≤ fontData.length := by
  unfold compoundTransform at h
  split at h
  · rename_i h1
    rw [if_pos h1]
    split at h
    · simp at h
    · cases r1 : be16 fontData offset with
      | fault => simp [r1] at h
      | timeout => simp [r1] at h
      | ret v1 =>
        have b1 := (be16_ret r1).1
        simp only [r1, Outcome.ret_bind] at h
        rw [u32_of_lt (by omega)] at h
        simp only [Outcome.ret.injEq, Prod.mk.injEq, true_and] at h
        omega
  · rename_i h1
    rw [if_neg h1]
    split at h
    · rename_i h2
      rw [if_pos h2]
      split at h
      · simp at h
      · cases r1 : be16 fontData offset with
        | fault => simp [r1] at h
        | timeout => simp [r1] at h
        | ret v1 =>
          have b1 := (be16_ret r1).1
          simp only [r1, Outcome.ret_bind] at h
          rw [u32_of_lt (by omega)] at h
          cases r2 : be16 fontData (offset + 2) with
          | fault => simp [r2] at h
          | timeout => simp [r2] at h
          | ret v2 =>
            have b2 := (be16_ret r2).1
            simp only [r2, Outcome.ret_bind] at h
            rw [u32_of_lt (by omega)] at h
            simp only [Outcome.ret.injEq, Prod.mk.injEq, true_and] at h
            omega
    · rename_i h2
      rw [if_neg h2]
      split at h
      · rename_i h3
        rw [if_pos h3]
        split at h
        · simp at h
        · cases r1 : be16 fontData offset with
          | fault => simp [r1] at h
          | timeout => simp [r1] at h
          | ret v1 =>
            have b1 := (be16_ret r1).1
            simp only [r1, Outcome.ret_bind] at h
            rw [u32_of_lt (by omega)] at h
            cases r2 : be16 fontData (offset + 2) with
            | fault => simp [r2] at h
            | timeout => simp [r2] at h
            | ret v2 =>
              have b2 := (be16_ret r2).1
              simp only [r2, Outcome.ret_bind] at h
              rw [u32_of_lt (by omega)] at h
              cases r3 : be16 fontData (offset + 2 + 2) with
              | fault => simp [r3] at h
              | timeout => simp [r3] at h
              | ret v3 =>
                have b3 := (be16_ret r3).1
                simp only [r3, Outcome.ret_bind] at h
                rw [u32_of_lt (by omega)] at h
                cases r4 : be16 fontData (offset + 2 + 2 + 2) with
                | fault => simp [r4] at h
                | timeout => simp [r4] at h
                | ret v4 =>
                  have b4 := (be16_ret r4).1
                  simp only [r4, Outcome.ret_bind] at h
                  rw [u32_of_lt (by omega)] at h
                  simp only [Outcome.ret.injEq, Prod.mk.injEq, true_and] at h
                  omega
      · rename_i h3
        rw [if_neg h3]
        simp only [Outcome.ret.injEq, Prod.mk.injEq, true_and] at h
        omega

/-- A pass through the body of the component loop that is completed has read the flags at
the cursor and moved the cursor by the size of the record. -/
theorem compoundComponent_some (fontData : List Byte) (offset offset' flags : Nat)
    (glyph glyph' : CompoundGlyph) (hsize : fontData.length < 4294967296)
    (h : compoundComponent fontData offset glyph = .ret (some flags, offset', glyph')) :
    flags = word16 fontData offset ∧ offset' = offset + componentBytes flags ∧
      offset' ≤ fontData.length ∧
      glyph'.components.length = glyph.components.length + 1 := by
  unfold compoundComponent at h
  split at h
  · simp at h
  · cases h1 : be16 fontData offset with
    | fault => simp [h1] at h
    | timeout => simp [h1] at h
    | ret v1 =>
      obtain ⟨b1, e1⟩ := be16_ret h1
      simp only [h1, Outcome.ret_bind] at h
      rw [u32_of_lt (by omega)] at h
      cases h2 : be16 fontData (offset + 2) with
      | fault => simp [h2] at h
      | timeout => simp [h2] at h
      | ret v2 =>
        have b2 := (be16_ret h2).1
        simp only [h2, Outcome.ret_bind] at h
        rw [u32_of_lt (by omega)] at h
        cases h3 : compoundArgs fontData v1 (offset + 2 + 2) with
        | fault => simp [h3] at h
        | timeout => simp [h3] at h
        | ret r3 =>
          obtain ⟨a1, a2, o3⟩ := r3
          obtain ⟨e3, b3⟩ := compoundArgs_ret fontData v1 (offset + 2 + 2) _ hsize h3
          simp only at e3 b3
          simp only [h3, Outcome.ret_bind] at h
          cases h4 : compoundTransform fontData v1 o3 with
          | fault => simp [h4] at h
          | timeout => simp [h4] at h
          | ret r4 =>
            obtain ⟨ok, o4⟩ := r4
            simp only [h4, Outcome.ret_bind] at h
            cases ok with
            | false => simp at h
            | true =>
              obtain ⟨e4, b4⟩ := compoundTransform_true fontData v1 o3 o4 hsize b3 h4
              simp only [Bool.not_true, Bool.false_eq_true, if_false, Outcome.ret.injEq,
                Prod.mk.injEq, Option.some.injEq] at h
              obtain ⟨hf, ho, hg⟩ := h
              subst hf ho hg
              refine ⟨e1, ?_, b4, by simp⟩
              rw [e4, e3]
              unfold componentBytes
              omega

/-- A run of the component loop that ends without a `return false` has walked the records
listed by `componentFlags`. -/
theorem compoundLoop_some (fontData : List Byte) (hsize : fontData.length < 4294967296) :
    ∀ (fuel offset offset' flags : Nat) (glyph glyph' : CompoundGlyph),
    compoundLoop fontData fuel offset glyph = .ret (some flags, offset', glyph') →
    offset' = offset + ((componentFlags fontData fuel offset).map componentBytes).sum ∧
      (componentFlags fontData fuel offset).getLast? = some flags ∧
      flags &&& MORE_COMPONENTS = 0 ∧
      offset' ≤ fontData.length ∧
      glyph'.components.length
        = glyph.components.length + (componentFlags fontData fuel offset).length := by
  intro fuel
  induction fuel with
  | zero =>
    intro offset offset' flags glyph glyph' h
    unfold compoundLoop at h
    cases h
  | succ n ih =>
    intro offset offset' flags glyph glyph' h
    unfold compoundLoop at h
    split at h
    · cases h
    · cases h
    · simp at h
    · rename_i f o1 g1 hc
      obtain ⟨ef, eo, bo, eg⟩ := compoundComponent_some fontData offset o1 f glyph g1 hsize hc
      unfold componentFlags
      simp only [← ef]
      split at h
      · rename_i hmore
        rw [if_pos hmore]
        obtain ⟨i1, i2, i3, i4, i5⟩ := ih o1 offset' flags g1 glyph' h
        rw [← eo]
        refine ⟨?_, ?_, i3, i4, ?_⟩
        · simp only [List.map_cons, List.sum_cons]
          omega
        · cases hl : componentFlags fontData n o1 with
          | nil => rw [hl] at i2; simp at i2
          | cons a l => rw [hl] at i2; rw [← i2]; simp [List.getLast?_cons_cons]
        · simp only [List.length_cons]
          omega
      · rename_i hmore
        rw [if_neg hmore]
        simp only [Outcome.ret.injEq, Prod.mk.injEq, Option.some.injEq] at h
        obtain ⟨hf, ho, hg⟩ := h
        subst hf ho hg
        refine ⟨by simp; omega, by simp, by simpa using hmore, bo, by simp; omega⟩

/-- C20.  For a buffer that ends at least `0xFFFF` bytes below `2 ^ 32`: whenever
`parseCompoundGlyph` returns `true`, the final value of `offset` is the start value plus the
number of bytes of the composite description (`compositeBytes`: per component 4 bytes, 4 or
2 bytes of arguments and 2, 4, 8 or 0 bytes of transform, and `2 + instructionLength` bytes
when the last flags carry `WE_HAVE_INSTRUCTIONS`); the components listed end with the one
without `MORE_COMPONENTS`, and one entry per component has been appended. -/
theorem parseCompoundGlyph_final_offset (p : TTFParser) (fuel offset offset' : Nat)
    (glyph glyph' : CompoundGlyph)
    (hsize : p.fontData.length + 65535 < 4294967296)
    (h : parseCompoundGlyph p fuel offset glyph = .ret (true, offset', glyph')) :
    offset' = offset + compositeBytes p.fontData fuel offset ∧
    (∃ last, (componentFlags p.fontData fuel offset).getLast? = some last ∧
      last &&& MORE_COMPONENTS = 0) ∧
    glyph'.components.length
      = glyph.components.length + (componentFlags p.fontData fuel offset).length := by
  unfold parseCompoundGlyph at h
  split at h
  · cases h
  · cases h
  · simp at h
  · rename_i flags o1 g1 hl
    obtain ⟨i1, i2, i3, i4, i5⟩ :=
      compoundLoop_some p.fontData (by omega) fuel offset o1 flags glyph g1 hl
    split at h
    · cases h
    · cases h
    · rename_i ok o2 hi
      simp only [Outcome.ret.injEq, Prod.mk.injEq] at h
      obtain ⟨hok, ho, hg⟩ := h
      subst hok ho hg
      refine ⟨?_, ⟨flags, i2, i3⟩, i5⟩
      unfold compositeBytes
      simp only [i2]
      rw [← i1]
      unfold compoundInstructions at hi
      split at hi
      · rename_i hins
        rw [if_pos hins]
        split at hi
        · simp at hi
        · cases r1 : be16 p.fontData o1 with
          | fault => simp [r1] at hi
          | timeout => simp [r1] at hi
          | ret v1 =>
            obtain ⟨b1, e1⟩ := be16_ret r1
            have hv := word16_lt p.fontData o1
            simp only [r1, Outcome.ret_bind] at hi
            rw [u32_of_lt (by omega)] at hi
            split at hi
            · simp at hi
            · rw [u32_of_lt (by omega)] at hi
              simp only [Outcome.ret.injEq, Prod.mk.injEq, true_and] at hi
              omega
      · rename_i hins
        rw [if_neg hins]
        simp only [Outcome.ret.injEq, Prod.mk.injEq, true_and] at hi
        omega

theorem parseCompoundGlyph_final_offset_witness :
    compoundParser.fontData.length + 65535 < 4294967296 ∧
    parseCompoundGlyph compoundParser 5 10 CompoundGlyph.fresh
      = .ret (true, 29, { components := [CompoundComponent.ofIndex 5] }) ∧
    componentFlags compoundParser.fontData 5 10 = [0x0180] ∧
    compositeBytes compoundParser.fontData 5 10 = 4 + 2 + 8 + 2 + 3 ∧
    29 = 10 + compositeBytes compoundParser.fontData 5 10 := by
  have h : parseCompoundGlyph compoundParser 5 10 CompoundGlyph.fresh
      = .ret (true, 29, { components := [CompoundComponent.ofIndex 5] }) := by rfl
  exact ⟨by decide, h, by decide, by decide,
    (parseCompoundGlyph_final_offset compoundParser 5 10 29 CompoundGlyph.fresh _
      (by decide) h).1⟩

/-! ## `glyf`: the components of a compound glyph -/

/-- C21 (the code departs from the claim).  The composite description of `compoundParser` at
offset 10 has one component with glyph index 5 and the byte arguments 1 and 2, which
`compoundArgs` reads.  `parseCompoundGlyph` returns `true` with a component whose `arg1` and
`arg2` are both 0: the arguments are read into two locals after the component has been
pushed with the values of its constructor, and are never stored. -/
theorem parseCompoundGlyph_arguments_not_stored :
    be16 compoundParser.fontData 10 = .ret 0x0180 ∧
    be16 compoundParser.fontData 12 = .ret 5 ∧
    compoundArgs compoundParser.fontData 0x0180 14 = .ret (1, 2, 16) ∧
    parseCompoundGlyph compoundParser 5 10 CompoundGlyph.fresh
      = .ret (true, 29, { components := [{ glyphIndex := 5, arg1 := 0, arg2 := 0 }] }) := by
  refine ⟨by decide, by decide, by decide, ?_⟩
  rfl

/-- C30 (the code departs from the claim).  The buffer of `truncatedCompoundParser` ends
right after the flags and the glyph index of a component with byte arguments, that of
`truncatedWordsParser` after the first of two word arguments.  The only size test before the
arguments is `offset + 4 > size`, which both buffers pass; `parseCompoundGlyph` then reads
`fontData[4]`, respectively the word at 6, outside the buffer instead of returning
`false`. -/
theorem parseCompoundGlyph_arguments_unchecked :
    truncatedCompoundParser.fontData.length = 4 ∧
    byteAt truncatedCompoundParser.fontData 4 = .fault ∧
    parseCompoundGlyph truncatedCompoundParser 5 0 CompoundGlyph.fresh = .fault ∧
    truncatedWordsParser.fontData.length = 6 ∧
    be16 truncatedWordsParser.fontData 6 = .fault ∧
    parseCompoundGlyph truncatedWordsParser 5 0 CompoundGlyph.fresh = .fault := by
  refine ⟨rfl, rfl, rfl, rfl, rfl, rfl⟩

/-! ## `OS/2` -/

/-- C29 (the code departs from the claim).  The buffer of `os2Version1Parser` holds exactly
`offset + 80` bytes of a table that declares version 1.  The size test of the version 1 block
is `fontData.size() < offset + 80`, which this buffer passes; `usDefaultChar` is then read
from the bytes 80 and 81, outside the buffer, instead of the call returning `false`. -/
theorem parseOS2Table_version1_reads_past_end :
    os2Version1Parser.fontData.length = 0 + 80 ∧
    be16 os2Version1Parser.fontData 0 = .ret 1 ∧
    be16 os2Version1Parser.fontData (0 + 80) = .fault ∧
    parseOS2Table os2Version1Parser 0 OS2Table.fresh = .fault := by
  refine ⟨rfl, by decide, rfl, ?_⟩
  rfl

/-! ## `GPOS`: value records -/

/-- C24 (the code departs from the claim).  For the mask `0x0010`, which has one bit set,
`getValueRecordSize` returns 0, not 2: only the four low bits are looked at. -/
theorem getValueRecordSize_ignores_high_bits :
    getValueRecordSize 0x0010 = 0 ∧ 2 * popcount16 0x0010 = 2 ∧
    getValueRecordSize 0xFFFF = 8 ∧ 2 * popcount16 0xFFFF = 32 := by
  refine ⟨by decide, by decide, by decide, by decide⟩

theorem and_low_bit (v b : Nat) (h15 : 15 &&& b = b) :
    v &&& b = (v % 16) &&& b := by
  have h : v % 16 = v &&& 15 := by
    have := Nat.and_pow_two_sub_one_eq_mod v 4
    simpa using this.symm
  rw [h, Nat.and_assoc, h15]

theorem getValueRecordSize_mod (v : Nat) : getValueRecordSize v = getValueRecordSize (v % 16) := by
  unfold getValueRecordSize
  rw [and_low_bit v 1 (by decide), and_low_bit v 2 (by decide), and_low_bit v 4 (by decide),
    and_low_bit v 8 (by decide)]

/-- Supporting fact for C24: what the code computes.  For every `valueFormat`,
`getValueRecordSize(valueFormat)` is twice the number of bits set among the four low bits of
the mask; the bits from `0x0010` up do not count. -/
theorem getValueRecordSize_low_four_bits (valueFormat : Nat) :
    getValueRecordSize valueFormat = 2 * popcount16 (valueFormat &&& 0x000F) := by
  have h : valueFormat &&& 0x000F = valueFormat % 16 := by
    have := Nat.and_pow_two_sub_one_eq_mod valueFormat 4
    simpa using this
  rw [h, getValueRecordSize_mod]
  have hlt : valueFormat % 16 < 16 := Nat.mod_lt _ (by omega)
  generalize valueFormat % 16 = w at hlt
  interval_cases w <;> decide

/-! ## `GPOS`: the Single-Adjustment subtable -/

/-- A format 2 subtable whose header and coverage count can be read: the call is the value
loop from the cursor after the header, with the count found for the coverage table. -/
theorem parseSingleAdjustmentSubtable_format2 (p : TTFParser) (uninitialised : Nat → ValueRecord)
    (offset coverageOffset valueFormat glyphCount : Nat) (subtable : SingleAdjustmentSubtable)
    (h6 : ¬ u32 (offset + 6) > p.fontData.length)
    (hf : be16 p.fontData offset = .ret 2)
    (hc : be16 p.fontData (u32 (offset + 2)) = .ret coverageOffset)
    (hv : be16 p.fontData (u32 (u32 (offset + 2) + 2)) = .ret valueFormat)
    (hg : getCoverageGlyphCount p
      (u32OfInt ((u32 (u32 (u32 (u32 (offset + 2) + 2) + 2) + coverageOffset) : Int) - 4))
        = .ret glyphCount) :
    parseSingleAdjustmentSubtable p uninitialised offset subtable
      = (singleAdjustmentLoop p valueFormat uninitialised glyphCount 0
          (u32 (u32 (u32 (offset + 2) + 2) + 2)) subtable.values).bind fun r =>
        .ret (r.1, { subtable with format := 2, coverageOffset := coverageOffset,
                                   valueFormat := valueFormat, values := r.2 }) := by
  unfold parseSingleAdjustmentSubtable
  rw [if_neg h6, hf]
  simp only [Outcome.bind_ret]
  rw [hc]
  simp only [Outcome.bind_ret]
  rw [hv]
  simp only [Outcome.bind_ret]
  rw [if_neg (by decide), if_pos True.intro, hg]
  simp only [Outcome.bind_ret]

/-- Two passes of the value loop that both decode a record: the second pass starts
`getValueRecordSize` bytes after the cursor that the first `parseValueRecord` left. -/
theorem singleAdjustmentLoop_two (p : TTFParser) (valueFormat : Nat)
    (uninitialised : Nat → ValueRecord) (o0 e0 o1 e1 : Nat) (r0 r1 : ValueRecord)
    (values : List ValueRecord)
    (h0 : parseValueRecord p o0 valueFormat (uninitialised 0) = .ret (true, e0, r0))
    (hadv : u32 (e0 + getValueRecordSize valueFormat) = o1)
    (h1 : parseValueRecord p o1 valueFormat (uninitialised (0 + 1)) = .ret (true, e1, r1)) :
    singleAdjustmentLoop p valueFormat uninitialised 2 0 o0 values
      = .ret (true, values ++ [r0] ++ [r1]) := by
  unfold singleAdjustmentLoop
  rw [h0]
  simp only [Outcome.bind_ret, Bool.not_true, Bool.false_eq_true, if_false]
  rw [hadv]
  unfold singleAdjustmentLoop
  rw [h1]
  simp only [Outcome.bind_ret, Bool.not_true, Bool.false_eq_true, if_false]
  unfold singleAdjustmentLoop
  rfl

/-- C26 (the code departs from the claim).  The format 2 subtable of `singleAdjustmentFont`
starts at `P = 0`, has records of `s = 2` bytes (`valueFormat = 0x0001`: the record is its
`xPlacement`) and a coverage count of 2, so the claimed records are the words at
`P + 6 = 6` and `P + 6 + s = 8`, that is 10 and 20.  Whatever the uninitialised local records
and the caller's subtable hold, `parseSingleAdjustmentSubtable` returns `true` and the two
records it appends have the `xPlacement` 10 and 30: after `parseValueRecord` has moved the
cursor past the record, the loop adds `getValueRecordSize` once more, so record `i` is read
at `P + 6 + 2 * i * s`. -/
theorem parseSingleAdjustmentSubtable_skips_every_other_record
    (uninitialised : Nat → ValueRecord) (subtable : SingleAdjustmentSubtable) :
    be16 singleAdjustmentFont 0 = .ret 2 ∧ be16 singleAdjustmentFont 4 = .ret 0x0001 ∧
    getValueRecordSize 0x0001 = 2 ∧
    getCoverageGlyphCount singleAdjustmentParser 12 = .ret 2 ∧
    getCoverageGlyphCount singleAdjustmentParser 14 = .ret 2 ∧
    toInt16 (word16 singleAdjustmentFont (0 + 6 + 0 * 2)) = 10 ∧
    toInt16 (word16 singleAdjustmentFont (0 + 6 + 1 * 2)) = 20 ∧
    toInt16 (word16 singleAdjustmentFont (0 + 6 + 2 * 1 * 2)) = 30 ∧
    ∃ result, parseSingleAdjustmentSubtable singleAdjustmentParser uninitialised 0 subtable
        = .ret (true, result) ∧
      result.values.map (fun v => v.xPlacement)
        = subtable.values.map (fun v => v.xPlacement) ++ [10, 30] := by
  have hp0 : parseValueRecord singleAdjustmentParser 6 0x0001 (uninitialised 0)
      = .ret (true, 8, { uninitialised 0 with xPlacement := 10 }) := by rfl
  have hp1 : parseValueRecord singleAdjustmentParser 10 0x0001 (uninitialised (0 + 1))
      = .ret (true, 12, { uninitialised (0 + 1) with xPlacement := 30 }) := by rfl
  have h : parseSingleAdjustmentSubtable singleAdjustmentParser uninitialised 0 subtable
      = .ret (true,
          { subtable with
            format := 2, coverageOffset := 12, valueFormat := 1,
            values := subtable.values ++ [{ uninitialised 0 with xPlacement := 10 }]
              ++ [{ uninitialised (0 + 1) with xPlacement := 30 }] }) := by
    rw [parseSingleAdjustmentSubtable_format2 singleAdjustmentParser uninitialised 0 12 0x0001 2
        subtable (by decide) (by decide) (by decide) (by decide) (by decide),
      (by decide : u32 (u32 (u32 (0 + 2) + 2) + 2) = 6),
      singleAdjustmentLoop_two singleAdjustmentParser 0x0001 uninitialised 6 8 10 12 _ _
        subtable.values hp0 (by decide) hp1]
    rfl
  refine ⟨by decide, by decide, by decide, by decide, by decide, by decide, by decide,
    by decide, _, h, ?_⟩
  simp only [List.map_append, List.map_cons, List.map_nil, List.append_assoc,
    List.singleton_append]

theorem valueRecordBlock_true (fontData : List Byte) (valueFormat bit : Nat)
    (set : ValueRecord → Int → ValueRecord) (offset offset' : Nat) (value value' : ValueRecord)
    (hsize : fontData.length < 4294967296)
    (h : valueRecordBlock fontData valueFormat bit set offset value
      = .ret (true, offset', value')) :
    (offset', value') = (if valueFormat &&& bit ≠ 0 then
        (offset + 2, set value (toInt16 (word16 fontData offset))) else (offset, value)) := by
  unfold valueRecordBlock at h
  split at h
  · rename_i hb
    rw [if_pos hb]
    split at h
    · simp at h
    · cases hv : be16 fontData offset with
      | fault => simp [hv] at h
      | timeout => simp [hv] at h
      | ret v =>
        obtain ⟨b1, e1⟩ := be16_ret hv
        simp only [hv, Outcome.bind_ret, Outcome.ret.injEq, Prod.mk.injEq, true_and] at h
        rw [u32_of_lt (by omega)] at h
        rw [← h.1, ← h.2, e1]
  · rename_i hb
    rw [if_neg hb]
    simp only [Outcome.ret.injEq, Prod.mk.injEq, true_and] at h
    rw [← h.1, ← h.2]

theorem getValueRecordSize_eq_bytes (valueFormat : Nat) :
    getValueRecordSize valueFormat = valueRecordBytes valueFormat := by
  unfold getValueRecordSize valueRecordBytes valueRecordRules u16
  simp only [List.map_cons, List.map_nil, List.sum_cons, List.sum_nil]
  split_ifs <;> rfl

/-- C25.  For a buffer shorter than `2 ^ 32`: when `parseValueRecord` returns `true`, the
cursor has advanced by exactly `getValueRecordSize(valueFormat)` bytes, which is the size
given by the ordered rules, and the cursor and the record are the ones obtained by applying
the rules once in the order `xPlacement`, `yPlacement`, `xAdvance`, `yAdvance`: each field
whose bit is set holds the signed big-endian word at the cursor, which then moves by 2, and
each field whose bit is clear is unchanged. -/
theorem parseValueRecord_agrees_with_size (p : TTFParser) (offset offset' valueFormat : Nat)
    (value value' : ValueRecord)
    (hsize : p.fontData.length < 4294967296)
    (h : parseValueRecord p offset valueFormat value = .ret (true, offset', value')) :
    offset' = offset + getValueRecordSize valueFormat ∧
    getValueRecordSize valueFormat = valueRecordBytes valueFormat ∧
    (offset', value') = valueRecordRead p.fontData valueFormat (offset, value) := by
  unfold parseValueRecord at h
  cases h1 : valueRecordBlock p.fontData valueFormat 0x0001
      (fun v x => { v with xPlacement := x }) offset value with
  | fault => simp [h1] at h
  | timeout => simp [h1] at h
  | ret r1 =>
  obtain ⟨b1, o1, v1⟩ := r1
  simp only [h1, Outcome.bind_ret] at h
  cases b1 with
  | false => simp at h
  | true =>
  simp only [Bool.not_true, Bool.false_eq_true, if_false] at h
  cases h2 : valueRecordBlock p.fontData valueFormat 0x0002
      (fun v x => { v with yPlacement := x }) o1 v1 with
  | fault => simp [h2] at h
  | timeout => simp [h2] at h
  | ret r2 =>
  obtain ⟨b2, o2, v2⟩ := r2
  simp only [h2, Outcome.bind_ret] at h
  cases b2 with
  | false => simp at h
  | true =>
  simp only [Bool.not_true, Bool.false_eq_true, if_false] at h
  cases h3 : valueRecordBlock p.fontData valueFormat 0x0004
      (fun v x => { v with xAdvance := x }) o2 v2 with
  | fault => simp [h3] at h
  | timeout => simp [h3] at h
  | ret r3 =>
  obtain ⟨b3, o3, v3⟩ := r3
  simp only [h3, Outcome.bind_ret] at h
  cases b3 with
  | false => simp at h
  | true =>
  simp only [Bool.not_true, Bool.false_eq_true, if_false] at h
  have e1 := valueRecordBlock_true _ _ _ _ _ _ _ _ hsize h1
  have e2 := valueRecordBlock_true _ _ _ _ _ _ _ _ hsize h2
  have e3 := valueRecordBlock_true _ _ _ _ _ _ _ _ hsize h3
  have e4 := valueRecordBlock_true _ _ _ _ _ _ _ _ hsize h
  have hread : (offset', value') = valueRecordRead p.fontData valueFormat (offset, value) := by
    unfold valueRecordRead valueRecordRules
    simp only [List.foldl_cons, List.foldl_nil]
    rw [← e1]
    simp only
    rw [← e2]
    simp only
    rw [← e3]
    simp only
    rw [← e4]
  refine ⟨?_, getValueRecordSize_eq_bytes valueFormat, hread⟩
  have o1e : o1 = offset + (if valueFormat &&& 0x0001 ≠ 0 then 2 else 0) := by
    have := congrArg Prod.fst e1
    simp only at this
    rw [this]; split <;> rfl
  have o2e : o2 = o1 + (if valueFormat &&& 0x0002 ≠ 0 then 2 else 0) := by
    have := congrArg Prod.fst e2
    simp only at this
    rw [this]; split <;> rfl
  have o3e : o3 = o2 + (if valueFormat &&& 0x0004 ≠ 0 then 2 else 0) := by
    have := congrArg Prod.fst e3
    simp only at this
    rw [this]; split <;> rfl
  have o4e : offset' = o3 + (if valueFormat &&& 0x0008 ≠ 0 then 2 else 0) := by
    have := congrArg Prod.fst e4
    simp only at this
    rw [this]; split <;> rfl
  rw [o4e, o3e, o2e, o1e]
  unfold getValueRecordSize u16
  simp only
  split_ifs <;> rfl

theorem parseValueRecord_agrees_with_size_witness :
    valueRecordParser.fontData.length < 4294967296 ∧
    parseValueRecord valueRecordParser 0 0x0005 ValueRecord.fresh
      = .ret (true, 4, { ValueRecord.fresh with xPlacement := -2, xAdvance := 1 }) ∧
    4 = 0 + getValueRecordSize 0x0005 ∧
    getValueRecordSize 0x0005 = valueRecordBytes 0x0005 ∧
    ((4 : Nat), { ValueRecord.fresh with xPlacement := -2, xAdvance := 1 })
      = valueRecordRead valueRecordParser.fontData 0x0005 (0, ValueRecord.fresh) := by
  have h : parseValueRecord valueRecordParser 0 0x0005 ValueRecord.fresh
      = .ret (true, 4, { ValueRecord.fresh with xPlacement := -2, xAdvance := 1 }) := by rfl
  exact ⟨by decide, h,
    parseValueRecord_agrees_with_size valueRecordParser 0 4 0x0005 ValueRecord.fresh _
      (by decide) h⟩

/-! ## `GPOS`: the script, feature and lookup lists -/

/-- The record loop of `parseScriptList` from a cursor whose run stays below `2 ^ 32`: it
returns, with `true` exactly when all records are inside the buffer, and then it has
appended the records stored at the cursor, six bytes apart. -/
theorem scriptRecordLoop_total (fontData : List Byte) : ∀ (count offset : Nat)
    (scripts : List ScriptRecord), offset + 6 * count < 4294967296 →
    ∃ b result, scriptRecordLoop fontData count offset scripts = .ret (b, result) ∧
      (b = true ↔ (count = 0 ∨ offset + 6 * count ≤ fontData.length)) ∧
      (b = true → result = scripts ++
        (List.range count).map fun i => scriptRecordAt fontData (offset + 6 * i)) := by
  intro count
  induction count with
  | zero =>
    intro offset scripts _
    exact ⟨true, scripts, rfl, by simp, by simp⟩
  | succ n ih =>
    intro offset scripts hnw
    unfold scriptRecordLoop
    rw [u32_of_lt (by omega)]
    by_cases hle : offset + 6 > fontData.length
    · rw [if_pos hle]
      refine ⟨false, scripts, rfl, ?_, by simp⟩
      simp only [Bool.false_eq_true, false_iff]
      omega
    · rw [if_neg hle, be32_of_le (by omega)]
      simp only [Outcome.bind_ret]
      rw [u32_of_lt (by omega), be16_of_le (by omega)]
      simp only [Outcome.bind_ret]
      rw [u32_of_lt (by omega)]
      obtain ⟨b, result, hr, hiff, hres⟩ := ih (offset + 4 + 2)
        (scripts ++ [{ scriptTag := word32 fontData offset,
                       scriptOffset := word16 fontData (offset + 4) }]) (by omega)
      refine ⟨b, result, hr, ?_, ?_⟩
      · rw [hiff]
        constructor
        · rintro (h0 | h1)
          · right; omega
          · right; omega
        · rintro (h0 | h1)
          · omega
          · right; omega
      · intro hb
        rw [hres hb]
        simp only [List.append_assoc, List.singleton_append, List.range_succ_eq_map,
          List.map_cons, List.map_map]
        congr 2
        apply List.map_congr_left
        intro k _
        simp only [Function.comp, scriptRecordAt]
        have e : offset + 4 + 2 + 6 * k = offset + 6 * (k + 1) := by omega
        rw [e]

/-- The record loop of `parseFeatureList`, as `scriptRecordLoop_total`. -/
theorem featureRecordLoop_total (fontData : List Byte) : ∀ (count offset : Nat)
    (features : List FeatureRecord), offset + 6 * count < 4294967296 →
    ∃ b result, featureRecordLoop fontData count offset features = .ret (b, result) ∧
      (b = true ↔ (count = 0 ∨ offset + 6 * count ≤ fontData.length)) ∧
      (b = true → result = features ++
        (List.range count).map fun i => featureRecordAt fontData (offset + 6 * i)) := by
  intro count
  induction count with
  | zero =>
    intro offset features _
    exact ⟨true, features, rfl, by simp, by simp⟩
  | succ n ih =>
    intro offset features hnw
    unfold featureRecordLoop
    rw [u32_of_lt (by omega)]
    by_cases hle : offset + 6 > fontData.length
    · rw [if_pos hle]
      refine ⟨false, features, rfl, ?_, by simp⟩
      simp only [Bool.false_eq_true, false_iff]
      omega
    · rw [if_neg hle, be32_of_le (by omega)]
      simp only [Outcome.bind_ret]
      rw [u32_of_lt (by omega), be16_of_le (by omega)]
      simp only [Outcome.bind_ret]
      rw [u32_of_lt (by omega)]
      obtain ⟨b, result, hr, hiff, hres⟩ := ih (offset + 4 + 2)
        (features ++ [{ featureTag := word32 fontData offset,
                        featureOffset := word16 fontData (offset + 4) }]) (by omega)
      refine ⟨b, result, hr, ?_, ?_⟩
      · rw [hiff]
        constructor
        · rintro (h0 | h1)
          · right; omega
          · right; omega
        · rintro (h0 | h1)
          · omega
          · right; omega
      · intro hb
        rw [hres hb]
        simp only [List.append_assoc, List.singleton_append, List.range_succ_eq_map,
          List.map_cons, List.map_map]
        congr 2
        apply List.map_congr_left
        intro k _
        simp only [Function.comp, featureRecordAt]
        have e : offset + 4 + 2 + 6 * k = offset + 6 * (k + 1) := by omega
        rw [e]

/-- C27 (the code departs from the claim).  `parseLookupList` does not decode the shape of
the other two lists.  On the 8-byte buffer of `lookupShortParser`, which holds the count 1
and is not shorter than `offset + 2 + 6 * 1`, it returns `false`; on the 10-byte buffer of
`lookupParser` it returns `true` with one lookup made of three 16-bit fields and the
subtable offset 9 read from the bytes 8 and 9: a lookup record is six bytes of scalars
followed by `subTableCount` offsets, not a tag and an offset. -/
theorem parseLookupList_other_shape :
    be16 lookupShortParser.fontData 0 = .ret 1 ∧
    lookupShortParser.fontData.length = 0 + 2 + 6 * 1 ∧
    parseLookupList lookupShortParser 0 [] = .ret (false, []) ∧
    be16 lookupParser.fontData 0 = .ret 1 ∧
    lookupParser.fontData.length = 0 + 2 + 6 * 1 + 2 ∧
    parseLookupList lookupParser 0 []
      = .ret (true, [{ lookupType := 1, lookupFlag := 0, subTableCount := 1,
                       subTableOffsets := [9] }]) := by
  refine ⟨by decide, rfl, by decide, by decide, rfl, by decide⟩

theorem lookupListEnd_ge (fontData : List Byte) : ∀ (count pos : Nat),
    pos + 6 * count ≤ lookupListEnd fontData count pos := by
  intro count
  induction count with
  | zero =>
    intro pos
    unfold lookupListEnd
    omega
  | succ n ih =>
    intro pos
    unfold lookupListEnd
    have := ih (lookupTableEnd fontData pos)
    unfold lookupTableEnd at this ⊢
    omega

/-- The loop over the subtable offsets of one lookup, from a cursor whose run stays below
`2 ^ 32`: it returns, with `true` exactly when all offsets are inside the buffer, and then
the cursor is after the offsets and the words stored there have been appended. -/
theorem lookupSubTableLoop_total (fontData : List Byte) : ∀ (count offset : Nat)
    (acc : List Nat), offset + 2 * count < 4294967296 →
    ∃ b o result, lookupSubTableLoop fontData count offset acc = .ret (b, o, result) ∧
      (b = true ↔ (count = 0 ∨ offset + 2 * count ≤ fontData.length)) ∧
      (b = true → o = offset + 2 * count ∧ result = acc ++
        (List.range count).map fun j => word16 fontData (offset + 2 * j)) := by
  intro count
  induction count with
  | zero =>
    intro offset acc _
    exact ⟨true, offset, acc, rfl, by simp, by simp⟩
  | succ n ih =>
    intro offset acc hnw
    unfold lookupSubTableLoop
    rw [u32_of_lt (by omega)]
    by_cases hle : offset + 2 > fontData.length
    · rw [if_pos hle]
      refine ⟨false, offset, acc, rfl, ?_, by simp⟩
      simp only [Bool.false_eq_true, false_iff]
      omega
    · rw [if_neg hle, be16_of_le (by omega)]
      simp only [Outcome.bind_ret]
      obtain ⟨b, o, result, hr, hiff, hres⟩ := ih (offset + 2)
        (acc ++ [word16 fontData offset]) (by omega)
      refine ⟨b, o, result, hr, ?_, ?_⟩
      · rw [hiff]
        constructor
        · rintro (h0 | h1)
          · right; omega
          · right; omega
        · rintro (h0 | h1)
          · omega
          · right; omega
      · intro hb
        obtain ⟨ho, hres⟩ := hres hb
        refine ⟨by omega, ?_⟩
        rw [hres]
        simp only [List.append_assoc, List.singleton_append, List.range_succ_eq_map,
          List.map_cons, List.map_map]
        congr 2
        apply List.map_congr_left
        intro k _
        simp only [Function.comp]
        have e : offset + 2 + 2 * k = offset + 2 * (k + 1) := by omega
        rw [e]

/-- The lookup loop of `parseLookupList` from a cursor whose lookups end below `2 ^ 32`: it
returns, with `true` exactly when the last lookup ends inside the buffer, and then it has
appended the lookups stored one after the other from the cursor. -/
theorem lookupLoop_total (fontData : List Byte) : ∀ (count offset : Nat)
    (lookups : List LookupTable), lookupListEnd fontData count offset < 4294967296 →
    ∃ b result, lookupLoop fontData count offset lookups = .ret (b, result) ∧
      (b = true ↔ (count = 0 ∨ lookupListEnd fontData count offset ≤ fontData.length)) ∧
      (b = true → result = lookups ++
        (lookupPositions fontData count offset).map (lookupTableAt fontData)) := by
  intro count
  induction count with
  | zero =>
    intro offset lookups _
    exact ⟨true, lookups, rfl, by simp, by simp [lookupPositions]⟩
  | succ n ih =>
    intro offset lookups hnw
    have hge := lookupListEnd_ge fontData n (lookupTableEnd fontData offset)
    have hstep : lookupListEnd fontData (n + 1) offset
        = lookupListEnd fontData n (lookupTableEnd fontData offset) := rfl
    have hend : lookupTableEnd fontData offset = offset + 6 + 2 * word16 fontData (offset + 4) :=
      rfl
    rw [hstep] at hnw
    unfold lookupLoop
    rw [u32_of_lt (by omega)]
    by_cases hle : offset + 6 > fontData.length
    · rw [if_pos hle]
      refine ⟨false, lookups, rfl, ?_, by simp⟩
      simp only [Bool.false_eq_true, false_iff]
      omega
    · rw [if_neg hle, be16_of_le (by omega)]
      simp only [Outcome.bind_ret]
      rw [u32_of_lt (by omega), be16_of_le (by omega)]
      simp only [Outcome.bind_ret]
      rw [u32_of_lt (by omega), be16_of_le (by omega)]
      simp only [Outcome.bind_ret]
      rw [u32_of_lt (by omega)]
      have e4 : offset + 2 + 2 = offset + 4 := by omega
      have e6 : offset + 2 + 2 + 2 = offset + 6 := by omega
      rw [e4, e6]
      obtain ⟨b1, o1, r1, hr1, hiff1, hres1⟩ := lookupSubTableLoop_total fontData
        (word16 fontData (offset + 4)) (offset + 6) [] (by omega)
      rw [hr1]
      simp only [Outcome.bind_ret]
      cases b1 with
      | false =>
        simp only [Bool.not_false, if_true]
        refine ⟨false, lookups, rfl, ?_, by simp⟩
        simp only [Bool.false_eq_true, false_iff, not_or] at hiff1 ⊢
        omega
      | true =>
        simp only [Bool.not_true, Bool.false_eq_true, if_false]
        obtain ⟨ho1, hr1v⟩ := hres1 rfl
        have hin := hiff1.mp rfl
        rw [ho1, ← hend]
        obtain ⟨b, result, hr, hiff, hres⟩ := ih (lookupTableEnd fontData offset)
          (lookups ++ [{ lookupType := word16 fontData offset,
                         lookupFlag := word16 fontData (offset + 2),
                         subTableCount := word16 fontData (offset + 4),
                         subTableOffsets := r1 }]) hnw
        refine ⟨b, result, hr, ?_, ?_⟩
        · rw [hiff, hstep]
          constructor
          · rintro (h0 | h1)
            · right
              subst h0
              unfold lookupListEnd
              omega
            · right; exact h1
          · rintro (h0 | h1)
            · omega
            · right; exact h1
        · intro hb
          rw [hres hb, hr1v]
          simp only [List.append_assoc, List.singleton_append, List.nil_append, lookupPositions,
            List.map_cons, lookupTableAt]

/-- C27, as the code has it.  `parseScriptList` and `parseFeatureList` decode the same
shape.  For a list that ends below `2 ^ 32`, with `c` the big-endian word at `offset`: each
call returns; it returns `false` exactly when the buffer is shorter than
`offset + 2 + 6 * c`; and when it returns `true` it has appended exactly the `c` records
stored at `offset + 2 + 6 * i`, a 4-byte tag followed by a 2-byte offset each.
`parseLookupList` decodes another shape: `c` lookups stored one after the other from
`offset + 2`, each made of three 16-bit fields and `subTableCount` 16-bit offsets.  When the
last of them ends below `2 ^ 32` the call returns; it returns `false` exactly when the buffer
is shorter than the end of the last lookup; and when it returns `true` it has appended
exactly these `c` lookups. -/
theorem parseScriptList_parseFeatureList_shape (p : TTFParser) (offset : Nat)
    (scripts : List ScriptRecord) (features : List FeatureRecord) (lookups : List LookupTable)
    (hnw : offset + 2 + 6 * word16 p.fontData offset < 4294967296) :
    (∃ b result, parseScriptList p offset scripts = .ret (b, result) ∧
      (b = false ↔ p.fontData.length < offset + 2 + 6 * word16 p.fontData offset) ∧
      (b = true → result = scripts ++ (List.range (word16 p.fontData offset)).map fun i =>
        scriptRecordAt p.fontData (offset + 2 + 6 * i))) ∧
    (∃ b result, parseFeatureList p offset features = .ret (b, result) ∧
      (b = false ↔ p.fontData.length < offset + 2 + 6 * word16 p.fontData offset) ∧
      (b = true → result = features ++ (List.range (word16 p.fontData offset)).map fun i =>
        featureRecordAt p.fontData (offset + 2 + 6 * i))) ∧
    (lookupListEnd p.fontData (word16 p.fontData offset) (offset + 2) < 4294967296 →
      ∃ b result, parseLookupList p offset lookups = .ret (b, result) ∧
        (b = false ↔ p.fontData.length
          < lookupListEnd p.fontData (word16 p.fontData offset) (offset + 2)) ∧
        (b = true → result = lookups ++
          (lookupPositions p.fontData (word16 p.fontData offset) (offset + 2)).map
            (lookupTableAt p.fontData))) := by
  refine ⟨?_, ?_, ?_⟩
  · unfold parseScriptList
    rw [u32_of_lt (by omega)]
    by_cases hle : offset + 2 > p.fontData.length
    · rw [if_pos hle]
      exact ⟨false, scripts, rfl, by simp; omega, by simp⟩
    · rw [if_neg hle, be16_of_le (by omega)]
      simp only [Outcome.bind_ret]
      obtain ⟨b, result, hr, hiff, hres⟩ := scriptRecordLoop_total p.fontData
        (word16 p.fontData offset) (offset + 2) scripts (by omega)
      refine ⟨b, result, hr, ?_, hres⟩
      cases b with
      | false =>
        simp only [Bool.false_eq_true, false_iff, not_or, true_iff] at hiff ⊢
        omega
      | true =>
        simp only [true_iff, Bool.true_eq_false, false_iff] at hiff ⊢
        omega
  · unfold parseFeatureList
    rw [u32_of_lt (by omega)]
    by_cases hle : offset + 2 > p.fontData.length
    · rw [if_pos hle]
      exact ⟨false, features, rfl, by simp; omega, by simp⟩
    · rw [if_neg hle, be16_of_le (by omega)]
      simp only [Outcome.bind_ret]
      obtain ⟨b, result, hr, hiff, hres⟩ := featureRecordLoop_total p.fontData
        (word16 p.fontData offset) (offset + 2) features (by omega)
      refine ⟨b, result, hr, ?_, hres⟩
      cases b with
      | false =>
        simp only [Bool.false_eq_true, false_iff, not_or, true_iff] at hiff ⊢
        omega
      | true =>
        simp only [true_iff, Bool.true_eq_false, false_iff] at hiff ⊢
        omega
  · intro hend
    have hge := lookupListEnd_ge p.fontData (word16 p.fontData offset) (offset + 2)
    unfold parseLookupList
    rw [u32_of_lt (by omega)]
    by_cases hle : offset + 2 > p.fontData.length
    · rw [if_pos hle]
      exact ⟨false, lookups, rfl, by simp; omega, by simp⟩
    · rw [if_neg hle, be16_of_le (by omega)]
      simp only [Outcome.bind_ret]
      obtain ⟨b, result, hr, hiff, hres⟩ := lookupLoop_total p.fontData
        (word16 p.fontData offset) (offset + 2) lookups hend
      refine ⟨b, result, hr, ?_, hres⟩
      cases b with
      | false =>
        simp only [Bool.false_eq_true, false_iff, not_or, true_iff] at hiff ⊢
        omega
      | true =>
        simp only [true_iff, Bool.true_eq_false, false_iff] at hiff ⊢
        rcases hiff with h0 | h1
        · rw [h0] at hge ⊢
          unfold lookupListEnd
          omega
        · omega

theorem parseScriptList_parseFeatureList_shape_witness :
    0 + 2 + 6 * word16 recordListParser.fontData 0 < 4294967296 ∧
    word16 recordListParser.fontData 0 = 1 ∧
    parseScriptList recordListParser 0 []
      = .ret (true, [{ scriptTag := 0x6C61746E, scriptOffset := 8 }]) ∧
    parseFeatureList recordListParser 0 []
      = .ret (true, [{ featureTag := 0x6C61746E, featureOffset := 8 }]) ∧
    (∃ b result, parseScriptList recordListParser 0 [] = .ret (b, result) ∧
      (b = false ↔ recordListParser.fontData.length
        < 0 + 2 + 6 * word16 recordListParser.fontData 0) ∧
      (b = true → result = [] ++ (List.range (word16 recordListParser.fontData 0)).map fun i =>
        scriptRecordAt recordListParser.fontData (0 + 2 + 6 * i))) ∧
    0 + 2 + 6 * word16 lookupParser.fontData 0 < 4294967296 ∧
    lookupListEnd lookupParser.fontData (word16 lookupParser.fontData 0) (0 + 2) = 10 ∧
    parseLookupList lookupParser 0 []
      = .ret (true, [{ lookupType := 1, lookupFlag := 0, subTableCount := 1,
                       subTableOffsets := [9] }]) ∧
    (∃ b result, parseLookupList lookupParser 0 [] = .ret (b, result) ∧
      (b = false ↔ lookupParser.fontData.length
        < lookupListEnd lookupParser.fontData (word16 lookupParser.fontData 0) (0 + 2)) ∧
      (b = true → result = [] ++
        (lookupPositions lookupParser.fontData (word16 lookupParser.fontData 0) (0 + 2)).map
          (lookupTableAt lookupParser.fontData))) :=
  ⟨by decide, by decide, by decide, by decide,
    (parseScriptList_parseFeatureList_shape recordListParser 0 [] [] [] (by decide)).1,
    by decide, by decide, by decide,
    (parseScriptList_parseFeatureList_shape lookupParser 0 [] [] [] (by decide)).2.2
      (by decide)⟩

theorem Outcome.bind_ret_inv {α β : Type} {x : Outcome α} {f : α → Outcome β} {b : β}
    (h : (x >>= f) = .ret b) : ∃ a, x = .ret a ∧ f a = .ret b := by
  cases x with
  | ret a => exact ⟨a, rfl, h⟩
  | fault => cases h
  | timeout => cases h

theorem copyBytes_of_le {fontData : List Byte} {offset count : Nat}
    (h : offset + count ≤ fontData.length) :
    copyBytes fontData offset count
      = .ret (((fontData.drop offset).take count).map fun b => b.val) := by
  unfold copyBytes
  rw [if_pos h]

theorem byteD_agree {q p : List Byte} {N : Nat} (hag : ∀ i, i < N → q[i]? = p[i]?) {i : Nat}
    (hi : i < N) : byteD q i = byteD p i := by
  unfold byteD
  rw [hag i hi]

theorem be16_agree {q p : List Byte} {N : Nat} (hag : ∀ i, i < N → q[i]? = p[i]?)
    (hq : N ≤ q.length) (hp : N ≤ p.length) {i : Nat} (hi : i + 2 ≤ N) :
    be16 q i = be16 p i := by
  rw [be16_of_le (by omega), be16_of_le (by omega)]
  unfold word16
  rw [byteD_agree hag (by omega : i < N), byteD_agree hag (by omega : i + 1 < N)]

theorem be32_agree {q p : List Byte} {N : Nat} (hag : ∀ i, i < N → q[i]? = p[i]?)
    (hq : N ≤ q.length) (hp : N ≤ p.length) {i : Nat} (hi : i + 4 ≤ N) :
    be32 q i = be32 p i := by
  rw [be32_of_le (by omega), be32_of_le (by omega)]
  unfold word32
  rw [byteD_agree hag (by omega : i < N), byteD_agree hag (by omega : i + 1 < N),
    byteD_agree hag (by omega : i + 2 < N), byteD_agree hag (by omega : i + 3 < N)]

theorem copyBytes_agree {q p : List Byte} {N : Nat} (hag : ∀ i, i < N → q[i]? = p[i]?)
    (hq : N ≤ q.length) (hp : N ≤ p.length) {i count : Nat} (hi : i + count ≤ N) :
    copyBytes q i count = copyBytes p i count := by
  rw [copyBytes_of_le (by omega), copyBytes_of_le (by omega)]
  congr 1
  apply List.ext_getElem?
  intro k
  simp only [List.getElem?_map, List.getElem?_take, List.getElem?_drop]
  by_cases hk : k < count
  · simp only [hk, if_true]
    rw [hag (i + k) (by omega)]
  · simp only [hk, if_false]

/-- The assignments common to all versions leave the version and the fields of the later
versions alone. -/
theorem os2CommonFields_frame (fontData : List Byte) (offset : Nat) (os2 r : OS2Table)
    (h : os2CommonFields fontData offset os2 = .ret r) :
    r.version = os2.version ∧ r.usBreakChar = os2.usBreakChar ∧
    r.usDefaultChar = os2.usDefaultChar ∧ r.sCapHeight = os2.sCapHeight ∧
    r.usMaxContext = os2.usMaxContext ∧ r.ulCodePageRange1 = os2.ulCodePageRange1 ∧
    r.ulCodePageRange2 = os2.ulCodePageRange2 ∧ r.sxHeight = os2.sxHeight ∧
    r.usLowerOpticalPointSize = os2.usLowerOpticalPointSize ∧
    r.usUpperOpticalPointSize = os2.usUpperOpticalPointSize := by
  unfold os2CommonFields at h
  iterate 29 (obtain ⟨_, -, h⟩ := Outcome.bind_ret_inv h)
  simp only [Outcome.ret.injEq] at h
  subst h
  exact ⟨rfl, rfl, rfl, rfl, rfl, rfl, rfl, rfl, rfl, rfl⟩

theorem os2CommonFields_total (fontData : List Byte) (offset : Nat) (os2 : OS2Table)
    (hsize : fontData.length < 4294967296) (hlen : offset + 78 ≤ fontData.length) :
    ∃ r, os2CommonFields fontData offset os2 = .ret r := by
  unfold os2CommonFields
  simp (disch := omega) only [u32_of_lt, be16_of_le, be32_of_le, copyBytes_of_le,
    Outcome.ret_bind]
  exact ⟨_, rfl⟩

theorem os2CommonFields_agree (q p : List Byte) (offset : Nat) (os2 : OS2Table)
    (hag : ∀ i, i < offset + 78 → q[i]? = p[i]?)
    (hq : offset + 78 ≤ q.length) (hp : offset + 78 ≤ p.length)
    (hsize : p.length < 4294967296) :
    os2CommonFields q offset os2 = os2CommonFields p offset os2 := by
  unfold os2CommonFields
  simp (disch := omega) only [u32_of_lt, be16_agree hag hq hp, be32_agree hag hq hp,
    copyBytes_agree hag hq hp]

theorem os2VersionBlocks_zero (fontData : List Byte) (offset : Nat) (c : OS2Table)
    (hv : c.version = 0) :
    os2Version1 fontData offset c = .ret (true, c) ∧
    os2Version2 fontData offset c = .ret (true, c) ∧
    os2Version3 fontData offset c = .ret (true, c) := by
  unfold os2Version1 os2Version2 os2Version3
  rw [if_neg (by omega), if_neg (by omega), if_neg (by omega)]
  exact ⟨rfl, rfl, rfl⟩

/-- A table of version 0 inside the buffer: the call is the assignments common to all
versions, followed by `return true`. -/
theorem parseOS2Table_version0_eq (p : TTFParser) (offset : Nat) (os2 : OS2Table)
    (hsize : p.fontData.length < 4294967296) (hlen : offset + 78 ≤ p.fontData.length)
    (hver : word16 p.fontData offset = 0) :
    parseOS2Table p offset os2
      = (os2CommonFields p.fontData offset { os2 with version := 0 }).bind fun c =>
          .ret (true, c) := by
  unfold parseOS2Table
  rw [u32_of_lt (by omega), if_neg (by omega), be16_of_le (by omega), hver]
  simp only [Outcome.bind_ret]
  rw [if_neg (by omega)]
  cases hc : os2CommonFields p.fontData offset { os2 with version := 0 } with
  | fault => rfl
  | timeout => rfl
  | ret c =>
    have hv : c.version = 0 := (os2CommonFields_frame _ _ _ _ hc).1
    obtain ⟨z1, z2, z3⟩ := os2VersionBlocks_zero p.fontData offset c hv
    simp only [Outcome.bind_ret, z1, z2, z3, Bool.not_true, Bool.false_eq_true, if_false]

/-- C22.  For a buffer shorter than `2 ^ 32` that holds at least `offset + 78` bytes and
whose `OS/2` version field at `offset` is 0: `parseOS2Table` returns `true`; the fields
`usBreakChar`, `usDefaultChar`, `sCapHeight`, `usMaxContext`, `ulCodePageRange1`,
`ulCodePageRange2`, `sxHeight`, `usLowerOpticalPointSize` and `usUpperOpticalPointSize` keep
their values; and every buffer that agrees with it below `offset + 78` gives the same
result. -/
theorem parseOS2Table_version0 (p : TTFParser) (offset : Nat) (os2 : OS2Table)
    (hsize : p.fontData.length < 4294967296) (hlen : offset + 78 ≤ p.fontData.length)
    (hver : word16 p.fontData offset = 0) :
    (∃ result, parseOS2Table p offset os2 = .ret (true, result) ∧
      result.usBreakChar = os2.usBreakChar ∧ result.usDefaultChar = os2.usDefaultChar ∧
      result.sCapHeight = os2.sCapHeight ∧ result.usMaxContext = os2.usMaxContext ∧
      result.ulCodePageRange1 = os2.ulCodePageRange1 ∧
      result.ulCodePageRange2 = os2.ulCodePageRange2 ∧ result.sxHeight = os2.sxHeight ∧
      result.usLowerOpticalPointSize = os2.usLowerOpticalPointSize ∧
      result.usUpperOpticalPointSize = os2.usUpperOpticalPointSize) ∧
    (∀ q : TTFParser, q.fontData.length < 4294967296 → offset + 78 ≤ q.fontData.length →
      (∀ i, i < offset + 78 → q.fontData[i]? = p.fontData[i]?) →
      parseOS2Table q offset os2 = parseOS2Table p offset os2) := by
  constructor
  · rw [parseOS2Table_version0_eq p offset os2 hsize hlen hver]
    obtain ⟨c, hc⟩ := os2CommonFields_total p.fontData offset { os2 with version := 0 } hsize hlen
    rw [hc]
    obtain ⟨_, f1, f2, f3, f4, f5, f6, f7, f8, f9⟩ := os2CommonFields_frame _ _ _ _ hc
    exact ⟨c, rfl, f1, f2, f3, f4, f5, f6, f7, f8, f9⟩
  · intro q hqs hql hag
    have hverq : word16 q.fontData offset = 0 := by
      rw [← hver]
      unfold word16
      rw [byteD_agree hag (by omega : offset < offset + 78),
        byteD_agree hag (by omega : offset + 1 < offset + 78)]
    rw [parseOS2Table_version0_eq p offset os2 hsize hlen hver,
      parseOS2Table_version0_eq q offset os2 hqs hql hverq,
      os2CommonFields_agree q.fontData p.fontData offset _ hag hql hlen hsize]

theorem parseOS2Table_version0_witness :
    (os2Version0Parser.fontData.length < 4294967296 ∧
      0 + 78 ≤ os2Version0Parser.fontData.length ∧
      word16 os2Version0Parser.fontData 0 = 0) ∧
    (∃ result, parseOS2Table os2Version0Parser 0 OS2Table.fresh = .ret (true, result) ∧
      result.usWeightClass = 400) ∧
    parseOS2Table os2Version0CutParser 0 OS2Table.fresh
      = parseOS2Table os2Version0Parser 0 OS2Table.fresh := by
  refine ⟨⟨by decide, by decide, by decide⟩, ⟨_, rfl, rfl⟩, ?_⟩
  exact (parseOS2Table_version0 os2Version0Parser 0 OS2Table.fresh (by decide) (by decide)
    (by decide)).2 os2Version0CutParser (by decide) (by decide) (by decide)

theorem excessBits_le (a : Nat) : excessBits a ≤ 9 := by
  unfold excessBits
  exact le_trans (List.length_filter_le _ _) (by simp)

theorem excessBits_small (a : Nat) (h : a < 16777216) : excessBits a = 0 := by
  unfold excessBits
  rw [List.length_eq_zero, List.filter_eq_nil_iff]
  intro e _
  have : 2 ^ 24 ≤ 2 ^ (24 + e) := Nat.pow_le_pow_right (by omega) (by omega)
  simp only [decide_eq_true_eq]
  omega

/-- A conversion to `float` gives a value below `2 ^ 24 - 512` only for the integer of that
value: smaller magnitudes are exact, larger ones stay large. -/
theorem int32ToFloat_eq_iff (N T : Int) (hT0 : 0 < T) (hT : T < 16776704) :
    int32ToFloat N = T ↔ N = T := by
  unfold int32ToFloat
  simp only
  by_cases ha : N.natAbs < 16777216
  · rw [excessBits_small _ ha]
    simp only [pow_zero, Nat.div_one, Nat.mod_one, Nat.mul_zero, Nat.mul_one]
    have hq : (if 0 > 1 ∨ 0 = 1 ∧ N.natAbs % 2 = 1 then N.natAbs + 1 else N.natAbs)
        = N.natAbs := by
      rw [if_neg (by omega)]
    rw [hq]
    split <;> omega
  · have he := excessBits_le N.natAbs
    generalize excessBits N.natAbs = e at he
    have hmul : 16776704 ≤ N.natAbs / 2 ^ e * 2 ^ e := by
      interval_cases e <;> omega
    have hq2 : N.natAbs / 2 ^ e * 2 ^ e ≤
        (if 2 * (N.natAbs % 2 ^ e) > 2 ^ e ∨
            2 * (N.natAbs % 2 ^ e) = 2 ^ e ∧ N.natAbs / 2 ^ e % 2 = 1
          then N.natAbs / 2 ^ e + 1 else N.natAbs / 2 ^ e) * 2 ^ e := by
      apply Nat.mul_le_mul_right
      split <;> omega
    generalize (if 2 * (N.natAbs % 2 ^ e) > 2 ^ e ∨
            2 * (N.natAbs % 2 ^ e) = 2 ^ e ∧ N.natAbs / 2 ^ e % 2 = 1
          then N.natAbs / 2 ^ e + 1 else N.natAbs / 2 ^ e) * 2 ^ e = m at hq2
    constructor
    · intro h
      split at h <;> omega
    · intro h
      omega

theorem word32_eq_words (fontData : List Byte) (i : Nat) :
    word32 fontData i = 65536 * word16 fontData i + word16 fontData (i + 2) := by
  unfold word32 word16
  have e : i + 2 + 1 = i + 3 := by omega
  rw [e]
  omega

/-- The signed 16.16 number made of two big-endian words is one of the three recognised
versions exactly when the unsigned 32-bit field is. -/
theorem fixed_eq_iff (hi lo : Nat) (T : Nat) (hhi : hi < 65536) (hlo : lo < 65536)
    (hT : T < 2147483648) :
    toInt16 hi * 65536 + (lo : Int) = (T : Int) ↔ 65536 * hi + lo = T := by
  unfold toInt16
  split <;> omega

/-- What the assignments of `parsePostTable` before the format test do: the format is the
`float` of the signed 16.16 number at `offset`, and the glyph data is left alone. -/
theorem postCommonFields_ret (fontData : List Byte) (offset : Nat) (post r : PostTable)
    (h : postCommonFields fontData offset post = .ret r) :
    (∃ hi lo, be16 fontData offset = .ret hi ∧ be16 fontData (u32 (offset + 2)) = .ret lo ∧
      r.format = int32ToFloat (toInt16 hi * 65536 + (lo : Int))) ∧
    r.numberOfGlyphs = post.numberOfGlyphs ∧ r.glyphNameIndex = post.glyphNameIndex ∧
    r.names = post.names ∧ r.offset = post.offset := by
  unfold postCommonFields at h
  obtain ⟨fmt, hf, h⟩ := Outcome.bind_ret_inv h
  iterate 8 (obtain ⟨_, -, h⟩ := Outcome.bind_ret_inv h)
  simp only [Outcome.ret.injEq] at h
  subst h
  unfold readFixed at hf
  obtain ⟨hi, hhi, hf⟩ := Outcome.bind_ret_inv hf
  obtain ⟨lo, hlo, hf⟩ := Outcome.bind_ret_inv hf
  simp only [Outcome.ret.injEq] at hf
  exact ⟨⟨hi, lo, hhi, hlo, hf.symm⟩, rfl, rfl, rfl, rfl⟩

theorem postCommonFields_total (fontData : List Byte) (offset : Nat) (post : PostTable)
    (hsize : fontData.length < 4294967296) (hlen : offset + 32 ≤ fontData.length) :
    ∃ r, postCommonFields fontData offset post = .ret r := by
  unfold postCommonFields readFixed
  simp (disch := omega) only [u32_of_lt, be16_of_le, be32_of_le, Outcome.ret_bind]
  exact ⟨_, rfl⟩

/-- The format decoded from a table inside a buffer shorter than `2 ^ 32` equals one of the
recognised values exactly when the 32-bit version field does. -/
theorem postCommonFields_format_iff (fontData : List Byte) (offset : Nat) (post r : PostTable)
    (hsize : fontData.length < 4294967296)
    (h : postCommonFields fontData offset post = .ret r) (T : Nat) (hT0 : 0 < T)
    (hT : T < 16776704) :
    r.format = (T : Int) ↔ word32 fontData offset = T := by
  obtain ⟨⟨hi, lo, hhi, hlo, hf⟩, _⟩ := postCommonFields_ret fontData offset post r h
  obtain ⟨b1, e1⟩ := be16_ret hhi
  have eo : u32 (offset + 2) = offset + 2 := u32_of_lt (by omega)
  rw [eo] at hlo
  obtain ⟨b2, e2⟩ := be16_ret hlo
  have l1 := word16_lt fontData offset
  have l2 := word16_lt fontData (offset + 2)
  rw [hf, int32ToFloat_eq_iff _ _ (by omega) (by omega), word32_eq_words, e1, e2,
    fixed_eq_iff _ _ T l1 l2 (by omega)]

/-- C23.  For a buffer shorter than `2 ^ 32`: `parsePostTable` returns `true` only if the
32-bit version field at `offset` is `0x00020000`, `0x00028000` or `0x00030000`; when
`offset + 32` fits 32 bits, every other version value (`0x00010000` included) makes it
return `false`; and for version `0x00030000` with at least `offset + 32` bytes it returns
`true` and leaves `numberOfGlyphs`, `glyphNameIndex`, `names` and `offset` as they were. -/
theorem parsePostTable_versions (p : TTFParser) (fuel offset : Nat) (post : PostTable)
    (hsize : p.fontData.length < 4294967296) :
    (∀ result, parsePostTable p fuel offset post = .ret (true, result) →
      word32 p.fontData offset = 0x00020000 ∨ word32 p.fontData offset = 0x00028000 ∨
        word32 p.fontData offset = 0x00030000) ∧
    (offset + 32 < 4294967296 →
      word32 p.fontData offset ≠ 0x00020000 → word32 p.fontData offset ≠ 0x00028000 →
      word32 p.fontData offset ≠ 0x00030000 →
      ∃ result, parsePostTable p fuel offset post = .ret (false, result)) ∧
    (offset + 32 ≤ p.fontData.length → word32 p.fontData offset = 0x00030000 →
      ∃ result, parsePostTable p fuel offset post = .ret (true, result) ∧
        result.numberOfGlyphs = post.numberOfGlyphs ∧
        result.glyphNameIndex = post.glyphNameIndex ∧ result.names = post.names ∧
        result.offset = post.offset) := by
  refine ⟨?_, ?_, ?_⟩
  · intro result h
    unfold parsePostTable at h
    split at h
    · simp at h
    · cases hc : postCommonFields p.fontData offset post with
      | fault => simp [hc] at h
      | timeout => simp [hc] at h
      | ret c =>
        simp only [hc, Outcome.bind_ret] at h
        have i2 : c.format = 131072 ↔ word32 p.fontData offset = 131072 := by
          simpa using postCommonFields_format_iff p.fontData offset post c hsize hc 131072
            (by omega) (by omega)
        have i25 : c.format = 163840 ↔ word32 p.fontData offset = 163840 := by
          simpa using postCommonFields_format_iff p.fontData offset post c hsize hc 163840
            (by omega) (by omega)
        have i3 : c.format = 196608 ↔ word32 p.fontData offset = 196608 := by
          simpa using postCommonFields_format_iff p.fontData offset post c hsize hc 196608
            (by omega) (by omega)
        split at h
        · rename_i hf
          exact Or.inl (i2.mp hf)
        · split at h
          · rename_i hf
            exact Or.inr (Or.inl (i25.mp hf))
          · split at h
            · rename_i hf
              exact Or.inr (Or.inr (i3.mp hf))
            · simp at h
  · intro hnw n2 n25 n3
    unfold parsePostTable
    rw [u32_of_lt hnw]
    by_cases hshort : p.fontData.length < offset + 32
    · rw [if_pos hshort]
      exact ⟨post, rfl⟩
    · rw [if_neg hshort]
      obtain ⟨c, hc⟩ := postCommonFields_total p.fontData offset post hsize (by omega)
      have i2 : c.format = 131072 ↔ word32 p.fontData offset = 131072 := by
        simpa using postCommonFields_format_iff p.fontData offset post c hsize hc 131072
          (by omega) (by omega)
      have i25 : c.format = 163840 ↔ word32 p.fontData offset = 163840 := by
        simpa using postCommonFields_format_iff p.fontData offset post c hsize hc 163840
          (by omega) (by omega)
      have i3 : c.format = 196608 ↔ word32 p.fontData offset = 196608 := by
        simpa using postCommonFields_format_iff p.fontData offset post c hsize hc 196608
          (by omega) (by omega)
      rw [hc]
      simp only [Outcome.bind_ret]
      rw [if_neg (fun hf => n2 (i2.mp hf)), if_neg (fun hf => n25 (i25.mp hf)),
        if_neg (fun hf => n3 (i3.mp hf))]
      exact ⟨c, rfl⟩
  · intro hlen hv
    unfold parsePostTable
    rw [u32_of_lt (by omega), if_neg (by omega)]
    obtain ⟨c, hc⟩ := postCommonFields_total p.fontData offset post hsize hlen
    have i2 : c.format = 131072 ↔ word32 p.fontData offset = 131072 := by
      simpa using postCommonFields_format_iff p.fontData offset post c hsize hc 131072
        (by omega) (by omega)
    have i25 : c.format = 163840 ↔ word32 p.fontData offset = 163840 := by
      simpa using postCommonFields_format_iff p.fontData offset post c hsize hc 163840
        (by omega) (by omega)
    have i3 : c.format = 196608 ↔ word32 p.fontData offset = 196608 := by
      simpa using postCommonFields_format_iff p.fontData offset post c hsize hc 196608
        (by omega) (by omega)
    obtain ⟨_, f1, f2, f3, f4⟩ := postCommonFields_ret p.fontData offset post c hc
    rw [hc]
    simp only [Outcome.bind_ret]
    rw [if_neg (fun hf => by have := i2.mp hf; omega),
      if_neg (fun hf => by have := i25.mp hf; omega), if_pos (i3.mpr hv)]
    exact ⟨c, rfl, f1, f2, f3, f4⟩

theorem parsePostTable_versions_witness :
    postVersion3Parser.fontData.length < 4294967296 ∧
    word32 postVersion3Parser.fontData 0 = 0x00030000 ∧
    (∃ result, parsePostTable postVersion3Parser 5 0 PostTable.fresh = .ret (true, result) ∧
        result.numberOfGlyphs = PostTable.fresh.numberOfGlyphs ∧
        result.glyphNameIndex = PostTable.fresh.glyphNameIndex ∧
        result.names = PostTable.fresh.names ∧ result.offset = PostTable.fresh.offset) ∧
    word32 postVersion1Parser.fontData 0 = 0x00010000 ∧
    ∃ result, parsePostTable postVersion1Parser 5 0 PostTable.fresh = .ret (false, result) :=
  ⟨by decide, by decide,
    (parsePostTable_versions postVersion3Parser 5 0 PostTable.fresh (by decide)).2.2
      (by decide) (by decide),
    by decide,
    (parsePostTable_versions postVersion1Parser 5 0 PostTable.fresh (by decide)).2.1
      (by decide) (by decide) (by decide) (by decide)⟩

/-! ## `glyf`: what a compound glyph stores, and where its decode ends -/

theorem compoundComponent_components (fontData : List Byte) (offset offset' flags : Nat)
    (glyph glyph' : CompoundGlyph) (hsize : fontData.length < 4294967296)
    (h : compoundComponent fontData offset glyph = .ret (some flags, offset', glyph')) :
    glyph'.components
      = glyph.components ++ [CompoundComponent.ofIndex (word16 fontData (offset + 2))] := by
  unfold compoundComponent at h
  split at h
  · simp at h
  · cases h1 : be16 fontData offset with
    | fault => simp [h1] at h
    | timeout => simp [h1] at h
    | ret v1 =>
      obtain ⟨b1, e1⟩ := be16_ret h1
      simp only [h1, Outcome.ret_bind] at h
      rw [u32_of_lt (by omega)] at h
      cases h2 : be16 fontData (offset + 2) with
      | fault => simp [h2] at h
      | timeout => simp [h2] at h
      | ret v2 =>
        obtain ⟨b2, e2⟩ := be16_ret h2
        simp only [h2, Outcome.ret_bind] at h
        cases h3 : compoundArgs fontData v1 (u32 (offset + 2 + 2)) with
        | fault => simp [h3] at h
        | timeout => simp [h3] at h
        | ret r3 =>
          obtain ⟨a1, a2, o3⟩ := r3
          simp only [h3, Outcome.ret_bind] at h
          cases h4 : compoundTransform fontData v1 o3 with
          | fault => simp [h4] at h
          | timeout => simp [h4] at h
          | ret r4 =>
            obtain ⟨ok, o4⟩ := r4
            simp only [h4, Outcome.ret_bind] at h
            cases ok with
            | false => simp at h
            | true =>
              simp only [Bool.not_true, Bool.false_eq_true, if_false, Outcome.ret.injEq,
                Prod.mk.injEq, Option.some.injEq] at h
              obtain ⟨_, _, hg⟩ := h
              subst hg
              rw [e2]

/-- Supporting fact for C21: a run of the component loop that ends without a `return false`
has appended, in order, one component per record, made by the constructor from the glyph
index of the record. -/
theorem compoundLoop_components (fontData : List Byte) (hsize : fontData.length < 4294967296) :
    ∀ (fuel offset offset' flags : Nat) (glyph glyph' : CompoundGlyph),
    compoundLoop fontData fuel offset glyph = .ret (some flags, offset', glyph') →
    glyph'.components = glyph.components ++
      (componentPositions fontData fuel offset).map fun pos =>
        CompoundComponent.ofIndex (word16 fontData (pos + 2)) := by
  intro fuel
  induction fuel with
  | zero =>
    intro offset offset' flags glyph glyph' h
    unfold compoundLoop at h
    cases h
  | succ n ih =>
    intro offset offset' flags glyph glyph' h
    unfold compoundLoop at h
    split at h
    · cases h
    · cases h
    · simp at h
    · rename_i f o1 g1 hc
      obtain ⟨ef, eo, _, _⟩ := compoundComponent_some fontData offset o1 f glyph g1 hsize hc
      have eg := compoundComponent_components fontData offset o1 f glyph g1 hsize hc
      unfold componentPositions
      simp only [← ef]
      split at h
      · rename_i hmore
        rw [if_pos hmore, ← eo, ih o1 offset' flags g1 glyph' h, eg]
        simp only [List.map_cons, List.append_assoc, List.singleton_append]
      · rename_i hmore
        rw [if_neg hmore]
        simp only [Outcome.ret.injEq, Prod.mk.injEq, Option.some.injEq] at h
        obtain ⟨_, _, hg⟩ := h
        subst hg
        rw [eg]
        simp only [List.map_cons, List.map_nil]

/-- Supporting fact for C21: whenever `parseCompoundGlyph` returns `true`, the components it
appended are, in order, one per component record, each with the glyph index of its record
and with `arg1 = arg2 = 0`. -/
theorem parseCompoundGlyph_components (p : TTFParser) (fuel offset offset' : Nat)
    (glyph glyph' : CompoundGlyph) (hsize : p.fontData.length < 4294967296)
    (h : parseCompoundGlyph p fuel offset glyph = .ret (true, offset', glyph')) :
    glyph'.components = glyph.components ++
      (componentPositions p.fontData fuel offset).map (fun pos =>
        CompoundComponent.ofIndex (word16 p.fontData (pos + 2))) ∧
    ∀ c ∈ (componentPositions p.fontData fuel offset).map (fun pos =>
        CompoundComponent.ofIndex (word16 p.fontData (pos + 2))), c.arg1 = 0 ∧ c.arg2 = 0 := by
  constructor
  · unfold parseCompoundGlyph at h
    split at h
    · cases h
    · cases h
    · simp at h
    · rename_i flags o1 g1 hl
      split at h
      · cases h
      · cases h
      · simp only [Outcome.ret.injEq, Prod.mk.injEq] at h
        obtain ⟨_, _, hg⟩ := h
        subst hg
        exact compoundLoop_components p.fontData hsize fuel offset o1 flags glyph g1 hl
  · intro c hc
    simp only [List.mem_map] at hc
    obtain ⟨pos, _, rfl⟩ := hc
    exact ⟨rfl, rfl⟩

/-- Supporting fact for C30: for a buffer shorter than `2 ^ 32`, whenever
`parseCompoundGlyph` returns `true` the final offset is inside the buffer or at its end. -/
theorem parseCompoundGlyph_true_offset_le (p : TTFParser) (fuel offset offset' : Nat)
    (glyph glyph' : CompoundGlyph) (hsize : p.fontData.length < 4294967296)
    (h : parseCompoundGlyph p fuel offset glyph = .ret (true, offset', glyph')) :
    offset' ≤ p.fontData.length := by
  unfold parseCompoundGlyph at h
  split at h
  · cases h
  · cases h
  · simp at h
  · rename_i flags o1 g1 hl
    obtain ⟨_, _, _, i4, _⟩ := compoundLoop_some p.fontData hsize fuel offset o1 flags glyph g1 hl
    split at h
    · cases h
    · cases h
    · rename_i ok o2 hi
      simp only [Outcome.ret.injEq, Prod.mk.injEq] at h
      obtain ⟨hok, ho, _⟩ := h
      subst hok ho
      unfold compoundInstructions at hi
      split at hi
      · split at hi
        · simp at hi
        · cases r1 : be16 p.fontData o1 with
          | fault => simp [r1] at hi
          | timeout => simp [r1] at hi
          | ret v1 =>
            simp only [r1, Outcome.ret_bind] at hi
            split at hi
            · simp at hi
            · simp only [Outcome.ret.injEq, Prod.mk.injEq, true_and] at hi
              omega
      · simp only [Outcome.ret.injEq, Prod.mk.injEq, true_and] at hi
        omega

/-! ## `cmap` format 12: the size test -/

/-- C31 (the code departs from the claim).  `parseCmapFormat12` loads `numGroups` from
`offset` before any test, and its only test compares the buffer size with
`offset + 4 + 12 * numGroups` computed in 32 bits.  On the 12-byte buffer that starts with
`numGroups = 0x15555556` the sum wraps to 12, the test passes, and the first pass of the group
loop loads the word at bytes 12..15, outside the buffer.  On a 2-byte buffer the load of
`numGroups` itself is outside the buffer.  Neither call returns `false`. -/
theorem parseCmapFormat12_size_test_defeated :
    wrappedGroupsParser.fontData.length = 12 ∧
    be32 wrappedGroupsParser.fontData 0 = .ret 0x15555556 ∧
    u32 (0 + 4 + 12 * 0x15555556) = 12 ∧
    be32 wrappedGroupsParser.fontData (u32 (4 + 8)) = .fault ∧
    parseCmapFormat12 wrappedGroupsParser 0 CmapFormat12.fresh = .fault ∧
    shortGroupsParser.fontData.length = 2 ∧
    parseCmapFormat12 shortGroupsParser 0 CmapFormat12.fresh = .fault := by
  refine ⟨by decide, by decide, by decide, by decide, ?_, by decide, by decide⟩
  rfl

/-! ## Table directory: the header test and repeated tags -/

/-- C32 (the code departs from the claim).  `readOffsetTable` compares the buffer size with
`sizeof(OffsetTable)`, the size of the in-memory struct, which holds a `std::vector` after
its 12 bytes of scalars and is therefore larger than 12 (40 with the usual 64-bit layouts).
Every buffer shorter than `sizeof(OffsetTable)` is rejected, a 12-byte file with
`numTables = 0` among them, and the parser is left as it was. -/
theorem readOffsetTable_compares_with_sizeof (sizeofOffsetTable : Nat) (p : TTFParser)
    (hs : p.fontData.length < sizeofOffsetTable) :
    readOffsetTable sizeofOffsetTable p = .ret (false, p) := by
  unfold readOffsetTable
  rw [if_pos hs]

/-- Witness for C32: the 12-byte file with `numTables = 0` and `sizeof(OffsetTable) = 40`. -/
theorem readOffsetTable_compares_with_sizeof_witness :
    headerOnlyFont.length = 12 ∧ word16 headerOnlyFont 4 = 0 ∧
    readOffsetTable 40 (TTFParser.loaded headerOnlyFont)
      = .ret (false, TTFParser.loaded headerOnlyFont) :=
  ⟨by decide, by decide,
    readOffsetTable_compares_with_sizeof 40 (TTFParser.loaded headerOnlyFont) (by decide)⟩

/-- C33 (the code departs from the claim).  `duplicateTagFont` has two directory entries with
the tag `glyf`.  `readOffsetTable` returns `true`; `tableData["glyf"]` is assigned twice and
keeps the bytes of the second entry, `03 04`, while `getTableOffset` and `getTableLength`
stop at the first entry and return 44 and 2, whose slice of the buffer is `01 02`. -/
theorem getTableData_last_entry_getTableOffset_first :
    readOffsetTable 40 (TTFParser.loaded duplicateTagFont) = .ret (true, duplicateTagLoaded) ∧
    getTableOffset duplicateTagLoaded glyfTag = .ret 44 ∧
    getTableLength duplicateTagLoaded glyfTag = .ret 2 ∧
    getTableData duplicateTagLoaded glyfTag = [0x03, 0x04] ∧
    (duplicateTagFont.drop 44).take 2 = [0x01, 0x02] ∧
    (duplicateTagFont.drop 46).take 2 = [0x03, 0x04] := by
  refine ⟨by decide, by decide, by decide, by decide, by decide, by decide⟩

/-! ## `hmtx`: more long metrics than glyphs -/

/-- C39 (the code departs from the claim).  With `numGlyphs = 1` and
`numOfLongHorMetrics = 2` on an 8-byte buffer the size test passes
(`0 + 2 * 4 + (1 - 2) * 2 = 6`), the vector is resized to one element, and the second pass of
the first loop writes `metrics[1]`: an access outside the vector, not a `return false`. -/
theorem parseHmtxTable_more_long_metrics_than_glyphs :
    longMetricsParser.numGlyphs = 1 ∧ longMetricsParser.fontData.length = 8 ∧
    u32OfInt ((0 : Int) + (2 : Int) * 4 + ((1 : Int) - (2 : Int)) * 2) = 6 ∧
    hmtxLongLoop longMetricsParser.fontData 1 0 0 (resizeMetrics [] 1)
      = .ret (true, 4, [{ advanceWidth := 0, lsb := 0 }]) ∧
    hmtxLongLoop longMetricsParser.fontData 1 1 4 [{ advanceWidth := 0, lsb := 0 }] = .fault ∧
    parseHmtxTable longMetricsParser 0 2 [] = .fault := by
  refine ⟨by decide, by decide, by decide, by decide, by decide, by decide⟩

/-! ## `name`: where the strings are read -/

/-- C35 (the code departs from the claim).  In `nameFont` the string storage starts at
`T + stringOffset = 30`, so the claimed strings of the two records are the bytes at 30..31
(`65 66`) and at 32..33 (`67 68`).  `parseNameTable` returns `true` with the strings
`71 72` and `85 86`: it adds `stringOffset` and the record's offset to the cursor of the
record being read, `T + 6 + 12 * i`, and reads at `6 + 30 + 0 = 36` and `18 + 30 + 2 = 50`. -/
theorem parseNameTable_strings_from_record_position :
    ∃ result, parseNameTable nameParser 0 0 NameTable.fresh = .ret (true, result) ∧
      result.stringOffset = 30 ∧
      result.nameRecords.map (fun r => (r.encodingID, r.length, r.offset, r.nameString))
        = [(0, 2, 0, [71, 72]), (0, 2, 2, [85, 86])] ∧
      copyBytes nameParser.fontData (0 + 30 + 0) 2 = .ret [65, 66] ∧
      copyBytes nameParser.fontData (0 + 30 + 2) 2 = .ret [67, 68] ∧
      copyBytes nameParser.fontData (6 + 30 + 0) 2 = .ret [71, 72] ∧
      copyBytes nameParser.fontData (18 + 30 + 2) 2 = .ret [85, 86] := by
  refine ⟨_, rfl, rfl, rfl, by decide, by decide, by decide, by decide⟩

/-! ## `glyf`: simple glyphs -/

theorem cmapFormat4SegLoop_true_no_max (fontData : List Byte) (numGlyphs segCount fuel : Nat) :
    ∀ (count i : Nat) (t t' : CmapFormat4), (∀ x ∈ t.startCount, x < 65536) →
    cmapFormat4SegLoop fontData numGlyphs segCount fuel count i t = .ret (true, t') →
    ∀ j, i ≤ j → j < i + count → t.endCount[j]? ≠ some 65535 := by
  intro count
  induction count with
  | zero =>
    intro i t t' _ _ j h1 h2
    omega
  | succ n ih =>
    intro i t t' hst h j h1 h2
    obtain ⟨s, e, d, o, hs, he, hd, ho⟩ := cmapFormat4SegLoop_some _ _ _ _ _ _ _ _ h
    rw [cmapFormat4SegLoop_succ _ _ _ _ _ _ _ s e d o hs he hd ho] at h
    split at h
    · rename_i g hc
      by_cases hj : j = i
      · subst hj
        rw [he]
        intro h65
        have e65 : e = 65535 := Option.some.inj h65
        exact cmapFormat4CharLoop_never_true fontData numGlyphs j segCount s e d o (by omega)
          fuel s _ _ (hst s (List.getElem?_mem hs)) hc
      · have key := ih (i + 1) { t with glyphIndices := g } t' hst h j (by omega) (by omega)
        exact key
    · simp at h
    · cases h
    · cases h

/-- C36.  (1) A call of `parseCmapFormat4` on a table with empty vectors that returns `true`
has decoded no segment with `endCount = 0xFFFF`.  (2) In terms of the buffer: when the
table lies in a buffer shorter than `2 ^ 32` and one of its segments has the end code
`0xFFFF`, no run of the call returns `true`.  (3) The character loop of a segment that ends
at `0xFFFF` and has `idRangeOffset = 0` returns `false` within 65536 passes, for every
16-bit `numGlyphs`. -/
theorem parseCmapFormat4_max_segment (p : TTFParser) (fuel offset : Nat) (table : CmapFormat4)
    (hempty : table.endCount = [] ∧ table.startCount = []) :
    (∀ result, parseCmapFormat4 p fuel offset table = .ret (true, result) →
      65535 ∉ result.endCount) ∧
    (p.fontData.length < 4294967296 →
      offset + 16 + 8 * format4SegCount p.fontData offset ≤ p.fontData.length →
      (∃ i, i < format4SegCount p.fontData offset ∧
        format4EndCount p.fontData offset i = 65535) →
      ∀ result, parseCmapFormat4 p fuel offset table ≠ .ret (true, result)) ∧
    (∀ (i segCount startCount idDelta : Nat) (g : List Nat),
      startCount < 65536 → p.numGlyphs ≤ 65535 → 65536 ≤ fuel →
      ∃ g', cmapFormat4CharLoop p.fontData p.numGlyphs i segCount startCount 65535 idDelta 0
        fuel startCount g = .ret (false, g')) := by
  obtain ⟨hE, hS⟩ := hempty
  have part1 : ∀ result, parseCmapFormat4 p fuel offset table = .ret (true, result) →
      65535 ∉ result.endCount := by
    intro result h hmem
    obtain ⟨segX2, o1, endCount, o2, startCount, o3, idDelta, o4, idRangeOffset, _, _, _,
      r1, r2, _, _, hseg, _⟩ := parseCmapFormat4_true_inv p fuel offset table result h
    obtain ⟨newE, eE, lE, _⟩ := readU16Array_ret _ _ _ _ _ _ r1
    obtain ⟨newS, eS, _, bS⟩ := readU16Array_ret _ _ _ _ _ _ r2
    rw [hE, List.nil_append] at eE
    rw [hS, List.nil_append] at eS
    obtain ⟨_, fE, _, _, _⟩ := cmapFormat4SegLoop_frame _ _ _ _ _ _ _ _ _ hseg
    have fE' : result.endCount = newE := fE.trans eE
    rw [fE'] at hmem
    obtain ⟨j, hj, ej⟩ := List.getElem_of_mem hmem
    have hno := cmapFormat4SegLoop_true_no_max _ _ _ _ _ _ _ _
      (by intro x hx; exact bS x (by simpa [eS] using hx)) hseg j (by omega) (by omega)
    apply hno
    show endCount[j]? = some 65535
    rw [eE, List.getElem?_eq_getElem hj, ej]
  refine ⟨part1, ?_, ?_⟩
  · intro hsize hin hex result h
    obtain ⟨i, hi, e65⟩ := hex
    obtain ⟨segX2, o1, endCount, o2, startCount, o3, idDelta, o4, idRangeOffset, r0, _, _,
      r1, _, _, _, hseg, _⟩ := parseCmapFormat4_true_inv p fuel offset table result h
    unfold format4SegCount at hin hi
    rw [u32_of_lt (by omega)] at r0
    obtain ⟨_, e0⟩ := be16_ret r0
    subst e0
    rw [u32_of_lt (by omega),
      readU16Array_in_range _ _ _ _ (by omega) (by omega)] at r1
    simp only [Outcome.ret.injEq, Prod.mk.injEq] at r1
    obtain ⟨_, eE⟩ := r1
    rw [hE, List.nil_append] at eE
    obtain ⟨_, fE, _, _, _⟩ := cmapFormat4SegLoop_frame _ _ _ _ _ _ _ _ _ hseg
    apply part1 result h
    rw [fE]
    show 65535 ∈ endCount
    rw [← eE]
    simp only [List.mem_map, List.mem_range]
    exact ⟨i, hi, e65⟩
  · intro i segCount startCount idDelta g hs hn hfuel
    exact cmapFormat4CharLoop_max_false p.fontData p.numGlyphs i segCount startCount 65535
      idDelta (by omega) hn (65535 - (startCount + idDelta) % 65536) fuel startCount g hs
      (by omega) (by omega)

/-- Witness for C36: the table of `maxSegmentFont`, whose one segment is `0xFFFF..0xFFFF`. -/
theorem parseCmapFormat4_max_segment_witness :
    (∃ i, i < format4SegCount maxSegmentParser.fontData 0 ∧
      format4EndCount maxSegmentParser.fontData 0 i = 65535) ∧
    (∀ result, parseCmapFormat4 maxSegmentParser 65536 0 CmapFormat4.fresh
      ≠ .ret (true, result)) ∧
    (∃ g', cmapFormat4CharLoop maxSegmentParser.fontData maxSegmentParser.numGlyphs 0 1 65535
      65535 1 0 65536 65535 [] = .ret (false, g')) := by
  have hex : ∃ i, i < format4SegCount maxSegmentParser.fontData 0 ∧
      format4EndCount maxSegmentParser.fontData 0 i = 65535 := ⟨0, by decide, by decide⟩
  have key := parseCmapFormat4_max_segment maxSegmentParser 65536 0 CmapFormat4.fresh ⟨rfl, rfl⟩
  exact ⟨hex, key.2.1 (by decide) (by decide) hex,
    key.2.2 0 1 65535 1 [] (by decide) (by decide) (by decide)⟩

/-! ## `cmap` format 4: a call that does not return -/

theorem byteD_replicate_append_left (n k : Nat) (b : Byte) (l : List Byte) (h : k < n) :
    byteD (List.replicate n b ++ l) k = b.val := by
  unfold byteD
  rw [List.getElem?_append_left (by simpa using h), List.getElem?_replicate, if_pos h]

theorem byteD_replicate_append_right (n k : Nat) (b : Byte) (l : List Byte) :
    byteD (List.replicate n b ++ l) (n + k) = byteD l k := by
  unfold byteD
  rw [List.getElem?_append_right (by simp)]
  simp

theorem loopFont_length : loopFont.length = 65561 := by
  unfold loopFont
  rw [List.length_append, List.length_replicate]
  rfl

theorem word16_loopFont_low (k : Nat) (h : k < 65536) : word16 loopFont k = 0 := by
  unfold word16 loopFont
  rw [byteD_replicate_append_left _ _ _ _ (by omega),
    byteD_replicate_append_left _ _ _ _ (by omega)]
  rfl

theorem word16_loopFont_high (k : Nat) :
    word16 loopFont (65537 + k) = word16 loopTable k := by
  unfold word16 loopFont
  rw [byteD_replicate_append_right, Nat.add_assoc, byteD_replicate_append_right]

/-- In a buffer of at least 65556 bytes whose first 65537 bytes are zero, every character code
of a first segment with `idRangeOffset = 2` resolves to glyph 0. -/
theorem cmapFormat4Glyph_leading_zeros (fontData : List Byte) (c : Nat)
    (hlen : 65556 ≤ fontData.length) (hzero : ∀ k, k < 65536 → word16 fontData k = 0) :
    cmapFormat4Glyph fontData 0 1 0 0 2 c = .ret (some 0) := by
  unfold cmapFormat4Glyph
  rw [if_neg (by omega)]
  simp only
  have hoff : u16OfInt (((c : Int) - ((0 : Nat) : Int)) * 2 + ((2 : Nat) : Int)) < 65536 := by
    unfold u16OfInt
    omega
  rw [u32_of_lt (by omega), if_neg (by omega), be16_of_le (by omega), hzero _ hoff]
  rfl

/-- The character loop of such a segment, when it ends at `0xFFFF`, uses up every budget. -/
theorem cmapFormat4CharLoop_leading_zeros (fontData : List Byte)
    (hlen : 65556 ≤ fontData.length) (hzero : ∀ k, k < 65536 → word16 fontData k = 0) :
    ∀ (fuel c : Nat) (g : List Nat), c < 65536 →
    cmapFormat4CharLoop fontData 1 0 1 0 65535 0 2 fuel c g = .timeout := by
  intro fuel
  induction fuel with
  | zero =>
    intro c g hc
    unfold cmapFormat4CharLoop
    rw [if_pos (by omega)]
  | succ n ih =>
    intro c g hc
    unfold cmapFormat4CharLoop
    rw [if_pos (by omega)]
    simp only [cmapFormat4Glyph_leading_zeros fontData c hlen hzero]
    rw [if_neg (by omega)]
    exact ih (u16 (c + 1)) _ (by unfold u16; omega)

/-- A format 4 table with the one segment `0..0xFFFF` and `idRangeOffset = 2`, in a buffer
whose first 65537 bytes are zero and a parser with `numGlyphs = 1`: the call uses up every
budget. -/
theorem parseCmapFormat4_leading_zeros_timeout (p : TTFParser) (fuel offset : Nat)
    (table : CmapFormat4)
    (hempty : table.endCount = [] ∧ table.startCount = [] ∧ table.idDelta = [] ∧
      table.idRangeOffset = [])
    (hnum : p.numGlyphs = 1) (hlen : 65556 ≤ p.fontData.length)
    (hsize : p.fontData.length < 4294967296) (hin : offset + 24 ≤ p.fontData.length)
    (hzero : ∀ k, k < 65536 → word16 p.fontData k = 0)
    (hseg : word16 p.fontData (offset + 2) = 2)
    (hend : word16 p.fontData (offset + 14) = 65535)
    (hstart : word16 p.fontData (offset + 18) = 0)
    (hdelta : word16 p.fontData (offset + 20) = 0)
    (hrange : word16 p.fontData (offset + 22) = 2) :
    parseCmapFormat4 p fuel offset table = .timeout := by
  obtain ⟨hE, hS, hD, hO⟩ := hempty
  unfold parseCmapFormat4
  rw [hnum, u32_of_lt (by omega), be16_of_le (by omega), hseg]
  simp only [Outcome.ret_bind]
  rw [if_neg (by decide), u32_of_lt (by omega), if_neg (by omega), u32_of_lt (by omega),
    readU16Array_in_range _ _ _ _ (by omega) (by omega)]
  simp only [Outcome.ret_bind]
  rw [u32_of_lt (by omega), readU16Array_in_range _ _ _ _ (by omega) (by omega)]
  simp only [Outcome.ret_bind]
  rw [readU16Array_in_range _ _ _ _ (by omega) (by omega)]
  simp only [Outcome.ret_bind]
  rw [readU16Array_in_range _ _ _ _ (by omega) (by omega)]
  simp only [Outcome.ret_bind]
  have a1 : word16 p.fontData (offset + 14 + 2 * 0) = 65535 := hend
  have a2 : word16 p.fontData (offset + 14 + 2 * (2 / 2) + 2 + 2 * 0) = 0 := hstart
  have a3 : word16 p.fontData (offset + 14 + 2 * (2 / 2) + 2 + 2 * (2 / 2) + 2 * 0) = 0 :=
    hdelta
  have a4 : word16 p.fontData
      (offset + 14 + 2 * (2 / 2) + 2 + 2 * (2 / 2) + 2 * (2 / 2) + 2 * 0) = 2 := hrange
  have hr : List.range (2 / 2) = [0] := by decide
  simp only [hr, List.map_cons, List.map_nil, a1, a2, a3, a4, hE, hS, hD, hO, List.nil_append]
  rw [cmapFormat4SegLoop_succ _ _ _ _ _ _ _ 0 65535 0 2 rfl rfl rfl rfl,
    cmapFormat4CharLoop_leading_zeros p.fontData hlen hzero _ _ _ (by omega)]
  rfl

/-- C37 (the code departs from the claim).  `loopFont` holds a format 4 table at offset 65537
with the one segment `0..0xFFFF` and `idRangeOffset = 2`; every glyph index the segment
resolves to is read from the zero bytes in front of the table and is below `numGlyphs = 1`.
The 16-bit `charCode` wraps from `0xFFFF` to `0` and `charCode <= endCount[i]` never fails:
whatever number of passes is allowed, the call has not returned. -/
theorem parseCmapFormat4_does_not_return (fuel : Nat) :
    parseCmapFormat4 loopParser fuel 65537 CmapFormat4.fresh = .timeout := by
  have hlen : loopParser.fontData.length = 65561 := loopFont_length
  have hzero : ∀ k, k < 65536 → word16 loopParser.fontData k = 0 := word16_loopFont_low
  have hw : ∀ k, word16 loopParser.fontData (65537 + k) = word16 loopTable k :=
    word16_loopFont_high
  exact parseCmapFormat4_leading_zeros_timeout loopParser fuel 65537 CmapFormat4.fresh
    ⟨rfl, rfl, rfl, rfl⟩ rfl (by omega) (by omega) (by omega) hzero
    ((hw 2).trans (by decide)) ((hw 14).trans (by decide)) ((hw 18).trans (by decide))
    ((hw 20).trans (by decide)) ((hw 22).trans (by decide))

/-! ## `cmap` format 4: decoding into a table that is already populated -/

theorem readU16Array_acc (fontData : List Byte) : ∀ (count offset : Nat) (acc : List Nat),
    readU16Array fontData count offset acc
      = (readU16Array fontData count offset []).bind fun r => .ret (r.1, acc ++ r.2) := by
  intro count
  induction count with
  | zero =>
    intro offset acc
    unfold readU16Array
    simp
  | succ n ih =>
    intro offset acc
    unfold readU16Array
    cases hb : be16 fontData offset with
    | fault => rfl
    | timeout => rfl
    | ret v =>
      simp only [Outcome.ret_bind]
      rw [ih _ (acc ++ [v]), ih _ ([] ++ [v])]
      cases readU16Array fontData n (u32 (offset + 2)) [] with
      | fault => rfl
      | timeout => rfl
      | ret r => simp [List.append_assoc]

theorem cmapFormat4CharLoop_acc (fontData : List Byte) (numGlyphs i segCount startCount
    endCount idDelta idRangeOffset : Nat) :
    ∀ (fuel c : Nat) (g : List Nat),
    cmapFormat4CharLoop fontData numGlyphs i segCount startCount endCount idDelta idRangeOffset
        fuel c g
      = (cmapFormat4CharLoop fontData numGlyphs i segCount startCount endCount idDelta
          idRangeOffset fuel c []).bind fun r => .ret (r.1, g ++ r.2) := by
  intro fuel
  induction fuel with
  | zero =>
    intro c g
    unfold cmapFormat4CharLoop
    by_cases hc : c ≤ endCount
    · rw [if_pos hc, if_pos hc]
      rfl
    · rw [if_neg hc, if_neg hc]
      simp
  | succ n ih =>
    intro c g
    unfold cmapFormat4CharLoop
    by_cases hc : c ≤ endCount
    · rw [if_pos hc, if_pos hc]
      simp only
      cases hg : cmapFormat4Glyph fontData i segCount startCount idDelta idRangeOffset c with
      | fault => rfl
      | timeout => rfl
      | ret r =>
        cases r with
        | none => simp
        | some v =>
          simp only
          by_cases hv : v ≥ numGlyphs
          · rw [if_pos hv, if_pos hv]
            simp
          · rw [if_neg hv, if_neg hv, ih _ (g ++ [v]), ih _ ([] ++ [v])]
            cases cmapFormat4CharLoop fontData numGlyphs i segCount startCount endCount idDelta
                idRangeOffset n (u16 (c + 1)) [] with
            | fault => rfl
            | timeout => rfl
            | ret r => simp [List.append_assoc]
    · rw [if_neg hc, if_neg hc]
      simp

/-- The segment loop reads the four arrays at the indices of its segments only, and appends to
`glyphIndices` the same indices whatever the vector holds already. -/
theorem cmapFormat4SegLoop_agree (fontData : List Byte) (numGlyphs segCount fuel : Nat) :
    ∀ (count i : Nat) (t u : CmapFormat4) (b : Bool) (t' : CmapFormat4),
    (∀ j, i ≤ j → j < i + count → u.startCount[j]? = t.startCount[j]? ∧
      u.endCount[j]? = t.endCount[j]? ∧ u.idDelta[j]? = t.idDelta[j]? ∧
      u.idRangeOffset[j]? = t.idRangeOffset[j]?) →
    cmapFormat4SegLoop fontData numGlyphs segCount fuel count i t = .ret (b, t') →
    ∃ new, t'.glyphIndices = t.glyphIndices ++ new ∧
      cmapFormat4SegLoop fontData numGlyphs segCount fuel count i u
        = .ret (b, { u with glyphIndices := u.glyphIndices ++ new }) := by
  intro count
  induction count with
  | zero =>
    intro i t u b t' _ h
    unfold cmapFormat4SegLoop at h
    simp only [Outcome.ret.injEq, Prod.mk.injEq] at h
    obtain ⟨rfl, rfl⟩ := h
    refine ⟨[], (List.append_nil _).symm, ?_⟩
    unfold cmapFormat4SegLoop
    rw [List.append_nil]
  | succ n ih =>
    intro i t u b t' hag h
    obtain ⟨s, e, d, o, hs, he, hd, ho⟩ := cmapFormat4SegLoop_some _ _ _ _ _ _ _ _ h
    obtain ⟨us, ue, ud, uo⟩ := hag i (by omega) (by omega)
    rw [cmapFormat4SegLoop_succ _ _ _ _ _ _ _ s e d o hs he hd ho,
      cmapFormat4CharLoop_acc] at h
    rw [cmapFormat4SegLoop_succ _ _ _ _ _ _ _ s e d o (us.trans hs) (ue.trans he)
      (ud.trans hd) (uo.trans ho), cmapFormat4CharLoop_acc]
    cases hc : cmapFormat4CharLoop fontData numGlyphs i segCount s e d o fuel s [] with
    | fault => rw [hc] at h; cases h
    | timeout => rw [hc] at h; cases h
    | ret r =>
      obtain ⟨ok, x⟩ := r
      rw [hc] at h
      simp only [Outcome.bind_ret] at h ⊢
      cases ok with
      | false =>
        simp only [Outcome.ret.injEq, Prod.mk.injEq] at h
        obtain ⟨rfl, rfl⟩ := h
        exact ⟨x, rfl, rfl⟩
      | true =>
        simp only at h
        obtain ⟨new, e1, e2⟩ := ih (i + 1) { t with glyphIndices := t.glyphIndices ++ x }
          { u with glyphIndices := u.glyphIndices ++ x } b t'
          (fun j h1 h2 => hag j (by omega) (by omega)) h
        refine ⟨x ++ new, ?_, ?_⟩
        · rw [e1]
          exact List.append_assoc _ _ _
        · simp only
          rw [e2]
          simp only [List.append_assoc]

theorem cmapFormat4CheckLoop_agree (t u : CmapFormat4) : ∀ (count i : Nat),
    (∀ j, i ≤ j → j < i + count → u.startCount[j]? = t.startCount[j]? ∧
      u.endCount[j]? = t.endCount[j]?) →
    cmapFormat4CheckLoop u count i = cmapFormat4CheckLoop t count i := by
  intro count
  induction count with
  | zero =>
    intro i _
    unfold cmapFormat4CheckLoop
    rfl
  | succ n ih =>
    intro i hag
    obtain ⟨us, ue⟩ := hag i (by omega) (by omega)
    unfold cmapFormat4CheckLoop
    rw [us, ue, ih (i + 1) (fun j h1 h2 => hag j (by omega) (by omega))]

/-- When `parseCmapFormat4` on a table with empty vectors returns
`true`, a second call with the same buffer and offset on the table it produced returns
`true` as well and appends: each of `endCount`, `startCount`, `idDelta`, `idRangeOffset` and
`glyphIndices` then holds its entries twice, and the scalar members are unchanged. -/
theorem parseCmapFormat4_again (p : TTFParser) (fuel offset : Nat)
    (t0 t1 : CmapFormat4)
    (hempty : t0.endCount = [] ∧ t0.startCount = [] ∧ t0.idDelta = [] ∧
      t0.idRangeOffset = [] ∧ t0.glyphIndices = [])
    (h : parseCmapFormat4 p fuel offset t0 = .ret (true, t1)) :
    parseCmapFormat4 p fuel offset t1 = .ret (true,
      { t1 with endCount := t1.endCount ++ t1.endCount,
                startCount := t1.startCount ++ t1.startCount,
                idDelta := t1.idDelta ++ t1.idDelta,
                idRangeOffset := t1.idRangeOffset ++ t1.idRangeOffset,
                glyphIndices := t1.glyphIndices ++ t1.glyphIndices }) := by
  obtain ⟨hE, hS, hD, hO, hG⟩ := hempty
  obtain ⟨segX2, o1, E, o2, S, o3, D, o4, O, r0, heven, hsz, r1, r2, r3, r4, hseg, hchk⟩ :=
    parseCmapFormat4_true_inv p fuel offset t0 t1 h
  rw [hE] at r1
  rw [hS] at r2
  rw [hD] at r3
  rw [hO] at r4
  obtain ⟨nE, eE, lE, _⟩ := readU16Array_ret _ _ _ _ _ _ r1
  obtain ⟨nS, eS, lS, _⟩ := readU16Array_ret _ _ _ _ _ _ r2
  obtain ⟨nD, eD, lD, _⟩ := readU16Array_ret _ _ _ _ _ _ r3
  obtain ⟨nO, eO, lO, _⟩ := readU16Array_ret _ _ _ _ _ _ r4
  rw [List.nil_append] at eE eS eD eO
  subst eE eS eD eO
  obtain ⟨f0, fE, fS, fD, fO⟩ := cmapFormat4SegLoop_frame _ _ _ _ _ _ _ _ _ hseg
  simp only at f0 fE fS fD fO
  subst fE fS fD fO
  have agree : ∀ j, 0 ≤ j → j < 0 + segX2 / 2 →
      (t1.startCount ++ t1.startCount)[j]? = t1.startCount[j]? ∧
      (t1.endCount ++ t1.endCount)[j]? = t1.endCount[j]? ∧
      (t1.idDelta ++ t1.idDelta)[j]? = t1.idDelta[j]? ∧
      (t1.idRangeOffset ++ t1.idRangeOffset)[j]? = t1.idRangeOffset[j]? := by
    intro j _ hj
    exact ⟨List.getElem?_append_left (by omega), List.getElem?_append_left (by omega),
      List.getElem?_append_left (by omega), List.getElem?_append_left (by omega)⟩
  obtain ⟨new, g1, g2⟩ := cmapFormat4SegLoop_agree p.fontData p.numGlyphs (segX2 / 2) fuel
    (segX2 / 2) 0
    { t0 with segCountX2 := segX2, endCount := t1.endCount, startCount := t1.startCount,
              idDelta := t1.idDelta, idRangeOffset := t1.idRangeOffset }
    { t1 with segCountX2 := segX2, endCount := t1.endCount ++ t1.endCount,
              startCount := t1.startCount ++ t1.startCount,
              idDelta := t1.idDelta ++ t1.idDelta,
              idRangeOffset := t1.idRangeOffset ++ t1.idRangeOffset } true t1 agree hseg
  simp only [hG, List.nil_append] at g1
  have hchk2 : cmapFormat4CheckLoop
      { t1 with segCountX2 := segX2, endCount := t1.endCount ++ t1.endCount,
                startCount := t1.startCount ++ t1.startCount,
                idDelta := t1.idDelta ++ t1.idDelta,
                idRangeOffset := t1.idRangeOffset ++ t1.idRangeOffset,
                glyphIndices := t1.glyphIndices ++ new } (segX2 / 2) 0 = .ret true := by
    rw [← hchk]
    apply cmapFormat4CheckLoop_agree
    intro j _ hj
    have a := agree j (by omega) hj
    exact ⟨a.1, a.2.1⟩
  unfold parseCmapFormat4
  rw [r0]
  simp only [Outcome.ret_bind]
  rw [if_neg (by omega), if_neg hsz, readU16Array_acc, r1]
  simp only [Outcome.bind_ret, Outcome.ret_bind]
  rw [readU16Array_acc, r2]
  simp only [Outcome.bind_ret, Outcome.ret_bind]
  rw [readU16Array_acc, r3]
  simp only [Outcome.bind_ret, Outcome.ret_bind]
  rw [readU16Array_acc, r4]
  simp only [Outcome.bind_ret, Outcome.ret_bind]
  rw [g2]
  simp only [Outcome.ret_bind, Bool.not_true, Bool.false_eq_true, if_false]
  rw [hchk2]
  simp only [Outcome.ret_bind, ← g1, f0]

/-- C38 (the code departs from the claim): a second decode of `directFont` into the table the
first decode produced returns `true` and leaves every vector with its entries twice, not the
table of the first call. -/
theorem parseCmapFormat4_second_call_differs :
    parseCmapFormat4 directParser 10 0 CmapFormat4.fresh = .ret (true, directTable) ∧
    parseCmapFormat4 directParser 10 0 directTable = .ret (true, directTableTwice) ∧
    directTableTwice ≠ directTable := by
  have h1 : parseCmapFormat4 directParser 10 0 CmapFormat4.fresh = .ret (true, directTable) := by
    rfl
  exact ⟨h1, parseCmapFormat4_again directParser 10 0 CmapFormat4.fresh directTable
    ⟨rfl, rfl, rfl, rfl, rfl⟩ h1, by decide⟩

/-- C38, as the code has it.  When `parseCmapFormat4` on a table with empty vectors returns
`true`, a second call with the same buffer and offset on the table it produced returns
`true` as well and appends: each of `endCount`, `startCount`, `idDelta`, `idRangeOffset` and
`glyphIndices` then holds its entries twice, and the scalar members are unchanged. -/
theorem parseCmapFormat4_second_call_appends (p : TTFParser) (fuel offset : Nat)
    (t0 t1 : CmapFormat4)
    (hempty : t0.endCount = [] ∧ t0.startCount = [] ∧ t0.idDelta = [] ∧
      t0.idRangeOffset = [] ∧ t0.glyphIndices = [])
    (h : parseCmapFormat4 p fuel offset t0 = .ret (true, t1)) :
    parseCmapFormat4 p fuel offset t1 = .ret (true,
      { t1 with endCount := t1.endCount ++ t1.endCount,
                startCount := t1.startCount ++ t1.startCount,
                idDelta := t1.idDelta ++ t1.idDelta,
                idRangeOffset := t1.idRangeOffset ++ t1.idRangeOffset,
                glyphIndices := t1.glyphIndices ++ t1.glyphIndices }) :=
  parseCmapFormat4_again p fuel offset t0 t1 hempty h

/-- Witness for C38: the two decodes of `directFont`. -/
theorem parseCmapFormat4_second_call_appends_witness :
    parseCmapFormat4 directParser 10 0 CmapFormat4.fresh = .ret (true, directTable) ∧
    parseCmapFormat4 directParser 10 0 directTable = .ret (true,
      { directTable with
        endCount := directTable.endCount ++ directTable.endCount,
        startCount := directTable.startCount ++ directTable.startCount,
        idDelta := directTable.idDelta ++ directTable.idDelta,
        idRangeOffset := directTable.idRangeOffset ++ directTable.idRangeOffset,
        glyphIndices := directTable.glyphIndices ++ directTable.glyphIndices }) := by
  have h1 : parseCmapFormat4 directParser 10 0 CmapFormat4.fresh = .ret (true, directTable) := by
    rfl
  exact ⟨h1, parseCmapFormat4_second_call_appends directParser 10 0 CmapFormat4.fresh
    directTable ⟨rfl, rfl, rfl, rfl, rfl⟩ h1⟩

/-! ## `kern` -/

/-- A run of the pair loop that ends without a `return false` has read `count` consecutive
six-byte records inside the buffer. -/
theorem kernPairLoop_true (fontData : List Byte) (hsize : fontData.length + 65536 ≤ 4294967296) :
    ∀ (count offset : Nat) (pairs : List KerningPair) (o : Nat) (result : List KerningPair),
    kernPairLoop fontData count offset pairs = .ret (true, o, result) →
    o = offset + 6 * count ∧ (count ≠ 0 → offset + 6 * count ≤ fontData.length) ∧
    result = pairs ++ (List.range count).map fun j => kernPairAt fontData (offset + 6 * j) := by
  intro count
  induction count with
  | zero =>
    intro offset pairs o result h
    unfold kernPairLoop at h
    simp only [Outcome.ret.injEq, Prod.mk.injEq, true_and] at h
    obtain ⟨rfl, rfl⟩ := h
    simp
  | succ n ih =>
    intro offset pairs o result h
    unfold kernPairLoop at h
    split at h
    · simp at h
    · rename_i hchk
      obtain ⟨left, hl, h⟩ := Outcome.bind_ret_inv h
      obtain ⟨b1, e1⟩ := be16_ret hl
      rw [u32_of_lt (by omega)] at hchk
      simp (disch := omega) only [u32_of_lt, be16_of_le, Outcome.ret_bind] at h
      obtain ⟨h1, h2, h3⟩ := ih _ _ _ _ h
      refine ⟨by omega, fun _ => ?_, ?_⟩
      · by_cases hn : n = 0
        · subst hn; omega
        · have := h2 hn
          omega
      · rw [h3, e1]
        simp only [List.append_assoc, List.singleton_append, List.range_succ_eq_map,
          List.map_cons, List.map_map]
        congr 2
        apply List.map_congr_left
        intro k _
        simp only [Function.comp]
        have e : offset + 2 + 2 + 2 + 6 * k = offset + 6 * (k + 1) := by omega
        rw [e]

/-- One pass through the subtable loop that pushes a subtable: the subtable is the one stored
at the cursor, its bytes are inside the buffer, and the cursor moves to where the next
subtable starts. -/
theorem kernSubtable_some (fontData : List Byte) (hsize : fontData.length + 65536 ≤ 4294967296)
    (offset o : Nat) (subtable : KernSubtable)
    (h : kernSubtable fontData offset = .ret (some subtable, o)) :
    subtable = kernSubtableAt fontData offset ∧ o = kernSubtableEnd fontData offset ∧
    offset + 6 ≤ fontData.length ∧
    (word16 fontData (offset + 4) % 256 = 0 →
      offset + 14 + 6 * word16 fontData (offset + 6) ≤ fontData.length) := by
  unfold kernSubtable at h
  split at h
  · simp at h
  · rename_i hchk
    obtain ⟨version, hv, h⟩ := Outcome.bind_ret_inv h
    obtain ⟨b1, e1⟩ := be16_ret hv
    rw [u32_of_lt (by omega)] at hchk
    simp (disch := omega) only [u32_of_lt, be16_of_le, Outcome.ret_bind] at h
    have hw := word16_lt fontData (offset + 2 + 2)
    have hmask : word16 fontData (offset + 2 + 2) &&& 0xFF
        = word16 fontData (offset + 2 + 2) % 256 := Nat.and_pow_two_sub_one_eq_mod _ 8
    rw [hmask] at h
    have e4 : offset + 2 + 2 = offset + 4 := by omega
    have e6 : offset + 2 + 2 + 2 = offset + 6 := by omega
    rw [e4, e6] at h
    rw [e4] at hw
    unfold kernSubtableAt kernSubtableEnd
    by_cases hcov : word16 fontData (offset + 4) % 256 = 0
    · rw [if_pos hcov] at h
      rw [if_pos hcov, if_pos hcov]
      unfold kernFormat0 at h
      split at h
      · cases h
      · rename_i hchk8
        rw [u32_of_lt (by omega)] at hchk8
        simp (disch := omega) only [u32_of_lt, be16_of_le, Outcome.ret_bind] at h
        obtain ⟨r, hr, h⟩ := Outcome.bind_ret_inv h
        obtain ⟨ok, o', ps⟩ := r
        cases ok with
        | false => simp at h
        | true =>
          simp only [Bool.not_true, Bool.false_eq_true, if_false, Outcome.ret.injEq,
            Prod.mk.injEq, Option.some.injEq] at h
          obtain ⟨hs, ho⟩ := h
          obtain ⟨p1, p2, p3⟩ := kernPairLoop_true fontData hsize _ _ _ _ _ hr
          have e14 : offset + 6 + 2 + 6 = offset + 14 := by omega
          rw [e14] at p1 p2 p3
          refine ⟨?_, by omega, by omega, fun _ => ?_⟩
          · rw [← hs, p3, e1]
            simp
          · by_cases hn : word16 fontData (offset + 6) = 0
            · rw [hn]; omega
            · exact p2 hn
    · rw [if_neg hcov] at h
      rw [if_neg hcov, if_neg hcov]
      simp only [Outcome.ret.injEq, Prod.mk.injEq, Option.some.injEq] at h
      obtain ⟨hs, ho⟩ := h
      have hl := word16_lt fontData (offset + 2)
      refine ⟨?_, ?_, by omega, fun hc => absurd hc hcov⟩
      · rw [← hs, e1]
      · rw [← ho]
        unfold u32OfInt
        omega

/-- A run of the subtable loop that returns `true` has pushed, in order, the subtables stored
at `count` consecutive positions, all inside the buffer. -/
theorem kernSubtableLoop_true (fontData : List Byte)
    (hsize : fontData.length + 65536 ≤ 4294967296) :
    ∀ (count offset : Nat) (table result : KernTable),
    kernSubtableLoop fontData count offset table = .ret (true, result) →
    result.version = table.version ∧
    result.subtables = table.subtables ++
      (kernSubtablePositions fontData count offset).map (kernSubtableAt fontData) ∧
    ∀ pos ∈ kernSubtablePositions fontData count offset,
      pos + 6 ≤ fontData.length ∧
      (word16 fontData (pos + 4) % 256 = 0 →
        pos + 14 + 6 * word16 fontData (pos + 6) ≤ fontData.length) := by
  intro count
  induction count with
  | zero =>
    intro offset table result h
    unfold kernSubtableLoop at h
    simp only [Outcome.ret.injEq, Prod.mk.injEq, true_and] at h
    subst h
    simp [kernSubtablePositions]
  | succ n ih =>
    intro offset table result h
    unfold kernSubtableLoop at h
    split at h
    · cases h
    · cases h
    · simp at h
    · rename_i subtable o hk
      obtain ⟨k1, k2, k3, k4⟩ := kernSubtable_some fontData hsize offset o subtable hk
      obtain ⟨i1, i2, i3⟩ := ih _ _ _ h
      subst k1 k2
      refine ⟨i1, ?_, ?_⟩
      · rw [i2]
        simp [kernSubtablePositions]
      · intro pos hpos
        simp only [kernSubtablePositions, List.mem_cons] at hpos
        rcases hpos with rfl | hpos
        · exact ⟨k3, k4⟩
        · exact i3 pos hpos

/-- C40.  In a buffer at least 64 KiB short of `2 ^ 32` bytes, whenever `parseKernTable`
returns `true` on a table without subtables, the table holds `nTables` subtables (the word at
`offset + 2`): in order, the subtables stored at consecutive positions from `offset + 4` on.
Each of them has the pairs described by `kernSubtableAt`: `nPairs` pairs
`(u16 left, u16 right, i16 value)` from the six-byte records starting 14 bytes after the
subtable start when the low byte of `coverage` is 0, none otherwise.  The header, every
subtable header and every pair record lie inside the buffer. -/
theorem parseKernTable_subtables (p : TTFParser) (offset : Nat) (table result : KernTable)
    (hsize : p.fontData.length + 65536 ≤ 4294967296)
    (hempty : table.subtables = [])
    (h : parseKernTable p offset table = .ret (true, result)) :
    offset + 4 ≤ p.fontData.length ∧
    result.version = word16 p.fontData offset ∧
    result.subtables.length = word16 p.fontData (offset + 2) ∧
    result.subtables =
      (kernSubtablePositions p.fontData (word16 p.fontData (offset + 2)) (offset + 4)).map
        (kernSubtableAt p.fontData) ∧
    ∀ pos ∈ kernSubtablePositions p.fontData (word16 p.fontData (offset + 2)) (offset + 4),
      pos + 6 ≤ p.fontData.length ∧
      (word16 p.fontData (pos + 4) % 256 = 0 →
        pos + 14 + 6 * word16 p.fontData (pos + 6) ≤ p.fontData.length) := by
  have hlen : ∀ (count pos : Nat), (kernSubtablePositions p.fontData count pos).length = count := by
    intro count
    induction count with
    | zero => intro pos; rfl
    | succ n ih => intro pos; simp [kernSubtablePositions, ih]
  unfold parseKernTable at h
  split at h
  · simp at h
  · rename_i hchk
    obtain ⟨version, hv, h⟩ := Outcome.bind_ret_inv h
    obtain ⟨b1, e1⟩ := be16_ret hv
    rw [u32_of_lt (by omega)] at hchk
    simp (disch := omega) only [u32_of_lt, be16_of_le, Outcome.ret_bind] at h
    have e4 : offset + 2 + 2 = offset + 4 := by omega
    rw [e4] at h
    obtain ⟨i1, i2, i3⟩ := kernSubtableLoop_true p.fontData hsize _ _ _ _ h
    simp only [hempty, List.nil_append] at i1 i2
    refine ⟨by omega, by rw [i1, e1], ?_, i2, i3⟩
    rw [i2, List.length_map, hlen]

/-- Witness for C40: the two subtables of `kernFont`, at positions 4 and 24. -/
theorem parseKernTable_subtables_witness :
    parseKernTable kernParser 0 KernTable.fresh = .ret (true, kernDecoded) ∧
    kernSubtablePositions kernParser.fontData (word16 kernParser.fontData (0 + 2)) (0 + 4)
      = [4, 24] ∧
    (0 + 4 ≤ kernParser.fontData.length ∧
    kernDecoded.version = word16 kernParser.fontData 0 ∧
    kernDecoded.subtables.length = word16 kernParser.fontData (0 + 2) ∧
    kernDecoded.subtables =
      (kernSubtablePositions kernParser.fontData (word16 kernParser.fontData (0 + 2))
        (0 + 4)).map (kernSubtableAt kernParser.fontData) ∧
    ∀ pos ∈ kernSubtablePositions kernParser.fontData (word16 kernParser.fontData (0 + 2))
        (0 + 4),
      pos + 6 ≤ kernParser.fontData.length ∧
      (word16 kernParser.fontData (pos + 4) % 256 = 0 →
        pos + 14 + 6 * word16 kernParser.fontData (pos + 6) ≤ kernParser.fontData.length)) := by
  have h : parseKernTable kernParser 0 KernTable.fresh = .ret (true, kernDecoded) := by
    rfl
  exact ⟨h, by decide,
    parseKernTable_subtables kernParser 0 KernTable.fresh kernDecoded (by decide) rfl h⟩

/-! ## `cmap` format 12: inside the 32-bit range -/

theorem cmapFormat12Loop_in_range (fontData : List Byte) :
    ∀ (count offset : Nat) (groups : List GroupFormat12),
    offset + 12 * count ≤ fontData.length → offset + 12 * count < 4294967296 →
    cmapFormat12Loop fontData count offset groups
      = .ret (groups ++ (List.range count).map fun j => groupFormat12At fontData (offset + 12 * j))
    := by
  intro count
  induction count with
  | zero =>
    intro offset groups _ _
    unfold cmapFormat12Loop
    simp
  | succ n ih =>
    intro offset groups hle hlt
    unfold cmapFormat12Loop
    simp (disch := omega) only [u32_of_lt, be32_of_le, Outcome.ret_bind]
    rw [ih _ _ (by omega) (by omega)]
    simp only [List.append_assoc, List.singleton_append, List.range_succ_eq_map,
      List.map_cons, List.map_map, Outcome.ret.injEq]
    congr 2
    apply List.map_congr_left
    intro k _
    simp only [Function.comp]
    have e : offset + 12 + 12 * k = offset + 12 * (k + 1) := by omega
    rw [e]

/-- Supporting fact for C31: when the `numGroups` field lies inside the buffer and the group
array ends below `2 ^ 32`, `parseCmapFormat12` returns, `true` exactly when the array lies
inside the buffer, and then with the `numGroups` groups stored after the field. -/
theorem parseCmapFormat12_in_range (p : TTFParser) (offset : Nat) (table : CmapFormat12)
    (h4 : offset + 4 ≤ p.fontData.length)
    (hend : offset + 4 + 12 * word32 p.fontData offset < 4294967296) :
    ∃ b result, parseCmapFormat12 p offset table = .ret (b, result) ∧
      (b = true ↔ offset + 4 + 12 * word32 p.fontData offset ≤ p.fontData.length) ∧
      (b = true → result.numGroups = word32 p.fontData offset ∧
        result.groups = table.groups ++
          (List.range (word32 p.fontData offset)).map fun j =>
            groupFormat12At p.fontData (offset + 4 + 12 * j)) := by
  unfold parseCmapFormat12
  rw [be32_of_le h4]
  simp only [Outcome.ret_bind]
  rw [u32_of_lt hend]
  by_cases hlt : p.fontData.length < offset + 4 + 12 * word32 p.fontData offset
  · rw [if_pos hlt]
    exact ⟨false, _, rfl, (by constructor <;> intro h <;> first | omega | cases h),
      fun h => by cases h⟩
  · rw [if_neg hlt, u32_of_lt (by omega), cmapFormat12Loop_in_range _ _ _ _ (by omega) hend]
    exact ⟨true, _, rfl, (by constructor <;> intro _ <;> first | omega | rfl),
      fun _ => ⟨rfl, rfl⟩⟩

/-! ## Table directory: buffers of at least `sizeof(OffsetTable)` bytes -/

/-- Supporting fact for C32: a buffer of at least `sizeof(OffsetTable)` bytes whose
`numTables` field is 0 is accepted, and neither the directory nor the table map changes. -/
theorem readOffsetTable_no_tables (sizeofOffsetTable : Nat) (p : TTFParser)
    (h12 : 12 ≤ sizeofOffsetTable) (hs : sizeofOffsetTable ≤ p.fontData.length)
    (hnum : word16 p.fontData 4 = 0) :
    ∃ q, readOffsetTable sizeofOffsetTable p = .ret (true, q) ∧
      q.offsetTable.numTables = 0 ∧
      q.offsetTable.tableDirectoryEntries = p.offsetTable.tableDirectoryEntries ∧
      q.tableData = p.tableData := by
  unfold readOffsetTable
  rw [if_neg (by omega)]
  simp (disch := omega) only [be32_of_le, be16_of_le, Outcome.ret_bind]
  rw [hnum]
  unfold readDirectoryEntries
  exact ⟨_, rfl, rfl, rfl, rfl⟩

/-- The 40-byte file with `numTables = 0` is accepted when `sizeof(OffsetTable) = 40`. -/
theorem readOffsetTable_no_tables_example :
    ∃ q, readOffsetTable 40 (TTFParser.loaded paddedHeaderFont) = .ret (true, q) ∧
      q.offsetTable.numTables = 0 ∧ q.offsetTable.tableDirectoryEntries = [] ∧
      q.tableData = [] :=
  readOffsetTable_no_tables 40 (TTFParser.loaded paddedHeaderFont) (by decide) (by decide)
    (by decide)

/-! ## `hmtx`: a call that returns `true` -/

/-- Supporting fact for C39: in a buffer shorter than `2 ^ 32`, a call of `parseHmtxTable`
that returns `true` was given `numOfLongHorMetrics ≤ numGlyphs`; with more long metrics than
glyphs the call returns `false` or runs into the access outside the vector. -/
theorem parseHmtxTable_true_long_le (p : TTFParser) (offset numOfLongHorMetrics : Nat)
    (metrics result : List GlyphMetrics) (hsize : p.fontData.length < 2 ^ 32)
    (h : parseHmtxTable p offset numOfLongHorMetrics metrics = .ret (true, result)) :
    numOfLongHorMetrics ≤ p.numGlyphs := by
  unfold parseHmtxTable at h
  split at h
  · simp at h
  · obtain ⟨r, hr, h⟩ := Outcome.bind_ret_inv h
    obtain ⟨ok, o, m⟩ := r
    cases ok with
    | false => simp at h
    | true =>
      obtain ⟨_, _, hb, _⟩ := hmtxLongLoop_ret p.fontData hsize _ _ _ _ _ _ hr
      rw [resizeMetrics_length] at hb
      by_cases h0 : numOfLongHorMetrics = 0
      · omega
      · have := hb h0
        omega

/-! ## `name`: the strings that are stored -/

theorem nameBytesLoop_in_range (fontData : List Byte) (stringStart : Nat) :
    ∀ (count j : Nat) (s : List Nat), stringStart + j + count ≤ fontData.length →
    stringStart + j + count < 4294967296 →
    nameBytesLoop fontData stringStart count j s
      = .ret (s ++ (List.range count).map fun k => byteD fontData (stringStart + j + k)) := by
  intro count
  induction count with
  | zero =>
    intro j s _ _
    unfold nameBytesLoop
    simp
  | succ n ih =>
    intro j s hle hlt
    unfold nameBytesLoop
    rw [u32_of_lt (by omega), byteAt_of_lt (by omega)]
    simp only
    rw [ih _ _ (by omega) (by omega)]
    simp only [List.append_assoc, List.singleton_append, List.range_succ_eq_map,
      List.map_cons, List.map_map, Outcome.ret.injEq, Nat.add_zero]
    congr 2
    apply List.map_congr_left
    intro k _
    simp only [Function.comp]
    have e : stringStart + (j + 1) + k = stringStart + j + (k + 1) := by omega
    rw [e]

/-- A run of the record loop that returns `true` has appended `count` records, read from
consecutive twelve-byte records; the string of a record with `encodingID` 0 or 1 is made of
the `length` bytes found at the position of the record plus `stringOffset` plus the offset
of the record. -/
theorem nameRecordLoop_true (fontData : List Byte) (fuel : Nat)
    (hsize : fontData.length + 196608 ≤ 4294967296) :
    ∀ (count offset : Nat) (table result : NameTable), table.stringOffset < 65536 →
    nameRecordLoop fontData fuel count offset table = .ret (true, result) →
    result.count = table.count ∧ result.stringOffset = table.stringOffset ∧
    ∃ new, result.nameRecords = table.nameRecords ++ new ∧ new.length = count ∧
      ∀ i, i < count → ∃ r, new[i]? = some r ∧
        r.encodingID = word16 fontData (offset + 12 * i + 2) ∧
        r.length = word16 fontData (offset + 12 * i + 8) ∧
        r.offset = word16 fontData (offset + 12 * i + 10) ∧
        (r.encodingID = 0 ∨ r.encodingID = 1 →
          r.nameString = (List.range r.length).map fun k =>
            byteD fontData (offset + 12 * i + table.stringOffset + r.offset + k)) := by
  intro count
  induction count with
  | zero =>
    intro offset table result _ h
    unfold nameRecordLoop at h
    simp only [Outcome.ret.injEq, Prod.mk.injEq, true_and] at h
    subst h
    exact ⟨rfl, rfl, [], by simp, rfl, fun i hi => absurd hi (by omega)⟩
  | succ n ih =>
    intro offset table result hso h
    unfold nameRecordLoop at h
    split at h
    · simp at h
    · rename_i hchk
      obtain ⟨platformID, hp, h⟩ := Outcome.bind_ret_inv h
      obtain ⟨b1, _⟩ := be16_ret hp
      rw [u32_of_lt (by omega)] at hchk
      have w8 := word16_lt fontData (offset + 8)
      have w10 := word16_lt fontData (offset + 10)
      simp (disch := omega) only [u32_of_lt, be16_of_le, Outcome.ret_bind] at h
      split at h
      · simp at h
      · rename_i hstr
        obtain ⟨nameString, hname, h⟩ := Outcome.bind_ret_inv h
        obtain ⟨i1, i2, new, i3, i4, i5⟩ := ih _ _ _ (by exact hso) h
        refine ⟨i1, i2,
          { platformID := platformID, encodingID := word16 fontData (offset + 2),
            languageID := word16 fontData (offset + 4), nameID := word16 fontData (offset + 6),
            length := word16 fontData (offset + 8), offset := word16 fontData (offset + 10),
            nameString := nameString } :: new, ?_, by simp [i4], ?_⟩
        · rw [i3]
          simp
        · intro i hi
          cases i with
          | zero =>
            refine ⟨_, List.getElem?_cons_zero, rfl, rfl, rfl, ?_⟩
            intro henc
            simp only [Nat.mul_zero, Nat.add_zero] at henc ⊢
            unfold nameStringOf at hname
            rw [if_pos henc, nameBytesLoop_in_range _ _ _ _ _ (by omega) (by omega)] at hname
            simp only [Outcome.ret.injEq, List.nil_append, Nat.add_zero] at hname
            exact hname.symm
          | succ k =>
            obtain ⟨r, r1, r2, r3, r4, r5⟩ := i5 k (by omega)
            have e : offset + 12 * (k + 1) = offset + 12 + 12 * k := by omega
            rw [e]
            exact ⟨r, by simpa using r1, r2, r3, r4, r5⟩

/-- Supporting fact for C35: in a buffer at least 192 KiB short of `2 ^ 32` bytes, whenever
`parseNameTable(T, table)` returns `true` on a table without records, `nameRecords` has
`count` entries, and the string of record `i`, when its `encodingID` is 0 or 1, is made of
the `length` bytes at `(T + 6 + 12 * i) + stringOffset + offset`: the position of the
record itself, not `T`, is the base. -/
theorem parseNameTable_true (p : TTFParser) (fuel offset : Nat) (table result : NameTable)
    (hsize : p.fontData.length + 196608 ≤ 4294967296)
    (hempty : table.nameRecords = [])
    (h : parseNameTable p fuel offset table = .ret (true, result)) :
    result.count = word16 p.fontData (offset + 2) ∧
    result.stringOffset = word16 p.fontData (offset + 4) ∧
    result.nameRecords.length = result.count ∧
    ∀ i, i < result.count → ∃ r, result.nameRecords[i]? = some r ∧
      r.encodingID = word16 p.fontData (offset + 6 + 12 * i + 2) ∧
      r.length = word16 p.fontData (offset + 6 + 12 * i + 8) ∧
      r.offset = word16 p.fontData (offset + 6 + 12 * i + 10) ∧
      (r.encodingID = 0 ∨ r.encodingID = 1 →
        r.nameString = (List.range r.length).map fun k =>
          byteD p.fontData (offset + 6 + 12 * i + result.stringOffset + r.offset + k)) := by
  unfold parseNameTable at h
  split at h
  · simp at h
  · rename_i hchk
    obtain ⟨format, hf, h⟩ := Outcome.bind_ret_inv h
    obtain ⟨b1, _⟩ := be16_ret hf
    rw [u32_of_lt (by omega)] at hchk
    simp (disch := omega) only [u32_of_lt, be16_of_le, Outcome.ret_bind] at h
    obtain ⟨i1, i2, new, i3, i4, i5⟩ := nameRecordLoop_true p.fontData fuel hsize _ _ _ _
      (word16_lt _ _) h
    simp only [hempty, List.nil_append] at i1 i2 i3 i5
    refine ⟨i1, i2, by rw [i3, i4, i1], ?_⟩
    intro i hi
    rw [i1] at hi
    obtain ⟨r, r1, r2, r3, r4, r5⟩ := i5 i hi
    rw [i3, i2]
    exact ⟨r, r1, r2, r3, r4, r5⟩

/-! ## `cmap` format 4: tables that are not rejected -/

theorem loopReversedFont_length : loopReversedFont.length = 65569 := by
  unfold loopReversedFont
  rw [List.length_append, List.length_replicate]
  rfl

theorem word16_loopReversedFont_low (k : Nat) (h : k < 65536) :
    word16 loopReversedFont k = 0 := by
  unfold word16 loopReversedFont
  rw [byteD_replicate_append_left _ _ _ _ (by omega),
    byteD_replicate_append_left _ _ _ _ (by omega)]
  rfl

theorem word16_loopReversedFont_high (k : Nat) :
    word16 loopReversedFont (65537 + k) = word16 loopReversedTable k := by
  unfold word16 loopReversedFont
  rw [byteD_replicate_append_right, Nat.add_assoc, byteD_replicate_append_right]

/-- In a buffer of at least 65562 bytes whose first 65537 bytes are zero, every character code
of a first segment of two with `idRangeOffset = 2` resolves to glyph 0. -/
theorem cmapFormat4Glyph_two_leading_zeros (fontData : List Byte) (c : Nat)
    (hlen : 65562 ≤ fontData.length) (hzero : ∀ k, k < 65536 → word16 fontData k = 0) :
    cmapFormat4Glyph fontData 0 2 0 0 2 c = .ret (some 0) := by
  unfold cmapFormat4Glyph
  rw [if_neg (by omega)]
  simp only
  have hoff : u16OfInt (((c : Int) - ((0 : Nat) : Int)) * 2 + ((2 : Nat) : Int)) < 65536 := by
    unfold u16OfInt
    omega
  rw [u32_of_lt (by omega), if_neg (by omega), be16_of_le (by omega), hzero _ hoff]
  rfl

/-- The character loop of such a segment, when it ends at `0xFFFF`, uses up every budget. -/
theorem cmapFormat4CharLoop_two_leading_zeros (fontData : List Byte)
    (hlen : 65562 ≤ fontData.length) (hzero : ∀ k, k < 65536 → word16 fontData k = 0) :
    ∀ (fuel c : Nat) (g : List Nat), c < 65536 →
    cmapFormat4CharLoop fontData 1 0 2 0 65535 0 2 fuel c g = .timeout := by
  intro fuel
  induction fuel with
  | zero =>
    intro c g hc
    unfold cmapFormat4CharLoop
    rw [if_pos (by omega)]
  | succ n ih =>
    intro c g hc
    unfold cmapFormat4CharLoop
    rw [if_pos (by omega)]
    simp only [cmapFormat4Glyph_two_leading_zeros fontData c hlen hzero]
    rw [if_neg (by omega)]
    exact ih (u16 (c + 1)) _ (by unfold u16; omega)

/-- A format 4 table of two segments whose first is `0..0xFFFF` with `idRangeOffset = 2`, in a
buffer whose first 65537 bytes are zero and a parser with `numGlyphs = 1`: whatever the second
segment holds, the call uses up every budget. -/
theorem parseCmapFormat4_two_leading_zeros_timeout (p : TTFParser) (fuel offset : Nat)
    (table : CmapFormat4)
    (hempty : table.endCount = [] ∧ table.startCount = [] ∧ table.idDelta = [] ∧
      table.idRangeOffset = [])
    (hnum : p.numGlyphs = 1) (hlen : 65562 ≤ p.fontData.length)
    (hsize : p.fontData.length < 4294967296) (hin : offset + 32 ≤ p.fontData.length)
    (hzero : ∀ k, k < 65536 → word16 p.fontData k = 0)
    (hseg : word16 p.fontData (offset + 2) = 4)
    (hend : word16 p.fontData (offset + 14) = 65535)
    (hstart : word16 p.fontData (offset + 20) = 0)
    (hdelta : word16 p.fontData (offset + 24) = 0)
    (hrange : word16 p.fontData (offset + 28) = 2) :
    parseCmapFormat4 p fuel offset table = .timeout := by
  obtain ⟨hE, hS, hD, hO⟩ := hempty
  unfold parseCmapFormat4
  rw [hnum, u32_of_lt (by omega), be16_of_le (by omega), hseg]
  simp only [Outcome.ret_bind]
  rw [if_neg (by decide), u32_of_lt (by omega), if_neg (by omega), u32_of_lt (by omega),
    readU16Array_in_range _ _ _ _ (by omega) (by omega)]
  simp only [Outcome.ret_bind]
  rw [u32_of_lt (by omega), readU16Array_in_range _ _ _ _ (by omega) (by omega)]
  simp only [Outcome.ret_bind]
  rw [readU16Array_in_range _ _ _ _ (by omega) (by omega)]
  simp only [Outcome.ret_bind]
  rw [readU16Array_in_range _ _ _ _ (by omega) (by omega)]
  simp only [Outcome.ret_bind]
  have a1 : word16 p.fontData (offset + 14 + 2 * 0) = 65535 := hend
  have a2 : word16 p.fontData (offset + 14 + 2 * (4 / 2) + 2 + 2 * 0) = 0 := hstart
  have a3 : word16 p.fontData (offset + 14 + 2 * (4 / 2) + 2 + 2 * (4 / 2) + 2 * 0) = 0 :=
    hdelta
  have a4 : word16 p.fontData
      (offset + 14 + 2 * (4 / 2) + 2 + 2 * (4 / 2) + 2 * (4 / 2) + 2 * 0) = 2 := hrange
  have hr : List.range (4 / 2) = [0, 1] := by decide
  simp only [hr, List.map_cons, List.map_nil, a1, a2, a3, a4, hE, hS, hD, hO, List.nil_append]
  rw [cmapFormat4SegLoop_succ _ _ _ _ _ _ _ 0 65535 0 2 rfl rfl rfl rfl,
    cmapFormat4CharLoop_two_leading_zeros p.fontData hlen hzero _ _ _ (by omega)]
  rfl

/-- C14 (the code departs from the claim).  Two tables that the claim has rejected and the
code does not reject.  In `shadowFont` the one segment of the table at offset 20 holds the
code `0x41` with `idRangeOffset = 2`, read from position 42, so its glyph index is the word
at `42 + 2 + 2 * 0 = 44`, which is 7; with `numGlyphs = 5` the call returns `true` with the
glyph index 3, the word at the absolute position 2.  `loopReversedFont` holds the table
`loopReversedTable` at offset 65537, whose second segment has `startCount = 66` above
`endCount = 65`; its first segment is `0..0xFFFF` with `idRangeOffset = 2` and resolves
every code to a word among the zero bytes in front of the table, so the character loop of
that segment never ends and the test of the segments, which comes after the loops, is not
reached: whatever number of passes is allowed, the call has not returned. -/
theorem parseCmapFormat4_bad_table_not_rejected (fuel : Nat) :
    shadowParserFive.numGlyphs = 5 ∧
    format4SegCount shadowFont 20 = 1 ∧
    format4StartCount shadowFont 20 0 = 0x41 ∧ format4EndCount shadowFont 20 0 = 0x41 ∧
    format4IdRangeOffset shadowFont 20 0 = 2 ∧
    be16 shadowFont (42 + 2 + 2 * (0x41 - 0x41)) = .ret 7 ∧
    (∃ result, parseCmapFormat4 shadowParserFive 10 20 CmapFormat4.fresh = .ret (true, result) ∧
      result.glyphIndices = [3]) ∧
    (∀ k, word16 loopReversedParser.fontData (65537 + k) = word16 loopReversedTable k) ∧
    format4SegCount loopReversedTable 0 = 2 ∧
    format4StartCount loopReversedTable 0 1 = 66 ∧
    format4EndCount loopReversedTable 0 1 = 65 ∧
    parseCmapFormat4 loopReversedParser fuel 65537 CmapFormat4.fresh = .timeout := by
  have hlen : loopReversedParser.fontData.length = 65569 := loopReversedFont_length
  have hzero : ∀ k, k < 65536 → word16 loopReversedParser.fontData k = 0 :=
    word16_loopReversedFont_low
  have hw : ∀ k, word16 loopReversedParser.fontData (65537 + k) = word16 loopReversedTable k :=
    word16_loopReversedFont_high
  refine ⟨rfl, by decide, by decide, by decide, by decide, by decide, ⟨_, rfl, rfl⟩,
    hw, by decide, by decide, by decide, ?_⟩
  exact parseCmapFormat4_two_leading_zeros_timeout loopReversedParser fuel 65537
    CmapFormat4.fresh ⟨rfl, rfl, rfl, rfl⟩ rfl (by omega) (by omega) (by omega) hzero
    ((hw 2).trans (by decide)) ((hw 14).trans (by decide)) ((hw 20).trans (by decide))
    ((hw 24).trans (by decide)) ((hw 28).trans (by decide))

end TTFParser
